import Mathlib

/-!
# dir2msa : FAT12 floppy image builder and MSA codec

Shallow embedding of `src/Dir2Floppy.cpp` / `src/Dir2Floppy.h`, and of `CrcUpdate`
(`src/ZIP/CRC.C`) and `zseek`, `ztell` (`src/ZIP/ZIPIO.C`).

Conventions of the embedding.

* A byte is a `Nat` below 256; a buffer (`unsigned char*`, `char*`) is a `List Nat`.
  A pointer into the raw image is the `Int` offset from `m_pRawImage`.
* C `int` values are `Int`; the arithmetic is taken in the range where `int` does not
  overflow, and what is proved beyond a single store or test is stated for that range:
  geometries of 17 (for `Fill`, 18) up to `2^22 - 1` sectors for `Create`, and the trees
  of `sizesInRange` for the cluster counts of `BuildDirectory` (file sizes from 0 to
  2147482624 bytes).  Conversions to `unsigned char`, `unsigned short`, `unsigned long`
  are the explicit `% 256`, `% 65536`, `% 4294967296`.
* A store outside the buffer it addresses is undefined behaviour in C; the stores of the
  embedding (`poke`, `fatStore`) leave the buffer unchanged in that case.
* The temporary buffer of `WriteImage` is the list of the bytes stored through `pTemp`;
  its capacity of 32768 bytes is not part of the model, and what is proved of the packed
  form of a track as a whole is stated for tracks of at most 13106 bytes (25 sectors),
  whose packed form fits the buffer whatever they hold.
* `printf` output is not modelled, except that the diagnostic printed before a
  `return false` is kept as the `Diag` returned next to the state.
* A `CDirectory*` that walks down a tree (`GetFromZIPPath`, `CreateDirPath`) is the list
  of the places of the entries followed from the root; a change made through it is a change
  of the tree at that place.
* `long` and `unsigned long` have 32 bits (the program is built for Windows).
* The entry list of a `CDirectory` is the `m_pNext` chain of `CDirEntry` nodes; since
  `m_nbEntry` is private and only changed by `AddEntry`, `GetNbEntry` is the length of
  that chain.
-/

namespace Dir2Msa

/-! ## Constants (Dir2Floppy.cpp, lines 12-20) -/

def NB_SECTOR_PER_TRACK : Int := 10
def NB_CYLINDER : Int := 81
def NB_HEAD : Int := 2
def MAX_ROOT_ENTRY : Int := 112
def SECTOR_PER_FAT : Int := 5
def ROOTDIR_NBSECTOR : Int := (MAX_ROOT_ENTRY * 32) / 512

/-! ## Memory primitives -/

/-- Store of one `unsigned char` at offset `off` of a buffer. -/
def poke (mem : List Nat) (off : Int) (v : Nat) : List Nat :=
  if 0 ≤ off then mem.set off.toNat (v % 256) else mem

/-- C `memset(mem + off, v, n)`. -/
def memset (mem : List Nat) (off : Int) (v : Nat) : Nat → List Nat
  | 0 => mem
  | n + 1 => poke (memset mem off v n) (off + n) v

/-- C `memcpy(mem + off, src, n)`; `src` is the source buffer from its pointer on. -/
def memcpy (mem : List Nat) (off : Int) (src : List Nat) : Nat → List Nat
  | 0 => mem
  | n + 1 => poke (memcpy mem off src n) (off + n) (src.getD n 0)

/-- Conversion of an `int` to `unsigned short`. -/
def u16 (x : Int) : Nat := (x % 65536).toNat

/-- Conversion of an `int` to `unsigned long` (32 bits). -/
def u32 (x : Int) : Nat := (x % 4294967296).toNat

/-- Store of an `unsigned short` field, little-endian (x86). -/
def store16 (mem : List Nat) (off : Int) (d : Nat) : List Nat :=
  poke (poke mem off (d % 256)) (off + 1) (d / 256 % 256)

/-- Store of an `unsigned long` field, little-endian (x86). -/
def store32 (mem : List Nat) (off : Int) (d : Nat) : List Nat :=
  poke (poke (poke (poke mem off (d % 256)) (off + 1) (d / 256 % 256))
    (off + 2) (d / 65536 % 256)) (off + 3) (d / 16777216 % 256)

/-! ## Source tree (`CDirEntry`, `CDirectory`) -/

/-- The fields of `WIN32_FIND_DATA` the program uses.  `ftLastWriteTime` is kept as the
pair (date, time) that `FileTimeToDosDateTime` produces for it, `none` when that call
fails; `nFileSizeLow` is kept as the `int` that `GetSize` returns. -/
structure FileDescriptor where
  cFileName : List Nat
  cAlternateFileName : List Nat
  nFileSizeLow : Int
  ftLastWriteTime : Option (Nat × Nat)
deriving DecidableEq, Repr

/-- A `CDirEntry*`: `null`, or a node with its `m_info`, its payload and its `m_pNext`.
A node with `m_pDirectory != NULL` is `dir`, whose second field is the entry list
(`m_pEntryList`) of that sub-directory; a node with `m_pDirectory == NULL` is `file`,
whose second field is the buffer `m_pFileData`. -/
inductive CDirEntry where
  | null : CDirEntry
  | file (m_info : FileDescriptor) (m_pFileData : List Nat) (m_pNext : CDirEntry) : CDirEntry
  | dir (m_info : FileDescriptor) (m_pDirectory : CDirEntry) (m_pNext : CDirEntry) : CDirEntry
deriving DecidableEq, Repr

/-- A `CDirectory` is given by the head of its entry list, `m_pEntryList`. -/
abbrev CDirectory := CDirEntry

/-- `CDirectory::GetNbEntry`: `m_nbEntry`, the number of nodes of the entry list. -/
def GetNbEntry : CDirectory → Int
  | .null => 0
  | .file _ _ next => GetNbEntry next + 1
  | .dir _ _ next => GetNbEntry next + 1

/-- `CDirEntry::GetSize`. -/
def GetSize (info : FileDescriptor) : Int := info.nFileSizeLow

/-- `CDirEntry::GetName`: the alternate name when it is not empty. -/
def GetName (info : FileDescriptor) : List Nat :=
  if info.cAlternateFileName.headD 0 ≠ 0 then info.cAlternateFileName else info.cFileName

/-- The characters of a C string: the bytes before the first NUL. -/
def cstr (s : List Nat) : List Nat := s.takeWhile (fun c => c ≠ 0)

/-- Scan of CRT `_splitpath`: position after the last `/` or `\`, and position of the
last `.`, both counted in characters from the start. -/
def splitScan : List Nat → Nat → Option Nat → Option Nat → Option Nat × Option Nat
  | [], _, slash, dot => (slash, dot)
  | c :: cs, i, slash, dot =>
    if c = 47 ∨ c = 92 then splitScan cs (i + 1) (some (i + 1)) dot
    else if c = 46 then splitScan cs (i + 1) slash (some i)
    else splitScan cs (i + 1) slash dot

/-- CRT `_splitpath(path, NULL, NULL, fname, ext)` (C runtime library, not part of the
repository), after its documented behaviour: an optional drive `x:` is skipped, the
directory ends after the last `/` or `\`, the extension starts at the last `.` when that
lies in the last component, and each output holds at most 255 characters. -/
def splitpath (path : List Nat) : List Nat × List Nat :=
  let p := cstr path
  let p := if p.getD 1 0 = 58 then p.drop 2 else p
  let sd := splitScan p 0 none none
  let start := sd.1.getD 0
  match sd.2 with
  | some dot =>
    if start ≤ dot then (((p.drop start).take (dot - start)).take 255, (p.drop dot).take 255)
    else ((p.drop start).take 255, [])
  | none => ((p.drop start).take 255, [])

/-- CRT `strupr` in the C locale: `a`..`z` become `A`..`Z`. -/
def strupr (s : List Nat) : List Nat :=
  s.map (fun c => if 97 ≤ c ∧ c ≤ 122 then c - 32 else c)

/-- `LFNStrCpy(mem + pDst, pSrc, len)` (lines 511-522): `pSrc` is the source string from
its pointer on, its end standing for the terminating NUL. -/
def LFNStrCpy : List Nat → Int → List Nat → Nat → List Nat
  | mem, _, _, 0 => mem
  | mem, pDst, pSrc, len + 1 =>
    if pSrc.headD 0 ≠ 0 ∧ pSrc.headD 0 ≠ 46 then
      LFNStrCpy (poke mem pDst (pSrc.headD 0)) (pDst + 1) pSrc.tail len
    else
      LFNStrCpy (poke mem pDst 0x20) (pDst + 1) pSrc len

/-- `CDirEntry::LFN_Create(pLFN, clusterStart)` (lines 524-551) on the raw image, for an
entry with descriptor `info`; `isDir` is `IsDirectory()`.  Record layout (`struct LFN`):
`sName` 0, `sExt` 8, `attrib` 11, `pad` 12, `updateTime` 22, `updateDate` 24,
`firstCluster` 26, `fileSize` 28. -/
def LFN_Create (mem : List Nat) (info : FileDescriptor) (isDir : Bool) (pLFN : Int)
    (clusterStart : Int) : List Nat :=
  let mem := memset mem pLFN 0 32
  let sFname := strupr (splitpath (GetName info)).1
  let sExt := strupr (splitpath (GetName info)).2
  let pExt := if sExt.headD 0 = 46 then sExt.tail else sExt
  let mem := LFNStrCpy mem pLFN sFname 8
  let mem := LFNStrCpy mem (pLFN + 8) pExt 3
  let mem := if isDir then poke mem (pLFN + 11) (1 <<< 4) else mem
  let mem := store16 mem (pLFN + 26) (u16 clusterStart)
  let mem := if !isDir then store32 mem (pLFN + 28) (u32 (GetSize info)) else mem
  match info.ftLastWriteTime with
  | some (date, time) => store16 (store16 mem (pLFN + 24) (date % 65536)) (pLFN + 22) (time % 65536)
  | none => mem

/-! ## The floppy (`CFloppy`) -/

/-- The member variables of `CFloppy` the program uses. -/
structure CFloppy where
  m_nbSide : Int
  m_nbCylinder : Int
  m_nbSectorPerTrack : Int
  m_rawSize : Int
  m_pRawImage : List Nat
  m_nbFreeCluster : Int
  m_nextCluster : Int
  m_maxFatEntry : Int
  m_pFat : List Int
deriving DecidableEq, Repr

/-- `CFloppy::w8`. -/
def w8 (mem : List Nat) (offset : Int) (d : Nat) : List Nat := poke mem offset d

/-- `CFloppy::w16`: `d` is an `unsigned short`. -/
def w16 (mem : List Nat) (offset : Int) (d : Nat) : List Nat :=
  poke (poke mem offset (d &&& 0xff)) (offset + 1) (d >>> 8)

/-- `CFloppy::Create` (lines 53-100), the allocations succeeding: the floppy it leaves
when it returns.  With fewer than 17 sectors `m_maxFatEntry` is negative and
`new int[m_maxFatEntry]` (line 92) does not return, and from `2^22` sectors on `m_rawSize`
does not fit an `int`; the value of `Create` outside these bounds is not the floppy of a
run of the code. -/
def Create (nbSide nbSectorPerTrack nbCylinder : Int) : CFloppy :=
  let m_rawSize := nbSide * nbSectorPerTrack * nbCylinder * 512
  let img := List.replicate m_rawSize.toNat 0xe5
  let img := w16 img 0xb (u16 512)
  let img := w8 img 0xd 2
  let img := w16 img 0xe (u16 1)
  let img := w8 img 0x10 2
  let img := w16 img 0x11 (u16 MAX_ROOT_ENTRY)
  let img := w16 img 0x13 (u16 (nbSide * nbSectorPerTrack * nbCylinder))
  let img := w8 img 0x15 0xf7
  let img := w16 img 0x16 (u16 SECTOR_PER_FAT)
  let img := w16 img 0x18 (u16 nbSectorPerTrack)
  let img := w16 img 0x1a (u16 nbSide)
  let img := w16 img 0x0 (u16 0xe9)
  let img := w16 img 0x1c (u16 0)
  let img := memset img 0x1e 0x4e 30
  let nbFsSector := 1 + SECTOR_PER_FAT * 2 + ROOTDIR_NBSECTOR
  let nbDataSector := nbSide * nbSectorPerTrack * nbCylinder - nbFsSector
  let m_maxFatEntry := Int.tdiv nbDataSector 2
  { m_nbSide := nbSide
    m_nbCylinder := nbCylinder
    m_nbSectorPerTrack := nbSectorPerTrack
    m_rawSize := m_rawSize
    m_pRawImage := img
    m_nbFreeCluster := m_maxFatEntry
    m_nextCluster := 2
    m_maxFatEntry := m_maxFatEntry
    m_pFat := List.replicate m_maxFatEntry.toNat 0 }

/-- `CFloppy::GetRawAd` (lines 553-556), as an offset into the raw image. -/
def GetRawAd (cluster : Int) : Int :=
  512 * (1 + SECTOR_PER_FAT * 2 + ROOTDIR_NBSECTOR) + 1024 * (cluster - 2)

/-- Store `m_pFat[i] = v`. -/
def fatStore (fat : List Int) (i : Int) (v : Int) : List Int :=
  if 0 ≤ i then fat.set i.toNat v else fat

/-- The loop `for (i = 0; i < n; i++) m_pFat[c + i] = c + i + 1;` (lines 615-616 and
654-655), `n` being the number of iterations. -/
def fatChain (fat : List Int) (c : Int) : Nat → List Int
  | 0 => fat
  | n + 1 => fatStore (fatChain fat c n) (c + n) (c + n + 1)

/-- The diagnostic that goes with the value a build returns: `ok` for `return true`, and
for `return false` the message printed before it: `tooMuchFiles` ("Too much files in
root directory"), `noMoreSpace` ("No more space on the disk.") or `couldNotLoad`
("Could not load host file"). -/
inductive Diag where
  | ok
  | tooMuchFiles
  | noMoreSpace
  | couldNotLoad
deriving DecidableEq, Repr

/-- The value returned: `true` exactly for `Diag.ok`. -/
def Diag.toBool : Diag → Bool
  | .ok => true
  | _ => false

/-- The start of `CFloppy::BuildDirectory` (lines 561-590): the region is cleared and
the reserved records are written; the result is the image and the advanced `pLFN`. -/
def dirHead (mem : List Nat) (pLFN : Int) (cluster parentCluster size : Int) :
    List Nat × Int :=
  let mem := memset mem pLFN 0 size.toNat
  if cluster > 0 then
    let mem := memset mem pLFN 0 32
    let mem := poke mem (pLFN + 11) 0x10
    let mem := memset mem pLFN 0x20 (8 + 3)
    let mem := poke (poke mem pLFN 46) (pLFN + 1) 0
    let mem := store16 mem (pLFN + 26) (u16 cluster)
    let pLFN := pLFN + 32
    let mem := memset mem pLFN 0 32
    let mem := poke mem (pLFN + 11) 0x10
    let mem := memset mem pLFN 0x20 (8 + 3)
    let mem := poke (poke (poke mem pLFN 46) (pLFN + 1) 46) (pLFN + 2) 0
    let mem := store16 mem (pLFN + 26) (u16 parentCluster)
    (mem, pLFN + 32)
  else
    let mem := memset mem pLFN 0 32
    let mem := LFNStrCpy mem pLFN [76, 69, 79, 78, 65, 82, 68] 8
    let mem := LFNStrCpy mem (pLFN + 8) [] 3
    let mem := poke mem (pLFN + 11) 0x8
    (mem, pLFN + 32)

/-- The loop `while (pEntry)` of `CFloppy::BuildDirectory` (lines 592-671) from the
entry `pEntry` on, `cluster` being the cluster of the directory that is built.  The
recursive call of `BuildDirectory` on a sub-directory is `dirHead` followed by this
loop on the entry list of the sub-directory.  `nbCluster` is the `int` of lines 603 and
631 as long as the sum under the division does not exceed `INT_MAX`, that is on the
trees of `sizesInRange`; for a file of 2147482625 bytes or more the sum overflows in the
code, and the loop is not claimed to follow it there. -/
def buildEntries : CFloppy → Int → Int → CDirEntry → Diag × CFloppy
  | s, _, _, .null => (Diag.ok, s)
  | s, pLFN, cluster, .dir info pSubDir next =>
    let nbCluster := Int.tdiv (((GetNbEntry pSubDir + 2) * 32) + 1023) 1024
    if nbCluster > s.m_nbFreeCluster then (Diag.noMoreSpace, s)
    else
      let SubDirCluster := s.m_nextCluster
      let img := LFN_Create s.m_pRawImage info true pLFN SubDirCluster
      let fat := fatChain s.m_pFat SubDirCluster (nbCluster - 1).toNat
      let fat := fatStore fat (SubDirCluster + nbCluster - 1) (-1)
      let h := dirHead img (GetRawAd SubDirCluster) SubDirCluster cluster (nbCluster * 1024)
      let s1 : CFloppy :=
        { s with
          m_pRawImage := h.1
          m_pFat := fat
          m_nextCluster := s.m_nextCluster + nbCluster
          m_nbFreeCluster := s.m_nbFreeCluster - nbCluster }
      let r := buildEntries s1 h.2 SubDirCluster pSubDir
      if r.1 = Diag.ok then buildEntries r.2 (pLFN + 32) cluster next
      else r
  | s, pLFN, cluster, .file info data next =>
    let nbCluster := Int.tdiv (GetSize info + 1023) 1024
    if nbCluster > 0 then
      if nbCluster > s.m_nbFreeCluster then (Diag.noMoreSpace, s)
      else
        let fileCluster := s.m_nextCluster
        let img := LFN_Create s.m_pRawImage info false pLFN fileCluster
        if GetSize info ≥ 0 then
          let img := memcpy img (GetRawAd fileCluster) data (GetSize info).toNat
          let fat := fatChain s.m_pFat fileCluster (nbCluster - 1).toNat
          let fat := fatStore fat (fileCluster + nbCluster - 1) (-1)
          buildEntries
            { s with
              m_pRawImage := img
              m_pFat := fat
              m_nextCluster := s.m_nextCluster + nbCluster
              m_nbFreeCluster := s.m_nbFreeCluster - nbCluster }
            (pLFN + 32) cluster next
        else (Diag.couldNotLoad, { s with m_pRawImage := img })
    else
      let img := LFN_Create s.m_pRawImage info false pLFN 0
      buildEntries
        { s with
          m_pRawImage := img
          m_nextCluster := s.m_nextCluster + nbCluster
          m_nbFreeCluster := s.m_nbFreeCluster - nbCluster }
        (pLFN + 32) cluster next

/-- `CFloppy::BuildDirectory(pLFN, pDir, cluster, parentCluster, size, level)`
(lines 558-672); `level` only indents the printed names. -/
def BuildDirectory (s : CFloppy) (pLFN : Int) (pDir : CDirectory)
    (cluster parentCluster size : Int) : Diag × CFloppy :=
  let h := dirHead s.m_pRawImage pLFN cluster parentCluster size
  buildEntries { s with m_pRawImage := h.1 } h.2 cluster pDir

/-- `CFloppy::Fill` (lines 708-727). -/
def Fill (s : CFloppy) (pRoot : CDirectory) : Diag × CFloppy :=
  if GetNbEntry pRoot + 1 > MAX_ROOT_ENTRY then (Diag.tooMuchFiles, s)
  else BuildDirectory s (512 * (1 + 2 * SECTOR_PER_FAT)) pRoot 0 0 (ROOTDIR_NBSECTOR * 512)

/-! ## FAT12 packing (`FAT_Flush`) -/

/-- The value `m_pFat[i] & 0xfff` (two's complement), as an unsigned number. -/
def fat12 (fat : List Int) (i : Int) : Nat := ((fat.getD i.toNat 0) % 4096).toNat

/-- The loop `for (i = 2; i < m_maxFatEntry; i += 2)` of `CFloppy::FAT_Flush`
(lines 688-701) from index `i` and pointer `p` on; the first argument bounds the number
of iterations. -/
def fatPack (fat : List Int) (maxFatEntry : Int) : Nat → Int → Int → List Nat → List Nat
  | 0, _, _, img => img
  | fuel + 1, i, p, img =>
    if i < maxFatEntry then
      let a := fat12 fat i
      let b := if i + 1 < maxFatEntry then fat12 fat (i + 1) else 0
      let img := poke img p (a &&& 0xff)
      let img := poke img (p + 1) ((a >>> 8) ||| ((b &&& 0xf) <<< 4))
      let img := poke img (p + 2) (b >>> 4)
      fatPack fat maxFatEntry fuel (i + 2) (p + 3) img
    else img

/-- `CFloppy::FAT_Flush` (lines 675-706). -/
def FAT_Flush (s : CFloppy) : CFloppy :=
  let pFat : Int := 512
  let img := memset s.m_pRawImage pFat 0 (SECTOR_PER_FAT * 512).toNat
  let img := poke img pFat 0xf7
  let img := poke img (pFat + 1) 0xff
  let img := poke img (pFat + 2) 0xff
  let img := fatPack s.m_pFat s.m_maxFatEntry s.m_maxFatEntry.toNat 2 (pFat + 3) img
  let img := memcpy img (pFat + SECTOR_PER_FAT * 512) (img.drop pFat.toNat)
    (SECTOR_PER_FAT * 512).toNat
  { s with m_pRawImage := img }

/-! ## MSA writer (`WriteImage`) -/

/-- `SWAP16` (lines 418-421) on an `unsigned short`. -/
def SWAP16 (d : Nat) : Nat := ((d >>> 8) ||| (d <<< 8)) % 65536

/-- The two bytes an `unsigned short` occupies in memory (x86, little-endian), as
`fwrite` puts them out. -/
def le16 (d : Nat) : List Nat := [d % 256, d / 256 % 256]

/-- The `MSAHEADER` that `WriteImage` fills (lines 444-449) as `fwrite` puts it out
(line 450): the fields `ID, Sectors, Sides, StartTrack, EndTrack` in that order. -/
def msaHeader (s : CFloppy) : List Nat :=
  le16 0x0f0e ++ le16 (SWAP16 (u16 s.m_nbSectorPerTrack)) ++ le16 (SWAP16 (u16 (s.m_nbSide - 1)))
    ++ le16 0 ++ le16 (SWAP16 (u16 (s.m_nbCylinder - 1)))

/-- `ComputeRLE(p, data, todo)` (lines 424-434); `p` is the buffer from the pointer on. -/
def ComputeRLE : List Nat → Nat → Nat → Nat
  | x :: p, data, todo + 1 => if x = data then ComputeRLE p data todo + 1 else 0
  | _, _, _ => 0

/-- The loop `while (todo > 0)` of `WriteImage` (lines 462-481): the bytes stored through
`pTemp`; `pR` is the raw image from the pointer on.  The first argument bounds the number
of iterations; `todo` iterations are enough, each one lowering `todo`. -/
def packLoop : Nat → List Nat → Nat → List Nat
  | 0, _, _ => []
  | fuel + 1, pR, todo =>
    if todo > 0 then
      let data := pR.headD 0
      let nRepeat := ComputeRLE pR data todo
      if nRepeat > 4 ∨ 0xe5 = data then
        [0xe5, data, (nRepeat >>> 8) &&& 255, nRepeat &&& 255]
          ++ packLoop fuel (pR.drop nRepeat) (todo - nRepeat)
      else
        data :: packLoop fuel (pR.drop 1) (todo - 1)
    else []

/-- The packed form of the `rawSize` bytes at `pR`: the bytes stored through `pTemp`,
which are the content of `pTempBuffer` after the loop when they are at most the
`32 * 1024` bytes of the buffer (line 452), as they are for every track of at most 13106
bytes. -/
def packTrack (pR : List Nat) (rawSize : Nat) : List Nat := packLoop rawSize pR rawSize

/-- `fputc(c, h)`: the byte written is `c` converted to `unsigned char`. -/
def fputc (c : Int) : Nat := (c % 256).toNat

/-- One iteration of the loop over the tracks (lines 456-498): the bytes written to the
file for track `t`. -/
def trackFrame (img : List Nat) (rawSize : Int) (t : Nat) : List Nat :=
  let pR := img.drop (t * rawSize.toNat)
  let packed := packTrack pR rawSize.toNat
  let packedSize : Int := packed.length
  if packedSize < rawSize then
    [fputc (packedSize / 256), fputc (packedSize % 256)] ++ packed
  else
    [fputc (rawSize / 256), fputc (rawSize % 256)] ++ pR.take rawSize.toNat

/-- `CFloppy::WriteImage` (lines 436-505), the file being opened: the floppy after the
call, and the bytes written to the file. -/
def WriteImage (s : CFloppy) : CFloppy × List Nat :=
  let s1 := FAT_Flush s
  let rawSize := s1.m_nbSectorPerTrack * 512
  (s1, msaHeader s1 ++
    (List.range (s1.m_nbCylinder * s1.m_nbSide).toNat).flatMap (trackFrame s1.m_pRawImage rawSize))

/-! ## MSA reader, after the specification

The repository has no reader; the one below follows the description of the stream in the
specification (section 4.3 and the round-trip laws of section 8). -/

/-- RLE decoding after the specification: `0xE5 v hi lo` stands for `v` repeated
`hi * 256 + lo` times, any other byte for itself. -/
def specRleDecode : List Nat → List Nat
  | [] => []
  | [a] => [a]
  | [a, b] => if a = 0xe5 then [] else a :: specRleDecode [b]
  | [a, b, c] => if a = 0xe5 then [] else a :: specRleDecode [b, c]
  | a :: b :: c :: d :: rest =>
    if a = 0xe5 then List.replicate (c * 256 + d) b ++ specRleDecode rest
    else a :: specRleDecode (b :: c :: d :: rest)

/-- Track framing after the specification: a 16-bit big-endian length, then that many
bytes, raw when the length is the raw track size and RLE otherwise.  The first argument
bounds the number of frames read. -/
def specDecodeTracks (trackSize : Nat) : Nat → List Nat → List Nat
  | 0, _ => []
  | _, [] => []
  | _, [_] => []
  | fuel + 1, hi :: lo :: rest =>
    let len := hi * 256 + lo
    let payload := rest.take len
    (if len = trackSize then payload else specRleDecode payload)
      ++ specDecodeTracks trackSize fuel (rest.drop len)

/-- MSA decoding after the specification: the 10-byte header gives the sectors per track
(big-endian, bytes 2-3); the decoded tracks are concatenated. -/
def specMsaDecode (stream : List Nat) : List Nat :=
  let sectors := stream.getD 2 0 * 256 + stream.getD 3 0
  specDecodeTracks (sectors * 512) stream.length (stream.drop 10)

/-- A 16-bit value as two bytes, big-endian. -/
def be16 (d : Nat) : List Nat := [d / 256 % 256, d % 256]

/-- The raw bytes of track `t`: `rawSize` bytes from offset `t * rawSize` of the image. -/
def rawTrack (img : List Nat) (rawSize : Nat) (t : Nat) : List Nat :=
  (img.drop (t * rawSize)).take rawSize

/-! ## RLE over maximal runs, after the specification -/

/-- Puts the byte `x` in front of a list of runs: it extends the first run when that run
has the same value, and starts a run of length 1 otherwise. -/
def pushRun (x : Nat) : List (Nat × Nat) → List (Nat × Nat)
  | [] => [(x, 1)]
  | (v, n) :: rs => if v = x then (v, n + 1) :: rs else (x, 1) :: (v, n) :: rs

/-- The maximal runs of equal bytes of a track, as pairs (value, length), in order. -/
def specRuns : List Nat → List (Nat × Nat)
  | [] => []
  | x :: xs => pushRun x (specRuns xs)

/-- What a maximal run contributes after the specification: the 4-byte escape when
`n > 4` or `v == 0xE5`, and `v` repeated `n` times otherwise. -/
def specRunBytes (r : Nat × Nat) : List Nat :=
  if r.2 > 4 ∨ r.1 = 0xe5 then [0xe5, r.1, r.2 >>> 8, r.2 &&& 255] else List.replicate r.2 r.1

/-- The reference RLE encoding of a track: the contributions of its maximal runs. -/
def specRle (track : List Nat) : List Nat := (specRuns track).flatMap specRunBytes

/-- What the loop of `WriteImage` stores for a maximal run of `n` bytes `v` (the count
bytes are masked with 255 as in lines 470-471). -/
def runBytes (r : Nat × Nat) : List Nat :=
  if r.2 > 4 ∨ 0xe5 = r.1 then [0xe5, r.1, (r.2 >>> 8) &&& 255, r.2 &&& 255]
  else List.replicate r.2 r.1

/-- A packed track read from the left, a byte `0xE5` opening a group of four bytes and
any other byte standing alone: `true` when the reading ends exactly at the end, so that
no `0xE5` stands alone. -/
def escapedOnly : List Nat → Bool
  | [] => true
  | [a] => a ≠ 0xe5
  | [a, b] => a ≠ 0xe5 && escapedOnly [b]
  | [a, b, c] => a ≠ 0xe5 && escapedOnly [b, c]
  | a :: b :: c :: d :: rest =>
    if a = 0xe5 then escapedOnly rest else escapedOnly (b :: c :: d :: rest)

/-! ## Allocation view of the build

The reservations made by `buildEntries` depend only on `m_nextCluster`,
`m_nbFreeCluster` and `m_pFat`.  `allocEntries` is `buildEntries` restricted to these
three members; it also records every reserved range of clusters.  The record is tied to
`buildEntries`: `buildEntries_sim` (same return value and same three members),
`allocEntries_chainsOk` (every recorded range is a chain of the table),
`allocEntries_fat_logged` (every entry of the table that is not 0 lies in a recorded
range) and `Fill_image_logged` (every byte of the image changed outside the root
directory lies in the clusters of a recorded range). -/

/-- The members of `CFloppy` that the reservation of clusters reads and writes, and the
ranges reserved so far, each as (first cluster, number of clusters), oldest first. -/
structure Alloc where
  next : Int
  free : Int
  fat : List Int
  reserved : List (Int × Int)
deriving DecidableEq, Repr

/-- The loop of `CFloppy::BuildDirectory` (lines 592-671) on the allocation members only,
with the same `nbCluster` as `buildEntries`; the range of every entry that passes the
free-cluster check is added to `reserved` where the code stores its chain. -/
def allocEntries : Alloc → CDirEntry → Diag × Alloc
  | a, .null => (Diag.ok, a)
  | a, .dir _ pSubDir next =>
    let nbCluster := Int.tdiv (((GetNbEntry pSubDir + 2) * 32) + 1023) 1024
    if nbCluster > a.free then (Diag.noMoreSpace, a)
    else
      let fat := fatChain a.fat a.next (nbCluster - 1).toNat
      let fat := fatStore fat (a.next + nbCluster - 1) (-1)
      let r := allocEntries
        { next := a.next + nbCluster
          free := a.free - nbCluster
          fat := fat
          reserved := a.reserved ++ [(a.next, nbCluster)] } pSubDir
      if r.1 = Diag.ok then allocEntries r.2 next else r
  | a, .file info _ next =>
    let nbCluster := Int.tdiv (GetSize info + 1023) 1024
    if nbCluster > 0 then
      if nbCluster > a.free then (Diag.noMoreSpace, a)
      else if GetSize info ≥ 0 then
        let fat := fatChain a.fat a.next (nbCluster - 1).toNat
        let fat := fatStore fat (a.next + nbCluster - 1) (-1)
        allocEntries
          { next := a.next + nbCluster
            free := a.free - nbCluster
            fat := fat
            reserved := a.reserved ++ [(a.next, nbCluster)] } next
      else (Diag.couldNotLoad, a)
    else
      allocEntries
        { next := a.next + nbCluster
          free := a.free - nbCluster
          fat := a.fat
          reserved := a.reserved } next

/-- The allocation members of a floppy, with no range recorded. -/
def allocOf (s : CFloppy) : Alloc :=
  { next := s.m_nextCluster, free := s.m_nbFreeCluster, fat := s.m_pFat, reserved := [] }

/-- `Fill` on the allocation members: the test on the root entries, then the allocation
of the entries of the root. -/
def FillAlloc (s : CFloppy) (pRoot : CDirectory) : Diag × Alloc :=
  if GetNbEntry pRoot + 1 > MAX_ROOT_ENTRY then (Diag.tooMuchFiles, allocOf s)
  else allocEntries (allocOf s) pRoot

/-- The allocation members of a floppy agree with an allocation view. -/
def Sim (s : CFloppy) (a : Alloc) : Prop :=
  s.m_nextCluster = a.next ∧ s.m_nbFreeCluster = a.free ∧ s.m_pFat = a.fat

/-! ## Required clusters, after the specification -/

/-- The ceiling of `a / b` for `b > 0`. -/
def ceilDiv (a b : Int) : Int := -((-a) / b)

/-- The clusters each entry requires, in traversal order (an entry, then the content of
its sub-directory, then its next sibling): `ceil(size / 1024)` for a file and
`ceil((entries + 2) * 32 / 1024)` for a sub-directory. -/
def specReqs : CDirEntry → List Int
  | .null => []
  | .file info _ next => ceilDiv (GetSize info) 1024 :: specReqs next
  | .dir _ sub next => ceilDiv ((GetNbEntry sub + 2) * 32) 1024 :: (specReqs sub ++ specReqs next)

/-- The sum of the required clusters over every entry of the tree at every depth. -/
def specTotal : CDirEntry → Int
  | .null => 0
  | .file info _ next => ceilDiv (GetSize info) 1024 + specTotal next
  | .dir _ sub next => ceilDiv ((GetNbEntry sub + 2) * 32) 1024 + specTotal sub + specTotal next

/-- The first requirement, in order, that exceeds the clusters still free: the pair
(clusters still free, requirement), or `none` when every requirement fits. -/
def specFirstFail (free : Int) : List Int → Option (Int × Int)
  | [] => none
  | r :: rs => if r > free then some (free, r) else specFirstFail (free - r) rs

/-- Every file of the tree, at every depth, has a non-negative size. -/
def sizesNonNeg : CDirEntry → Bool
  | .null => true
  | .file info _ next => decide (0 ≤ GetSize info) && sizesNonNeg next
  | .dir _ sub next => sizesNonNeg sub && sizesNonNeg next

/-- Every entry of the list is a file of size 0. -/
def allZeroFiles : CDirEntry → Bool
  | .null => true
  | .file info _ next => decide (GetSize info = 0) && allZeroFiles next
  | .dir _ _ _ => false

/-- A directory of `n` files of size 0. -/
def zeroFiles : Nat → CDirectory
  | 0 => .null
  | n + 1 => .file ⟨[70], [], 0, none⟩ [] (zeroFiles n)

/-! ## FAT chains and reserved ranges, after the specification -/

/-- The chain of clusters that starts at cluster `c`: `c`, its successor `fat[c]`, and so
on up to the cluster whose entry is the end-of-chain marker `-1`; `none` when the chain
leaves the table or does not reach the marker within the given number of steps. -/
def specChain (fat : List Int) : Nat → Int → Option (List Int)
  | 0, _ => none
  | fuel + 1, c =>
    if 0 ≤ c then
      match fat[c.toNat]? with
      | none => none
      | some v => if v = -1 then some [c] else (specChain fat fuel v).map (fun l => c :: l)
    else none

/-- The clusters `c, c + 1, ..., c + n - 1`. -/
def clusterRange (c : Int) : Nat → List Int
  | 0 => []
  | n + 1 => c :: clusterRange (c + 1) n

/-- Two ranges of clusters, each given as (first cluster, number of clusters), have no
cluster in common. -/
def rangesDisjoint (r1 r2 : Int × Int) : Prop := r1.1 + r1.2 ≤ r2.1 ∨ r2.1 + r2.2 ≤ r1.1

/-- One file of 2049 bytes. -/
def oneFile2049 : CDirectory := .file ⟨[65], [], 2049, none⟩ (List.replicate 2049 65) .null

/-- One file of 801 KiB (820224 bytes), which takes all 801 clusters of the default
floppy. -/
def oneFile801K : CDirectory := .file ⟨[65], [], 820224, none⟩ (List.replicate 820224 65) .null

/-- Three files in traversal order: 3000 bytes, a size that `GetSize` returns as -3000,
and 1 byte. -/
def negativeSizeTree : CDirectory :=
  .file ⟨[65], [], 3000, none⟩ (List.replicate 3000 65)
    (.file ⟨[66], [], -3000, none⟩ []
      (.file ⟨[67], [], 1, none⟩ [67] .null))

/-- Every entry of a fat table is 0 (free), -1 (end of chain) or the index of the next
cluster. -/
def fatShape (fat : List Int) : Prop :=
  ∀ (d : Nat) (v : Int), fat[d]? = some v → v = 0 ∨ v = -1 ∨ v = (d : Int) + 1

/-- The reserved ranges are not empty, start at cluster 2 or later, end at or before
`next`, and are pairwise disjoint. -/
def reservedOk (a : Alloc) : Prop :=
  (∀ r ∈ a.reserved, 2 ≤ r.1 ∧ 0 < r.2 ∧ r.1 + r.2 ≤ a.next)
    ∧ a.reserved.Pairwise rangesDisjoint

/-- The entries of the range `r` = (first cluster, number of clusters) form a chain: every
cluster but the last points to the next one, and the last holds the end-of-chain marker. -/
def chainOk (fat : List Int) (r : Int × Int) : Prop :=
  (∀ i : Nat, (i : Int) + 1 < r.2 → fat[(r.1 + (i : Int)).toNat]? = some (r.1 + (i : Int) + 1))
    ∧ fat[(r.1 + r.2 - 1).toNat]? = some (-1)

/-- The reserved ranges that lie in the fat table form chains. -/
def chainsOk (a : Alloc) : Prop :=
  ∀ r ∈ a.reserved, r.1 + r.2 ≤ (a.fat.length : Int) → chainOk a.fat r

/-! ## The FAT copies of the image and their reading, after the specification -/

/-- The three bytes the body of the loop of `CFloppy::FAT_Flush` (lines 690-700) stores
for the pair of entries `i`, `i + 1`. -/
def fatGroup (fat : List Int) (maxFatEntry : Int) (i : Int) : List Nat :=
  let a := fat12 fat i
  let b := if i + 1 < maxFatEntry then fat12 fat (i + 1) else 0
  [(a &&& 0xff) % 256, ((a >>> 8) ||| ((b &&& 0xf) <<< 4)) % 256, (b >>> 4) % 256]

/-- The first FAT copy of an image: the `SECTOR_PER_FAT` sectors after the boot sector. -/
def firstFat (img : List Nat) : List Nat := (img.drop 512).take (5 * 512)

/-- Entry `i` of a FAT12 table `F`, read by the standard rule: the 12 bits at byte offset
`3 * i / 2`, low nibble first. -/
def specFat12Entry (F : List Nat) (i : Nat) : Nat :=
  let o := 3 * i / 2
  if i % 2 = 0 then F.getD o 0 ||| ((F.getD (o + 1) 0 &&& 0x0F) <<< 8)
  else (F.getD o 0 >>> 4) ||| (F.getD (o + 1) 0 <<< 4)

/-- Number of iterations of the loop of `FAT_Flush`. -/
def fatGroups (maxFatEntry : Int) : Nat := ((maxFatEntry - 1) / 2).toNat

/-- The image in `CFloppy::FAT_Flush` once the first FAT copy is written and before it is
duplicated (lines 677-701). -/
def fatFirstCopy (s : CFloppy) : List Nat :=
  fatPack s.m_pFat s.m_maxFatEntry s.m_maxFatEntry.toNat 2 515
    (poke (poke (poke (memset s.m_pRawImage 512 0 2560) 512 0xf7) 513 0xff) 514 0xff)

/-- Byte `o` of the first FAT copy, as `FAT_Flush` leaves it. -/
def fatByte (s : CFloppy) (o : Nat) : Nat :=
  if o = 0 then 0xf7
  else if o < 3 then 0xff
  else if (o - 3) / 3 < fatGroups s.m_maxFatEntry then
    (fatGroup s.m_pFat s.m_maxFatEntry (2 + 2 * (((o - 3) / 3 : Nat) : Int))).getD ((o - 3) % 3) 0
  else 0

/-! ## Regions of the image -/

/-- The buffer `m'` is the buffer `m` outside the offsets `lo ≤ j < hi`. -/
def sameOutside (lo hi : Int) (m m' : List Nat) : Prop :=
  m'.length = m.length ∧ ∀ j : Nat, ((j : Int) < lo ∨ hi ≤ (j : Int)) → m'[j]? = m[j]?

/-- The bytes of the buffer `m` from offset `p` on are those of `w`. -/
def window (p : Nat) (m w : List Nat) : Prop :=
  ∀ k : Nat, k < w.length → m[p + k]? = w[k]?

/-- The 32-byte record `LFN_Create` writes: the record written into a cleared buffer of
32 bytes. -/
def lfnRecord (info : FileDescriptor) (isDir : Bool) (clusterStart : Int) : List Nat :=
  LFN_Create (List.replicate 32 0) info isDir 0 clusterStart

/-- The two reserved records at the start of a sub-directory: those `BuildDirectory`
writes into a cleared buffer of 64 bytes. -/
def dotRecords (cluster parentCluster : Int) : List Nat :=
  (dirHead (List.replicate 64 0) 0 cluster parentCluster 64).1

/-- The volume-label record of the root: the one `BuildDirectory` writes into a cleared
buffer of 32 bytes. -/
def labelRecord : List Nat := (dirHead (List.replicate 32 0) 0 0 0 32).1

/-! ## One turn of the loop of `BuildDirectory` -/

/-- The floppy after the body of the loop for a file entry, when the body does not return
(lines 627-666): the record is written, and for a file that needs clusters the data is
copied and the chain is stored. -/
def fileStep (s : CFloppy) (pLFN : Int) (info : FileDescriptor) (data : List Nat) : CFloppy :=
  let nbCluster := Int.tdiv (GetSize info + 1023) 1024
  if nbCluster > 0 then
    { s with
      m_pRawImage := memcpy (LFN_Create s.m_pRawImage info false pLFN s.m_nextCluster)
        (GetRawAd s.m_nextCluster) data (GetSize info).toNat
      m_pFat := fatStore (fatChain s.m_pFat s.m_nextCluster (nbCluster - 1).toNat)
        (s.m_nextCluster + nbCluster - 1) (-1)
      m_nextCluster := s.m_nextCluster + nbCluster
      m_nbFreeCluster := s.m_nbFreeCluster - nbCluster }
  else
    { s with
      m_pRawImage := LFN_Create s.m_pRawImage info false pLFN 0
      m_nextCluster := s.m_nextCluster + nbCluster
      m_nbFreeCluster := s.m_nbFreeCluster - nbCluster }

/-- The floppy after the body of the loop for a sub-directory entry has written the
record, stored the chain and started the sub-directory (lines 598-621, 561-590), before
the entries of the sub-directory are built. -/
def dirStep (s : CFloppy) (pLFN cluster : Int) (info : FileDescriptor) (pSubDir : CDirectory) :
    CFloppy :=
  let nbCluster := Int.tdiv (((GetNbEntry pSubDir + 2) * 32) + 1023) 1024
  { s with
    m_pRawImage := (dirHead (LFN_Create s.m_pRawImage info true pLFN s.m_nextCluster)
      (GetRawAd s.m_nextCluster) s.m_nextCluster cluster (nbCluster * 1024)).1
    m_pFat := fatStore (fatChain s.m_pFat s.m_nextCluster (nbCluster - 1).toNat)
      (s.m_nextCluster + nbCluster - 1) (-1)
    m_nextCluster := s.m_nextCluster + nbCluster
    m_nbFreeCluster := s.m_nbFreeCluster - nbCluster }

/-- The buffer `m'` is the buffer `m` at every offset that is not in `P`. -/
def sameOff (P : Nat → Prop) (m m' : List Nat) : Prop :=
  m'.length = m.length ∧ ∀ j : Nat, ¬ P j → m'[j]? = m[j]?

/-- The offsets of the clusters `c ≤ x < c + n` in the raw image. -/
def inClusters (c n : Int) (j : Nat) : Prop :=
  GetRawAd c ≤ (j : Int) ∧ (j : Int) < GetRawAd (c + n)

/-- The offsets of `n` directory records from offset `p` on. -/
def inRecords (p n : Int) (j : Nat) : Prop :=
  p ≤ (j : Int) ∧ (j : Int) < p + 32 * n

/-! ## Where the entries go, after the specification -/

/-- An entry of the tree together with its place: the offset `slot` of its directory
record, the cluster `parent` of the directory that holds it (0 for the root), the first
cluster `first` of the range it is given and the number `req` of clusters it requires;
`nbEntry` is the number of entries of a sub-directory, `data` the bytes of a file. -/
structure Placed where
  slot : Int
  parent : Int
  isDir : Bool
  info : FileDescriptor
  data : List Nat
  nbEntry : Int
  first : Int
  req : Int

/-- The first cluster a directory record holds: the first cluster of the entry, and 0 for
an entry that requires no cluster. -/
def Placed.recorded (e : Placed) : Int := if e.req > 0 then e.first else 0

/-- The entries of a directory in depth-first pre-order (an entry, then the content of its
sub-directory, then its next sibling), each with its place: the records of a directory
follow each other from `pLFN` on, those of a sub-directory start after its two reserved
records, and the ranges of clusters follow each other from `next` on. -/
def specLayout : CDirEntry → Int → Int → Int → List Placed
  | .null, _, _, _ => []
  | .file info data nx, pLFN, cluster, next =>
    ⟨pLFN, cluster, false, info, data, 0, next, ceilDiv (GetSize info) 1024⟩
      :: specLayout nx (pLFN + 32) cluster (next + ceilDiv (GetSize info) 1024)
  | .dir info sub nx, pLFN, cluster, next =>
    ⟨pLFN, cluster, true, info, [], GetNbEntry sub, next,
        ceilDiv ((GetNbEntry sub + 2) * 32) 1024⟩
      :: (specLayout sub (GetRawAd next + 64) next
            (next + ceilDiv ((GetNbEntry sub + 2) * 32) 1024)
          ++ specLayout nx (pLFN + 32) cluster
            (next + ceilDiv ((GetNbEntry sub + 2) * 32) 1024 + specTotal sub))

/-- The image holds the entry `e` at its place: its record at `slot`; for a file its
bytes from its first cluster on, the rest of its last cluster keeping the `0xe5` fill; for
a sub-directory the two reserved records at the start of its first cluster and zeros
after its last record. -/
def placedOk (img : List Nat) (e : Placed) : Prop :=
  (∀ k j : Nat, k < 32 → (j : Int) = e.slot + k →
      img[j]? = (lfnRecord e.info e.isDir e.recorded)[k]?)
  ∧ (e.isDir = false →
      (∀ k j : Nat, (k : Int) < GetSize e.info → (j : Int) = GetRawAd e.first + k →
        img[j]? = some (e.data.getD k 0 % 256))
      ∧ (∀ j : Nat, GetRawAd e.first + GetSize e.info ≤ (j : Int) →
        (j : Int) < GetRawAd (e.first + e.req) → img[j]? = some 0xe5))
  ∧ (e.isDir = true →
      (∀ k j : Nat, k < 64 → (j : Int) = GetRawAd e.first + k →
        img[j]? = (dotRecords e.first e.parent)[k]?)
      ∧ (∀ j : Nat, GetRawAd e.first + 32 * (e.nbEntry + 2) ≤ (j : Int) →
        (j : Int) < GetRawAd (e.first + e.req) → img[j]? = some 0))

/-- The offsets of the image that `placedOk` reads for the entry `e`. -/
def footprint (e : Placed) (j : Nat) : Prop :=
  inRecords e.slot 1 j
  ∨ (e.isDir = false ∧ GetRawAd e.first ≤ (j : Int)
      ∧ (j : Int) < GetRawAd e.first + GetSize e.info)
  ∨ (e.isDir = false ∧ GetRawAd e.first + GetSize e.info ≤ (j : Int)
      ∧ (j : Int) < GetRawAd (e.first + e.req))
  ∨ (e.isDir = true ∧ GetRawAd e.first ≤ (j : Int) ∧ (j : Int) < GetRawAd e.first + 64)
  ∨ (e.isDir = true ∧ GetRawAd e.first + 32 * (e.nbEntry + 2) ≤ (j : Int)
      ∧ (j : Int) < GetRawAd (e.first + e.req))

/-- The floppy is ready for the loop of `BuildDirectory` on the entries `es` with their
records from `pLFN` on: the records lie before the clusters still to be given, these
clusters lie in the image and still hold the `0xe5` fill. -/
def buildReady (s : CFloppy) (pLFN : Int) (es : CDirEntry) : Prop :=
  0 ≤ pLFN ∧ pLFN + 32 * GetNbEntry es ≤ GetRawAd s.m_nextCluster
  ∧ 0 < s.m_nextCluster ∧ 0 ≤ s.m_nbFreeCluster
  ∧ GetRawAd (s.m_nextCluster + s.m_nbFreeCluster) ≤ (s.m_pRawImage.length : Int)
  ∧ ∀ j : Nat, GetRawAd s.m_nextCluster ≤ (j : Int) → j < s.m_pRawImage.length →
      s.m_pRawImage[j]? = some 0xe5

/-- A floppy as `Create` leaves it, as far as `Fill` is concerned: the next cluster is 2,
the free clusters lie in the image, and the data area holds the `0xe5` fill. -/
def freshFloppy (s : CFloppy) : Prop :=
  s.m_nextCluster = 2 ∧ 0 ≤ s.m_nbFreeCluster
  ∧ GetRawAd (2 + s.m_nbFreeCluster) ≤ (s.m_pRawImage.length : Int)
  ∧ ∀ j : Nat, 18 * 512 ≤ j → j < s.m_pRawImage.length → s.m_pRawImage[j]? = some 0xe5

/-! ## The fields of a directory record -/

/-- The bytes `LFNStrCpy` stores, in order: the characters of the source up to its end or
its first `.`, then `0x20` up to the length `len`. -/
def fieldBytes : List Nat → Nat → List Nat
  | _, 0 => []
  | pSrc, len + 1 =>
    if pSrc.headD 0 ≠ 0 ∧ pSrc.headD 0 ≠ 46 then (pSrc.headD 0 % 256) :: fieldBytes pSrc.tail len
    else 0x20 :: fieldBytes pSrc len

/-- The name field of the record of an entry: `LFNStrCpy` of the upper-cased file name
part that `_splitpath` gives. -/
def nameField (info : FileDescriptor) : List Nat :=
  fieldBytes (strupr (splitpath (GetName info)).1) 8

/-- The extension field of the record of an entry: `LFNStrCpy` of the upper-cased
extension that `_splitpath` gives, without its leading `.`. -/
def extField (info : FileDescriptor) : List Nat :=
  fieldBytes (if (strupr (splitpath (GetName info)).2).headD 0 = 46 then
    (strupr (splitpath (GetName info)).2).tail else strupr (splitpath (GetName info)).2) 3

/-- The (date, time) pair `FileTimeToDosDateTime` stores, as unsigned shorts; both fields
keep the zeros of the cleared record when the call fails. -/
def dosDateTime (info : FileDescriptor) : Nat × Nat :=
  match info.ftLastWriteTime with
  | some (date, time) => (date % 65536, time % 65536)
  | none => (0, 0)

/-- A 32-bit value as four bytes, little-endian. -/
def le32 (d : Nat) : List Nat := [d % 256, d / 256 % 256, d / 65536 % 256, d / 16777216 % 256]

/-! ## Short names, after the specification -/

/-- Upper case of a character: `a`..`z` become `A`..`Z`. -/
def specUpper (c : Nat) : Nat := if 97 ≤ c ∧ c ≤ 122 then c - 32 else c

/-- The position of the last `.` of a text, if there is one. -/
def specLastDot : List Nat → Option Nat
  | [] => none
  | c :: cs =>
    match specLastDot cs with
    | some k => some (k + 1)
    | none => if c = 46 then some 0 else none

/-- The stem of a name: the text before its last `.`, the whole name when it has none. -/
def specStem (name : List Nat) : List Nat :=
  match specLastDot name with
  | some d => name.take d
  | none => name

/-- The extension of a name: the text after its last `.`, empty when it has none. -/
def specExt (name : List Nat) : List Nat :=
  match specLastDot name with
  | some d => name.drop (d + 1)
  | none => []

/-- A field of `n` bytes for a text: the upper-cased text cut at its first `.` and at `n`
characters, padded on the right with `0x20`. -/
def specField (n : Nat) (text : List Nat) : List Nat :=
  (((text.map specUpper).takeWhile (fun c => c ≠ 46)).take n)
    ++ List.replicate (n - (((text.map specUpper).takeWhile (fun c => c ≠ 46)).take n).length) 0x20

/-- Four entries in traversal order: a file `A` of 1 byte, an empty sub-directory `D`, a
file `N` whose size `GetSize` returns as -4000, and a file `C` of 1025 bytes. -/
def negativeOverlapTree : CDirectory :=
  .file ⟨[65], [], 1, none⟩ [65]
    (.dir ⟨[68], [], 0, none⟩ .null
      (.file ⟨[78], [], -4000, none⟩ []
        (.file ⟨[67], [], 1025, none⟩ (List.replicate 1025 67) .null)))

/-- Two files in traversal order: a file `N` whose size `GetSize` returns as -5119, and a
file `B` of 600 bytes. -/
def negativeLabelTree : CDirectory :=
  .file ⟨[78], [], -5119, none⟩ []
    (.file ⟨[66], [], 600, none⟩ (List.replicate 600 66) .null)

/-- The floppy `Fill` hands to the loop of `BuildDirectory`: the root directory is
cleared and holds the volume label. -/
def rootStart (s : CFloppy) : CFloppy :=
  { s with m_pRawImage := (dirHead s.m_pRawImage 5632 0 0 3584).1 }

/-- The root with one sub-directory `SUB` that holds one file `A.TXT` of 10 bytes. -/
def subWithFile : CDirectory :=
  .dir ⟨[83, 85, 66], [], 0, none⟩
    (.file ⟨[65, 46, 84, 88, 84], [], 10, none⟩ (List.replicate 10 65) .null) .null

/-! ## The entry list of a directory -/

/-- The entry list `es1` followed by the entry list `es2`. -/
def appendEntries : CDirEntry → CDirEntry → CDirEntry
  | .null, es2 => es2
  | .file info data next, es2 => .file info data (appendEntries next es2)
  | .dir info sub next, es2 => .dir info sub (appendEntries next es2)

/-- The ranges of clusters of a layout, each as (first cluster, number of clusters), for
the entries that require clusters. -/
def reservedOf (l : List Placed) : List (Int × Int) :=
  l.filterMap (fun e => if e.req > 0 then some (e.first, e.req) else none)

/-- The unsigned 16-bit value that the bytes at offsets `off` and `off + 1` of a buffer
hold, low byte first (the reading of a little-endian field). -/
def le16At (mem : List Nat) (off : Nat) : Nat := mem.getD off 0 + 256 * mem.getD (off + 1) 0

/-- The allocator invariant: `m_nextCluster + m_nbFreeCluster == m_maxFatEntry + 2` and
`m_nbFreeCluster >= 0`. -/
def allocInv (s : CFloppy) : Prop :=
  s.m_nextCluster + s.m_nbFreeCluster = s.m_maxFatEntry + 2 ∧ 0 ≤ s.m_nbFreeCluster

/-! ## The driver (`main`) -/

/-- What the block `if (pDir) { ... }` of `main` (lines 813-837) does: the arguments of
the calls of `Create` in order, the diagnostics of the calls of `Fill` in order, the
stream `WriteImage` writes (`none` when it is not called), and `rCode`. -/
structure MainRun where
  created : List (Int × Int × Int)
  filled : List Diag
  written : Option (List Nat)
  rCode : Int
deriving DecidableEq, Repr

/-- The block `if (pDir) { ... }` of `main` (lines 813-837) for the tree `pDir`. -/
def main (pDir : CDirectory) : MainRun :=
  let floppy := Create NB_HEAD NB_SECTOR_PER_TRACK NB_CYLINDER
  let r := Fill floppy pDir
  if !r.1.toBool then
    let floppy := Create NB_HEAD (NB_SECTOR_PER_TRACK + 1) NB_CYLINDER
    let r2 := Fill floppy pDir
    if r2.1.toBool then
      { created := [(NB_HEAD, NB_SECTOR_PER_TRACK, NB_CYLINDER),
          (NB_HEAD, NB_SECTOR_PER_TRACK + 1, NB_CYLINDER)]
        filled := [r.1, r2.1]
        written := some (WriteImage r2.2).2
        rCode := 0 }
    else
      { created := [(NB_HEAD, NB_SECTOR_PER_TRACK, NB_CYLINDER),
          (NB_HEAD, NB_SECTOR_PER_TRACK + 1, NB_CYLINDER)]
        filled := [r.1, r2.1]
        written := none
        rCode := -1 }
  else
    { created := [(NB_HEAD, NB_SECTOR_PER_TRACK, NB_CYLINDER)]
      filled := [r.1]
      written := some (WriteImage r.2).2
      rCode := 0 }

/-- One turn of the loop on `k` of `CrcUpdate` (CRC.C, lines 96-97):
`shf = (shf & 1) ? ((shf >> 1) ^ 0xedb88320L) : (shf >> 1)`. -/
def crcShift (shf : Nat) : Nat :=
  if shf &&& 1 ≠ 0 then (shf >>> 1) ^^^ 0xedb88320 else shf >>> 1

/-- The loop `for (k=0; k<8; k++)` (CRC.C, lines 94-98), `k` turns from `shf` on. -/
def crcShiftLoop : Nat → Nat → Nat
  | 0, shf => shf
  | k + 1, shf => crcShiftLoop k (crcShift shf)

/-- The table `crctable` as the loop `for (i=0; i<256; i++)` fills it (CRC.C, lines
91-100), the allocation succeeding. -/
def crctable : List Nat := (List.range 256).map (fun i => crcShiftLoop 8 i)

/-- `CrcUpdate(crc, buffer, length)` (CRC.C, lines 72-114), the table being allocated:
`crc = crctable[buffer[i] ^ ((unsigned char) crc)] ^ (crc >> 8)` for each `i < length`. -/
def CrcUpdate (crc : Nat) (buffer : List Nat) (length : Int) : Nat :=
  (buffer.take length.toNat).foldl
    (fun crc b => crctable.getD (b ^^^ (crc % 256)) 0 ^^^ (crc >>> 8)) crc

/-- One step of the shift register, after the specification: the register is shifted
right by one bit, and `0xEDB88320` is added (exclusive or) when the bit shifted out is a
one. -/
def specCrcStep (r : Nat) : Nat := if r % 2 = 1 then (r / 2) ^^^ 0xEDB88320 else r / 2

/-- The bit-serial CRC-32 of the specification: for each byte, the byte is added
(exclusive or) into the low 8 bits of the register, then the register makes 8 steps. -/
def specCrcBitSerial (crc : Nat) (buf : List Nat) : Nat :=
  buf.foldl (fun r b => specCrcStep^[8] (r ^^^ b)) crc

/-! ## Reading a ZIP member (`ZIP/ZIPIO.C`) -/

/-- The members of `struct ZipioState` that `zseek` and `ztell` use.  `ptr` is `none` for
`NULL` and otherwise the offset `ptr - getbuf`; `usiz` and `fileposition` are
`unsigned long` (32 bits). -/
structure ZipioState where
  len : Int
  ptr : Option Int
  errorencountered : Bool
  usiz : Nat
  fileposition : Nat
deriving DecidableEq, Repr

def OUTBUFSIZE : Nat := 32 * 1024

def SEEK_SET : Int := 0
def SEEK_CUR : Int := 1
def SEEK_END : Int := 2

/-- Conversion of a 32-bit value to `long` (32 bits, two's complement). -/
def toLong (x : Int) : Int := (x + 2147483648) % 4294967296 - 2147483648

/-- The macro `CACHEUPDATE` (ZIPIO.C, lines 161-168). -/
def CACHEUPDATE (zs : ZipioState) : ZipioState :=
  match zs.ptr with
  | some d =>
    { zs with
      fileposition := u32 ((zs.fileposition - zs.fileposition % OUTBUFSIZE : Nat) + d)
      ptr := none
      len := 0 }
  | none => { zs with len := 0 }

/-- `zseek(stream, offset, whence)` (ZIPIO.C, lines 832-864): the value returned and the
state of the stream after the call. -/
def zseek (zs : ZipioState) (offset : Int) (whence : Int) : Int × ZipioState :=
  if zs.errorencountered then (-1, zs)
  else
    let zs := CACHEUPDATE zs
    if whence = SEEK_SET then
      let newoffset := offset
      if newoffset < 0 ∨ newoffset > toLong zs.usiz then (-1, zs)
      else (0, { zs with fileposition := u32 newoffset })
    else if whence = SEEK_CUR then
      let newoffset := toLong (u32 (zs.fileposition + offset))
      if newoffset < 0 ∨ newoffset > toLong zs.usiz then (-1, zs)
      else (0, { zs with fileposition := u32 newoffset })
    else if whence = SEEK_END then
      let newoffset := toLong (u32 (zs.fileposition + zs.usiz))
      if newoffset < 0 ∨ newoffset > toLong zs.usiz then (-1, zs)
      else (0, { zs with fileposition := u32 newoffset })
    else (-1, zs)

/-- `ztell(stream)` (ZIPIO.C, lines 866-875): the value returned and the state of the
stream after the call. -/
def ztell (zs : ZipioState) : Int × ZipioState :=
  if zs.errorencountered then (-1, zs)
  else
    let zs := CACHEUPDATE zs
    (toLong zs.fileposition, zs)

/-- A member of 10 bytes, read up to position 4, with no error and an empty cache. -/
def member10at4 : ZipioState :=
  { len := 0, ptr := none, errorencountered := false, usiz := 10, fileposition := 4 }

/-- A member of 10 bytes at position 0, with no error and an empty cache. -/
def member10at0 : ZipioState :=
  { len := 0, ptr := none, errorencountered := false, usiz := 10, fileposition := 0 }

/-! ## Tree from a ZIP archive (`DirAdvance`, `GetFromZIPPath`, `CreateDirPath`) -/

/-- Two files in traversal order: a size that `GetSize` returns as -11264 (-11 KiB), and
1 byte. -/
def negativeDataTree : CDirectory :=
  .file ⟨[78], [], -11264, none⟩ [] (.file ⟨[66], [], 1, none⟩ [66] .null)

/-- The indices at which `BuildDirectory` writes `m_pFat` for a range of `n` clusters from
cluster `c` on, the range being given as `(c, n)`: `c + i` for `i < n - 1` (lines 615-616
and 654-655) and `c + n - 1` (lines 617 and 656). -/
def fatIndices (r : Int × Int) : List Int := clusterRange r.1 r.2.toNat


/-- The tree is one on which the `int` arithmetic of `BuildDirectory` is exact: the size
`GetSize()` of every file, at every depth, is not negative and `GetSize() + 1023`
(line 631) does not exceed `INT_MAX`, so that the size is at most 2147482624 bytes; and
for every sub-directory `(GetNbEntry() + 2) * 32 + 1023` (line 603) does not exceed
`INT_MAX`. -/
def sizesInRange : CDirEntry → Bool
  | .null => true
  | .file info _ next =>
    decide (0 ≤ GetSize info) && decide (GetSize info + 1023 ≤ 2147483647) && sizesInRange next
  | .dir _ sub next =>
    decide ((GetNbEntry sub + 2) * 32 + 1023 ≤ 2147483647) && sizesInRange sub
      && sizesInRange next

/-- One file whose size `GetSize` returns as -11264: the first entry of
`negativeDataTree`. -/
def negativeFirstTree : CDirectory := .file ⟨[78], [], -11264, none⟩ [] .null

/-- The floppy after the body of the loop for a sub-directory entry has written the
record of the entry, stored the chain and advanced the cluster members (lines 611-621),
before the recursive call of `BuildDirectory` (line 623). -/
def dirReserve (s : CFloppy) (pLFN : Int) (info : FileDescriptor) (pSubDir : CDirectory) :
    CFloppy :=
  let nbCluster := Int.tdiv (((GetNbEntry pSubDir + 2) * 32) + 1023) 1024
  { s with
    m_pRawImage := LFN_Create s.m_pRawImage info true pLFN s.m_nextCluster
    m_pFat := fatStore (fatChain s.m_pFat s.m_nextCluster (nbCluster - 1).toNat)
      (s.m_nextCluster + nbCluster - 1) (-1)
    m_nextCluster := s.m_nextCluster + nbCluster
    m_nbFreeCluster := s.m_nbFreeCluster - nbCluster }

/-- The floppy can give clusters: the next cluster is a data cluster, and the clusters
still free lie in the image. -/
def clustersReady (s : CFloppy) : Prop :=
  2 ≤ s.m_nextCluster ∧ 0 ≤ s.m_nbFreeCluster
    ∧ GetRawAd (s.m_nextCluster + s.m_nbFreeCluster) ≤ (s.m_pRawImage.length : Int)

/-- The value an `int` (32 bits, two's complement) takes for an arithmetic result `x`
when the compiled code wraps on overflow; an overflow of `int` is undefined behaviour
in C. -/
def wrapInt (x : Int) : Int := (x + 2147483648) % 4294967296 - 2147483648

/-! # Properties -/

/-! ### `ComputeRLE` and the packing loop -/

theorem ComputeRLE_le_todo (p : List Nat) (d todo : Nat) : ComputeRLE p d todo ≤ todo := by
  induction p generalizing todo with
  | nil => cases todo <;> simp [ComputeRLE]
  | cons x p ih =>
    cases todo with
    | zero => simp [ComputeRLE]
    | succ t =>
      simp only [ComputeRLE]
      split
      · have := ih t; omega
      · omega

theorem ComputeRLE_le_length (p : List Nat) (d todo : Nat) : ComputeRLE p d todo ≤ p.length := by
  induction p generalizing todo with
  | nil => cases todo <;> simp [ComputeRLE]
  | cons x p ih =>
    cases todo with
    | zero => simp [ComputeRLE]
    | succ t =>
      simp only [ComputeRLE, List.length_cons]
      split
      · have := ih t; omega
      · omega

theorem ComputeRLE_take (p : List Nat) (d todo : Nat) :
    p.take (ComputeRLE p d todo) = List.replicate (ComputeRLE p d todo) d := by
  induction p generalizing todo with
  | nil => cases todo <;> simp [ComputeRLE]
  | cons x p ih =>
    cases todo with
    | zero => simp [ComputeRLE]
    | succ t =>
      simp only [ComputeRLE]
      split
      · rename_i h
        subst h
        simp [List.replicate_succ, ih t]
      · simp

theorem ComputeRLE_of_take (p : List Nat) (d todo : Nat) :
    ComputeRLE (p.take todo) d todo = ComputeRLE p d todo := by
  induction p generalizing todo with
  | nil => cases todo <;> simp [ComputeRLE]
  | cons x p ih =>
    cases todo with
    | zero => simp [ComputeRLE]
    | succ t => simp [ComputeRLE, ih t]

/-- Maximality of the run that `ComputeRLE` counts. -/
theorem ComputeRLE_stop (p : List Nat) (d todo : Nat) (h : ComputeRLE p d todo < todo) :
    (p.drop (ComputeRLE p d todo)).head? ≠ some d := by
  induction p generalizing todo with
  | nil => simp
  | cons x p ih =>
    cases todo with
    | zero => simp at h
    | succ t =>
      simp only [ComputeRLE] at h ⊢
      split
      · rename_i hx
        rw [if_pos hx] at h
        simpa using ih t (by omega)
      · rename_i hx
        simpa using hx


theorem and_255 (n : Nat) : n &&& 255 = n % 256 := Nat.and_pow_two_sub_one_eq_mod n 8

theorem shr_8 (n : Nat) : n >>> 8 = n / 256 := Nat.shiftRight_eq_div_pow n 8

theorem count_bytes (n : Nat) (h : n < 65536) :
    ((n >>> 8) &&& 255) * 256 + (n &&& 255) = n := by
  rw [and_255, and_255, shr_8]
  omega

theorem specRleDecode_esc (v hi lo : Nat) (rest : List Nat) :
    specRleDecode (0xe5 :: v :: hi :: lo :: rest)
      = List.replicate (hi * 256 + lo) v ++ specRleDecode rest := by
  simp [specRleDecode]

theorem specRleDecode_lit (a : Nat) (rest : List Nat) (h : a ≠ 0xe5) :
    specRleDecode (a :: rest) = a :: specRleDecode rest := by
  match rest with
  | [] => simp [specRleDecode]
  | [b] => simp [specRleDecode, h]
  | [b, c] => simp [specRleDecode, h]
  | b :: c :: d :: r => simp [specRleDecode, h]

theorem packLoop_zero_todo (fuel : Nat) (pR : List Nat) : packLoop fuel pR 0 = [] := by
  cases fuel <;> simp [packLoop]

theorem packLoop_cons (fuel : Nat) (x : Nat) (xs : List Nat) (todo : Nat) :
    packLoop (fuel + 1) (x :: xs) (todo + 1)
      = if ComputeRLE xs x todo + 1 > 4 ∨ 0xe5 = x then
          0xe5 :: x :: (((ComputeRLE xs x todo + 1) >>> 8) &&& 255)
            :: ((ComputeRLE xs x todo + 1) &&& 255)
            :: packLoop fuel (xs.drop (ComputeRLE xs x todo)) (todo - ComputeRLE xs x todo)
        else x :: packLoop fuel xs todo := by
  simp [packLoop, ComputeRLE]

/-- Decoding what the loop packs gives back the `todo` bytes at `pR`. -/
theorem specRleDecode_packLoop (todo : Nat) :
    ∀ (fuel : Nat) (pR : List Nat), todo ≤ fuel → todo ≤ pR.length → todo < 65536 →
      specRleDecode (packLoop fuel pR todo) = pR.take todo := by
  induction todo using Nat.strong_induction_on with
  | _ todo ih =>
    intro fuel pR hf hl h16
    match todo, fuel, pR with
    | 0, fuel, pR => simp [packLoop_zero_todo, specRleDecode]
    | todo + 1, 0, pR => omega
    | todo + 1, fuel + 1, [] => simp at hl
    | todo + 1, fuel + 1, x :: xs =>
      simp only [List.length_cons] at hl
      rw [packLoop_cons]
      have hn := ComputeRLE_le_todo xs x todo
      have hn2 := ComputeRLE_le_length xs x todo
      have htk := ComputeRLE_take xs x todo
      split
      · rw [specRleDecode_esc, count_bytes _ (by omega),
          ih (todo - ComputeRLE xs x todo) (by omega) fuel _ (by omega)
            (by simp only [List.length_drop]; omega) (by omega)]
        rw [List.replicate_succ, List.take_succ_cons, List.cons_append]
        congr 1
        rw [← htk, List.take_drop]
        have : ComputeRLE xs x todo + (todo - ComputeRLE xs x todo) = todo := by omega
        rw [this]
        conv_rhs => rw [← List.take_append_drop (ComputeRLE xs x todo) (xs.take todo)]
        rw [List.take_take, Nat.min_eq_left hn]
      · rename_i hc
        have hx : x ≠ 0xe5 := by
          intro h; apply hc; right; exact h.symm
        rw [specRleDecode_lit _ _ hx, ih todo (by omega) fuel xs (by omega) (by omega) (by omega)]
        simp


theorem shl_8 (n : Nat) : n <<< 8 = n * 256 := Nat.shiftLeft_eq n 8

theorem SWAP16_eq (d : Nat) (h : d < 65536) : SWAP16 d = d % 256 * 256 + d / 256 := by
  unfold SWAP16
  rw [shl_8, shr_8, Nat.lor_comm]
  have h1 : d / 256 < 2 ^ 8 := by norm_num; omega
  have h2 := Nat.mul_add_lt_is_or h1 d
  rw [show d * 256 = 2 ^ 8 * d by norm_num; omega, ← h2]
  norm_num
  omega

theorem le16_SWAP16 (d : Nat) (h : d < 65536) : le16 (SWAP16 d) = be16 d := by
  rw [SWAP16_eq d h]
  unfold le16 be16
  have ha : d % 256 < 256 := Nat.mod_lt _ (by norm_num)
  have hb : d / 256 < 256 := by omega
  generalize d % 256 = a at ha ⊢
  generalize d / 256 = b at hb ⊢
  have h1 : (a * 256 + b) % 256 = b := by omega
  have h2 : (a * 256 + b) / 256 = a := by omega
  rw [h1, h2, Nat.mod_eq_of_lt ha, Nat.mod_eq_of_lt hb]

theorem u16_lt (x : Int) : u16 x < 65536 := by
  unfold u16; omega


theorem rawTrack_length (img : List Nat) (R t : Nat) (h : (t + 1) * R ≤ img.length) :
    (rawTrack img R t).length = R := by
  unfold rawTrack
  rw [List.length_take, List.length_drop]
  have : (t + 1) * R = t * R + R := by ring
  omega

theorem flatMap_rawTrack (img : List Nat) (R N : Nat) :
    (List.range N).flatMap (rawTrack img R) = img.take (N * R) := by
  induction N with
  | zero => simp
  | succ n ih =>
    rw [List.range_succ, List.flatMap_append, ih]
    simp only [List.flatMap_cons, List.flatMap_nil, List.append_nil, rawTrack]
    rw [show (n + 1) * R = n * R + R by ring, List.take_add]

theorem specDecodeTracks_frame_raw (T fuel : Nat) (payload rest : List Nat)
    (hT : T < 65536) (hp : payload.length = T) :
    specDecodeTracks T (fuel + 1) (be16 T ++ payload ++ rest)
      = payload ++ specDecodeTracks T fuel rest := by
  have h1 : T / 256 % 256 * 256 + T % 256 = T := by omega
  have key : specDecodeTracks T (fuel + 1) ((T / 256 % 256) :: (T % 256) :: (payload ++ rest))
      = payload ++ specDecodeTracks T fuel rest := by
    simp only [specDecodeTracks, h1, if_true]
    rw [List.take_left' hp, List.drop_left' hp]
  simpa [be16] using key

theorem specDecodeTracks_frame_rle (T fuel E : Nat) (payload rest : List Nat)
    (hE : E < T) (hT : T ≤ 65536) (hp : payload.length = E) :
    specDecodeTracks T (fuel + 1) (be16 E ++ payload ++ rest)
      = specRleDecode payload ++ specDecodeTracks T fuel rest := by
  have h1 : E / 256 % 256 * 256 + E % 256 = E := by omega
  have h2 : ¬ (E = T) := by omega
  have key : specDecodeTracks T (fuel + 1) ((E / 256 % 256) :: (E % 256) :: (payload ++ rest))
      = specRleDecode payload ++ specDecodeTracks T fuel rest := by
    simp only [specDecodeTracks, h1, if_neg h2]
    rw [List.take_left' hp, List.drop_left' hp]
  simpa [be16] using key

/-- The frame of track `t` in terms of the track: length field, then payload. -/
theorem trackFrame_eq (img : List Nat) (R : Int) (t : Nat) (h0 : 0 ≤ R) (h16 : R < 65536) :
    trackFrame img R t
      = if (packTrack (img.drop (t * R.toNat)) R.toNat).length < R.toNat then
          be16 (packTrack (img.drop (t * R.toNat)) R.toNat).length
            ++ packTrack (img.drop (t * R.toNat)) R.toNat
        else be16 R.toNat ++ rawTrack img R.toNat t := by
  lift R to ℕ using h0
  simp only [Int.toNat_ofNat]
  unfold trackFrame rawTrack be16 fputc
  simp only [Int.toNat_ofNat]
  by_cases h : (packTrack (img.drop (t * R)) R).length < R
  · have h' : ((packTrack (List.drop (t * R) img) R).length : Int) < (R : Int) := by omega
    rw [if_pos h, if_pos h']
    generalize (packTrack (List.drop (t * R) img) R).length = E
    have e1 : ((E : Int) / 256 % 256).toNat = E / 256 % 256 := by omega
    have e2 : ((E : Int) % 256 % 256).toNat = E % 256 := by omega
    rw [e1, e2]
  · have h' : ¬ ((packTrack (List.drop (t * R) img) R).length : Int) < (R : Int) := by omega
    rw [if_neg h, if_neg h']
    have e1 : ((R : Int) / 256 % 256).toNat = R / 256 % 256 := by omega
    have e2 : ((R : Int) % 256 % 256).toNat = R % 256 := by omega
    rw [e1, e2]

theorem specDecodeTracks_trackFrame (img : List Nat) (R : Int) (t fuel : Nat) (rest : List Nat)
    (h0 : 0 ≤ R) (h16 : R < 65536) (hb : (t + 1) * R.toNat ≤ img.length) :
    specDecodeTracks R.toNat (fuel + 1) (trackFrame img R t ++ rest)
      = rawTrack img R.toNat t ++ specDecodeTracks R.toNat fuel rest := by
  rw [trackFrame_eq img R t h0 h16]
  have hlen : R.toNat ≤ (img.drop (t * R.toNat)).length := by
    rw [List.length_drop]
    have : (t + 1) * R.toNat = t * R.toNat + R.toNat := by ring
    omega
  split
  · rename_i h
    rw [specDecodeTracks_frame_rle _ _ _ _ _ h (by omega) rfl]
    unfold packTrack
    rw [specRleDecode_packLoop _ _ _ (Nat.le_refl _) hlen (by omega)]
    rfl
  · rw [specDecodeTracks_frame_raw _ _ _ _ (by omega) (rawTrack_length img _ t hb)]

theorem specDecodeTracks_frames (img : List Nat) (R : Int) (h0 : 0 ≤ R) (h16 : R < 65536)
    (ts : List Nat) (hts : ∀ t ∈ ts, (t + 1) * R.toNat ≤ img.length) (fuel : Nat)
    (hf : ts.length ≤ fuel) :
    specDecodeTracks R.toNat fuel (ts.flatMap (trackFrame img R))
      = ts.flatMap (rawTrack img R.toNat) := by
  induction ts generalizing fuel with
  | nil => cases fuel <;> simp [specDecodeTracks]
  | cons t ts ih =>
    cases fuel with
    | zero => simp at hf
    | succ fuel =>
      rw [List.flatMap_cons, List.flatMap_cons,
        specDecodeTracks_trackFrame img R t fuel _ h0 h16 (hts t (by simp)),
        ih (fun u hu => hts u (by simp [hu])) fuel (by simpa using hf)]

theorem trackFrame_length_ge (img : List Nat) (R : Int) (t : Nat) :
    2 ≤ (trackFrame img R t).length := by
  unfold trackFrame
  simp only []
  split <;> simp

theorem flatMap_trackFrame_length (img : List Nat) (R : Int) (ts : List Nat) :
    ts.length ≤ (ts.flatMap (trackFrame img R)).length := by
  induction ts with
  | nil => simp
  | cons t ts ih =>
    rw [List.flatMap_cons, List.length_append, List.length_cons]
    have := trackFrame_length_ge img R t
    omega

theorem msaHeader_eq (s : CFloppy) :
    msaHeader s = [0x0e, 0x0f] ++ be16 (u16 s.m_nbSectorPerTrack) ++ be16 (u16 (s.m_nbSide - 1))
      ++ be16 0 ++ be16 (u16 (s.m_nbCylinder - 1)) := by
  unfold msaHeader
  rw [le16_SWAP16 _ (u16_lt _), le16_SWAP16 _ (u16_lt _), le16_SWAP16 _ (u16_lt _)]
  rfl

@[simp] theorem FAT_Flush_nbSide (s : CFloppy) : (FAT_Flush s).m_nbSide = s.m_nbSide := by
  simp only [FAT_Flush]
@[simp] theorem FAT_Flush_nbCylinder (s : CFloppy) :
    (FAT_Flush s).m_nbCylinder = s.m_nbCylinder := by
  simp only [FAT_Flush]
@[simp] theorem FAT_Flush_nbSectorPerTrack (s : CFloppy) :
    (FAT_Flush s).m_nbSectorPerTrack = s.m_nbSectorPerTrack := by
  simp only [FAT_Flush]

theorem poke_length (mem : List Nat) (off : Int) (v : Nat) : (poke mem off v).length = mem.length := by
  unfold poke; split <;> simp

theorem memset_length (mem : List Nat) (off : Int) (v n : Nat) :
    (memset mem off v n).length = mem.length := by
  induction n with
  | zero => rfl
  | succ n ih => simp [memset, poke_length, ih]

theorem memcpy_length (mem : List Nat) (off : Int) (src : List Nat) (n : Nat) :
    (memcpy mem off src n).length = mem.length := by
  induction n with
  | zero => rfl
  | succ n ih => simp [memcpy, poke_length, ih]

theorem fatPack_length (fat : List Int) (m : Int) (fuel : Nat) (i p : Int) (img : List Nat) :
    (fatPack fat m fuel i p img).length = img.length := by
  induction fuel generalizing i p img with
  | zero => rfl
  | succ n ih =>
    simp only [fatPack]
    split
    · rw [ih]; simp [poke_length]
    · rfl

theorem FAT_Flush_length (s : CFloppy) :
    (FAT_Flush s).m_pRawImage.length = s.m_pRawImage.length := by
  simp [FAT_Flush, memcpy_length, fatPack_length, poke_length, memset_length]

/-- Round trip on the stream `WriteImage` emits: the decoded tracks are the raw image as
`WriteImage` leaves it. -/
theorem specMsaDecode_WriteImage (s : CFloppy) (h0 : 0 ≤ s.m_nbSectorPerTrack)
    (h16 : s.m_nbSectorPerTrack * 512 ≤ 65535)
    (hlen : (s.m_pRawImage.length : Int)
      = s.m_nbSide * s.m_nbSectorPerTrack * s.m_nbCylinder * 512) :
    specMsaDecode (WriteImage s).2 = (WriteImage s).1.m_pRawImage := by
  have hsec : u16 s.m_nbSectorPerTrack = s.m_nbSectorPerTrack.toNat := by unfold u16; omega
  have hR : (s.m_nbSectorPerTrack * 512).toNat = s.m_nbSectorPerTrack.toNat * 512 := by omega
  have hL := FAT_Flush_length s
  unfold WriteImage specMsaDecode
  simp only [FAT_Flush_nbSide, FAT_Flush_nbCylinder, FAT_Flush_nbSectorPerTrack]
  rw [msaHeader_eq]
  simp only [FAT_Flush_nbSide, FAT_Flush_nbCylinder, FAT_Flush_nbSectorPerTrack, be16,
    List.cons_append, List.nil_append, List.getD_cons_succ, List.getD_cons_zero, List.drop_succ_cons,
    List.drop_zero, hsec, List.length_cons]
  have hsec2 : s.m_nbSectorPerTrack.toNat / 256 % 256 * 256 + s.m_nbSectorPerTrack.toNat % 256
      = s.m_nbSectorPerTrack.toNat := by omega
  rw [hsec2, ← hR]
  generalize hN : (s.m_nbCylinder * s.m_nbSide).toNat = N
  generalize hRR : s.m_nbSectorPerTrack * 512 = R at *
  have hNR : N * R.toNat = (FAT_Flush s).m_pRawImage.length := by
    rw [hL]
    by_cases hz : s.m_nbSectorPerTrack = 0
    · have : R.toNat = 0 := by omega
      have h3 : (s.m_pRawImage.length : Int) = 0 := by rw [hlen, hz]; ring
      rw [this]; omega
    · have hpos : 0 < s.m_nbSectorPerTrack := by omega
      have h4 : (s.m_pRawImage.length : Int) = (s.m_nbCylinder * s.m_nbSide) * R := by
        rw [hlen, ← hRR]; ring
      have hRpos : 0 < R := by omega
      have h5 : 0 ≤ s.m_nbCylinder * s.m_nbSide := by
        by_contra hneg
        have : (s.m_nbCylinder * s.m_nbSide) * R < 0 :=
          Int.mul_neg_of_neg_of_pos (by omega) hRpos
        omega
      have h6 : ((N * R.toNat : Nat) : Int) = (s.m_pRawImage.length : Int) := by
        rw [h4, ← hN]
        push_cast
        rw [Int.toNat_of_nonneg h5, Int.toNat_of_nonneg (by omega)]
      exact_mod_cast h6
  rw [specDecodeTracks_frames _ R (by omega) (by omega) _ _ _
    (by
      have := flatMap_trackFrame_length (FAT_Flush s).m_pRawImage R (List.range N)
      omega)]
  · rw [flatMap_rawTrack, hNR, List.take_length]
  · intro t ht
    rw [List.mem_range] at ht
    calc (t + 1) * R.toNat ≤ N * R.toNat := Nat.mul_le_mul_right _ (by omega)
      _ = _ := hNR


/-! ### Reading a buffer after a store -/

theorem poke_getElem? (mem : List Nat) (off : Int) (v i : Nat) :
    (poke mem off v)[i]? = if off = (i : Int) ∧ i < mem.length then some (v % 256) else mem[i]? := by
  unfold poke
  split
  · rename_i h0
    rw [List.getElem?_set]
    by_cases h : off.toNat = i
    · have h' : off = (i : Int) := by omega
      rw [if_pos h]
      by_cases hl : i < mem.length
      · rw [if_pos (by omega), if_pos ⟨h', hl⟩]
      · rw [if_neg (by omega), if_neg (by intro hh; exact hl hh.2)]
        exact (List.getElem?_eq_none (by omega)).symm
    · rw [if_neg h, if_neg (by intro hh; apply h; omega)]
  · rename_i h0
    rw [if_neg (by intro hh; apply h0; omega)]

theorem memset_getElem? (mem : List Nat) (off : Int) (v n i : Nat) :
    (memset mem off v n)[i]?
      = if off ≤ (i : Int) ∧ (i : Int) < off + n ∧ i < mem.length then some (v % 256)
        else mem[i]? := by
  induction n with
  | zero =>
    simp only [memset]
    rw [if_neg (by omega)]
  | succ n ih =>
    simp only [memset]
    rw [poke_getElem?, ih, memset_length]
    by_cases h1 : off + (n : Int) = (i : Int) ∧ i < mem.length
    · rw [if_pos h1, if_pos (by omega)]
    · rw [if_neg h1]
      by_cases h2 : off ≤ (i : Int) ∧ (i : Int) < off + n ∧ i < mem.length
      · rw [if_pos h2, if_pos (by push_cast; omega)]
      · rw [if_neg h2, if_neg (by push_cast; omega)]

theorem memcpy_getElem? (mem : List Nat) (off : Int) (src : List Nat) (n i : Nat) :
    (memcpy mem off src n)[i]?
      = if off ≤ (i : Int) ∧ (i : Int) < off + n ∧ i < mem.length then
          some (src.getD ((i : Int) - off).toNat 0 % 256)
        else mem[i]? := by
  induction n with
  | zero =>
    simp only [memcpy]
    rw [if_neg (by omega)]
  | succ n ih =>
    simp only [memcpy]
    rw [poke_getElem?, ih, memcpy_length]
    by_cases h1 : off + (n : Int) = (i : Int) ∧ i < mem.length
    · rw [if_pos h1, if_pos (by omega)]
      have : ((i : Int) - off).toNat = n := by omega
      rw [this]
    · rw [if_neg h1]
      by_cases h2 : off ≤ (i : Int) ∧ (i : Int) < off + n ∧ i < mem.length
      · rw [if_pos h2, if_pos (by push_cast; omega)]
      · rw [if_neg h2, if_neg (by push_cast; omega)]

theorem fatPack_getElem?_below (fat : List Int) (m : Int) (fuel : Nat) (i p : Int)
    (img : List Nat) (j : Nat) (hj : (j : Int) < p) :
    (fatPack fat m fuel i p img)[j]? = img[j]? := by
  induction fuel generalizing i p img with
  | zero => rfl
  | succ n ih =>
    simp only [fatPack]
    split
    · rw [ih _ _ _ (by omega), poke_getElem?, poke_getElem?, poke_getElem?,
        if_neg (by omega), if_neg (by omega), if_neg (by omega)]
    · rfl

theorem w8_getElem? (mem : List Nat) (off : Int) (d i : Nat) :
    (w8 mem off d)[i]? = if off = (i : Int) ∧ i < mem.length then some (d % 256) else mem[i]? :=
  poke_getElem? mem off d i

theorem w8_length (mem : List Nat) (off : Int) (d : Nat) : (w8 mem off d).length = mem.length :=
  poke_length mem off d

theorem w16_length (mem : List Nat) (off : Int) (d : Nat) : (w16 mem off d).length = mem.length := by
  simp [w16, poke_length]

theorem w16_getElem?_other (mem : List Nat) (off : Int) (d i : Nat)
    (h : (i : Int) < off ∨ off + 1 < (i : Int)) : (w16 mem off d)[i]? = mem[i]? := by
  unfold w16
  rw [poke_getElem?, poke_getElem?, if_neg (by omega), if_neg (by omega)]

theorem Create_length (a b c : Int) :
    (Create a b c).m_pRawImage.length = (a * b * c * 512).toNat := by
  simp only [Create, memset_length, w16_length, w8_length, List.length_replicate]

/-- `Create` leaves the `0xe5` fill everywhere from offset `0x3c` on. -/
theorem Create_getElem?_fill (a b c : Int) (i : Nat) (hi : 60 ≤ i) :
    (Create a b c).m_pRawImage[i]? = if i < (a * b * c * 512).toNat then some 0xe5 else none := by
  simp only [Create]
  rw [memset_getElem?, if_neg (by omega)]
  rw [w16_getElem?_other _ _ _ _ (by omega), w16_getElem?_other _ _ _ _ (by omega),
    w16_getElem?_other _ _ _ _ (by omega), w16_getElem?_other _ _ _ _ (by omega),
    w16_getElem?_other _ _ _ _ (by omega), w8_getElem?, if_neg (by omega),
    w16_getElem?_other _ _ _ _ (by omega), w16_getElem?_other _ _ _ _ (by omega),
    w8_getElem?, if_neg (by omega), w16_getElem?_other _ _ _ _ (by omega),
    w8_getElem?, if_neg (by omega), w16_getElem?_other _ _ _ _ (by omega),
    List.getElem?_replicate]

/-- After `FAT_Flush` the first byte of the first FAT copy is the media byte `0xf7`. -/
theorem FAT_Flush_getElem?_512 (s : CFloppy) (h : 512 < s.m_pRawImage.length) :
    (FAT_Flush s).m_pRawImage[512]? = some 0xf7 := by
  simp only [FAT_Flush]
  rw [memcpy_getElem?, if_neg (by simp [SECTOR_PER_FAT]),
    fatPack_getElem?_below _ _ _ _ _ _ _ (by norm_num),
    poke_getElem?, if_neg (by omega), poke_getElem?, if_neg (by omega), poke_getElem?,
    if_pos (by simp [memset_length]; omega)]


/-! ### Maximal runs -/

theorem pushRun_append (x : Nat) (r : Nat × Nat) (rs t : List (Nat × Nat)) :
    pushRun x (r :: rs ++ t) = pushRun x (r :: rs) ++ t := by
  obtain ⟨v, n⟩ := r
  simp only [List.cons_append, pushRun]
  split <;> simp

theorem specRuns_cons (x : Nat) (xs : List Nat) :
    specRuns (x :: xs) = pushRun x (specRuns xs) := rfl

theorem pushRun_same (x n : Nat) (rs : List (Nat × Nat)) :
    pushRun x ((x, n) :: rs) = (x, n + 1) :: rs := by
  simp [pushRun]

theorem pushRun_other (x v n : Nat) (rs : List (Nat × Nat)) (h : v ≠ x) :
    pushRun x ((v, n) :: rs) = (x, 1) :: (v, n) :: rs := by
  simp [pushRun, h]

theorem specRuns_cons_head (y : Nat) (ys : List Nat) :
    ∃ m rs, specRuns (y :: ys) = (y, m + 1) :: rs := by
  induction ys generalizing y with
  | nil => exact ⟨0, [], rfl⟩
  | cons z zs ih =>
    obtain ⟨m, rs, h⟩ := ih z
    simp only [specRuns] at h ⊢
    rw [h]
    simp only [pushRun]
    split
    · rename_i hz
      subst hz
      exact ⟨m + 1, rs, rfl⟩
    · exact ⟨0, _, rfl⟩

theorem specRuns_replicate (v k : Nat) : specRuns (List.replicate (k + 1) v) = [(v, k + 1)] := by
  induction k with
  | zero => rfl
  | succ k ih =>
    rw [List.replicate_succ, specRuns_cons, ih, pushRun_same]

/-- A run in front of bytes that start with another value is a maximal run. -/
theorem specRuns_replicate_append (v k : Nat) (rest : List Nat) (h : rest.head? ≠ some v) :
    specRuns (List.replicate (k + 1) v ++ rest) = (v, k + 1) :: specRuns rest := by
  induction k with
  | zero =>
    show specRuns (v :: rest) = (v, 1) :: specRuns rest
    match rest, h with
    | [], _ => rfl
    | y :: ys, h =>
      obtain ⟨m, rs, hy⟩ := specRuns_cons_head y ys
      rw [specRuns_cons v (y :: ys), hy, pushRun_other]
      intro hyv
      apply h
      simp [hyv]
  | succ k ih =>
    rw [List.replicate_succ, List.cons_append, specRuns_cons, ih, pushRun_same]

theorem specRuns_append (a b : List Nat) (h : ∀ x, a.getLast? = some x → b.head? ≠ some x) :
    specRuns (a ++ b) = specRuns a ++ specRuns b := by
  induction a with
  | nil => rfl
  | cons x a ih =>
    match a, ih, h with
    | [], _, h =>
      have := specRuns_replicate_append x 0 b (h x (by simp))
      simpa [specRuns, pushRun] using this
    | y :: a', ih, h =>
      have ih' := ih (fun z hz => h z (by simpa using hz))
      obtain ⟨m, rs, hy⟩ := specRuns_cons_head y a'
      simp only [List.cons_append, specRuns] at ih' hy ⊢
      rw [ih', hy, pushRun_append]

theorem specRuns_length_le (l : List Nat) : ∀ r ∈ specRuns l, r.2 ≤ l.length := by
  induction l with
  | nil => simp [specRuns]
  | cons x xs ih =>
    intro r hr
    simp only [specRuns] at hr
    match hs : specRuns xs, hr with
    | [], hr =>
      simp only [pushRun, List.mem_singleton] at hr
      subst hr
      simp
    | (v, n) :: rs, hr =>
      have hv := ih (v, n) (by rw [hs]; simp)
      simp only [pushRun] at hr
      split at hr
      · rcases List.mem_cons.mp hr with h | h
        · subst h
          simp only [List.length_cons]
          simp only at hv
          omega
        · have := ih r (by rw [hs]; simp [h])
          simp only [List.length_cons]
          omega
      · rcases List.mem_cons.mp hr with h | h
        · subst h
          simp
        · have := ih r (by rw [hs]; exact h)
          simp only [List.length_cons]
          omega

/-! ### The loop of `WriteImage` and the maximal runs -/

theorem runBytes_literal (x n : Nat) (h : ¬ (n + 1 + 1 > 4 ∨ 0xe5 = x)) :
    x :: runBytes (x, n + 1) = runBytes (x, n + 1 + 1) := by
  have h1 : ¬ (n + 1 > 4 ∨ 0xe5 = x) := by
    intro hh; apply h
    rcases hh with hh | hh
    · left; omega
    · right; exact hh
  simp only [runBytes, if_neg h, if_neg h1]
  rfl

theorem take_cons_run (x : Nat) (xs : List Nat) (todo : Nat) :
    xs.take todo = List.replicate (ComputeRLE xs x todo) x
      ++ (xs.drop (ComputeRLE xs x todo)).take (todo - ComputeRLE xs x todo) := by
  have hn := ComputeRLE_le_todo xs x todo
  rw [← ComputeRLE_take xs x todo]
  conv_lhs => rw [← List.take_append_drop (ComputeRLE xs x todo) (xs.take todo)]
  rw [List.take_take, Nat.min_eq_left hn, List.drop_take]

theorem head?_take_drop_run (x : Nat) (xs : List Nat) (todo : Nat) :
    ((xs.drop (ComputeRLE xs x todo)).take (todo - ComputeRLE xs x todo)).head? ≠ some x := by
  have hn := ComputeRLE_le_todo xs x todo
  by_cases h : ComputeRLE xs x todo < todo
  · have := ComputeRLE_stop xs x todo h
    obtain ⟨k, hk⟩ : ∃ k, todo - ComputeRLE xs x todo = k + 1 := ⟨todo - ComputeRLE xs x todo - 1, by omega⟩
    rw [hk]
    cases hd : xs.drop (ComputeRLE xs x todo) with
    | nil => simp
    | cons y ys =>
      rw [hd] at this
      simpa using this
  · have : todo - ComputeRLE xs x todo = 0 := by omega
    rw [this]
    simp

/-- The loop stores, for the `todo` bytes at `pR`, what their maximal runs give. -/
theorem packLoop_eq_runs (todo : Nat) :
    ∀ (fuel : Nat) (pR : List Nat), todo ≤ fuel → todo ≤ pR.length →
      packLoop fuel pR todo = (specRuns (pR.take todo)).flatMap runBytes := by
  induction todo using Nat.strong_induction_on with
  | _ todo ih =>
    intro fuel pR hf hl
    match todo, fuel, pR with
    | 0, fuel, pR => simp [packLoop_zero_todo, specRuns]
    | todo + 1, 0, pR => omega
    | todo + 1, fuel + 1, [] => simp at hl
    | todo + 1, fuel + 1, x :: xs =>
      simp only [List.length_cons] at hl
      have hn := ComputeRLE_le_todo xs x todo
      have hn2 := ComputeRLE_le_length xs x todo
      have hsplit := take_cons_run x xs todo
      have hhead := head?_take_drop_run x xs todo
      have hruns : specRuns ((x :: xs).take (todo + 1))
          = (x, ComputeRLE xs x todo + 1)
            :: specRuns ((xs.drop (ComputeRLE xs x todo)).take (todo - ComputeRLE xs x todo)) := by
        rw [List.take_succ_cons, hsplit, ← List.cons_append, ← List.replicate_succ]
        exact specRuns_replicate_append x _ _ hhead
      rw [packLoop_cons, hruns, List.flatMap_cons]
      split
      · rename_i hc
        rw [ih (todo - ComputeRLE xs x todo) (by omega) fuel _ (by omega)
          (by simp only [List.length_drop]; omega)]
        simp only [runBytes, if_pos hc]
        rfl
      · rename_i hc
        rw [ih todo (by omega) fuel xs (by omega) (by omega)]
        cases hk : ComputeRLE xs x todo with
        | zero =>
          have h1 : ¬ (0 + 1 > 4 ∨ 0xe5 = x) := by rw [hk] at hc; exact hc
          simp only [List.drop_zero, Nat.sub_zero, runBytes, if_neg h1]
          rfl
        | succ k =>
          rw [hk] at hsplit hhead hc
          rw [hsplit, specRuns_replicate_append x k _ hhead, List.flatMap_cons,
            ← List.cons_append, runBytes_literal x k hc]

theorem packTrack_eq_runs (pR : List Nat) (rawSize : Nat) (h : rawSize ≤ pR.length) :
    packTrack pR rawSize = (specRuns (pR.take rawSize)).flatMap runBytes :=
  packLoop_eq_runs rawSize rawSize pR (Nat.le_refl _) h

theorem packTrack_take (pR : List Nat) (rawSize : Nat) (h : rawSize ≤ pR.length) :
    packTrack (pR.take rawSize) rawSize = packTrack pR rawSize := by
  rw [packTrack_eq_runs pR rawSize h, packTrack_eq_runs (pR.take rawSize) rawSize
    (by rw [List.length_take]; omega), List.take_take, Nat.min_self]

theorem runBytes_eq_spec (r : Nat × Nat) (h : r.2 < 65536) : runBytes r = specRunBytes r := by
  unfold runBytes specRunBytes
  have h1 : (r.2 >>> 8) &&& 255 = r.2 >>> 8 := by
    rw [and_255, shr_8]; omega
  have h2 : (0xe5 = r.1) = (r.1 = 0xe5) := by
    apply propext; constructor <;> intro h <;> exact h.symm
  simp only [h1, h2]

theorem flatMap_runBytes_eq_spec (rs : List (Nat × Nat)) (h : ∀ r ∈ rs, r.2 < 65536) :
    rs.flatMap runBytes = rs.flatMap specRunBytes := by
  induction rs with
  | nil => rfl
  | cons r rs ih =>
    rw [List.flatMap_cons, List.flatMap_cons, runBytes_eq_spec r (h r (by simp)),
      ih (fun q hq => h q (by simp [hq]))]

/-! ### No `0xE5` stands alone in a packed track -/

theorem escapedOnly_esc (v hi lo : Nat) (rest : List Nat) :
    escapedOnly (0xe5 :: v :: hi :: lo :: rest) = escapedOnly rest := by
  simp [escapedOnly]

theorem escapedOnly_lit (a : Nat) (rest : List Nat) (h : a ≠ 0xe5) :
    escapedOnly (a :: rest) = escapedOnly rest := by
  match rest with
  | [] => simp [escapedOnly, h]
  | [b] => simp [escapedOnly, h]
  | [b, c] => simp [escapedOnly, h]
  | b :: c :: d :: r => simp [escapedOnly, h]

theorem escapedOnly_packLoop (todo : Nat) :
    ∀ (fuel : Nat) (pR : List Nat), todo ≤ fuel → todo ≤ pR.length →
      escapedOnly (packLoop fuel pR todo) = true := by
  induction todo using Nat.strong_induction_on with
  | _ todo ih =>
    intro fuel pR hf hl
    match todo, fuel, pR with
    | 0, fuel, pR => simp [packLoop_zero_todo, escapedOnly]
    | todo + 1, 0, pR => omega
    | todo + 1, fuel + 1, [] => simp at hl
    | todo + 1, fuel + 1, x :: xs =>
      simp only [List.length_cons] at hl
      have hn := ComputeRLE_le_todo xs x todo
      have hn2 := ComputeRLE_le_length xs x todo
      rw [packLoop_cons]
      split
      · rw [escapedOnly_esc]
        exact ih (todo - ComputeRLE xs x todo) (by omega) fuel _ (by omega)
          (by simp only [List.length_drop]; omega)
      · rename_i hc
        have hx : x ≠ 0xe5 := by
          intro h; apply hc; right; exact h.symm
        rw [escapedOnly_lit _ _ hx]
        exact ih todo (by omega) fuel xs (by omega) (by omega)


/-! ## The MSA stream written by `WriteImage` -/

theorem Create_nbSectorPerTrack (a b c : Int) : (Create a b c).m_nbSectorPerTrack = b := by
  simp only [Create]

theorem Create_nbSide (a b c : Int) : (Create a b c).m_nbSide = a := by
  simp only [Create]

theorem Create_nbCylinder (a b c : Int) : (Create a b c).m_nbCylinder = c := by
  simp only [Create]

theorem WriteImage_fst (s : CFloppy) : (WriteImage s).1 = FAT_Flush s := rfl

/-- C1, as stated, fails: `WriteImage` starts with `FAT_Flush`, which rewrites the FAT
region of the raw image, so the decoded tracks are not the image the call was given.  On
the freshly created default floppy (2 sides, 10 sectors, 81 cylinders, 829440 bytes) the
decoded byte at offset 512 is `0xF7`, where the image held the fill byte `0xE5`. -/
theorem WriteImage_roundtrip_not_original :
    ((Create 2 10 81).m_pRawImage.length : Int)
        = (Create 2 10 81).m_nbSide * (Create 2 10 81).m_nbSectorPerTrack
          * (Create 2 10 81).m_nbCylinder * 512
      ∧ (Create 2 10 81).m_nbSectorPerTrack * 512 ≤ 65535
      ∧ specMsaDecode (WriteImage (Create 2 10 81)).2 ≠ (Create 2 10 81).m_pRawImage := by
  have hlen : (Create 2 10 81).m_pRawImage.length = 829440 := by
    rw [Create_length]; decide
  have hsz : ((Create 2 10 81).m_pRawImage.length : Int)
        = (Create 2 10 81).m_nbSide * (Create 2 10 81).m_nbSectorPerTrack
          * (Create 2 10 81).m_nbCylinder * 512 := by
    rw [hlen, Create_nbSide, Create_nbSectorPerTrack, Create_nbCylinder]; decide
  have h16 : (Create 2 10 81).m_nbSectorPerTrack * 512 ≤ 65535 := by
    rw [Create_nbSectorPerTrack]; decide
  refine ⟨hsz, h16, ?_⟩
  intro h
  rw [specMsaDecode_WriteImage _ (by rw [Create_nbSectorPerTrack]; decide) h16 hsz,
    WriteImage_fst] at h
  have h1 := FAT_Flush_getElem?_512 (Create 2 10 81) (by rw [hlen]; decide)
  have h2 := Create_getElem?_fill 2 10 81 512 (by decide)
  rw [h, h2] at h1
  revert h1
  decide

/-- C2: a maximal run of `k >= 1` bytes `0xE5` (the bytes before it not ending with
`0xE5`, the bytes after it not starting with `0xE5`) is packed as exactly the four bytes
`E5 E5 k>>8 k&255`, also for `k = 1`, between the packed forms of what precedes and what
follows; and in every packed track no `0xE5` stands alone as a literal: read from the
left, each `0xE5` opens a complete group of four bytes. -/
theorem packTrack_e5_run :
    (∀ (before after : List Nat) (k : Nat), 1 ≤ k → k < 65536 →
      before.getLast? ≠ some 0xe5 → after.head? ≠ some 0xe5 →
      packTrack (before ++ List.replicate k 0xe5 ++ after) (before.length + k + after.length)
        = packTrack before before.length ++ [0xe5, 0xe5, k >>> 8, k &&& 255]
          ++ packTrack after after.length)
    ∧ (∀ (pR : List Nat) (rawSize : Nat), rawSize ≤ pR.length →
      escapedOnly (packTrack pR rawSize) = true) := by
  constructor
  · intro before after k hk hk16 hb ha
    obtain ⟨j, rfl⟩ : ∃ j, k = j + 1 := ⟨k - 1, by omega⟩
    have hlen : (before ++ List.replicate (j + 1) 0xe5 ++ after).length
        = before.length + (j + 1) + after.length := by
      simp only [List.length_append, List.length_replicate]
    rw [← hlen, packTrack_eq_runs _ _ (Nat.le_refl _), List.take_length,
      packTrack_eq_runs before _ (Nat.le_refl _), List.take_length,
      packTrack_eq_runs after _ (Nat.le_refl _), List.take_length,
      List.append_assoc, specRuns_append, specRuns_replicate_append _ _ _ ha,
      List.flatMap_append, List.flatMap_cons, List.append_assoc]
    · congr 2
      have h1 : ((j + 1) >>> 8) &&& 255 = (j + 1) >>> 8 := by
        rw [and_255, shr_8]; omega
      simp [runBytes, h1]
    · intro x hx
      rw [hx] at hb
      simp only [List.replicate_succ, List.cons_append, List.head?_cons]
      intro h
      apply hb
      rw [Option.some.inj h]
  · intro pR rawSize h
    exact escapedOnly_packLoop rawSize rawSize pR (Nat.le_refl _) h

/-- Witness of C2: the single byte `0xE5` between the bytes 1 and 2. -/
theorem packTrack_e5_run_witness :
    packTrack ([1] ++ List.replicate 1 0xe5 ++ [2]) ([1].length + 1 + [2].length)
        = packTrack [1] [1].length ++ [0xe5, 0xe5, 1 >>> 8, 1 &&& 255] ++ packTrack [2] [2].length
      ∧ escapedOnly (packTrack [1, 0xe5, 2] 3) = true :=
  ⟨packTrack_e5_run.1 [1] [2] 1 (by decide) (by decide) (by decide) (by decide),
    packTrack_e5_run.2 [1, 0xe5, 2] 3 (by decide)⟩

/-- C5: the stream `WriteImage` emits starts with a header of exactly 10 bytes, followed
by the track frames; the header is five big-endian 16-bit fields in this order: the
signature `0E 0F`, the sectors per track, the sides minus 1, the start track 0, and the
end track, the cylinders minus 1 (each value as the `unsigned short` it is stored in);
for the default geometry (2 sides, 10 sectors, 81 cylinders) the header is
`0E 0F 00 0A 00 01 00 00 00 50`. -/
theorem WriteImage_header (s : CFloppy) :
    (WriteImage s).2.take 10
        = be16 0x0e0f ++ be16 (u16 s.m_nbSectorPerTrack) ++ be16 (u16 (s.m_nbSide - 1))
          ++ be16 0 ++ be16 (u16 (s.m_nbCylinder - 1))
      ∧ ((WriteImage s).2.take 10).length = 10
      ∧ (WriteImage s).2.drop 10
        = (List.range (s.m_nbCylinder * s.m_nbSide).toNat).flatMap
            (trackFrame (FAT_Flush s).m_pRawImage (s.m_nbSectorPerTrack * 512))
      ∧ (WriteImage (Create 2 10 81)).2.take 10
        = [0x0e, 0x0f, 0x00, 0x0a, 0x00, 0x01, 0x00, 0x00, 0x00, 0x50] := by
  have key : ∀ s : CFloppy, (WriteImage s).2
      = (be16 0x0e0f ++ be16 (u16 s.m_nbSectorPerTrack) ++ be16 (u16 (s.m_nbSide - 1))
          ++ be16 0 ++ be16 (u16 (s.m_nbCylinder - 1)))
        ++ (List.range (s.m_nbCylinder * s.m_nbSide).toNat).flatMap
            (trackFrame (FAT_Flush s).m_pRawImage (s.m_nbSectorPerTrack * 512)) := by
    intro s
    unfold WriteImage
    simp only [FAT_Flush_nbSide, FAT_Flush_nbCylinder, FAT_Flush_nbSectorPerTrack]
    rw [msaHeader_eq]
    simp only [FAT_Flush_nbSide, FAT_Flush_nbCylinder, FAT_Flush_nbSectorPerTrack]
    rfl
  have hl : ∀ s : CFloppy, (be16 0x0e0f ++ be16 (u16 s.m_nbSectorPerTrack)
      ++ be16 (u16 (s.m_nbSide - 1)) ++ be16 0 ++ be16 (u16 (s.m_nbCylinder - 1))).length = 10 := by
    intro s; simp [be16]
  have htake : ∀ s : CFloppy, (WriteImage s).2.take 10
      = be16 0x0e0f ++ be16 (u16 s.m_nbSectorPerTrack) ++ be16 (u16 (s.m_nbSide - 1))
          ++ be16 0 ++ be16 (u16 (s.m_nbCylinder - 1)) := by
    intro s
    rw [key s, List.take_left' (hl s)]
  refine ⟨htake s, ?_, ?_, ?_⟩
  · rw [htake s, hl s]
  · rw [key s, List.drop_left' (hl s)]
  · rw [htake, Create_nbSectorPerTrack, Create_nbSide, Create_nbCylinder]
    decide


/-! ## The build and its allocation view -/


theorem buildEntries_sim (es : CDirEntry) :
    ∀ (s : CFloppy) (pLFN cluster : Int) (a : Alloc), Sim s a →
      (buildEntries s pLFN cluster es).1 = (allocEntries a es).1
        ∧ Sim (buildEntries s pLFN cluster es).2 (allocEntries a es).2 := by
  induction es with
  | null =>
    intro s pLFN cluster a h
    exact ⟨rfl, h⟩
  | file info data next ih =>
    intro s pLFN cluster a h
    obtain ⟨h1, h2, h3⟩ := h
    simp only [buildEntries, allocEntries, h1, h2, h3]
    split
    · split
      · exact ⟨rfl, h1, h2, h3⟩
      · split
        · exact ih _ _ _ _ ⟨rfl, rfl, rfl⟩
        · exact ⟨rfl, rfl, rfl, rfl⟩
    · exact ih _ _ _ _ ⟨rfl, rfl, rfl⟩
  | dir info sub next ihs ihn =>
    intro s pLFN cluster a h
    obtain ⟨h1, h2, h3⟩ := h
    simp only [buildEntries, allocEntries, h1, h2, h3]
    split
    · exact ⟨rfl, h1, h2, h3⟩
    · rename_i hfree
      generalize hs1 : ({ s with
          m_pRawImage := (dirHead (LFN_Create s.m_pRawImage info true pLFN a.next)
            (GetRawAd a.next) a.next cluster
            (Int.tdiv (((GetNbEntry sub + 2) * 32) + 1023) 1024 * 1024)).1
          m_pFat := fatStore (fatChain a.fat a.next
            (Int.tdiv (((GetNbEntry sub + 2) * 32) + 1023) 1024 - 1).toNat)
            (a.next + Int.tdiv (((GetNbEntry sub + 2) * 32) + 1023) 1024 - 1) (-1)
          m_nextCluster := a.next + Int.tdiv (((GetNbEntry sub + 2) * 32) + 1023) 1024
          m_nbFreeCluster := a.free - Int.tdiv (((GetNbEntry sub + 2) * 32) + 1023) 1024 }
          : CFloppy) = s1
      generalize ha1 : ({ next := a.next + Int.tdiv (((GetNbEntry sub + 2) * 32) + 1023) 1024
                          free := a.free - Int.tdiv (((GetNbEntry sub + 2) * 32) + 1023) 1024
                          fat := fatStore (fatChain a.fat a.next
                            (Int.tdiv (((GetNbEntry sub + 2) * 32) + 1023) 1024 - 1).toNat)
                            (a.next + Int.tdiv (((GetNbEntry sub + 2) * 32) + 1023) 1024 - 1) (-1)
                          reserved := a.reserved
                            ++ [(a.next, Int.tdiv (((GetNbEntry sub + 2) * 32) + 1023) 1024)] }
          : Alloc) = a1
      have hsim1 : Sim s1 a1 := by
        subst hs1; subst ha1
        exact ⟨rfl, rfl, rfl⟩
      have hsub := ihs s1 (dirHead (LFN_Create s.m_pRawImage info true pLFN a.next)
            (GetRawAd a.next) a.next cluster
            (Int.tdiv (((GetNbEntry sub + 2) * 32) + 1023) 1024 * 1024)).2 a.next a1 hsim1
      rw [hsub.1]
      split
      · exact ihn _ _ _ _ hsub.2
      · exact hsub


theorem Fill_eq (s : CFloppy) (root : CDirectory) (h : ¬ GetNbEntry root + 1 > MAX_ROOT_ENTRY) :
    Fill s root
      = buildEntries
          { s with m_pRawImage := (dirHead s.m_pRawImage (512 * (1 + 2 * SECTOR_PER_FAT)) 0 0
              (ROOTDIR_NBSECTOR * 512)).1 }
          (dirHead s.m_pRawImage (512 * (1 + 2 * SECTOR_PER_FAT)) 0 0 (ROOTDIR_NBSECTOR * 512)).2
          0 root := by
  unfold Fill BuildDirectory
  rw [if_neg h]

/-- A `Fill` that passes the test on the root entries is the allocation of the entries of
the root, on the allocation members. -/
theorem Fill_sim (s : CFloppy) (root : CDirectory) (h : ¬ GetNbEntry root + 1 > MAX_ROOT_ENTRY)
    (a : Alloc) (ha : Sim s a) :
    (Fill s root).1 = (allocEntries a root).1 ∧ Sim (Fill s root).2 (allocEntries a root).2 := by
  rw [Fill_eq s root h]
  generalize dirHead s.m_pRawImage (512 * (1 + 2 * SECTOR_PER_FAT)) 0 0 (ROOTDIR_NBSECTOR * 512) = hd
  exact buildEntries_sim root _ _ _ a ⟨ha.1, ha.2.1, ha.2.2⟩

theorem allocEntries_ne_tooMuchFiles (es : CDirEntry) :
    ∀ a : Alloc, (allocEntries a es).1 ≠ Diag.tooMuchFiles := by
  induction es with
  | null => intro a; simp [allocEntries]
  | file info data next ih =>
    intro a
    simp only [allocEntries]
    split
    · split
      · simp
      · split
        · exact ih _
        · simp
    · exact ih _
  | dir info sub next ihs ihn =>
    intro a
    simp only [allocEntries]
    split
    · simp
    · split
      · exact ihn _
      · exact ihs _

theorem allocOf_sim (s : CFloppy) : Sim s (allocOf s) := ⟨rfl, rfl, rfl⟩

/-- C6: `Fill` fails with the diagnostic of the root overflow exactly when the root has
`entries + 1 > 112`; it then returns before any write: the floppy (raw image, fat table,
`m_nextCluster`, `m_nbFreeCluster` and all other members) is unchanged. -/
theorem Fill_rootOverflow (s : CFloppy) (root : CDirectory) :
    ((Fill s root).1 = Diag.tooMuchFiles ↔ GetNbEntry root + 1 > 112)
      ∧ (GetNbEntry root + 1 > 112 → Fill s root = (Diag.tooMuchFiles, s))
      ∧ ((Fill s root).1 = Diag.tooMuchFiles →
          (Fill s root).2.m_pRawImage = s.m_pRawImage ∧ (Fill s root).2.m_pFat = s.m_pFat
            ∧ (Fill s root).2.m_nextCluster = s.m_nextCluster
            ∧ (Fill s root).2.m_nbFreeCluster = s.m_nbFreeCluster) := by
  have hpos : GetNbEntry root + 1 > 112 → Fill s root = (Diag.tooMuchFiles, s) := by
    intro h
    unfold Fill
    rw [if_pos (by simpa [MAX_ROOT_ENTRY] using h)]
  have hneg : (Fill s root).1 = Diag.tooMuchFiles → GetNbEntry root + 1 > 112 := by
    intro h
    by_contra hc
    have hc' : ¬ GetNbEntry root + 1 > MAX_ROOT_ENTRY := by simpa [MAX_ROOT_ENTRY] using hc
    have := (Fill_sim s root hc' (allocOf s) (allocOf_sim s)).1
    rw [h] at this
    exact allocEntries_ne_tooMuchFiles root _ this.symm
  refine ⟨⟨hneg, fun h => by rw [hpos h]⟩, hpos, ?_⟩
  intro h
  rw [hpos (hneg h)]
  exact ⟨rfl, rfl, rfl, rfl⟩

theorem GetNbEntry_zeroFiles (n : Nat) : GetNbEntry (zeroFiles n) = n := by
  induction n with
  | zero => rfl
  | succ n ih =>
    simp only [zeroFiles, GetNbEntry, ih]
    push_cast
    rfl

theorem allZeroFiles_zeroFiles (n : Nat) : allZeroFiles (zeroFiles n) = true := by
  induction n with
  | zero => rfl
  | succ n ih => simp [zeroFiles, allZeroFiles, GetSize, ih]

/-- Witness of C6: a root of 112 files on the default floppy. -/
theorem Fill_rootOverflow_witness :
    Fill (Create 2 10 81) (zeroFiles 112) = (Diag.tooMuchFiles, Create 2 10 81) :=
  (Fill_rootOverflow (Create 2 10 81) (zeroFiles 112)).2.1
    (by rw [GetNbEntry_zeroFiles]; decide)

/-- Files of size 0 reserve nothing: the build of a list of such files returns `true`
and leaves the allocation members as they are. -/
theorem allocEntries_allZeroFiles (es : CDirEntry) (h : allZeroFiles es = true) :
    ∀ a : Alloc, allocEntries a es = (Diag.ok, a) := by
  induction es with
  | null => intro a; rfl
  | file info data next ih =>
    intro a
    simp only [allZeroFiles, Bool.and_eq_true, decide_eq_true_eq] at h
    have e : Int.tdiv 1023 1024 = 0 := by decide
    obtain ⟨n, f, t, l⟩ := a
    simp only [allocEntries, h.1, Int.zero_add, e, Int.add_zero, Int.sub_zero]
    rw [if_neg (by decide)]
    exact ih h.2 _
  | dir info sub next ihs ihn =>
    simp [allZeroFiles] at h


/-- C7, as stated, fails: a root of exactly 111 files of size 0 does not trigger the root
overflow; on the default floppy `Fill` returns `true` for it (with the volume label its
112 records fill the 112 slots of the root exactly). -/
theorem Fill_root_111_accepted :
    GetNbEntry (zeroFiles 111) = 111 ∧ allZeroFiles (zeroFiles 111) = true
      ∧ (Fill (Create 2 10 81) (zeroFiles 111)).1 = Diag.ok
      ∧ (Fill (Create 2 10 81) (zeroFiles 111)).1 ≠ Diag.tooMuchFiles := by
  have hn : GetNbEntry (zeroFiles 111) = 111 := by rw [GetNbEntry_zeroFiles]; rfl
  have hok : (Fill (Create 2 10 81) (zeroFiles 111)).1 = Diag.ok := by
    rw [(Fill_sim (Create 2 10 81) (zeroFiles 111) (by rw [hn]; decide) _ (allocOf_sim _)).1,
      allocEntries_allZeroFiles _ (allZeroFiles_zeroFiles 111)]
  refine ⟨hn, allZeroFiles_zeroFiles 111, hok, ?_⟩
  rw [hok]
  decide

/-- C7 (amended): a root directory with exactly 110 entries, all files of size 0, is
accepted by `Fill`; a root directory with exactly 111 such entries is accepted too; a
root directory with exactly 112 entries triggers the root overflow (`Fill` returns
`false`). -/
theorem Fill_root_boundary (s : CFloppy) (root : CDirectory) (hz : allZeroFiles root = true) :
    (GetNbEntry root = 110 → (Fill s root).1 = Diag.ok)
      ∧ (GetNbEntry root = 111 → (Fill s root).1 = Diag.ok)
      ∧ (GetNbEntry root = 112 →
          (Fill s root).1 = Diag.tooMuchFiles ∧ (Fill s root).1.toBool = false) := by
  have hle : GetNbEntry root ≤ 111 → (Fill s root).1 = Diag.ok := by
    intro h
    rw [(Fill_sim s root (by simp only [MAX_ROOT_ENTRY]; omega) _ (allocOf_sim _)).1,
      allocEntries_allZeroFiles _ hz]
  refine ⟨fun h => hle (by omega), fun h => hle (by omega), ?_⟩
  intro h
  have : Fill s root = (Diag.tooMuchFiles, s) := by
    unfold Fill
    rw [if_pos (by simp only [MAX_ROOT_ENTRY]; omega)]
  rw [this]
  exact ⟨rfl, rfl⟩

/-- Witness of C7 (amended): roots of 110, 111 and 112 files of size 0 on the default
floppy. -/
theorem Fill_root_boundary_witness :
    (Fill (Create 2 10 81) (zeroFiles 110)).1 = Diag.ok
      ∧ (Fill (Create 2 10 81) (zeroFiles 111)).1 = Diag.ok
      ∧ (Fill (Create 2 10 81) (zeroFiles 112)).1 = Diag.tooMuchFiles :=
  ⟨(Fill_root_boundary (Create 2 10 81) (zeroFiles 110) (allZeroFiles_zeroFiles 110)).1
      (by rw [GetNbEntry_zeroFiles]; rfl),
    (Fill_root_boundary (Create 2 10 81) (zeroFiles 111) (allZeroFiles_zeroFiles 111)).2.1
      (by rw [GetNbEntry_zeroFiles]; rfl),
    ((Fill_root_boundary (Create 2 10 81) (zeroFiles 112) (allZeroFiles_zeroFiles 112)).2.2
      (by rw [GetNbEntry_zeroFiles]; rfl)).1⟩

/-! ## Space exhaustion -/

theorem GetNbEntry_nonneg (d : CDirectory) : 0 ≤ GetNbEntry d := by
  induction d with
  | null => simp [GetNbEntry]
  | file info data next ih => simp only [GetNbEntry]; omega
  | dir info sub next ihs ihn => simp only [GetNbEntry]; omega

theorem tdiv_ceil (x : Int) (h : 0 ≤ x) : Int.tdiv (x + 1023) 1024 = ceilDiv x 1024 := by
  rw [Int.tdiv_eq_ediv (by omega) (by decide)]
  unfold ceilDiv
  omega

theorem ceilDiv_nonneg (x : Int) (h : 0 ≤ x) : 0 ≤ ceilDiv x 1024 := by
  unfold ceilDiv
  omega

theorem ceilDiv_pos (x : Int) (h : 0 < x) : 0 < ceilDiv x 1024 := by
  unfold ceilDiv
  omega

theorem specReqs_sum (es : CDirEntry) : (specReqs es).sum = specTotal es := by
  induction es with
  | null => rfl
  | file info data next ih => simp only [specReqs, specTotal, List.sum_cons, ih]
  | dir info sub next ihs ihn =>
    simp only [specReqs, specTotal, List.sum_cons, List.sum_append, ihs, ihn]
    omega

theorem specReqs_nonneg (es : CDirEntry) (h : sizesNonNeg es = true) :
    ∀ r ∈ specReqs es, 0 ≤ r := by
  induction es with
  | null => simp [specReqs]
  | file info data next ih =>
    simp only [sizesNonNeg, Bool.and_eq_true, decide_eq_true_eq] at h
    intro r hr
    simp only [specReqs, List.mem_cons] at hr
    rcases hr with hr | hr
    · rw [hr]; exact ceilDiv_nonneg _ h.1
    · exact ih h.2 r hr
  | dir info sub next ihs ihn =>
    simp only [sizesNonNeg, Bool.and_eq_true] at h
    intro r hr
    simp only [specReqs, List.mem_cons, List.mem_append] at hr
    rcases hr with hr | hr | hr
    · rw [hr]
      have := GetNbEntry_nonneg sub
      exact ceilDiv_nonneg _ (by omega)
    · exact ihs h.1 r hr
    · exact ihn h.2 r hr

theorem specFirstFail_append_none (xs ys : List Int) :
    ∀ f : Int, specFirstFail f xs = none →
      specFirstFail f (xs ++ ys) = specFirstFail (f - xs.sum) ys := by
  induction xs with
  | nil => intro f _; simp
  | cons x xs ih =>
    intro f h
    rw [List.cons_append, List.sum_cons]
    simp only [specFirstFail] at h ⊢
    split at h
    · simp at h
    · rename_i hx
      rw [if_neg hx, ih _ h]
      congr 1
      omega

theorem specFirstFail_append_some (xs ys : List Int) (p : Int × Int) :
    ∀ f : Int, specFirstFail f xs = some p → specFirstFail f (xs ++ ys) = some p := by
  induction xs with
  | nil => intro f h; simp [specFirstFail] at h
  | cons x xs ih =>
    intro f h
    rw [List.cons_append]
    simp only [specFirstFail] at h ⊢
    split at h
    · rename_i hx
      rw [if_pos hx]; exact h
    · rename_i hx
      rw [if_neg hx]; exact ih _ h

theorem specFirstFail_none_iff (rs : List Int) (hr : ∀ r ∈ rs, 0 ≤ r) :
    ∀ f : Int, specFirstFail f rs = none ↔ rs.sum ≤ f ∧ 0 ≤ f ∨ rs = [] := by
  induction rs with
  | nil => intro f; simp [specFirstFail]
  | cons r rs ih =>
    intro f
    have h0 : 0 ≤ r := hr r (by simp)
    have hs : 0 ≤ rs.sum := List.sum_nonneg (fun x hx => hr x (by simp [hx]))
    simp only [specFirstFail, List.sum_cons]
    split
    · rename_i h
      simp only [reduceCtorEq, false_iff, not_or]
      constructor
      · intro hh; omega
      · simp
    · rename_i h
      rw [ih (fun x hx => hr x (by simp [hx]))]
      constructor
      · intro hh
        left
        rcases hh with hh | hh
        · omega
        · subst hh
          simp only [List.sum_nil]
          omega
      · intro hh
        rcases hh with hh | hh
        · left; omega
        · simp at hh


/-- The allocation against the requirements in traversal order: when every requirement
fits, the build returns `true` having taken the total; otherwise it returns `false` with
"No more space on the disk." at the first requirement that does not fit, the clusters
still free being those left at that entry. -/
theorem allocEntries_space (es : CDirEntry) :
    ∀ a : Alloc, sizesNonNeg es = true → 0 ≤ a.free →
      (specFirstFail a.free (specReqs es) = none →
        (allocEntries a es).1 = Diag.ok
          ∧ (allocEntries a es).2.free = a.free - specTotal es
          ∧ (allocEntries a es).2.next = a.next + specTotal es
          ∧ 0 ≤ (allocEntries a es).2.free)
      ∧ (∀ p, specFirstFail a.free (specReqs es) = some p →
        (allocEntries a es).1 = Diag.noMoreSpace
          ∧ (allocEntries a es).2.free = p.1
          ∧ (allocEntries a es).2.next = a.next + (a.free - p.1)
          ∧ 0 ≤ (allocEntries a es).2.free) := by
  induction es with
  | null =>
    intro a _ h0
    simp [allocEntries, specReqs, specFirstFail, specTotal, h0]
  | file info data next ih =>
    intro a hs h0
    simp only [sizesNonNeg, Bool.and_eq_true, decide_eq_true_eq] at hs
    have hr := ceilDiv_nonneg _ hs.1
    simp only [allocEntries, specReqs, specFirstFail, specTotal, tdiv_ceil _ hs.1]
    generalize ceilDiv (GetSize info) 1024 = r at hr ⊢
    by_cases hpos : r > 0
    · rw [if_pos hpos]
      by_cases hfree : r > a.free
      · rw [if_pos hfree, if_pos hfree]
        refine ⟨fun h => by simp at h, ?_⟩
        intro p hp
        rw [← Option.some.inj hp]
        exact ⟨rfl, rfl, by simp, h0⟩
      · rw [if_neg hfree, if_neg hfree, if_pos hs.1]
        have := ih { next := a.next + r, free := a.free - r,
                     fat := fatStore (fatChain a.fat a.next (r - 1).toNat) (a.next + r - 1) (-1),
                     reserved := a.reserved ++ [(a.next, r)] } hs.2 (by simp only; omega)
        simp only at this
        refine ⟨fun h => ?_, fun p hp => ?_⟩
        · obtain ⟨h1, h2, h3, h4⟩ := this.1 h
          exact ⟨h1, by rw [h2]; omega, by rw [h3]; omega, h4⟩
        · obtain ⟨h1, h2, h3, h4⟩ := this.2 p hp
          exact ⟨h1, h2, by rw [h3]; omega, h4⟩
    · have hr0 : r = 0 := by omega
      subst hr0
      rw [if_neg (show ¬ ((0 : Int) > 0) by decide), if_neg (show ¬ ((0 : Int) > a.free) by omega)]
      have := ih { next := a.next + 0, free := a.free - 0, fat := a.fat,
                   reserved := a.reserved } hs.2 (by simp only; omega)
      simp only at this
      refine ⟨fun h => ?_, fun p hp => ?_⟩
      · obtain ⟨h1, h2, h3, h4⟩ := this.1 h
        exact ⟨h1, by rw [h2]; omega, by rw [h3]; omega, h4⟩
      · obtain ⟨h1, h2, h3, h4⟩ := this.2 p hp
        exact ⟨h1, h2, by rw [h3]; omega, h4⟩
  | dir info sub next ihs ihn =>
    intro a hs h0
    simp only [sizesNonNeg, Bool.and_eq_true] at hs
    have hn := GetNbEntry_nonneg sub
    have hr := ceilDiv_pos ((GetNbEntry sub + 2) * 32) (by omega)
    simp only [allocEntries, specReqs, specFirstFail, specTotal,
      tdiv_ceil ((GetNbEntry sub + 2) * 32) (by omega)]
    generalize ceilDiv ((GetNbEntry sub + 2) * 32) 1024 = r at hr ⊢
    by_cases hfree : r > a.free
    · rw [if_pos hfree, if_pos hfree]
      refine ⟨fun h => by simp at h, ?_⟩
      intro p hp
      rw [← Option.some.inj hp]
      exact ⟨rfl, rfl, by simp, h0⟩
    · rw [if_neg hfree, if_neg hfree]
      obtain ⟨a1, ha1⟩ : ∃ a1 : Alloc, a1 = Alloc.mk (a.next + r) (a.free - r)
          (fatStore (fatChain a.fat a.next (r - 1).toNat) (a.next + r - 1) (-1))
          (a.reserved ++ [(a.next, r)]) := ⟨_, rfl⟩
      rw [← ha1]
      have hf1 : a1.free = a.free - r := by rw [ha1]
      have hn1 : a1.next = a.next + r := by rw [ha1]
      have hsub := ihs a1 hs.1 (by rw [hf1]; omega)
      rw [hf1] at hsub
      cases hc : specFirstFail (a.free - r) (specReqs sub) with
      | none =>
        obtain ⟨h1, h2, h3, h4⟩ := hsub.1 hc
        rw [specFirstFail_append_none _ _ _ hc, specReqs_sum, h1, if_pos rfl]
        have hnext := ihn (allocEntries a1 sub).2 hs.2 h4
        rw [h2] at hnext
        refine ⟨fun h => ?_, fun p hp => ?_⟩
        · obtain ⟨k1, k2, k3, k4⟩ := hnext.1 h
          exact ⟨k1, by rw [k2]; omega, by rw [k3, h3, hn1]; omega, k4⟩
        · obtain ⟨k1, k2, k3, k4⟩ := hnext.2 p hp
          exact ⟨k1, k2, by rw [k3, h3, hn1]; omega, k4⟩
      | some q =>
        obtain ⟨h1, h2, h3, h4⟩ := hsub.2 q hc
        rw [specFirstFail_append_some _ _ _ _ hc, h1, if_neg (by decide)]
        refine ⟨fun h => by simp at h, ?_⟩
        intro p hp
        rw [← Option.some.inj hp]
        exact ⟨h1, h2, by rw [h3, hn1]; omega, h4⟩

theorem Create_maxFatEntry (a b c : Int) :
    (Create a b c).m_maxFatEntry = Int.tdiv (a * b * c - 18) 2 := by
  simp only [Create]
  rfl

theorem Create_nbFreeCluster (a b c : Int) :
    (Create a b c).m_nbFreeCluster = (Create a b c).m_maxFatEntry := by
  simp only [Create]

theorem Create_nextCluster (a b c : Int) : (Create a b c).m_nextCluster = 2 := by
  simp only [Create]

theorem Create_pFat (a b c : Int) :
    (Create a b c).m_pFat = List.replicate (Create a b c).m_maxFatEntry.toNat 0 := by
  simp only [Create]

/-! ## The fat table during the build -/

theorem fatStore_length (fat : List Int) (i v : Int) : (fatStore fat i v).length = fat.length := by
  unfold fatStore; split <;> simp

theorem fatStore_getElem? (fat : List Int) (i v : Int) (j : Nat) :
    (fatStore fat i v)[j]? = if i = (j : Int) ∧ j < fat.length then some v else fat[j]? := by
  unfold fatStore
  split
  · rename_i h0
    rw [List.getElem?_set]
    by_cases h : i.toNat = j
    · have h' : i = (j : Int) := by omega
      rw [if_pos h]
      by_cases hl : j < fat.length
      · rw [if_pos (by omega), if_pos ⟨h', hl⟩]
      · rw [if_neg (by omega), if_neg (by intro hh; exact hl hh.2)]
        exact (List.getElem?_eq_none (by omega)).symm
    · rw [if_neg h, if_neg (by intro hh; apply h; omega)]
  · rename_i h0
    rw [if_neg (by intro hh; apply h0; omega)]

theorem fatChain_length (fat : List Int) (c : Int) (n : Nat) :
    (fatChain fat c n).length = fat.length := by
  induction n with
  | zero => rfl
  | succ n ih => simp [fatChain, fatStore_length, ih]

theorem fatChain_getElem? (fat : List Int) (c : Int) (n j : Nat) :
    (fatChain fat c n)[j]?
      = if c ≤ (j : Int) ∧ (j : Int) < c + n ∧ j < fat.length then some ((j : Int) + 1)
        else fat[j]? := by
  induction n with
  | zero =>
    simp only [fatChain]
    rw [if_neg (by omega)]
  | succ n ih =>
    simp only [fatChain]
    rw [fatStore_getElem?, ih, fatChain_length]
    by_cases h1 : c + (n : Int) = (j : Int) ∧ j < fat.length
    · rw [if_pos h1, if_pos (by omega)]
      congr 1
      omega
    · rw [if_neg h1]
      by_cases h2 : c ≤ (j : Int) ∧ (j : Int) < c + n ∧ j < fat.length
      · rw [if_pos h2, if_pos (by push_cast; omega)]
      · rw [if_neg h2, if_neg (by push_cast; omega)]

/-- Reserving a range keeps the shape of the table. -/
theorem fatShape_reserve (fat : List Int) (c : Int) (n : Nat) (i : Int) (h : fatShape fat) :
    fatShape (fatStore (fatChain fat c n) i (-1)) := by
  intro d v hv
  rw [fatStore_getElem?, fatChain_getElem?] at hv
  split at hv
  · right; left
    exact (Option.some.inj hv).symm
  · split at hv
    · right; right
      exact (Option.some.inj hv).symm
    · exact h d v hv

theorem allocEntries_fatShape (es : CDirEntry) :
    ∀ a : Alloc, fatShape a.fat → fatShape (allocEntries a es).2.fat := by
  induction es with
  | null => intro a h; exact h
  | file info data next ih =>
    intro a h
    simp only [allocEntries]
    split
    · split
      · exact h
      · split
        · exact ih _ (fatShape_reserve _ _ _ _ h)
        · exact h
    · exact ih _ h
  | dir info sub next ihs ihn =>
    intro a h
    simp only [allocEntries]
    split
    · exact h
    · split
      · exact ihn _ (ihs _ (fatShape_reserve _ _ _ _ h))
      · exact ihs _ (fatShape_reserve _ _ _ _ h)

theorem fatShape_replicate (n : Nat) : fatShape (List.replicate n 0) := by
  intro d v hv
  rw [List.getElem?_replicate] at hv
  split at hv
  · left; exact (Option.some.inj hv).symm
  · simp at hv

/-- In a table of that shape no cluster from 2 on is the successor of two clusters. -/
theorem fatShape_injective (fat : List Int) (h : fatShape fat) (c : Int) (hc : 2 ≤ c)
    (d1 d2 : Nat) (h1 : fat[d1]? = some c) (h2 : fat[d2]? = some c) : d1 = d2 := by
  rcases h d1 c h1 with e | e | e
  · omega
  · omega
  · rcases h d2 c h2 with f | f | f
    · omega
    · omega
    · omega

/-! ## The reserved ranges -/

theorem reservedOk_reserve (a : Alloc) (n : Int) (fat : List Int) (h : reservedOk a)
    (h2 : 2 ≤ a.next) (hn : 0 < n) :
    reservedOk { next := a.next + n, free := a.free - n, fat := fat,
                 reserved := a.reserved ++ [(a.next, n)] } := by
  obtain ⟨hb, hp⟩ := h
  constructor
  · intro r hr
    simp only [List.mem_append, List.mem_singleton] at hr
    rcases hr with hr | hr
    · have := hb r hr
      simp only
      omega
    · subst hr
      simp only
      omega
  · simp only
    rw [List.pairwise_append]
    refine ⟨hp, List.pairwise_singleton _ _, ?_⟩
    intro x hx y hy
    rw [List.mem_singleton] at hy
    subst hy
    left
    exact (hb x hx).2.2

theorem allocEntries_reservedOk (es : CDirEntry) :
    ∀ a : Alloc, sizesNonNeg es = true → 2 ≤ a.next → reservedOk a →
      reservedOk (allocEntries a es).2 ∧ 2 ≤ (allocEntries a es).2.next := by
  induction es with
  | null => intro a _ h2 h; exact ⟨h, h2⟩
  | file info data next ih =>
    intro a hs h2 h
    simp only [sizesNonNeg, Bool.and_eq_true, decide_eq_true_eq] at hs
    have hr := ceilDiv_nonneg _ hs.1
    simp only [allocEntries, tdiv_ceil _ hs.1]
    generalize ceilDiv (GetSize info) 1024 = r at hr ⊢
    split
    · rename_i hpos
      split
      · exact ⟨h, h2⟩
      · rw [if_pos hs.1]
        exact ih _ hs.2 (by simp only; omega) (reservedOk_reserve a r _ h h2 hpos)
    · have hr0 : r = 0 := by omega
      subst hr0
      refine ih _ hs.2 (by simp only; omega) ?_
      obtain ⟨hb, hp⟩ := h
      exact ⟨fun x hx => by have := hb x hx; simp only; omega, hp⟩
  | dir info sub next ihs ihn =>
    intro a hs h2 h
    simp only [sizesNonNeg, Bool.and_eq_true] at hs
    have hn := GetNbEntry_nonneg sub
    have hr := ceilDiv_pos ((GetNbEntry sub + 2) * 32) (by omega)
    simp only [allocEntries, tdiv_ceil ((GetNbEntry sub + 2) * 32) (by omega)]
    generalize ceilDiv ((GetNbEntry sub + 2) * 32) 1024 = r at hr ⊢
    split
    · exact ⟨h, h2⟩
    · have hsub := ihs _ hs.1 (by simp only; omega) (reservedOk_reserve a r
        (fatStore (fatChain a.fat a.next (r - 1).toNat) (a.next + r - 1) (-1)) h h2 hr)
      split
      · exact ihn _ hs.2 hsub.2 hsub.1
      · exact hsub

/-- `Fill` and its allocation view. -/
theorem Fill_FillAlloc (s : CFloppy) (root : CDirectory) :
    (Fill s root).1 = (FillAlloc s root).1 ∧ Sim (Fill s root).2 (FillAlloc s root).2 := by
  by_cases h : GetNbEntry root + 1 > MAX_ROOT_ENTRY
  · have h1 : Fill s root = (Diag.tooMuchFiles, s) := by
      unfold Fill; rw [if_pos h]
    have h2 : FillAlloc s root = (Diag.tooMuchFiles, allocOf s) := by
      unfold FillAlloc; rw [if_pos h]
    rw [h1, h2]
    exact ⟨rfl, allocOf_sim s⟩
  · have h2 : FillAlloc s root = allocEntries (allocOf s) root := by
      unfold FillAlloc; rw [if_neg h]
    rw [h2]
    exact Fill_sim s root h _ (allocOf_sim s)

theorem FillAlloc_fatShape (s : CFloppy) (root : CDirectory) (h : fatShape s.m_pFat) :
    fatShape (FillAlloc s root).2.fat := by
  unfold FillAlloc
  split
  · exact h
  · exact allocEntries_fatShape root _ h

theorem FillAlloc_reservedOk (s : CFloppy) (root : CDirectory) (hs : sizesNonNeg root = true)
    (h2 : 2 ≤ s.m_nextCluster) : reservedOk (FillAlloc s root).2 := by
  have h0 : reservedOk (allocOf s) := by
    constructor
    · intro r hr; simp [allocOf] at hr
    · simp [allocOf]
  unfold FillAlloc
  split
  · exact h0
  · exact (allocEntries_reservedOk root _ hs h2 h0).1


/-! ## A file that takes every cluster of the default floppy -/

theorem allocOf_Create_default :
    allocOf (Create 2 10 81)
      = { next := 2, free := 801, fat := List.replicate 801 0, reserved := [] } := by
  simp only [allocOf, Create_nextCluster, Create_nbFreeCluster, Create_pFat, Create_maxFatEntry]
  rfl

theorem FillAlloc_oneFile801K :
    FillAlloc (Create 2 10 81) oneFile801K
      = (Diag.ok, { next := 803, free := 0,
                    fat := fatStore (fatChain (List.replicate 801 0) 2 800) 802 (-1),
                    reserved := [(2, 801)] }) := by
  have e : Int.tdiv (820224 + 1023) 1024 = 801 := by decide
  unfold FillAlloc
  rw [if_neg (by decide), allocOf_Create_default]
  simp only [oneFile801K, allocEntries, GetSize, e]
  rw [if_pos (by decide), if_neg (by decide), if_pos (by decide)]
  rfl

theorem fat_oneFile801K (j : Nat) :
    (fatStore (fatChain (List.replicate 801 0) 2 800) 802 (-1))[j]?
      = if 2 ≤ j ∧ j < 801 then some ((j : Int) + 1) else if j < 801 then some 0 else none := by
  rw [fatStore_getElem?, fatChain_getElem?, fatChain_length, List.length_replicate,
    List.getElem?_replicate]
  rw [if_neg (by omega)]
  by_cases h : 2 ≤ j ∧ j < 801
  · rw [if_pos (by omega), if_pos h]
  · rw [if_neg (by omega), if_neg h]

/-- In a table where every cluster from 2 up to `n - 1` points to the next cluster and
cluster `n` has no entry, the chain from any cluster `2..n` leaves the table before it
meets an end-of-chain marker. -/
theorem specChain_leaves_table (fat : List Int) (n : Nat)
    (hrun : ∀ j : Nat, 2 ≤ j → j < n → fat[j]? = some ((j : Int) + 1))
    (hend : fat[n]? = none) (fuel : Nat) :
    ∀ c : Int, 2 ≤ c → c ≤ (n : Int) → specChain fat fuel c = none := by
  induction fuel with
  | zero => intro c _ _; rfl
  | succ fuel ih =>
    intro c h2 hn
    obtain ⟨j, rfl⟩ : ∃ j : Nat, c = (j : Int) := ⟨c.toNat, by omega⟩
    simp only [specChain, Int.toNat_ofNat]
    rw [if_pos (by omega)]
    by_cases h : j < n
    · rw [hrun j (by omega) h]
      simp only
      rw [if_neg (by omega), ih _ (by omega) (by omega)]
      rfl
    · have : j = n := by omega
      rw [this, hend]

/-- C9 fails on the code: one file of 820224 bytes (801 clusters) on the default floppy.
`Fill` returns `true` and reserves the clusters 2..802 for the file, but the fat table
has 801 entries (indices 0..800): the entry of cluster 800 points to cluster 801, the
entries of clusters 801 and 802 (where the chain should go on and end with -1) do not
exist, so the chain from first cluster 2 never meets the end-of-chain marker. -/
theorem Fill_chain_leaves_table :
    (Fill (Create 2 10 81) oneFile801K).1 = Diag.ok
      ∧ (FillAlloc (Create 2 10 81) oneFile801K).2.reserved = [(2, 801)]
      ∧ ceilDiv 820224 1024 = 801
      ∧ (Fill (Create 2 10 81) oneFile801K).2.m_pFat.length = 801
      ∧ (Fill (Create 2 10 81) oneFile801K).2.m_pFat[800]? = some 801
      ∧ (Fill (Create 2 10 81) oneFile801K).2.m_pFat[801]? = none
      ∧ (Fill (Create 2 10 81) oneFile801K).2.m_pFat[802]? = none
      ∧ ∀ fuel : Nat, specChain (Fill (Create 2 10 81) oneFile801K).2.m_pFat fuel 2 = none := by
  have hsim := Fill_FillAlloc (Create 2 10 81) oneFile801K
  rw [FillAlloc_oneFile801K] at hsim
  obtain ⟨h1, -, -, h4⟩ := hsim
  simp only at h4
  rw [h1, h4, FillAlloc_oneFile801K]
  refine ⟨rfl, rfl, by decide, ?_, ?_, ?_, ?_, ?_⟩
  · rw [fatStore_length, fatChain_length, List.length_replicate]
  · rw [fat_oneFile801K]; rfl
  · rw [fat_oneFile801K]; rfl
  · rw [fat_oneFile801K]; rfl
  · intro fuel
    refine specChain_leaves_table _ 801 ?_ ?_ fuel 2 (by decide) (by decide)
    · intro j h2 hj
      rw [fat_oneFile801K, if_pos ⟨h2, hj⟩]
    · rw [fat_oneFile801K]; rfl

theorem specChain_next (fat : List Int) (fuel : Nat) (c v : Int) (h0 : 0 ≤ c)
    (hv : fat[c.toNat]? = some v) (hne : v ≠ -1) :
    specChain fat (fuel + 1) c = (specChain fat fuel v).map (fun l => c :: l) := by
  simp only [specChain]
  rw [if_pos h0, hv]
  simp only
  rw [if_neg hne]

theorem specChain_end (fat : List Int) (fuel : Nat) (c : Int) (h0 : 0 ≤ c)
    (hv : fat[c.toNat]? = some (-1)) : specChain fat (fuel + 1) c = some [c] := by
  simp only [specChain]
  rw [if_pos h0, hv]
  simp

/-- The example of C9: one file of 2049 bytes takes the clusters 2, 3, 4, with
`fat[2] = 3`, `fat[3] = 4`, `fat[4] = -1`; its chain is 2, 3, 4. -/
theorem Fill_oneFile2049 :
    (Fill (Create 2 10 81) oneFile2049).1 = Diag.ok
      ∧ (Fill (Create 2 10 81) oneFile2049).2.m_pFat[2]? = some 3
      ∧ (Fill (Create 2 10 81) oneFile2049).2.m_pFat[3]? = some 4
      ∧ (Fill (Create 2 10 81) oneFile2049).2.m_pFat[4]? = some (-1)
      ∧ specChain (Fill (Create 2 10 81) oneFile2049).2.m_pFat 3 2 = some [2, 3, 4] := by
  have hsim := Fill_FillAlloc (Create 2 10 81) oneFile2049
  have hA : FillAlloc (Create 2 10 81) oneFile2049
      = (Diag.ok, { next := 5, free := 798,
                    fat := fatStore (fatChain (List.replicate 801 0) 2 2) 4 (-1),
                    reserved := [(2, 3)] }) := by
    have e : Int.tdiv (2049 + 1023) 1024 = 3 := by decide
    unfold FillAlloc
    rw [if_neg (by decide), allocOf_Create_default]
    simp only [oneFile2049, allocEntries, GetSize, e]
    rw [if_pos (by decide), if_neg (by decide), if_pos (by decide)]
    rfl
  rw [hA] at hsim
  obtain ⟨h1, -, -, h4⟩ := hsim
  simp only at h4
  have hg : ∀ j : Nat, (fatStore (fatChain (List.replicate 801 0) 2 2) 4 (-1))[j]?
      = if (4 : Int) = j ∧ j < 801 then some (-1)
        else if (2 : Int) ≤ j ∧ (j : Int) < 2 + (2 : Nat) ∧ j < 801 then some ((j : Int) + 1)
        else if j < 801 then some 0 else none := by
    intro j
    rw [fatStore_getElem?, fatChain_getElem?, fatChain_length, List.length_replicate,
      List.getElem?_replicate]
  rw [h1, h4]
  refine ⟨rfl, ?_, ?_, ?_, ?_⟩
  · rw [hg]; rfl
  · rw [hg]; rfl
  · rw [hg]; rfl
  · rw [specChain_next _ 2 2 3 (by decide) (by rw [hg]; rfl) (by decide),
      specChain_next _ 1 3 4 (by decide) (by rw [hg]; rfl) (by decide),
      specChain_end _ 0 4 (by decide) (by rw [hg]; rfl)]
    rfl


/-! ## Chains of the reserved ranges that lie in the table -/

theorem clusterRange_succ (c : Int) (n : Nat) :
    clusterRange c (n + 1) = c :: clusterRange (c + 1) n := rfl

/-- A range whose entries form a chain gives, by following the table from its first
cluster, exactly its clusters in order. -/
theorem specChain_of_chainOk (fat : List Int) (n : Nat) :
    ∀ c : Int, 0 ≤ c → chainOk fat (c, ((n + 1 : Nat) : Int)) →
      specChain fat (n + 1) c = some (clusterRange c (n + 1)) := by
  induction n with
  | zero =>
    intro c h0 h
    have hlast := h.2
    simp only [Nat.zero_add, Nat.cast_one] at hlast
    rw [show c + 1 - 1 = c by omega] at hlast
    rw [specChain_end fat 0 c h0 hlast]
    rfl
  | succ n ih =>
    intro c h0 h
    have hfirst := h.1 0 (by push_cast; omega)
    simp only [Nat.cast_zero, Int.add_zero] at hfirst
    rw [specChain_next fat (n + 1) c (c + 1) h0 hfirst (by omega),
      ih (c + 1) (by omega) ?_, clusterRange_succ c (n + 1)]
    · rfl
    · unfold chainOk
      constructor
      · intro i hi
        have := h.1 (i + 1) (by push_cast at hi ⊢; omega)
        simp only at this ⊢
        rw [show c + 1 + (i : Int) = c + ((i + 1 : Nat) : Int) by push_cast; omega]
        rw [this]
      · have := h.2
        simp only at this ⊢
        rw [show c + 1 + ((n + 1 : Nat) : Int) - 1 = c + ((n + 1 + 1 : Nat) : Int) - 1 by
          push_cast; omega]
        exact this

theorem chainsOk_reserve (a : Alloc) (n : Int) (h : chainsOk a) (hr : reservedOk a)
    (h2 : 2 ≤ a.next) (hn : 0 < n) :
    chainsOk { next := a.next + n, free := a.free - n,
               fat := fatStore (fatChain a.fat a.next (n - 1).toNat) (a.next + n - 1) (-1),
               reserved := a.reserved ++ [(a.next, n)] } := by
  intro r hmem hlen
  simp only [fatStore_length, fatChain_length] at hlen
  simp only [List.mem_append, List.mem_singleton] at hmem
  simp only [chainOk]
  rcases hmem with hmem | hmem
  · obtain ⟨hi, hl⟩ := h r hmem hlen
    obtain ⟨hr2, hrpos, hrnext⟩ := hr.1 r hmem
    constructor
    · intro i hlt
      rw [fatStore_getElem?, fatChain_getElem?, if_neg (by omega), if_neg (by omega)]
      exact hi i hlt
    · rw [fatStore_getElem?, fatChain_getElem?, if_neg (by omega), if_neg (by omega)]
      exact hl
  · subst hmem
    simp only at hlen ⊢
    constructor
    · intro i hlt
      rw [fatStore_getElem?, fatChain_getElem?, if_neg (by omega), if_pos (by omega)]
      congr 1
      omega
    · rw [fatStore_getElem?, fatChain_length, if_pos (by omega)]

theorem allocEntries_chainsOk (es : CDirEntry) :
    ∀ a : Alloc, sizesNonNeg es = true → 2 ≤ a.next → reservedOk a → chainsOk a →
      chainsOk (allocEntries a es).2 := by
  induction es with
  | null => intro a _ _ _ h; exact h
  | file info data next ih =>
    intro a hs h2 hr h
    simp only [sizesNonNeg, Bool.and_eq_true, decide_eq_true_eq] at hs
    have hc := ceilDiv_nonneg _ hs.1
    simp only [allocEntries, tdiv_ceil _ hs.1]
    generalize ceilDiv (GetSize info) 1024 = r at hc ⊢
    split
    · rename_i hpos
      split
      · exact h
      · rw [if_pos hs.1]
        exact ih _ hs.2 (by simp only; omega) (reservedOk_reserve a r _ hr h2 hpos)
          (chainsOk_reserve a r h hr h2 hpos)
    · have hr0 : r = 0 := by omega
      subst hr0
      refine ih _ hs.2 (by simp only; omega) ?_ h
      obtain ⟨hb, hp⟩ := hr
      exact ⟨fun x hx => by have := hb x hx; simp only; omega, hp⟩
  | dir info sub next ihs ihn =>
    intro a hs h2 hr h
    simp only [sizesNonNeg, Bool.and_eq_true] at hs
    have hn := GetNbEntry_nonneg sub
    have hc := ceilDiv_pos ((GetNbEntry sub + 2) * 32) (by omega)
    simp only [allocEntries, tdiv_ceil ((GetNbEntry sub + 2) * 32) (by omega)]
    generalize ceilDiv ((GetNbEntry sub + 2) * 32) 1024 = r at hc ⊢
    split
    · exact h
    · have hrsub := allocEntries_reservedOk sub _ hs.1 (by simp only; omega)
        (reservedOk_reserve a r
          (fatStore (fatChain a.fat a.next (r - 1).toNat) (a.next + r - 1) (-1)) hr h2 hc)
      have hsub := ihs _ hs.1 (by simp only; omega)
        (reservedOk_reserve a r
          (fatStore (fatChain a.fat a.next (r - 1).toNat) (a.next + r - 1) (-1)) hr h2 hc)
        (chainsOk_reserve a r h hr h2 hc)
      split
      · exact ihn _ hs.2 hrsub.2 hrsub.1 hsub
      · exact hsub

/-- The part of C9 that holds on the code: after `Fill` on a freshly created floppy, for a
tree whose file sizes are non-negative, every reserved range (first cluster `c`, `n`
clusters, `n` being `ceil(size/1024)` for a file and `ceil((entries+2)*32/1024)` for a
sub-directory) that lies inside the fat table has the chain `c, c+1, ..., c+n-1`, ended
by the end-of-chain marker. -/
theorem Fill_chains_in_table (nbSide nbSectorPerTrack nbCylinder : Int) (root : CDirectory)
    (hs : sizesNonNeg root = true) :
    ∀ r ∈ (FillAlloc (Create nbSide nbSectorPerTrack nbCylinder) root).2.reserved,
      r.1 + r.2 ≤ ((Fill (Create nbSide nbSectorPerTrack nbCylinder) root).2.m_pFat.length : Int) →
        specChain (Fill (Create nbSide nbSectorPerTrack nbCylinder) root).2.m_pFat r.2.toNat r.1
          = some (clusterRange r.1 r.2.toNat) := by
  intro r hr hlen
  have hsim := Fill_FillAlloc (Create nbSide nbSectorPerTrack nbCylinder) root
  rw [hsim.2.2.2] at hlen ⊢
  have hok := FillAlloc_reservedOk (Create nbSide nbSectorPerTrack nbCylinder) root hs
    (by rw [Create_nextCluster])
  have h0 : reservedOk (allocOf (Create nbSide nbSectorPerTrack nbCylinder)) := by
    constructor
    · intro r hr; simp [allocOf] at hr
    · simp [allocOf]
  have hc0 : chainsOk (allocOf (Create nbSide nbSectorPerTrack nbCylinder)) := by
    intro r hr; simp [allocOf] at hr
  have hch : chainsOk (FillAlloc (Create nbSide nbSectorPerTrack nbCylinder) root).2 := by
    unfold FillAlloc
    split
    · exact hc0
    · exact allocEntries_chainsOk root _ hs (by simp only [allocOf]; rw [Create_nextCluster])
        h0 hc0
  obtain ⟨hr2, hrpos, -⟩ := hok.1 r hr
  obtain ⟨n, hn⟩ : ∃ n : Nat, r.2 = ((n + 1 : Nat) : Int) := ⟨(r.2 - 1).toNat, by omega⟩
  have hck := hch r hr hlen
  have e : r = (r.1, ((n + 1 : Nat) : Int)) := by rw [← hn]
  rw [e] at hck
  rw [hn, Int.toNat_ofNat]
  exact specChain_of_chainOk _ n r.1 (by omega) hck


/-! ## Chains never alias -/

/-! ## The FAT written by `FAT_Flush` -/

theorem opt_if_pos {c : Prop} [Decidable c] (h : c) (x y : Option Nat) :
    (if c then x else y) = x := if_pos h

theorem opt_if_neg {c : Prop} [Decidable c] (h : ¬ c) (x y : Option Nat) :
    (if c then x else y) = y := if_neg h

theorem nat_if_pos {c : Prop} [Decidable c] (h : c) (x y : Nat) :
    (if c then x else y) = x := if_pos h

theorem nat_if_neg {c : Prop} [Decidable c] (h : ¬ c) (x y : Nat) :
    (if c then x else y) = y := if_neg h

theorem fatPack_getElem? (fat : List Int) (m : Int) (fuel : Nat) (i p : Int)
    (img : List Nat) (j : Nat) :
    (fatPack fat m fuel i p img)[j]?
      = if p ≤ (j : Int) ∧ j < img.length ∧ ((j : Int) - p) / 3 < fuel
            ∧ i + 2 * (((j : Int) - p) / 3) < m then
          some ((fatGroup fat m (i + 2 * (((j : Int) - p) / 3))).getD
            (((j : Int) - p) % 3).toNat 0)
        else img[j]? := by
  induction fuel generalizing i p img with
  | zero =>
    simp only [fatPack]
    rw [opt_if_neg (by push_cast; omega)]
  | succ n ih =>
    simp only [fatPack]
    split
    · rename_i him
      rw [ih]
      simp only [poke_length]
      by_cases hc : p + 3 ≤ (j : Int)
      · have e1 : i + 2 + 2 * (((j : Int) - (p + 3)) / 3) = i + 2 * (((j : Int) - p) / 3) := by
          omega
        have e2 : ((j : Int) - (p + 3)) % 3 = ((j : Int) - p) % 3 := by omega
        rw [e1, e2]
        by_cases hd : j < img.length ∧ ((j : Int) - (p + 3)) / 3 < n
            ∧ i + 2 * (((j : Int) - p) / 3) < m
        · rw [opt_if_pos ⟨hc, hd.1, hd.2.1, hd.2.2⟩, opt_if_pos ⟨by omega, hd.1, by push_cast; omega, hd.2.2⟩]
        · have hd2 : ¬ (p ≤ (j : Int) ∧ j < img.length ∧ ((j : Int) - p) / 3 < ((n + 1 : Nat) : Int)
              ∧ i + 2 * (((j : Int) - p) / 3) < m) := by
            intro hh
            apply hd
            refine ⟨hh.2.1, ?_, hh.2.2.2⟩
            have := hh.2.2.1
            push_cast at this
            omega
          rw [opt_if_neg (by intro hh; exact hd ⟨hh.2.1, hh.2.2.1, hh.2.2.2⟩), opt_if_neg hd2]
          rw [poke_getElem?, opt_if_neg (by omega), poke_getElem?, opt_if_neg (by omega),
            poke_getElem?, opt_if_neg (by omega)]
      · rw [opt_if_neg (by intro hh; exact hc hh.1)]
        by_cases hp : p ≤ (j : Int) ∧ j < img.length
        · have hk : ((j : Int) - p) / 3 = 0 := by omega
          rw [opt_if_pos ⟨hp.1, hp.2, by rw [hk]; push_cast; omega, by rw [hk]; omega⟩, hk]
          simp only [Int.mul_zero, Int.add_zero]
          rcases (by omega : (j : Int) = p ∨ (j : Int) = p + 1 ∨ (j : Int) = p + 2) with h | h | h
          · rw [poke_getElem?, opt_if_neg (by omega), poke_getElem?, opt_if_neg (by omega),
              poke_getElem?, opt_if_pos ⟨h.symm, hp.2⟩]
            have : (((j : Int) - p) % 3).toNat = 0 := by omega
            rw [this]; rfl
          · rw [poke_getElem?, opt_if_neg (by omega), poke_getElem?,
              opt_if_pos ⟨h.symm, by rw [poke_length]; exact hp.2⟩]
            have : (((j : Int) - p) % 3).toNat = 1 := by omega
            rw [this]; rfl
          · rw [poke_getElem?, opt_if_pos ⟨h.symm, by rw [poke_length, poke_length]; exact hp.2⟩]
            have : (((j : Int) - p) % 3).toNat = 2 := by omega
            rw [this]; rfl
        · rw [opt_if_neg (by intro hh; exact hp ⟨hh.1, hh.2.1⟩)]
          rw [poke_getElem?, poke_getElem?, poke_getElem?]
          simp only [poke_length]
          rw [opt_if_neg (by omega), opt_if_neg (by omega), opt_if_neg (by omega)]
    · rename_i him
      rw [opt_if_neg]
      intro hh
      have h1 := hh.1
      have h2 := hh.2.2.2
      have : 0 ≤ ((j : Int) - p) / 3 := by omega
      omega

theorem FAT_Flush_eq (s : CFloppy) :
    (FAT_Flush s).m_pRawImage
      = memcpy (fatFirstCopy s) 3072 ((fatFirstCopy s).drop 512) 2560 := by
  simp only [FAT_Flush, fatFirstCopy]
  rfl

theorem fatFirstCopy_length (s : CFloppy) : (fatFirstCopy s).length = s.m_pRawImage.length := by
  simp only [fatFirstCopy, fatPack_length, poke_length, memset_length]

theorem fatGroup_getD_lt (fat : List Int) (m i : Int) (r : Nat) :
    (fatGroup fat m i).getD r 0 < 256 := by
  unfold fatGroup
  match r with
  | 0 => exact Nat.mod_lt _ (by norm_num)
  | 1 => exact Nat.mod_lt _ (by norm_num)
  | 2 => exact Nat.mod_lt _ (by norm_num)
  | r + 3 => simp

theorem fatByte_lt (s : CFloppy) (o : Nat) : fatByte s o < 256 := by
  unfold fatByte
  split
  · norm_num
  · split
    · norm_num
    · split
      · exact fatGroup_getD_lt _ _ _ _
      · norm_num

/-- Every byte of the first FAT copy after the packing loop. -/
theorem fatFirstCopy_getElem? (s : CFloppy) (o : Nat) (ho : o < 2560)
    (hlen : 3072 ≤ s.m_pRawImage.length) :
    (fatFirstCopy s)[512 + o]? = some (fatByte s o) := by
  unfold fatFirstCopy
  rw [fatPack_getElem?]
  simp only [poke_length, memset_length]
  unfold fatByte
  by_cases h3 : o < 3
  · rw [opt_if_neg (by push_cast; omega)]
    rw [poke_getElem?, poke_getElem?, poke_getElem?, memset_getElem?]
    simp only [poke_length, memset_length]
    rcases (by omega : o = 0 ∨ o = 1 ∨ o = 2) with h | h | h
    · subst h
      rw [opt_if_neg (by omega), opt_if_neg (by omega), opt_if_pos (by omega)]
      rfl
    · subst h
      rw [opt_if_neg (by omega), opt_if_pos (by omega)]
      rfl
    · subst h
      rw [opt_if_pos (by omega)]
      rfl
  · have hk : (((512 + o : Nat) : Int) - 515) / 3 = (((o - 3) / 3 : Nat) : Int) := by
      push_cast; omega
    have hr : ((((512 + o : Nat) : Int) - 515) % 3).toNat = (o - 3) % 3 := by
      push_cast; omega
    rw [hk, hr, nat_if_neg (by omega), nat_if_neg h3]
    by_cases hg : (o - 3) / 3 < fatGroups s.m_maxFatEntry
    · rw [nat_if_pos hg, opt_if_pos]
      unfold fatGroups at hg
      refine ⟨by push_cast; omega, by omega, by omega, by omega⟩
    · rw [nat_if_neg hg, opt_if_neg]
      · rw [poke_getElem?, poke_getElem?, poke_getElem?, memset_getElem?]
        rw [opt_if_neg (by omega), opt_if_neg (by omega), opt_if_neg (by omega),
          opt_if_pos (by omega)]
      · unfold fatGroups at hg
        intro hh
        apply hg
        omega

theorem FAT_Flush_getElem?_first (s : CFloppy) (o : Nat) (ho : o < 2560)
    (hlen : 3072 ≤ s.m_pRawImage.length) :
    (FAT_Flush s).m_pRawImage[512 + o]? = some (fatByte s o) := by
  rw [FAT_Flush_eq, memcpy_getElem?, opt_if_neg (by push_cast; omega),
    fatFirstCopy_getElem? s o ho hlen]

theorem FAT_Flush_getElem?_second (s : CFloppy) (o : Nat) (ho : o < 2560)
    (hlen : 5632 ≤ s.m_pRawImage.length) :
    (FAT_Flush s).m_pRawImage[3072 + o]? = some (fatByte s o) := by
  rw [FAT_Flush_eq, memcpy_getElem?, fatFirstCopy_length,
    opt_if_pos (by push_cast; omega)]
  have e : (((3072 + o : Nat) : Int) - 3072).toNat = o := by push_cast; omega
  rw [e, List.getD_eq_getElem?_getD, List.getElem?_drop,
    fatFirstCopy_getElem? s o ho (by omega)]
  simp only [Option.getD_some]
  rw [Nat.mod_eq_of_lt (fatByte_lt s o)]

/-- C11: after `FAT_Flush` the two FAT copies are byte-identical: whatever the fat table
and `m_maxFatEntry` hold, for every `i` below `5 * 512` the image bytes at `512 + i` and
at `512 + 5 * 512 + i` are the same byte, for an image that holds both copies. -/
theorem FAT_Flush_copies_identical (s : CFloppy) (hlen : 11 * 512 ≤ s.m_pRawImage.length)
    (i : Nat) (hi : i < 5 * 512) :
    ∃ v, (FAT_Flush s).m_pRawImage[512 + i]? = some v
      ∧ (FAT_Flush s).m_pRawImage[512 + 5 * 512 + i]? = some v :=
  ⟨fatByte s i, FAT_Flush_getElem?_first s i hi (by omega),
    FAT_Flush_getElem?_second s i hi (by omega)⟩

/-- Witness of C11: the default floppy, byte 7 of the FAT copies. -/
theorem FAT_Flush_copies_identical_witness :
    11 * 512 ≤ (Create 2 10 81).m_pRawImage.length ∧
    ∃ v, (FAT_Flush (Create 2 10 81)).m_pRawImage[512 + 7]? = some v
      ∧ (FAT_Flush (Create 2 10 81)).m_pRawImage[512 + 5 * 512 + 7]? = some v :=
  ⟨by rw [Create_length]; decide,
    FAT_Flush_copies_identical (Create 2 10 81) (by rw [Create_length]; decide) 7 (by decide)⟩

/-! ### Reading the packed entries back -/

theorem fat12_unpack (a b : Nat) (ha : a < 4096) (hb : b < 4096) :
    (a &&& 0xff) % 256 ||| (((((a >>> 8) ||| ((b &&& 0xf) <<< 4)) % 256) &&& 0x0F) <<< 8) = a
    ∧ ((((a >>> 8) ||| ((b &&& 0xf) <<< 4)) % 256) >>> 4) ||| (((b >>> 4) % 256) <<< 4) = b := by
  have e15 : ∀ x : Nat, x &&& 15 = x % 16 := fun x => Nat.and_pow_two_sub_one_eq_mod x 4
  have e255 : ∀ x : Nat, x &&& 255 = x % 256 := fun x => Nat.and_pow_two_sub_one_eq_mod x 8
  have s8 : ∀ x : Nat, x >>> 8 = x / 256 := fun x => Nat.shiftRight_eq_div_pow x 8
  have s4 : ∀ x : Nat, x >>> 4 = x / 16 := fun x => Nat.shiftRight_eq_div_pow x 4
  have l4 : ∀ x : Nat, x <<< 4 = x * 16 := fun x => Nat.shiftLeft_eq x 4
  have l8 : ∀ x : Nat, x <<< 8 = x * 256 := fun x => Nat.shiftLeft_eq x 8
  rw [e255, e15, e15, s8, l4, l8, s4, s4, l4]
  have h1 : a / 256 ||| b % 16 * 16 = 16 * (b % 16) + a / 256 := by
    rw [Nat.lor_comm, Nat.mul_comm]
    exact (Nat.mul_add_lt_is_or (i := 4) (by omega) _).symm
  rw [h1]
  constructor
  · have h2 : (16 * (b % 16) + a / 256) % 256 % 16 = a / 256 := by omega
    rw [h2, Nat.mod_mod, Nat.lor_comm, Nat.mul_comm]
    rw [← Nat.mul_add_lt_is_or (i := 8) (Nat.mod_lt _ (by norm_num))]
    omega
  · have h3 : (16 * (b % 16) + a / 256) % 256 / 16 = b % 16 := by omega
    have h4 : b / 16 % 256 = b / 16 := by omega
    rw [h3, h4, Nat.lor_comm, Nat.mul_comm]
    rw [← Nat.mul_add_lt_is_or (i := 4) (Nat.mod_lt _ (by norm_num))]
    omega

theorem fat12_lt (fat : List Int) (i : Int) : fat12 fat i < 4096 := by
  unfold fat12; omega

theorem fat12_of_getElem? (fat : List Int) (i : Nat) (v : Int) (h : fat[i]? = some v) :
    fat12 fat (i : Int) = (v % 4096).toNat := by
  unfold fat12
  rw [Int.toNat_ofNat, List.getD_eq_getElem?_getD, h]
  rfl

theorem firstFat_getD (img : List Nat) (o : Nat) (ho : o < 2560) :
    (firstFat img).getD o 0 = (img[512 + o]?).getD 0 := by
  unfold firstFat
  rw [List.getD_eq_getElem?_getD, List.getElem?_take_of_lt (by omega), List.getElem?_drop]

theorem firstFat_FAT_Flush (s : CFloppy) (o : Nat) (ho : o < 2560)
    (hlen : 3072 ≤ s.m_pRawImage.length) :
    (firstFat (FAT_Flush s).m_pRawImage).getD o 0 = fatByte s o := by
  rw [firstFat_getD _ _ ho, FAT_Flush_getElem?_first s o ho hlen]
  rfl

theorem fatByte_group (s : CFloppy) (k r : Nat) (hr : r < 3)
    (hk : 2 + 2 * (k : Int) < s.m_maxFatEntry) :
    fatByte s (3 + 3 * k + r)
      = (fatGroup s.m_pFat s.m_maxFatEntry (2 + 2 * (k : Int))).getD r 0 := by
  unfold fatByte
  have e1 : (3 + 3 * k + r - 3) / 3 = k := by omega
  have e2 : (3 + 3 * k + r - 3) % 3 = r := by omega
  rw [nat_if_neg (by omega), nat_if_neg (by omega), e1, e2, nat_if_pos]
  unfold fatGroups
  omega

/-- The two entries of a group, read back from the first FAT copy. -/
theorem FAT_Flush_group (s : CFloppy) (k : Nat) (hlen : 3072 ≤ s.m_pRawImage.length)
    (hk : 2 + 2 * (k : Int) < s.m_maxFatEntry) (hfit : 3 + 3 * k + 2 < 2560) :
    specFat12Entry (firstFat (FAT_Flush s).m_pRawImage) (2 + 2 * k)
        = fat12 s.m_pFat (2 + 2 * (k : Int))
    ∧ specFat12Entry (firstFat (FAT_Flush s).m_pRawImage) (2 + 2 * k + 1)
        = if 2 + 2 * (k : Int) + 1 < s.m_maxFatEntry then fat12 s.m_pFat (2 + 2 * (k : Int) + 1)
          else 0 := by
  have hb : (if 2 + 2 * (k : Int) + 1 < s.m_maxFatEntry then
      fat12 s.m_pFat (2 + 2 * (k : Int) + 1) else 0) < 4096 := by
    split
    · exact fat12_lt _ _
    · norm_num
  have key := fat12_unpack _ _ (fat12_lt s.m_pFat (2 + 2 * (k : Int))) hb
  have b0 := fatByte_group s k 0 (by omega) hk
  have b1 := fatByte_group s k 1 (by omega) hk
  have b2 := fatByte_group s k 2 (by omega) hk
  constructor
  · unfold specFat12Entry
    have eo : 3 * (2 + 2 * k) / 2 = 3 + 3 * k + 0 := by omega
    have eo1 : 3 + 3 * k + 0 + 1 = 3 + 3 * k + 1 := by omega
    simp only []
    rw [nat_if_pos (by omega), eo, eo1, firstFat_FAT_Flush s _ (by omega) hlen,
      firstFat_FAT_Flush s _ (by omega) hlen, b0, b1]
    exact key.1
  · unfold specFat12Entry
    have eo : 3 * (2 + 2 * k + 1) / 2 = 3 + 3 * k + 1 := by omega
    have eo1 : 3 + 3 * k + 1 + 1 = 3 + 3 * k + 2 := by omega
    simp only []
    rw [nat_if_neg (by omega), eo, eo1, firstFat_FAT_Flush s _ (by omega) hlen,
      firstFat_FAT_Flush s _ (by omega) hlen, b1, b2]
    exact key.2

/-- C12: the FAT that `FAT_Flush` writes reads back by the standard FAT12 rule.  With `F`
the first FAT copy of the flushed image: `F[0..2]` are `F7 FF FF`; every entry `i` with
`2 ≤ i < m_maxFatEntry` that lies in `F`, decoded at byte offset `3 * i / 2`, is
`m_pFat[i] & 0xFFF`; when `m_maxFatEntry` is odd the entry paired with the last one
reads 0; and every byte of `F` after the last group is 0. -/
theorem FAT_Flush_fat12 (s : CFloppy) (hlen : 6 * 512 ≤ s.m_pRawImage.length) :
    (firstFat (FAT_Flush s).m_pRawImage).length = 5 * 512
    ∧ (firstFat (FAT_Flush s).m_pRawImage).take 3 = [0xF7, 0xFF, 0xFF]
    ∧ (∀ (i : Nat) (v : Int), 2 ≤ i → (i : Int) < s.m_maxFatEntry → 3 * i / 2 + 1 < 5 * 512 →
        s.m_pFat[i]? = some v →
        specFat12Entry (firstFat (FAT_Flush s).m_pRawImage) i = (v % 4096).toNat)
    ∧ (s.m_maxFatEntry % 2 = 1 → 3 ≤ s.m_maxFatEntry →
        3 * s.m_maxFatEntry.toNat / 2 + 1 < 5 * 512 →
        specFat12Entry (firstFat (FAT_Flush s).m_pRawImage) s.m_maxFatEntry.toNat = 0)
    ∧ (∀ o : Nat, 3 + 3 * fatGroups s.m_maxFatEntry ≤ o → o < 5 * 512 →
        (firstFat (FAT_Flush s).m_pRawImage)[o]? = some 0) := by
  have hl : (firstFat (FAT_Flush s).m_pRawImage).length = 5 * 512 := by
    unfold firstFat
    rw [List.length_take, List.length_drop, FAT_Flush_length]
    omega
  have hget : ∀ o : Nat, o < 2560 →
      (firstFat (FAT_Flush s).m_pRawImage)[o]? = some (fatByte s o) := by
    intro o ho
    unfold firstFat
    rw [List.getElem?_take_of_lt (by omega), List.getElem?_drop,
      FAT_Flush_getElem?_first s o ho (by omega)]
  refine ⟨hl, ?_, ?_, ?_, ?_⟩
  · apply List.ext_getElem?
    intro n
    rw [List.getElem?_take]
    rcases (by omega : n = 0 ∨ n = 1 ∨ n = 2 ∨ 3 ≤ n) with h | h | h | h
    · subst h; rw [if_pos (by omega), hget 0 (by omega)]; rfl
    · subst h; rw [if_pos (by omega), hget 1 (by omega)]; rfl
    · subst h; rw [if_pos (by omega), hget 2 (by omega)]; rfl
    · rw [if_neg (by omega)]
      exact (List.getElem?_eq_none (by simp only [List.length_cons, List.length_nil]; omega)).symm
  · intro i v h2 him hfit hv
    rcases Nat.even_or_odd' i with ⟨k, hk | hk⟩
    · obtain ⟨j, rfl⟩ : ∃ j, k = j + 1 := ⟨k - 1, by omega⟩
      have hi : i = 2 + 2 * j := by omega
      subst hi
      rw [(FAT_Flush_group s j (by omega) (by push_cast at him; omega) (by omega)).1]
      have := fat12_of_getElem? s.m_pFat (2 + 2 * j) v hv
      push_cast at this
      exact this
    · obtain ⟨j, rfl⟩ : ∃ j, k = j + 1 := ⟨k - 1, by omega⟩
      have hi : i = 2 + 2 * j + 1 := by omega
      subst hi
      rw [(FAT_Flush_group s j (by omega) (by push_cast at him; omega) (by omega)).2,
        nat_if_pos (by push_cast at him; omega)]
      have := fat12_of_getElem? s.m_pFat (2 + 2 * j + 1) v hv
      push_cast at this
      exact this
  · intro hodd h3 hfit
    obtain ⟨j, hj⟩ : ∃ j : Nat, s.m_maxFatEntry.toNat = 2 + 2 * j + 1 :=
      ⟨(s.m_maxFatEntry.toNat - 3) / 2, by omega⟩
    rw [hj, (FAT_Flush_group s j (by omega) (by omega) (by omega)).2, nat_if_neg (by omega)]
  · intro o ho1 ho2
    rw [hget o ho2]
    unfold fatByte
    rw [nat_if_neg (by omega), nat_if_neg (by omega), nat_if_neg (by omega)]

/-- Witness of C12: the default floppy, whose `m_maxFatEntry` 801 is odd. -/
theorem FAT_Flush_fat12_witness :
    6 * 512 ≤ (Create 2 10 81).m_pRawImage.length
    ∧ (firstFat (FAT_Flush (Create 2 10 81)).m_pRawImage).take 3 = [0xF7, 0xFF, 0xFF]
    ∧ specFat12Entry (firstFat (FAT_Flush (Create 2 10 81)).m_pRawImage)
        (Create 2 10 81).m_maxFatEntry.toNat = 0 :=
  ⟨by rw [Create_length]; decide,
    (FAT_Flush_fat12 (Create 2 10 81) (by rw [Create_length]; decide)).2.1,
    (FAT_Flush_fat12 (Create 2 10 81) (by rw [Create_length]; decide)).2.2.2.1
      (by rw [Create_maxFatEntry]; decide) (by rw [Create_maxFatEntry]; decide)
      (by rw [Create_maxFatEntry]; decide)⟩

/-! ## Stores stay in their region -/

theorem sameOutside_refl (lo hi : Int) (m : List Nat) : sameOutside lo hi m m :=
  ⟨rfl, fun _ _ => rfl⟩

theorem sameOutside_trans {lo hi : Int} {m m1 m2 : List Nat}
    (h1 : sameOutside lo hi m m1) (h2 : sameOutside lo hi m1 m2) : sameOutside lo hi m m2 :=
  ⟨h2.1.trans h1.1, fun j hj => (h2.2 j hj).trans (h1.2 j hj)⟩

theorem sameOutside_mono {lo hi lo2 hi2 : Int} {m m1 : List Nat}
    (h : sameOutside lo hi m m1) (hlo : lo2 ≤ lo) (hhi : hi ≤ hi2) : sameOutside lo2 hi2 m m1 :=
  ⟨h.1, fun j hj => h.2 j (by omega)⟩

theorem poke_sameOutside (lo hi : Int) (m : List Nat) (off : Int) (v : Nat)
    (h1 : lo ≤ off) (h2 : off < hi) : sameOutside lo hi m (poke m off v) := by
  refine ⟨poke_length _ _ _, fun j hj => ?_⟩
  rw [poke_getElem?, opt_if_neg (by omega)]

theorem memset_sameOutside (lo hi : Int) (m : List Nat) (off : Int) (v n : Nat)
    (h1 : lo ≤ off) (h2 : off + n ≤ hi) : sameOutside lo hi m (memset m off v n) := by
  refine ⟨memset_length _ _ _ _, fun j hj => ?_⟩
  rw [memset_getElem?, opt_if_neg (by omega)]

theorem memcpy_sameOutside (lo hi : Int) (m : List Nat) (off : Int) (src : List Nat) (n : Nat)
    (h1 : lo ≤ off) (h2 : off + n ≤ hi) : sameOutside lo hi m (memcpy m off src n) := by
  refine ⟨memcpy_length _ _ _ _, fun j hj => ?_⟩
  rw [memcpy_getElem?, opt_if_neg (by omega)]

theorem store16_sameOutside (lo hi : Int) (m : List Nat) (off : Int) (d : Nat)
    (h1 : lo ≤ off) (h2 : off + 2 ≤ hi) : sameOutside lo hi m (store16 m off d) := by
  unfold store16
  exact sameOutside_trans (poke_sameOutside lo hi _ _ _ (by omega) (by omega))
    (poke_sameOutside lo hi _ _ _ (by omega) (by omega))

theorem store32_sameOutside (lo hi : Int) (m : List Nat) (off : Int) (d : Nat)
    (h1 : lo ≤ off) (h2 : off + 4 ≤ hi) : sameOutside lo hi m (store32 m off d) := by
  unfold store32
  exact sameOutside_trans (sameOutside_trans (sameOutside_trans
    (poke_sameOutside lo hi _ _ _ (by omega) (by omega))
    (poke_sameOutside lo hi _ _ _ (by omega) (by omega)))
    (poke_sameOutside lo hi _ _ _ (by omega) (by omega)))
    (poke_sameOutside lo hi _ _ _ (by omega) (by omega))

theorem LFNStrCpy_sameOutside (lo hi : Int) (len : Nat) :
    ∀ (m : List Nat) (p : Int) (src : List Nat), lo ≤ p → p + len ≤ hi →
      sameOutside lo hi m (LFNStrCpy m p src len) := by
  induction len with
  | zero => intro m p src _ _; exact sameOutside_refl _ _ _
  | succ n ih =>
    intro m p src h1 h2
    simp only [LFNStrCpy]
    split
    · exact sameOutside_trans (poke_sameOutside lo hi _ _ _ h1 (by push_cast at h2; omega))
        (ih _ _ _ (by omega) (by push_cast at h2; omega))
    · exact sameOutside_trans (poke_sameOutside lo hi _ _ _ h1 (by push_cast at h2; omega))
        (ih _ _ _ (by omega) (by push_cast at h2; omega))

theorem LFNStrCpy_length (m : List Nat) (p : Int) (src : List Nat) (len : Nat) :
    (LFNStrCpy m p src len).length = m.length :=
  (LFNStrCpy_sameOutside p (p + len) len m p src (le_refl _) (le_refl _)).1

theorem LFN_Create_sameOutside (m : List Nat) (info : FileDescriptor) (isDir : Bool)
    (pLFN c : Int) : sameOutside pLFN (pLFN + 32) m (LFN_Create m info isDir pLFN c) := by
  unfold LFN_Create
  have s1 := memset_sameOutside pLFN (pLFN + 32) m pLFN 0 32 (by omega) (by omega)
  generalize memset m pLFN 0 32 = m1 at s1 ⊢
  simp only []
  have s2 := sameOutside_trans s1 (LFNStrCpy_sameOutside pLFN (pLFN + 32) 8 m1 pLFN
    (strupr (splitpath (GetName info)).1) (by omega) (by omega))
  generalize LFNStrCpy m1 pLFN (strupr (splitpath (GetName info)).1) 8 = m2 at s2 ⊢
  have s3 := fun src => sameOutside_trans s2 (LFNStrCpy_sameOutside pLFN (pLFN + 32) 3 m2
    (pLFN + 8) src (by omega) (by omega))
  generalize (if (strupr (splitpath (GetName info)).2).headD 0 = 46 then
    (strupr (splitpath (GetName info)).2).tail else strupr (splitpath (GetName info)).2) = pExt
  have s3 := s3 pExt
  generalize LFNStrCpy m2 (pLFN + 8) pExt 3 = m3 at s3 ⊢
  have s4 : sameOutside pLFN (pLFN + 32) m (if isDir = true then poke m3 (pLFN + 11) (1 <<< 4) else m3) := by
    split
    · exact sameOutside_trans s3 (poke_sameOutside _ _ _ _ _ (by omega) (by omega))
    · exact s3
  generalize (if isDir = true then poke m3 (pLFN + 11) (1 <<< 4) else m3) = m4 at s4 ⊢
  have s5 := sameOutside_trans s4 (store16_sameOutside pLFN (pLFN + 32) m4 (pLFN + 26) (u16 c)
    (by omega) (by omega))
  generalize store16 m4 (pLFN + 26) (u16 c) = m5 at s5 ⊢
  have s6 : sameOutside pLFN (pLFN + 32) m
      (if (!isDir) = true then store32 m5 (pLFN + 28) (u32 (GetSize info)) else m5) := by
    split
    · exact sameOutside_trans s5 (store32_sameOutside _ _ _ _ _ (by omega) (by omega))
    · exact s5
  generalize (if (!isDir) = true then store32 m5 (pLFN + 28) (u32 (GetSize info)) else m5) = m6
    at s6 ⊢
  split
  · exact sameOutside_trans (sameOutside_trans s6
      (store16_sameOutside _ _ _ _ _ (by omega) (by omega)))
      (store16_sameOutside _ _ _ _ _ (by omega) (by omega))
  · exact s6

theorem LFN_Create_length (m : List Nat) (info : FileDescriptor) (isDir : Bool)
    (pLFN c : Int) : (LFN_Create m info isDir pLFN c).length = m.length :=
  (LFN_Create_sameOutside m info isDir pLFN c).1

theorem dirHead_snd (m : List Nat) (pLFN c par size : Int) :
    (dirHead m pLFN c par size).2 = if c > 0 then pLFN + 64 else pLFN + 32 := by
  unfold dirHead
  split
  · simp only []
    omega
  · rfl

/-- After the region is cleared, `dirHead` stores in the reserved records only. -/
theorem dirHead_sameOutside_head (m : List Nat) (pLFN c par size : Int) :
    sameOutside pLFN (pLFN + 64) (memset m pLFN 0 size.toNat) (dirHead m pLFN c par size).1 := by
  unfold dirHead
  generalize memset m pLFN 0 size.toNat = m1
  simp only []
  split
  · simp only []
    repeat (first
      | exact sameOutside_refl _ _ _
      | refine sameOutside_trans ?_ (memset_sameOutside _ _ _ _ _ _ (by omega) (by omega))
      | refine sameOutside_trans ?_ (store16_sameOutside _ _ _ _ _ (by omega) (by omega))
      | refine sameOutside_trans ?_ (poke_sameOutside _ _ _ _ _ (by omega) (by omega)))
  · simp only []
    repeat (first
      | exact sameOutside_refl _ _ _
      | refine sameOutside_trans ?_ (memset_sameOutside _ _ _ _ _ _ (by omega) (by omega))
      | refine sameOutside_trans ?_ (LFNStrCpy_sameOutside _ _ _ _ _ _ (by omega) (by omega))
      | refine sameOutside_trans ?_ (poke_sameOutside _ _ _ _ _ (by omega) (by omega)))

theorem dirHead_sameOutside (m : List Nat) (pLFN c par size : Int) (hs : 64 ≤ size) :
    sameOutside pLFN (pLFN + size) m (dirHead m pLFN c par size).1 :=
  sameOutside_trans (memset_sameOutside pLFN (pLFN + size) m pLFN 0 size.toNat (by omega) (by omega))
    (sameOutside_mono (dirHead_sameOutside_head m pLFN c par size) (le_refl _) (by omega))

theorem dirHead_length (m : List Nat) (pLFN c par size : Int) :
    (dirHead m pLFN c par size).1.length = m.length := by
  unfold dirHead
  split
  · simp only [store16, poke_length, memset_length]
  · simp only [poke_length, memset_length, LFNStrCpy_length]

/-! ## Stores seen through a window of the buffer -/

theorem window_lt {p : Nat} {m w : List Nat} (h : window p m w) (k : Nat) (hk : k < w.length) :
    p + k < m.length := by
  by_contra hc
  have h1 := h k hk
  rw [List.getElem?_eq_none (by omega), List.getElem?_eq_getElem hk] at h1
  exact Option.noConfusion h1

theorem poke_window {p : Nat} {m w : List Nat} (h : window p m w) (q q2 : Int) (v : Nat)
    (hq : q = (p : Int) + q2) : window p (poke m q v) (poke w q2 v) := by
  intro k hk
  rw [poke_length] at hk
  have hl := window_lt h k hk
  rw [poke_getElem?, poke_getElem?, h k hk]
  by_cases hc : q2 = (k : Int)
  · rw [opt_if_pos ⟨by push_cast; omega, hl⟩, opt_if_pos ⟨hc, hk⟩]
  · rw [opt_if_neg (by push_cast; omega), opt_if_neg (by omega)]

theorem memset_window {p : Nat} {m w : List Nat} (h : window p m w) (q q2 : Int) (v n : Nat)
    (hq : q = (p : Int) + q2) : window p (memset m q v n) (memset w q2 v n) := by
  induction n with
  | zero => exact h
  | succ n ih =>
    simp only [memset]
    exact poke_window ih _ _ _ (by omega)

theorem store16_window {p : Nat} {m w : List Nat} (h : window p m w) (q q2 : Int) (d : Nat)
    (hq : q = (p : Int) + q2) : window p (store16 m q d) (store16 w q2 d) := by
  unfold store16
  exact poke_window (poke_window h _ _ _ hq) _ _ _ (by omega)

theorem store32_window {p : Nat} {m w : List Nat} (h : window p m w) (q q2 : Int) (d : Nat)
    (hq : q = (p : Int) + q2) : window p (store32 m q d) (store32 w q2 d) := by
  unfold store32
  exact poke_window (poke_window (poke_window (poke_window h _ _ _ hq) _ _ _ (by omega))
    _ _ _ (by omega)) _ _ _ (by omega)

theorem LFNStrCpy_window {p : Nat} (len : Nat) :
    ∀ (m w : List Nat) (q q2 : Int) (src : List Nat), window p m w → q = (p : Int) + q2 →
      window p (LFNStrCpy m q src len) (LFNStrCpy w q2 src len) := by
  induction len with
  | zero => intro m w q q2 src h _; exact h
  | succ n ih =>
    intro m w q q2 src h hq
    simp only [LFNStrCpy]
    split
    · exact ih _ _ _ _ _ (poke_window h _ _ _ hq) (by omega)
    · exact ih _ _ _ _ _ (poke_window h _ _ _ hq) (by omega)

theorem LFN_Create_window {p : Nat} {m w : List Nat} (h : window p m w)
    (info : FileDescriptor) (isDir : Bool) (c : Int) :
    window p (LFN_Create m info isDir (p : Int) c) (LFN_Create w info isDir 0 c) := by
  unfold LFN_Create
  simp only []
  have s1 := memset_window h (p : Int) 0 0 32 (by omega)
  have s2 := LFNStrCpy_window 8 _ _ (p : Int) 0 (strupr (splitpath (GetName info)).1) s1
    (by omega)
  have s3 := fun src => LFNStrCpy_window 3 _ _ ((p : Int) + 8) (0 + 8) src s2 (by omega)
  generalize (if (strupr (splitpath (GetName info)).2).headD 0 = 46 then
    (strupr (splitpath (GetName info)).2).tail else strupr (splitpath (GetName info)).2) = pExt
  have s3 := s3 pExt
  cases isDir
  · simp only [Bool.false_eq_true, if_false, Bool.not_false, if_true]
    have s5 := store16_window s3 ((p : Int) + 26) (0 + 26) (u16 c) (by omega)
    have s6 := store32_window s5 ((p : Int) + 28) (0 + 28) (u32 (GetSize info)) (by omega)
    split
    · exact store16_window (store16_window s6 _ _ _ (by omega)) _ _ _ (by omega)
    · exact s6
  · simp only [if_true, Bool.not_true, Bool.false_eq_true, if_false]
    have s4 := poke_window s3 ((p : Int) + 11) (0 + 11) (1 <<< 4) (by omega)
    have s5 := store16_window s4 ((p : Int) + 26) (0 + 26) (u16 c) (by omega)
    split
    · exact store16_window (store16_window s5 _ _ _ (by omega)) _ _ _ (by omega)
    · exact s5

theorem dirHead_window {p : Nat} {m w : List Nat} (h : window p m w) (c par size : Int) :
    window p (dirHead m (p : Int) c par size).1 (dirHead w 0 c par size).1 := by
  unfold dirHead
  have s1 := memset_window h (p : Int) 0 0 size.toNat (by omega)
  generalize memset m (p : Int) 0 size.toNat = m1 at s1 ⊢
  generalize memset w 0 0 size.toNat = w1 at s1 ⊢
  simp only []
  split
  · simp only []
    refine store16_window ?_ _ _ _ (by omega)
    refine poke_window ?_ _ _ _ (by omega)
    refine poke_window ?_ _ _ _ (by omega)
    refine poke_window ?_ _ _ _ (by omega)
    refine memset_window ?_ _ _ _ _ (by omega)
    refine poke_window ?_ _ _ _ (by omega)
    refine memset_window ?_ _ _ _ _ (by omega)
    refine store16_window ?_ _ _ _ (by omega)
    refine poke_window ?_ _ _ _ (by omega)
    refine poke_window ?_ _ _ _ (by omega)
    refine memset_window ?_ _ _ _ _ (by omega)
    refine poke_window ?_ _ _ _ (by omega)
    exact memset_window s1 _ _ _ _ (by omega)
  · simp only []
    refine poke_window ?_ _ _ _ (by omega)
    refine LFNStrCpy_window _ _ _ _ _ _ ?_ (by omega)
    refine LFNStrCpy_window _ _ _ _ _ _ ?_ (by omega)
    exact memset_window s1 _ _ _ _ (by omega)

theorem memset_full (w : List Nat) (v n : Nat) (h : w.length ≤ n) :
    memset w 0 v n = List.replicate w.length (v % 256) := by
  apply List.ext_getElem?
  intro k
  rw [memset_getElem?, List.getElem?_replicate]
  by_cases hk : k < w.length
  · rw [opt_if_pos (by omega), if_pos hk]
  · rw [opt_if_neg (by omega), if_neg hk]
    exact List.getElem?_eq_none (by omega)

theorem window_self (m : List Nat) (p n : Nat) : window p m ((m.drop p).take n) := by
  intro k hk
  rw [List.getElem?_take_of_lt (by rw [List.length_take] at hk; omega), List.getElem?_drop]

theorem LFN_Create_eq_record (w : List Nat) (hw : w.length = 32) (info : FileDescriptor)
    (isDir : Bool) (c : Int) : LFN_Create w info isDir 0 c = lfnRecord info isDir c := by
  unfold lfnRecord LFN_Create
  rw [memset_full w 0 32 (by omega), memset_full _ 0 32 (by simp), hw]
  simp only [List.length_replicate]

theorem lfnRecord_length (info : FileDescriptor) (isDir : Bool) (c : Int) :
    (lfnRecord info isDir c).length = 32 := by
  unfold lfnRecord
  rw [LFN_Create_length, List.length_replicate]

/-- The record `LFN_Create` leaves at `pLFN` is `lfnRecord`, whatever the buffer held. -/
theorem LFN_Create_record (m : List Nat) (p : Nat) (hp : p + 32 ≤ m.length)
    (info : FileDescriptor) (isDir : Bool) (c : Int) (k : Nat) (hk : k < 32) :
    (LFN_Create m info isDir (p : Int) c)[p + k]? = (lfnRecord info isDir c)[k]? := by
  have hw : ((m.drop p).take 32).length = 32 := by
    rw [List.length_take, List.length_drop]; omega
  have h := LFN_Create_window (window_self m p 32) info isDir c
  rw [LFN_Create_eq_record _ hw] at h
  exact h k (by rw [lfnRecord_length]; exact hk)

theorem dirHead_eq_dot (w : List Nat) (hw : w.length = 64) (c par size : Int) (hs : 64 ≤ size) :
    (dirHead w 0 c par size).1 = dotRecords c par := by
  unfold dotRecords dirHead
  rw [memset_full w 0 size.toNat (by omega), memset_full _ 0 (64 : Int).toNat (by simp), hw]
  simp only [List.length_replicate]

theorem dirHead_eq_label (w : List Nat) (hw : w.length = 32) (size : Int) (hs : 32 ≤ size) :
    (dirHead w 0 0 0 size).1 = labelRecord := by
  unfold labelRecord dirHead
  rw [memset_full w 0 size.toNat (by omega), memset_full _ 0 (32 : Int).toNat (by simp), hw]
  simp only [List.length_replicate]

theorem dotRecords_length (c par : Int) : (dotRecords c par).length = 64 := by
  unfold dotRecords
  rw [dirHead_length, List.length_replicate]

theorem labelRecord_length : labelRecord.length = 32 := by
  unfold labelRecord
  rw [dirHead_length, List.length_replicate]

/-- The reserved records `dirHead` leaves at the start of a sub-directory. -/
theorem dirHead_dot_record (m : List Nat) (p : Nat) (hp : p + 64 ≤ m.length)
    (c par size : Int) (hs : 64 ≤ size) (k : Nat) (hk : k < 64) :
    (dirHead m (p : Int) c par size).1[p + k]? = (dotRecords c par)[k]? := by
  have hw : ((m.drop p).take 64).length = 64 := by
    rw [List.length_take, List.length_drop]; omega
  have h := dirHead_window (window_self m p 64) c par size
  rw [dirHead_eq_dot _ hw _ _ _ hs] at h
  exact h k (by rw [dotRecords_length]; exact hk)

/-- The volume-label record `dirHead` leaves at the start of the root directory. -/
theorem dirHead_label_record (m : List Nat) (p : Nat) (hp : p + 32 ≤ m.length)
    (size : Int) (hs : 32 ≤ size) (k : Nat) (hk : k < 32) :
    (dirHead m (p : Int) 0 0 size).1[p + k]? = labelRecord[k]? := by
  have hw : ((m.drop p).take 32).length = 32 := by
    rw [List.length_take, List.length_drop]; omega
  have h := dirHead_window (window_self m p 32) 0 0 size
  rw [dirHead_eq_label _ hw _ hs] at h
  exact h k (by rw [labelRecord_length]; exact hk)

/-- The rest of the region `dirHead` clears stays zero. -/
theorem dirHead_rest (m : List Nat) (pLFN c par size : Int) (j : Nat)
    (h1 : pLFN + 64 ≤ (j : Int)) (h2 : (j : Int) < pLFN + size) (h3 : j < m.length) :
    (dirHead m pLFN c par size).1[j]? = some 0 := by
  rw [(dirHead_sameOutside_head m pLFN c par size).2 j (by omega), memset_getElem?,
    opt_if_pos (by omega)]

theorem dirHead_sameOutside_label (m : List Nat) (pLFN c par size : Int) (hc : ¬ c > 0) :
    sameOutside pLFN (pLFN + 32) (memset m pLFN 0 size.toNat) (dirHead m pLFN c par size).1 := by
  unfold dirHead
  generalize memset m pLFN 0 size.toNat = m1
  simp only []
  rw [if_neg hc]
  simp only []
  repeat (first
    | exact sameOutside_refl _ _ _
    | refine sameOutside_trans ?_ (memset_sameOutside _ _ _ _ _ _ (by omega) (by omega))
    | refine sameOutside_trans ?_ (LFNStrCpy_sameOutside _ _ _ _ _ _ (by omega) (by omega))
    | refine sameOutside_trans ?_ (poke_sameOutside _ _ _ _ _ (by omega) (by omega)))

/-- In the root directory everything after the volume label stays zero. -/
theorem dirHead_rest_root (m : List Nat) (pLFN size : Int) (j : Nat)
    (h1 : pLFN + 32 ≤ (j : Int)) (h2 : (j : Int) < pLFN + size) (h3 : j < m.length) :
    (dirHead m pLFN 0 0 size).1[j]? = some 0 := by
  rw [(dirHead_sameOutside_label m pLFN 0 0 size (by decide)).2 j (by omega), memset_getElem?,
    opt_if_pos (by omega)]

/-! ## The loop of `BuildDirectory`, turn by turn -/

theorem buildEntries_file (s : CFloppy) (pLFN cluster : Int) (info : FileDescriptor)
    (data : List Nat) (next : CDirEntry) (h0 : 0 ≤ GetSize info) :
    buildEntries s pLFN cluster (.file info data next)
      = if 0 < Int.tdiv (GetSize info + 1023) 1024
            ∧ Int.tdiv (GetSize info + 1023) 1024 > s.m_nbFreeCluster then (Diag.noMoreSpace, s)
        else buildEntries (fileStep s pLFN info data) (pLFN + 32) cluster next := by
  simp only [buildEntries, fileStep]
  by_cases h1 : Int.tdiv (GetSize info + 1023) 1024 > 0
  · by_cases h2 : Int.tdiv (GetSize info + 1023) 1024 > s.m_nbFreeCluster
    · simp only [h1, h2, if_true, and_self]
    · have h3 : GetSize info ≥ 0 := h0
      simp only [h1, h2, h3, if_true, if_false, and_false]
  · simp only [h1, if_false, false_and]

theorem buildEntries_dir (s : CFloppy) (pLFN cluster : Int) (info : FileDescriptor)
    (sub next : CDirEntry) :
    buildEntries s pLFN cluster (.dir info sub next)
      = if Int.tdiv (((GetNbEntry sub + 2) * 32) + 1023) 1024 > s.m_nbFreeCluster then
          (Diag.noMoreSpace, s)
        else if (buildEntries (dirStep s pLFN cluster info sub)
            (if s.m_nextCluster > 0 then GetRawAd s.m_nextCluster + 64
              else GetRawAd s.m_nextCluster + 32) s.m_nextCluster sub).1 = Diag.ok then
          buildEntries (buildEntries (dirStep s pLFN cluster info sub)
            (if s.m_nextCluster > 0 then GetRawAd s.m_nextCluster + 64
              else GetRawAd s.m_nextCluster + 32) s.m_nextCluster sub).2 (pLFN + 32) cluster next
        else buildEntries (dirStep s pLFN cluster info sub)
            (if s.m_nextCluster > 0 then GetRawAd s.m_nextCluster + 64
              else GetRawAd s.m_nextCluster + 32) s.m_nextCluster sub := by
  simp only [buildEntries, dirStep, dirHead_snd]

theorem GetRawAd_eq (c : Int) : GetRawAd c = 9216 + 1024 * (c - 2) := by
  unfold GetRawAd SECTOR_PER_FAT ROOTDIR_NBSECTOR MAX_ROOT_ENTRY
  norm_num

theorem dir_nbCluster (n : Int) (hn : 0 ≤ n) :
    Int.tdiv ((n + 2) * 32 + 1023) 1024 = ceilDiv ((n + 2) * 32) 1024
      ∧ (n + 2) * 32 ≤ 1024 * ceilDiv ((n + 2) * 32) 1024
      ∧ 1 ≤ ceilDiv ((n + 2) * 32) 1024 := by
  refine ⟨tdiv_ceil _ (by omega), ?_, ?_⟩
  · unfold ceilDiv; omega
  · unfold ceilDiv; omega

theorem file_nbCluster (x : Int) (hx : 0 ≤ x) :
    Int.tdiv (x + 1023) 1024 = ceilDiv x 1024
      ∧ x ≤ 1024 * ceilDiv x 1024 ∧ 0 ≤ ceilDiv x 1024
      ∧ (0 < ceilDiv x 1024 ↔ 0 < x) ∧ 1024 * ceilDiv x 1024 < x + 1024 := by
  refine ⟨tdiv_ceil _ hx, ?_, ?_, ?_, ?_⟩ <;> unfold ceilDiv <;> omega

theorem sameOff_refl (P : Nat → Prop) (m : List Nat) : sameOff P m m := ⟨rfl, fun _ _ => rfl⟩

theorem sameOff_trans {P : Nat → Prop} {m m1 m2 : List Nat}
    (h1 : sameOff P m m1) (h2 : sameOff P m1 m2) : sameOff P m m2 :=
  ⟨h2.1.trans h1.1, fun j hj => (h2.2 j hj).trans (h1.2 j hj)⟩

theorem sameOff_mono {P Q : Nat → Prop} {m m1 : List Nat} (h : sameOff P m m1)
    (hPQ : ∀ j, P j → Q j) : sameOff Q m m1 :=
  ⟨h.1, fun j hj => h.2 j (fun hp => hj (hPQ j hp))⟩

theorem sameOutside_sameOff {lo hi : Int} {m m1 : List Nat} (h : sameOutside lo hi m m1)
    (Q : Nat → Prop) (hQ : ∀ j : Nat, lo ≤ (j : Int) → (j : Int) < hi → Q j) : sameOff Q m m1 :=
  ⟨h.1, fun j hj => h.2 j (by
    by_contra hc
    exact hj (hQ j (by omega) (by omega)))⟩

/-! ### A file entry -/

theorem fileStep_next (s : CFloppy) (pLFN : Int) (info : FileDescriptor) (data : List Nat) :
    (fileStep s pLFN info data).m_nextCluster
      = s.m_nextCluster + Int.tdiv (GetSize info + 1023) 1024 := by
  unfold fileStep
  simp only []
  split <;> rfl

theorem fileStep_free (s : CFloppy) (pLFN : Int) (info : FileDescriptor) (data : List Nat) :
    (fileStep s pLFN info data).m_nbFreeCluster
      = s.m_nbFreeCluster - Int.tdiv (GetSize info + 1023) 1024 := by
  unfold fileStep
  simp only []
  split <;> rfl

theorem fileStep_image (s : CFloppy) (pLFN : Int) (info : FileDescriptor) (data : List Nat) :
    (fileStep s pLFN info data).m_pRawImage
      = if Int.tdiv (GetSize info + 1023) 1024 > 0 then
          memcpy (LFN_Create s.m_pRawImage info false pLFN s.m_nextCluster)
            (GetRawAd s.m_nextCluster) data (GetSize info).toNat
        else LFN_Create s.m_pRawImage info false pLFN 0 := by
  unfold fileStep
  simp only []
  split <;> rfl

theorem fileStep_frame (s : CFloppy) (pLFN : Int) (info : FileDescriptor) (data : List Nat)
    (h0 : 0 ≤ GetSize info) :
    sameOff (fun j => inRecords pLFN 1 j
        ∨ inClusters s.m_nextCluster (ceilDiv (GetSize info) 1024) j)
      s.m_pRawImage (fileStep s pLFN info data).m_pRawImage := by
  obtain ⟨e1, e2, e3, e4, e5⟩ := file_nbCluster _ h0
  rw [fileStep_image, e1]
  have hrec := sameOutside_sameOff (LFN_Create_sameOutside s.m_pRawImage info false pLFN
      s.m_nextCluster)
    (fun j => inRecords pLFN 1 j ∨ inClusters s.m_nextCluster (ceilDiv (GetSize info) 1024) j)
    (fun j h1 h2 => Or.inl ⟨h1, by omega⟩)
  have hrec0 := sameOutside_sameOff (LFN_Create_sameOutside s.m_pRawImage info false pLFN 0)
    (fun j => inRecords pLFN 1 j ∨ inClusters s.m_nextCluster (ceilDiv (GetSize info) 1024) j)
    (fun j h1 h2 => Or.inl ⟨h1, by omega⟩)
  split
  · refine sameOff_trans hrec (sameOutside_sameOff (memcpy_sameOutside
      (GetRawAd s.m_nextCluster) (GetRawAd s.m_nextCluster + GetSize info) _ _ _ _
      (le_refl _) (by omega)) _ (fun j h1 h2 => Or.inr ⟨h1, ?_⟩))
    rw [GetRawAd_eq] at h2 ⊢
    omega
  · exact hrec0

/-! ### A sub-directory entry -/

theorem dirStep_next (s : CFloppy) (pLFN cluster : Int) (info : FileDescriptor)
    (sub : CDirectory) :
    (dirStep s pLFN cluster info sub).m_nextCluster
      = s.m_nextCluster + Int.tdiv (((GetNbEntry sub + 2) * 32) + 1023) 1024 := rfl

theorem dirStep_free (s : CFloppy) (pLFN cluster : Int) (info : FileDescriptor)
    (sub : CDirectory) :
    (dirStep s pLFN cluster info sub).m_nbFreeCluster
      = s.m_nbFreeCluster - Int.tdiv (((GetNbEntry sub + 2) * 32) + 1023) 1024 := rfl

theorem dirStep_image (s : CFloppy) (pLFN cluster : Int) (info : FileDescriptor)
    (sub : CDirectory) :
    (dirStep s pLFN cluster info sub).m_pRawImage
      = (dirHead (LFN_Create s.m_pRawImage info true pLFN s.m_nextCluster)
          (GetRawAd s.m_nextCluster) s.m_nextCluster cluster
          (Int.tdiv (((GetNbEntry sub + 2) * 32) + 1023) 1024 * 1024)).1 := rfl

theorem dirStep_frame (s : CFloppy) (pLFN cluster : Int) (info : FileDescriptor)
    (sub : CDirectory) :
    sameOff (fun j => inRecords pLFN 1 j
        ∨ inClusters s.m_nextCluster (ceilDiv ((GetNbEntry sub + 2) * 32) 1024) j)
      s.m_pRawImage (dirStep s pLFN cluster info sub).m_pRawImage := by
  obtain ⟨e1, e2, e3⟩ := dir_nbCluster _ (GetNbEntry_nonneg sub)
  rw [dirStep_image, e1]
  refine sameOff_trans (sameOutside_sameOff (LFN_Create_sameOutside s.m_pRawImage info true pLFN
      s.m_nextCluster) _ (fun j h1 h2 => Or.inl ⟨h1, by omega⟩))
    (sameOutside_sameOff (dirHead_sameOutside _ _ _ _ _ (by omega)) _
      (fun j h1 h2 => Or.inr ⟨h1, ?_⟩))
  rw [GetRawAd_eq] at h2 ⊢
  omega

/-! ### What the loop may change -/

/-- The loop of `BuildDirectory` on a tree with non-negative file sizes changes the image
only in the records of the directory it builds and in the clusters it takes, from
`m_nextCluster` on; it never lowers `m_nextCluster`. -/
theorem buildEntries_frame (es : CDirEntry) :
    ∀ (s : CFloppy) (pLFN cluster : Int), sizesNonNeg es = true →
      s.m_nextCluster ≤ (buildEntries s pLFN cluster es).2.m_nextCluster
      ∧ sameOff (fun j => inRecords pLFN (GetNbEntry es) j
          ∨ inClusters s.m_nextCluster
              ((buildEntries s pLFN cluster es).2.m_nextCluster - s.m_nextCluster) j)
        s.m_pRawImage (buildEntries s pLFN cluster es).2.m_pRawImage := by
  induction es with
  | null =>
    intro s pLFN cluster _
    exact ⟨le_refl _, sameOff_refl _ _⟩
  | file info data next ih =>
    intro s pLFN cluster hnn
    simp only [sizesNonNeg, Bool.and_eq_true, decide_eq_true_eq] at hnn
    obtain ⟨h0, hn⟩ := hnn
    obtain ⟨e1, e2, e3, e4, e5⟩ := file_nbCluster _ h0
    have hlen := GetNbEntry_nonneg next
    rw [buildEntries_file _ _ _ _ _ _ h0]
    split
    · exact ⟨le_refl _, sameOff_refl _ _⟩
    · obtain ⟨i1, i2⟩ := ih (fileStep s pLFN info data) (pLFN + 32) cluster hn
      rw [fileStep_next, e1] at i1 i2
      refine ⟨by omega, sameOff_trans (sameOff_mono (fileStep_frame s pLFN info data h0) ?_)
        (sameOff_mono i2 ?_)⟩
      · intro j hj
        rcases hj with hj | hj
        · left
          unfold inRecords at hj ⊢
          simp only [GetNbEntry]
          omega
        · right
          unfold inClusters at hj ⊢
          rw [GetRawAd_eq, GetRawAd_eq] at hj ⊢
          omega
      · intro j hj
        rcases hj with hj | hj
        · left
          unfold inRecords at hj ⊢
          simp only [GetNbEntry]
          omega
        · right
          unfold inClusters at hj ⊢
          rw [GetRawAd_eq, GetRawAd_eq] at hj ⊢
          omega
  | dir info sub next ihs ihn =>
    intro s pLFN cluster hnn
    simp only [sizesNonNeg, Bool.and_eq_true] at hnn
    obtain ⟨hs, hn⟩ := hnn
    obtain ⟨e1, e2, e3⟩ := dir_nbCluster _ (GetNbEntry_nonneg sub)
    have hlen := GetNbEntry_nonneg next
    have hlens := GetNbEntry_nonneg sub
    rw [buildEntries_dir]
    split
    · exact ⟨le_refl _, sameOff_refl _ _⟩
    · generalize hq : (if s.m_nextCluster > 0 then GetRawAd s.m_nextCluster + 64
        else GetRawAd s.m_nextCluster + 32) = q
      have hq1 : GetRawAd s.m_nextCluster + 32 ≤ q ∧ q ≤ GetRawAd s.m_nextCluster + 64 := by
        rw [← hq]; split <;> omega
      obtain ⟨i1, i2⟩ := ihs (dirStep s pLFN cluster info sub) q s.m_nextCluster hs
      rw [dirStep_next, e1] at i1 i2
      have f1 := dirStep_frame s pLFN cluster info sub
      generalize hr : buildEntries (dirStep s pLFN cluster info sub) q s.m_nextCluster sub = r
        at i1 i2
      have sub_part : sameOff (fun j => inRecords pLFN 1 j
          ∨ inClusters s.m_nextCluster (r.2.m_nextCluster - s.m_nextCluster) j)
          s.m_pRawImage r.2.m_pRawImage := by
        refine sameOff_trans (sameOff_mono f1 ?_) (sameOff_mono i2 ?_)
        · intro j hj
          rcases hj with hj | hj
          · left; exact hj
          · right
            unfold inClusters at hj ⊢
            rw [GetRawAd_eq, GetRawAd_eq] at hj ⊢
            omega
        · intro j hj
          right
          rcases hj with hj | hj
          · unfold inRecords at hj
            unfold inClusters
            rw [GetRawAd_eq] at hq1
            rw [GetRawAd_eq, GetRawAd_eq]
            omega
          · unfold inClusters at hj ⊢
            rw [GetRawAd_eq, GetRawAd_eq] at hj ⊢
            omega
      split
      · obtain ⟨j1, j2⟩ := ihn r.2 (pLFN + 32) cluster hn
        refine ⟨by omega, sameOff_trans (sameOff_mono sub_part ?_) (sameOff_mono j2 ?_)⟩
        · intro j hj
          rcases hj with hj | hj
          · left
            unfold inRecords at hj ⊢
            simp only [GetNbEntry]
            omega
          · right
            unfold inClusters at hj ⊢
            rw [GetRawAd_eq, GetRawAd_eq] at hj ⊢
            omega
        · intro j hj
          rcases hj with hj | hj
          · left
            unfold inRecords at hj ⊢
            simp only [GetNbEntry]
            omega
          · right
            unfold inClusters at hj ⊢
            rw [GetRawAd_eq, GetRawAd_eq] at hj ⊢
            omega
      · refine ⟨by omega, sameOff_mono sub_part ?_⟩
        intro j hj
        rcases hj with hj | hj
        · left
          unfold inRecords at hj ⊢
          simp only [GetNbEntry]
          omega
        · right; exact hj

/-! ## The place of every entry -/

theorem specTotal_nonneg (es : CDirEntry) (h : sizesNonNeg es = true) : 0 ≤ specTotal es := by
  induction es with
  | null => simp [specTotal]
  | file info data next ih =>
    simp only [sizesNonNeg, Bool.and_eq_true, decide_eq_true_eq] at h
    simp only [specTotal]
    have := ceilDiv_nonneg _ h.1
    have := ih h.2
    omega
  | dir info sub next ihs ihn =>
    simp only [sizesNonNeg, Bool.and_eq_true] at h
    simp only [specTotal]
    have := (dir_nbCluster _ (GetNbEntry_nonneg sub)).2.2
    have := ihs h.1
    have := ihn h.2
    omega

theorem placedOk_of_sameOff {P : Nat → Prop} {img img2 : List Nat} {e : Placed}
    (h : sameOff P img img2) (hd : ∀ j, footprint e j → ¬ P j) (hok : placedOk img e) :
    placedOk img2 e := by
  obtain ⟨h1, h2, h3⟩ := hok
  refine ⟨fun k j hk hj => ?_, fun hf => ⟨fun k j hk hj => ?_, fun j hj1 hj2 => ?_⟩,
    fun hf => ⟨fun k j hk hj => ?_, fun j hj1 hj2 => ?_⟩⟩
  · rw [h.2 j (hd j (Or.inl ⟨by omega, by omega⟩))]
    exact h1 k j hk hj
  · rw [h.2 j (hd j (Or.inr (Or.inl ⟨hf, by omega, by omega⟩)))]
    exact (h2 hf).1 k j hk hj
  · rw [h.2 j (hd j (Or.inr (Or.inr (Or.inl ⟨hf, hj1, hj2⟩))))]
    exact (h2 hf).2 j hj1 hj2
  · rw [h.2 j (hd j (Or.inr (Or.inr (Or.inr (Or.inl ⟨hf, by omega, by omega⟩)))))]
    exact (h3 hf).1 k j hk hj
  · rw [h.2 j (hd j (Or.inr (Or.inr (Or.inr (Or.inr ⟨hf, hj1, hj2⟩)))))]
    exact (h3 hf).2 j hj1 hj2

/-- Every offset read for an entry of the layout lies in the records of the directory or
in the clusters the tree is given. -/
theorem specLayout_footprint (es : CDirEntry) :
    ∀ (pLFN cluster next : Int), sizesNonNeg es = true →
      ∀ e ∈ specLayout es pLFN cluster next, ∀ j, footprint e j →
        inRecords pLFN (GetNbEntry es) j ∨ inClusters next (specTotal es) j := by
  induction es with
  | null =>
    intro pLFN cluster next _ e he
    simp [specLayout] at he
  | file info data nx ih =>
    intro pLFN cluster next hnn e he j hj
    simp only [sizesNonNeg, Bool.and_eq_true, decide_eq_true_eq] at hnn
    obtain ⟨e1, e2, e3, e4, e5⟩ := file_nbCluster _ hnn.1
    have ht := specTotal_nonneg nx hnn.2
    have hl := GetNbEntry_nonneg nx
    simp only [specLayout, List.mem_cons] at he
    simp only [GetNbEntry, specTotal]
    rcases he with he | he
    · subst he
      unfold footprint inRecords at hj
      unfold inRecords inClusters
      simp only [GetRawAd_eq] at hj ⊢
      rcases hj with hj | hj | hj | hj | hj
      · left; omega
      · right; omega
      · right; omega
      · exact absurd hj.1 (by decide)
      · exact absurd hj.1 (by decide)
    · rcases ih _ _ _ hnn.2 e he j hj with h | h
      · left
        unfold inRecords at h ⊢
        omega
      · right
        unfold inClusters at h ⊢
        simp only [GetRawAd_eq] at h ⊢
        omega
  | dir info sub nx ihs ihn =>
    intro pLFN cluster next hnn e he j hj
    simp only [sizesNonNeg, Bool.and_eq_true] at hnn
    obtain ⟨e1, e2, e3⟩ := dir_nbCluster _ (GetNbEntry_nonneg sub)
    have hts := specTotal_nonneg sub hnn.1
    have ht := specTotal_nonneg nx hnn.2
    have hl := GetNbEntry_nonneg nx
    have hls := GetNbEntry_nonneg sub
    simp only [specLayout, List.mem_cons, List.mem_append] at he
    simp only [GetNbEntry, specTotal]
    rcases he with he | he | he
    · subst he
      unfold footprint inRecords at hj
      unfold inRecords inClusters
      simp only [GetRawAd_eq] at hj ⊢
      rcases hj with hj | hj | hj | hj | hj
      · left; omega
      · exact absurd hj.1 (by decide)
      · exact absurd hj.1 (by decide)
      · right; omega
      · right; omega
    · right
      rcases ihs _ _ _ hnn.1 e he j hj with h | h
      · unfold inRecords at h
        unfold inClusters
        simp only [GetRawAd_eq] at h ⊢
        omega
      · unfold inClusters at h ⊢
        simp only [GetRawAd_eq] at h ⊢
        omega
    · rcases ihn _ _ _ hnn.2 e he j hj with h | h
      · left
        unfold inRecords at h ⊢
        omega
      · right
        unfold inClusters at h ⊢
        simp only [GetRawAd_eq] at h ⊢
        omega

theorem fileStep_length (s : CFloppy) (pLFN : Int) (info : FileDescriptor) (data : List Nat) :
    (fileStep s pLFN info data).m_pRawImage.length = s.m_pRawImage.length := by
  rw [fileStep_image]
  split
  · rw [memcpy_length, LFN_Create_length]
  · rw [LFN_Create_length]

theorem dirStep_length (s : CFloppy) (pLFN cluster : Int) (info : FileDescriptor)
    (sub : CDirectory) :
    (dirStep s pLFN cluster info sub).m_pRawImage.length = s.m_pRawImage.length := by
  rw [dirStep_image, dirHead_length, LFN_Create_length]

/-- After the turn of the loop for a file entry the image holds the entry at its place. -/
theorem fileStep_placed (s : CFloppy) (pLFN cluster : Int) (info : FileDescriptor)
    (data : List Nat) (next : CDirEntry) (h0 : 0 ≤ GetSize info)
    (hr : buildReady s pLFN (.file info data next))
    (hfit : ceilDiv (GetSize info) 1024 ≤ s.m_nbFreeCluster) :
    placedOk (fileStep s pLFN info data).m_pRawImage
      ⟨pLFN, cluster, false, info, data, 0, s.m_nextCluster, ceilDiv (GetSize info) 1024⟩ := by
  obtain ⟨r1, r2, r3, r4, r5, r6⟩ := hr
  obtain ⟨e1, e2, e3, e4, e5⟩ := file_nbCluster _ h0
  have hl := GetNbEntry_nonneg next
  simp only [GetNbEntry] at r2
  simp only [GetRawAd_eq] at r2 r5 r6
  refine ⟨fun k j hk hj => ?_, fun _ => ⟨fun k j hk hj => ?_, fun j hj1 hj2 => ?_⟩,
    fun hf => Bool.noConfusion hf⟩
  · simp only [] at hj
    obtain ⟨p, rfl⟩ : ∃ p : Nat, pLFN = p := ⟨pLFN.toNat, by omega⟩
    have hjp : j = p + k := by omega
    subst hjp
    rw [fileStep_image, e1]
    unfold Placed.recorded
    simp only []
    split
    · rw [memcpy_getElem?, opt_if_neg (by rw [GetRawAd_eq]; push_cast; omega),
        LFN_Create_record _ _ (by omega) _ _ _ _ hk]
    · rw [LFN_Create_record _ _ (by omega) _ _ _ _ hk]
  · simp only [] at hk hj ⊢
    rw [fileStep_image, e1, if_pos (by omega), memcpy_getElem?, LFN_Create_length,
      opt_if_pos (by rw [GetRawAd_eq] at hj ⊢; omega)]
    have : ((j : Int) - GetRawAd s.m_nextCluster).toNat = k := by omega
    rw [this]
  · simp only [] at hj1 hj2 ⊢
    rw [GetRawAd_eq] at hj1 hj2
    rw [fileStep_image, e1]
    split
    · rw [memcpy_getElem?, opt_if_neg (by rw [GetRawAd_eq]; omega),
        (LFN_Create_sameOutside _ _ _ _ _).2 j (by omega)]
      exact r6 j (by omega) (by omega)
    · omega

/-- After the turn of the loop for a sub-directory entry, and before the entries of the
sub-directory are built, the image holds the entry at its place. -/
theorem dirStep_placed (s : CFloppy) (pLFN cluster : Int) (info : FileDescriptor)
    (sub next : CDirEntry) (hr : buildReady s pLFN (.dir info sub next))
    (hfit : ceilDiv ((GetNbEntry sub + 2) * 32) 1024 ≤ s.m_nbFreeCluster) :
    placedOk (dirStep s pLFN cluster info sub).m_pRawImage
      ⟨pLFN, cluster, true, info, [], GetNbEntry sub, s.m_nextCluster,
        ceilDiv ((GetNbEntry sub + 2) * 32) 1024⟩ := by
  obtain ⟨r1, r2, r3, r4, r5, r6⟩ := hr
  obtain ⟨e1, e2, e3⟩ := dir_nbCluster _ (GetNbEntry_nonneg sub)
  have hl := GetNbEntry_nonneg next
  have hls := GetNbEntry_nonneg sub
  simp only [GetNbEntry] at r2
  simp only [GetRawAd_eq] at r2 r5 r6
  refine ⟨fun k j hk hj => ?_, fun hf => Bool.noConfusion hf,
    fun _ => ⟨fun k j hk hj => ?_, fun j hj1 hj2 => ?_⟩⟩
  · simp only [] at hj
    obtain ⟨p, rfl⟩ : ∃ p : Nat, pLFN = p := ⟨pLFN.toNat, by omega⟩
    have hjp : j = p + k := by omega
    subst hjp
    rw [dirStep_image, e1, (dirHead_sameOutside _ _ _ _ _ (by omega)).2 _
      (by left; rw [GetRawAd_eq]; push_cast; omega)]
    unfold Placed.recorded
    simp only []
    rw [if_pos (by omega), LFN_Create_record _ _ (by omega) _ _ _ _ hk]
  · simp only [] at hj ⊢
    rw [dirStep_image, e1]
    obtain ⟨p, hp⟩ : ∃ p : Nat, GetRawAd s.m_nextCluster = p :=
      ⟨(GetRawAd s.m_nextCluster).toNat, by rw [GetRawAd_eq]; omega⟩
    rw [hp] at hj ⊢
    have hjp : j = p + k := by omega
    subst hjp
    rw [GetRawAd_eq] at hp
    rw [dirHead_dot_record _ _ (by rw [LFN_Create_length]; omega) _ _ _ (by omega) _ hk]
  · simp only [] at hj1 hj2 ⊢
    rw [GetRawAd_eq] at hj1 hj2
    rw [dirStep_image, e1]
    exact dirHead_rest _ _ _ _ _ _ (by rw [GetRawAd_eq]; omega) (by rw [GetRawAd_eq]; omega)
      (by rw [LFN_Create_length]; omega)

theorem fileStep_ready (s : CFloppy) (pLFN : Int) (info : FileDescriptor)
    (data : List Nat) (next : CDirEntry) (h0 : 0 ≤ GetSize info)
    (hr : buildReady s pLFN (.file info data next))
    (hfit : ceilDiv (GetSize info) 1024 ≤ s.m_nbFreeCluster) :
    buildReady (fileStep s pLFN info data) (pLFN + 32) next := by
  obtain ⟨r1, r2, r3, r4, r5, r6⟩ := hr
  obtain ⟨e1, e2, e3, e4, e5⟩ := file_nbCluster _ h0
  have hl := GetNbEntry_nonneg next
  simp only [GetNbEntry] at r2
  unfold buildReady
  rw [fileStep_next, fileStep_free, fileStep_length, e1]
  simp only [GetRawAd_eq] at r2 r5 r6 ⊢
  refine ⟨by omega, by omega, by omega, by omega, by omega, fun j hj1 hj2 => ?_⟩
  rw [(fileStep_frame s pLFN info data h0).2 j ?_]
  · exact r6 j (by omega) hj2
  · unfold inRecords inClusters
    simp only [GetRawAd_eq]
    omega

theorem dirStep_ready (s : CFloppy) (pLFN cluster : Int) (info : FileDescriptor)
    (sub next : CDirEntry) (hr : buildReady s pLFN (.dir info sub next))
    (hfit : ceilDiv ((GetNbEntry sub + 2) * 32) 1024 ≤ s.m_nbFreeCluster) :
    buildReady (dirStep s pLFN cluster info sub) (GetRawAd s.m_nextCluster + 64) sub := by
  obtain ⟨r1, r2, r3, r4, r5, r6⟩ := hr
  obtain ⟨e1, e2, e3⟩ := dir_nbCluster _ (GetNbEntry_nonneg sub)
  have hl := GetNbEntry_nonneg next
  have hls := GetNbEntry_nonneg sub
  simp only [GetNbEntry] at r2
  unfold buildReady
  rw [dirStep_next, dirStep_free, dirStep_length, e1]
  simp only [GetRawAd_eq] at r2 r5 r6 ⊢
  refine ⟨by omega, by omega, by omega, by omega, by omega, fun j hj1 hj2 => ?_⟩
  rw [(dirStep_frame s pLFN cluster info sub).2 j ?_]
  · exact r6 j (by omega) hj2
  · unfold inRecords inClusters
    simp only [GetRawAd_eq]
    omega
/-! ## The image after the loop of `BuildDirectory` -/

/-- A loop of `BuildDirectory` that returns `true` on a tree with non-negative file sizes
leaves every entry of the tree at the place the layout gives it, and advances
`m_nextCluster` by the clusters the tree requires. -/
theorem buildEntries_layout (es : CDirEntry) :
    ∀ (s : CFloppy) (pLFN cluster : Int), sizesNonNeg es = true → buildReady s pLFN es →
      (buildEntries s pLFN cluster es).1 = Diag.ok →
      (buildEntries s pLFN cluster es).2.m_nextCluster = s.m_nextCluster + specTotal es
      ∧ (buildEntries s pLFN cluster es).2.m_nbFreeCluster = s.m_nbFreeCluster - specTotal es
      ∧ 0 ≤ (buildEntries s pLFN cluster es).2.m_nbFreeCluster
      ∧ ∀ e ∈ specLayout es pLFN cluster s.m_nextCluster,
          placedOk (buildEntries s pLFN cluster es).2.m_pRawImage e := by
  induction es with
  | null =>
    intro s pLFN cluster _ hr _
    simp only [buildEntries, specTotal, specLayout]
    exact ⟨by omega, by omega, hr.2.2.2.1, fun e he => absurd he (List.not_mem_nil e)⟩
  | file info data next ih =>
    intro s pLFN cluster hnn hr hok
    simp only [sizesNonNeg, Bool.and_eq_true, decide_eq_true_eq] at hnn
    obtain ⟨h0, hn⟩ := hnn
    obtain ⟨e1, e2, e3, e4, e5⟩ := file_nbCluster _ h0
    have hl := GetNbEntry_nonneg next
    have hr0 := hr
    obtain ⟨r1, r2, r3, r4, r5, r6⟩ := hr
    simp only [GetNbEntry] at r2
    rw [buildEntries_file _ _ _ _ _ _ h0] at hok ⊢
    by_cases hc : 0 < Int.tdiv (GetSize info + 1023) 1024
        ∧ Int.tdiv (GetSize info + 1023) 1024 > s.m_nbFreeCluster
    · rw [if_pos hc] at hok
      exact Diag.noConfusion hok
    · rw [if_neg hc] at hok ⊢
      have hfit : ceilDiv (GetSize info) 1024 ≤ s.m_nbFreeCluster := by
        rw [e1] at hc
        by_contra hh
        exact hc ⟨by omega, by omega⟩
      have hready := fileStep_ready s pLFN info data next h0 hr0 hfit
      obtain ⟨i1, i2, i3, i4⟩ := ih (fileStep s pLFN info data) (pLFN + 32) cluster hn hready hok
      have hf := (buildEntries_frame next (fileStep s pLFN info data) (pLFN + 32) cluster hn).2
      rw [i1] at hf
      rw [fileStep_next, e1] at i1 i4 hf
      rw [fileStep_free, e1] at i2
      have ht := specTotal_nonneg next hn
      refine ⟨by simp only [specTotal]; omega, by simp only [specTotal]; omega, i3, ?_⟩
      intro e he
      simp only [specLayout, List.mem_cons] at he
      rcases he with he | he
      · subst he
        refine placedOk_of_sameOff hf ?_ (fileStep_placed s pLFN cluster info data next h0 hr0 hfit)
        intro j hj
        unfold footprint inRecords at hj
        unfold inRecords inClusters
        simp only [GetRawAd_eq] at hj r2 ⊢
        rcases hj with hj | hj | hj | hj | hj
        · omega
        · omega
        · omega
        · exact absurd hj.1 (by decide)
        · exact absurd hj.1 (by decide)
      · exact i4 e he
  | dir info sub next ihs ihn =>
    intro s pLFN cluster hnn hr hok
    simp only [sizesNonNeg, Bool.and_eq_true] at hnn
    obtain ⟨hs, hn⟩ := hnn
    obtain ⟨e1, e2, e3⟩ := dir_nbCluster _ (GetNbEntry_nonneg sub)
    have hl := GetNbEntry_nonneg next
    have hls := GetNbEntry_nonneg sub
    have hr0 := hr
    obtain ⟨r1, r2, r3, r4, r5, r6⟩ := hr
    simp only [GetNbEntry] at r2
    rw [buildEntries_dir] at hok ⊢
    by_cases hc : Int.tdiv (((GetNbEntry sub + 2) * 32) + 1023) 1024 > s.m_nbFreeCluster
    · rw [if_pos hc] at hok
      exact Diag.noConfusion hok
    · rw [if_neg hc] at hok ⊢
      have hq : (if s.m_nextCluster > 0 then GetRawAd s.m_nextCluster + 64
          else GetRawAd s.m_nextCluster + 32) = GetRawAd s.m_nextCluster + 64 := if_pos r3
      rw [hq] at hok ⊢
      have hfit : ceilDiv ((GetNbEntry sub + 2) * 32) 1024 ≤ s.m_nbFreeCluster := by
        rw [e1] at hc; omega
      have hready := dirStep_ready s pLFN cluster info sub next hr0 hfit
      have hplaced := dirStep_placed s pLFN cluster info sub next hr0 hfit
      have hfs := (buildEntries_frame sub (dirStep s pLFN cluster info sub)
        (GetRawAd s.m_nextCluster + 64) s.m_nextCluster hs).2
      have ihs2 := ihs (dirStep s pLFN cluster info sub) (GetRawAd s.m_nextCluster + 64)
        s.m_nextCluster hs hready
      have hfresh := hready.2.2.2.2.2
      have hlen1 := dirStep_length s pLFN cluster info sub
      rw [dirStep_next, e1] at hfs ihs2 hfresh
      rw [dirStep_free, e1] at ihs2
      generalize buildEntries (dirStep s pLFN cluster info sub) (GetRawAd s.m_nextCluster + 64)
        s.m_nextCluster sub = rsub at hok hfs ihs2 ⊢
      generalize (dirStep s pLFN cluster info sub).m_pRawImage = img1 at hfs hplaced hfresh hlen1
      by_cases hs1 : rsub.1 = Diag.ok
      · rw [if_pos hs1] at hok ⊢
        obtain ⟨a1, a2, a3, a4⟩ := ihs2 hs1
        rw [a1] at hfs
        have hts := specTotal_nonneg sub hs
        have ht := specTotal_nonneg next hn
        have hready2 : buildReady rsub.2 (pLFN + 32) next := by
          unfold buildReady
          rw [a1, a2, hfs.1, hlen1]
          simp only [GetRawAd_eq] at r2 r5 r6 hfresh ⊢
          refine ⟨by omega, by omega, by omega, by omega, by omega, fun j hj1 hj2 => ?_⟩
          rw [hfs.2 j ?_]
          · exact hfresh j (by omega) (by omega)
          · unfold inRecords inClusters
            simp only [GetRawAd_eq]
            omega
        obtain ⟨b1, b2, b3, b4⟩ := ihn rsub.2 (pLFN + 32) cluster hn hready2 hok
        have hfn := (buildEntries_frame next rsub.2 (pLFN + 32) cluster hn).2
        rw [b1] at hfn
        rw [a1] at b1 b4 hfn
        rw [a2] at b2
        refine ⟨by simp only [specTotal]; omega, by simp only [specTotal]; omega, b3, ?_⟩
        intro e he
        simp only [specLayout, List.mem_cons, List.mem_append] at he
        rcases he with he | he | he
        · subst he
          refine placedOk_of_sameOff hfn ?_ (placedOk_of_sameOff hfs ?_ hplaced)
          · intro j hj
            unfold footprint inRecords at hj
            unfold inRecords inClusters
            simp only [GetRawAd_eq] at hj r2 ⊢
            rcases hj with hj | hj | hj | hj | hj
            · omega
            · exact absurd hj.1 (by decide)
            · exact absurd hj.1 (by decide)
            · omega
            · omega
          · intro j hj
            unfold footprint inRecords at hj
            unfold inRecords inClusters
            simp only [GetRawAd_eq] at hj r2 ⊢
            rcases hj with hj | hj | hj | hj | hj
            · omega
            · exact absurd hj.1 (by decide)
            · exact absurd hj.1 (by decide)
            · omega
            · omega
        · refine placedOk_of_sameOff hfn ?_ (a4 e he)
          intro j hj
          have hloc := specLayout_footprint sub _ _ _ hs e he j hj
          unfold inRecords inClusters at hloc ⊢
          simp only [GetRawAd_eq] at hloc r2 ⊢
          omega
        · exact b4 e he
      · rw [if_neg hs1] at hok
        exact absurd hok hs1

/-! ## The image after `Fill` -/

theorem Create_fresh (a b c : Int) (h : 18 ≤ a * b * c) : freshFloppy (Create a b c) := by
  unfold freshFloppy
  rw [Create_nextCluster, Create_nbFreeCluster, Create_maxFatEntry, Create_length, GetRawAd_eq,
    Int.tdiv_eq_ediv (by omega) (by decide)]
  refine ⟨rfl, by omega, by omega, fun j hj1 hj2 => ?_⟩
  rw [Create_getElem?_fill a b c j (by omega), if_pos hj2]

/-- A `Fill` that passes the test on the root entries starts the loop of `BuildDirectory`
at slot 1 of the root directory, after the volume label. -/
theorem Fill_build (s : CFloppy) (root : CDirectory) (h : GetNbEntry root + 1 ≤ 112) :
    Fill s root
      = buildEntries { s with m_pRawImage := (dirHead s.m_pRawImage 5632 0 0 3584).1 }
          5664 0 root := by
  rw [Fill_eq s root (by unfold MAX_ROOT_ENTRY; omega)]
  have e1 : (512 * (1 + 2 * SECTOR_PER_FAT) : Int) = 5632 := by decide
  have e2 : (ROOTDIR_NBSECTOR * 512 : Int) = 3584 := by decide
  rw [e1, e2, dirHead_snd, if_neg (by decide)]
  rfl

theorem Fill_ok_root (s : CFloppy) (root : CDirectory) (hok : (Fill s root).1 = Diag.ok) :
    GetNbEntry root + 1 ≤ 112 := by
  by_contra hc
  unfold Fill at hok
  rw [if_pos (by unfold MAX_ROOT_ENTRY; omega)] at hok
  exact Diag.noConfusion hok

theorem Fill_ready (s : CFloppy) (root : CDirectory) (hf : freshFloppy s)
    (h : GetNbEntry root + 1 ≤ 112) :
    buildReady { s with m_pRawImage := (dirHead s.m_pRawImage 5632 0 0 3584).1 } 5664 root := by
  obtain ⟨f1, f2, f3, f4⟩ := hf
  unfold buildReady
  simp only [dirHead_length]
  rw [f1]
  simp only [GetRawAd_eq] at f3 ⊢
  refine ⟨by omega, by omega, by omega, f2, by omega, fun j hj1 hj2 => ?_⟩
  rw [(dirHead_sameOutside s.m_pRawImage 5632 0 0 3584 (by omega)).2 j (by omega)]
  exact f4 j (by omega) hj2

/-- The image after a `Fill` that returns `true`, on a fresh floppy and for a tree with
non-negative file sizes: every entry is at its place, slot 0 of the root holds the volume
label, the root directory is zero after its last record, and nothing else has changed
outside the root directory and the clusters the tree is given. -/
theorem Fill_layout (s : CFloppy) (root : CDirectory) (hf : freshFloppy s)
    (hnn : sizesNonNeg root = true) (hok : (Fill s root).1 = Diag.ok) :
    (Fill s root).2.m_nextCluster = 2 + specTotal root
    ∧ (Fill s root).2.m_nbFreeCluster = s.m_nbFreeCluster - specTotal root
    ∧ 0 ≤ (Fill s root).2.m_nbFreeCluster
    ∧ (Fill s root).2.m_pRawImage.length = s.m_pRawImage.length
    ∧ (∀ e ∈ specLayout root 5664 0 2, placedOk (Fill s root).2.m_pRawImage e)
    ∧ (∀ k : Nat, k < 32 → (Fill s root).2.m_pRawImage[5632 + k]? = labelRecord[k]?)
    ∧ (∀ j : Nat, 5664 + 32 * GetNbEntry root ≤ (j : Int) → j < 9216 →
        (Fill s root).2.m_pRawImage[j]? = some 0)
    ∧ (∀ j : Nat, (j < 5632 ∨ GetRawAd (2 + specTotal root) ≤ (j : Int)) →
        (Fill s root).2.m_pRawImage[j]? = s.m_pRawImage[j]?) := by
  have hn := Fill_ok_root s root hok
  have hl := GetNbEntry_nonneg root
  have hready := Fill_ready s root hf hn
  obtain ⟨f1, f2, f3, f4⟩ := hf
  rw [Fill_build s root hn] at hok ⊢
  obtain ⟨s1, hs1⟩ : ∃ s1 : CFloppy,
      s1 = { s with m_pRawImage := (dirHead s.m_pRawImage 5632 0 0 3584).1 } := ⟨_, rfl⟩
  rw [← hs1] at hok hready ⊢
  have n1 : s1.m_nextCluster = 2 := by rw [hs1]; exact f1
  have n2 : s1.m_nbFreeCluster = s.m_nbFreeCluster := by rw [hs1]
  have n3 : s1.m_pRawImage = (dirHead s.m_pRawImage 5632 0 0 3584).1 := by rw [hs1]
  obtain ⟨a1, a2, a3, a4⟩ := buildEntries_layout root s1 5664 0 hnn hready hok
  obtain ⟨-, hfr⟩ := buildEntries_frame root s1 5664 0 hnn
  rw [a1] at hfr
  rw [n1] at a1 a4 hfr
  rw [n2] at a2
  rw [n3] at hfr
  have ht := specTotal_nonneg root hnn
  have hlen := hfr.1
  rw [dirHead_length] at hlen
  simp only [GetRawAd_eq] at f3
  refine ⟨a1, a2, a3, hlen, a4, fun k hk => ?_, fun j hj1 hj2 => ?_, fun j hj => ?_⟩
  · rw [hfr.2 (5632 + k) ?_]
    · exact dirHead_label_record s.m_pRawImage 5632 (by omega) 3584 (by omega) k hk
    · unfold inRecords inClusters
      simp only [GetRawAd_eq]
      push_cast
      omega
  · rw [hfr.2 j ?_]
    · exact dirHead_rest_root s.m_pRawImage 5632 3584 j (by omega) (by omega) (by omega)
    · unfold inRecords inClusters
      simp only [GetRawAd_eq]
      omega
  · rw [hfr.2 j ?_]
    · exact (dirHead_sameOutside s.m_pRawImage 5632 0 0 3584 (by omega)).2 j
        (by simp only [GetRawAd_eq] at hj; omega)
    · unfold inRecords inClusters
      simp only [GetRawAd_eq] at hj ⊢
      omega

/-! ## The bytes of a directory record -/

theorem fieldBytes_length (len : Nat) : ∀ src : List Nat, (fieldBytes src len).length = len := by
  induction len with
  | zero => intro src; rfl
  | succ n ih =>
    intro src
    simp only [fieldBytes]
    split <;> simp only [List.length_cons, ih]

theorem LFNStrCpy_getElem? (len : Nat) :
    ∀ (m : List Nat) (p : Int) (src : List Nat) (j : Nat),
      (LFNStrCpy m p src len)[j]?
        = if p ≤ (j : Int) ∧ (j : Int) < p + len ∧ j < m.length then
            (fieldBytes src len)[((j : Int) - p).toNat]?
          else m[j]? := by
  induction len with
  | zero =>
    intro m p src j
    simp only [LFNStrCpy]
    rw [opt_if_neg (by push_cast; omega)]
  | succ n ih =>
    intro m p src j
    simp only [LFNStrCpy, fieldBytes]
    by_cases hc : p ≤ (j : Int) ∧ (j : Int) < p + ((n + 1 : Nat) : Int) ∧ j < m.length
    · rw [opt_if_pos hc]
      by_cases hj : p = (j : Int)
      · have e0 : ((j : Int) - p).toNat = 0 := by omega
        rw [e0]
        split
        · rw [ih, poke_length, opt_if_neg (by omega), poke_getElem?, opt_if_pos ⟨hj, hc.2.2⟩]
          simp
        · rw [ih, poke_length, opt_if_neg (by omega), poke_getElem?, opt_if_pos ⟨hj, hc.2.2⟩]
          simp
      · obtain ⟨i, hi⟩ : ∃ i : Nat, ((j : Int) - p).toNat = i + 1 :=
          ⟨((j : Int) - p).toNat - 1, by omega⟩
        have e1 : ((j : Int) - (p + 1)).toNat = i := by omega
        rw [hi]
        have hc2 : p + 1 ≤ (j : Int) ∧ (j : Int) < p + 1 + (n : Int) ∧ j < m.length := by
          push_cast at hc; omega
        split
        · rw [ih, poke_length, opt_if_pos hc2, e1]
          simp
        · rw [ih, poke_length, opt_if_pos hc2, e1]
          simp
    · rw [opt_if_neg hc]
      have hc2 : ¬ (p + 1 ≤ (j : Int) ∧ (j : Int) < p + 1 + (n : Int) ∧ j < m.length) := by
        push_cast at hc; omega
      split
      · rw [ih, poke_length, opt_if_neg hc2, poke_getElem?, opt_if_neg (by push_cast at hc; omega)]
      · rw [ih, poke_length, opt_if_neg hc2, poke_getElem?, opt_if_neg (by push_cast at hc; omega)]

theorem lfnRecord_name (info : FileDescriptor) (isDir : Bool) (c : Int) (k : Nat) (hk : k < 8) :
    (lfnRecord info isDir c)[k]? = (nameField info)[k]? := by
  unfold lfnRecord LFN_Create nameField
  cases isDir <;> cases info.ftLastWriteTime <;>
    simp (disch := omega) only [poke_getElem?, store16, store32, LFNStrCpy_getElem?,
      memset_getElem?, poke_length, LFNStrCpy_length, memset_length, List.length_replicate,
      if_pos, if_neg, Bool.false_eq_true, Bool.not_false, Bool.not_true, if_true, if_false] <;>
    congr 1

theorem lfnRecord_ext (info : FileDescriptor) (isDir : Bool) (c : Int) (k : Nat) (hk : k < 3) :
    (lfnRecord info isDir c)[8 + k]? = (extField info)[k]? := by
  unfold lfnRecord LFN_Create extField
  cases isDir <;> cases info.ftLastWriteTime <;>
    simp (disch := omega) only [poke_getElem?, store16, store32, LFNStrCpy_getElem?,
      memset_getElem?, poke_length, LFNStrCpy_length, memset_length, List.length_replicate,
      if_pos, if_neg, Bool.false_eq_true, Bool.not_false, Bool.not_true, if_true, if_false] <;>
    (congr 1; omega)

theorem lfnRecord_attr (info : FileDescriptor) (isDir : Bool) (c : Int) :
    (lfnRecord info isDir c)[11]? = some (if isDir = true then 0x10 else 0) := by
  unfold lfnRecord LFN_Create
  cases isDir <;> cases info.ftLastWriteTime <;>
    simp (disch := omega) only [poke_getElem?, store16, store32, LFNStrCpy_getElem?,
      memset_getElem?, poke_length, LFNStrCpy_length, memset_length, List.length_replicate,
      if_pos, if_neg, Bool.false_eq_true, Bool.not_false, Bool.not_true, if_true, if_false,
      List.getElem?_replicate] <;> rfl

theorem lfnRecord_pad (info : FileDescriptor) (isDir : Bool) (c : Int) (k : Nat) (hk : k < 10) :
    (lfnRecord info isDir c)[12 + k]? = some 0 := by
  unfold lfnRecord LFN_Create
  cases isDir <;> cases info.ftLastWriteTime <;>
    simp (disch := omega) only [poke_getElem?, store16, store32, LFNStrCpy_getElem?,
      memset_getElem?, poke_length, LFNStrCpy_length, memset_length, List.length_replicate,
      if_pos, if_neg, Bool.false_eq_true, Bool.not_false, Bool.not_true, if_true, if_false,
      List.getElem?_replicate]

theorem lfnRecord_cluster (info : FileDescriptor) (isDir : Bool) (c : Int) :
    (lfnRecord info isDir c)[26]? = some (u16 c % 256)
    ∧ (lfnRecord info isDir c)[27]? = some (u16 c / 256 % 256) := by
  unfold lfnRecord LFN_Create
  cases isDir <;> cases info.ftLastWriteTime <;>
    simp (disch := omega) only [poke_getElem?, store16, store32, LFNStrCpy_getElem?,
      memset_getElem?, poke_length, LFNStrCpy_length, memset_length, List.length_replicate,
      if_pos, if_neg, Bool.false_eq_true, Bool.not_false, Bool.not_true, if_true, if_false,
      List.getElem?_replicate, Nat.mod_mod, and_self]

theorem lfnRecord_size (info : FileDescriptor) (isDir : Bool) (c : Int) (k : Nat) (hk : k < 4) :
    (lfnRecord info isDir c)[28 + k]?
      = (le32 (if isDir = true then 0 else u32 (GetSize info)))[k]? := by
  unfold lfnRecord LFN_Create le32
  rcases (by omega : k = 0 ∨ k = 1 ∨ k = 2 ∨ k = 3) with h | h | h | h <;> subst h <;>
  cases isDir <;> cases info.ftLastWriteTime <;>
    simp (disch := omega) only [poke_getElem?, store16, store32, LFNStrCpy_getElem?,
      memset_getElem?, poke_length, LFNStrCpy_length, memset_length, List.length_replicate,
      if_pos, if_neg, Bool.false_eq_true, Bool.not_false, Bool.not_true, if_true, if_false,
      List.getElem?_replicate, Nat.mod_mod] <;> rfl

theorem lfnRecord_time (info : FileDescriptor) (isDir : Bool) (c : Int) :
    (lfnRecord info isDir c)[22]? = some ((dosDateTime info).2 % 256)
    ∧ (lfnRecord info isDir c)[23]? = some ((dosDateTime info).2 / 256 % 256)
    ∧ (lfnRecord info isDir c)[24]? = some ((dosDateTime info).1 % 256)
    ∧ (lfnRecord info isDir c)[25]? = some ((dosDateTime info).1 / 256 % 256) := by
  unfold lfnRecord LFN_Create dosDateTime
  rcases info with ⟨fn, an, sz, (_ | ⟨date, time⟩)⟩ <;> cases isDir <;>
    simp (disch := omega) only [poke_getElem?, store16, store32, LFNStrCpy_getElem?,
      memset_getElem?, poke_length, LFNStrCpy_length, memset_length, List.length_replicate,
      if_pos, if_neg, Bool.false_eq_true, Bool.not_false, Bool.not_true, if_true, if_false,
      List.getElem?_replicate, Nat.mod_mod, and_self]

theorem take_drop_eq (l w : List Nat) (a : Nat) (h : ∀ k, k < w.length → l[a + k]? = w[k]?) :
    (l.drop a).take w.length = w := by
  apply List.ext_getElem?
  intro k
  rw [List.getElem?_take]
  by_cases hk : k < w.length
  · rw [if_pos hk, List.getElem?_drop, h k hk]
  · rw [if_neg hk]
    exact (List.getElem?_eq_none (by omega)).symm

/-- The 32 bytes at `pLFN` after `LFN_Create` are the record `lfnRecord`. -/
theorem LFN_Create_window_eq (m : List Nat) (p : Nat) (hp : p + 32 ≤ m.length)
    (info : FileDescriptor) (isDir : Bool) (c : Int) :
    ((LFN_Create m info isDir (p : Int) c).drop p).take 32 = lfnRecord info isDir c := by
  have h := take_drop_eq (LFN_Create m info isDir (p : Int) c) (lfnRecord info isDir c) p
    (fun k hk => LFN_Create_record m p hp info isDir c k (by rw [lfnRecord_length] at hk; exact hk))
  rw [lfnRecord_length] at h
  exact h

/-- The fields of the record `LFN_Create` writes (`struct LFN`). -/
theorem lfnRecord_fields (info : FileDescriptor) (isDir : Bool) (c : Int) :
    (lfnRecord info isDir c).take 8 = nameField info
    ∧ ((lfnRecord info isDir c).drop 8).take 3 = extField info
    ∧ (lfnRecord info isDir c)[11]? = some (if isDir = true then 0x10 else 0)
    ∧ ((lfnRecord info isDir c).drop 12).take 10 = List.replicate 10 0
    ∧ ((lfnRecord info isDir c).drop 22).take 2 = le16 (dosDateTime info).2
    ∧ ((lfnRecord info isDir c).drop 24).take 2 = le16 (dosDateTime info).1
    ∧ ((lfnRecord info isDir c).drop 26).take 2 = le16 (u16 c)
    ∧ (lfnRecord info isDir c).drop 28 = le32 (if isDir = true then 0 else u32 (GetSize info)) := by
  refine ⟨?_, ?_, lfnRecord_attr info isDir c, ?_, ?_, ?_, ?_, ?_⟩
  · have h := take_drop_eq (lfnRecord info isDir c) (nameField info) 0 (fun k hk => by
      rw [Nat.zero_add]
      exact lfnRecord_name info isDir c k (by unfold nameField at hk; rw [fieldBytes_length] at hk; exact hk))
    unfold nameField at h ⊢
    rw [fieldBytes_length] at h
    exact h
  · have h := take_drop_eq (lfnRecord info isDir c) (extField info) 8 (fun k hk =>
      lfnRecord_ext info isDir c k (by unfold extField at hk; rw [fieldBytes_length] at hk; exact hk))
    unfold extField at h ⊢
    rw [fieldBytes_length] at h
    exact h
  · have h := take_drop_eq (lfnRecord info isDir c) (List.replicate 10 0) 12 (fun k hk => by
      rw [List.length_replicate] at hk
      rw [lfnRecord_pad info isDir c k hk, List.getElem?_replicate, if_pos hk])
    rw [List.length_replicate] at h
    exact h
  · obtain ⟨t0, t1, -, -⟩ := lfnRecord_time info isDir c
    exact take_drop_eq (lfnRecord info isDir c) (le16 (dosDateTime info).2) 22 (fun k hk => by
      rcases (by unfold le16 at hk; simp only [List.length_cons, List.length_nil] at hk; omega :
        k = 0 ∨ k = 1) with h | h
      · subst h; exact t0
      · subst h; exact t1)
  · obtain ⟨-, -, d0, d1⟩ := lfnRecord_time info isDir c
    exact take_drop_eq (lfnRecord info isDir c) (le16 (dosDateTime info).1) 24 (fun k hk => by
      rcases (by unfold le16 at hk; simp only [List.length_cons, List.length_nil] at hk; omega :
        k = 0 ∨ k = 1) with h | h
      · subst h; exact d0
      · subst h; exact d1)
  · obtain ⟨c0, c1⟩ := lfnRecord_cluster info isDir c
    exact take_drop_eq (lfnRecord info isDir c) (le16 (u16 c)) 26 (fun k hk => by
      rcases (by unfold le16 at hk; simp only [List.length_cons, List.length_nil] at hk; omega :
        k = 0 ∨ k = 1) with h | h
      · subst h; exact c0
      · subst h; exact c1)
  · have h := take_drop_eq (lfnRecord info isDir c)
      (le32 (if isDir = true then 0 else u32 (GetSize info))) 28 (fun k hk =>
        lfnRecord_size info isDir c k (by
          unfold le32 at hk; simp only [List.length_cons, List.length_nil] at hk; omega))
    rw [List.take_of_length_le (by
      rw [List.length_drop, lfnRecord_length]
      unfold le32
      simp only [List.length_cons, List.length_nil]
      omega)] at h
    exact h

/-! ## A file of size 0 -/

/-- C14: a file entry of size 0 gets a directory record whose first cluster and size are
0, and nothing else: the loop of `BuildDirectory` goes on to the next entry, one record
further, with the image in which `LFN_Create` has written that record with cluster 0 and
with the fat table, `m_nextCluster` and `m_nbFreeCluster` it had; the six bytes of the
first cluster and size fields of that record are zero. -/
theorem zero_byte_file (s : CFloppy) (pLFN cluster : Int) (info : FileDescriptor)
    (data : List Nat) (next : CDirEntry) (h : GetSize info = 0) :
    buildEntries s pLFN cluster (.file info data next)
      = buildEntries { s with m_pRawImage := LFN_Create s.m_pRawImage info false pLFN 0 }
          (pLFN + 32) cluster next
    ∧ ((lfnRecord info false 0).drop 26).take 2 = le16 0
    ∧ (lfnRecord info false 0).drop 28 = le32 0
    ∧ ∀ p : Nat, pLFN = (p : Int) → p + 32 ≤ s.m_pRawImage.length →
        ((LFN_Create s.m_pRawImage info false pLFN 0).drop p).take 32 = lfnRecord info false 0 := by
  have e : Int.tdiv (GetSize info + 1023) 1024 = 0 := by rw [h]; decide
  refine ⟨?_, ?_, ?_, ?_⟩
  · simp only [buildEntries, e]
    rw [if_neg (by decide)]
    simp only [Int.add_zero, Int.sub_zero]
  · have := (lfnRecord_fields info false 0).2.2.2.2.2.2.1
    rw [this]
    rfl
  · have := (lfnRecord_fields info false 0).2.2.2.2.2.2.2
    rw [this, h]
    rfl
  · intro p hp hlen
    rw [hp]
    exact LFN_Create_window_eq _ p hlen info false 0

/-- Witness of C14: a file of size 0 as first entry of the root of the default floppy. -/
theorem zero_byte_file_witness :
    GetSize ⟨[70], [], 0, none⟩ = 0
    ∧ buildEntries (Create 2 10 81) 5664 0 (.file ⟨[70], [], 0, none⟩ [] .null)
      = buildEntries { Create 2 10 81 with
          m_pRawImage := LFN_Create (Create 2 10 81).m_pRawImage ⟨[70], [], 0, none⟩ false 5664 0 }
          (5664 + 32) 0 .null :=
  ⟨rfl, (zero_byte_file (Create 2 10 81) 5664 0 ⟨[70], [], 0, none⟩ [] .null rfl).1⟩

/-! ## The layout of a directory record -/

/-- C15: the 32-byte record `LFN_Create` writes at `pLFN` holds the 8-byte name at offset
0, the 3-byte extension at offset 8, the attribute at offset 11 (`0x10` for a
sub-directory entry, 0 for a file entry), ten zero bytes at offsets 12..21, the update
time and date at offsets 22 and 24, the first cluster as a little-endian 16-bit value at
offset 26 and the size as a little-endian 32-bit value at offset 28, which is 0 for a
sub-directory entry and the byte length (`GetSize`) for a file entry. -/
theorem LFN_Create_record_layout (m : List Nat) (p : Nat) (hp : p + 32 ≤ m.length)
    (info : FileDescriptor) (isDir : Bool) (c : Int) :
    (((LFN_Create m info isDir (p : Int) c).drop p).take 32).length = 32
    ∧ (((LFN_Create m info isDir (p : Int) c).drop p).take 32).take 8 = nameField info
    ∧ ((((LFN_Create m info isDir (p : Int) c).drop p).take 32).drop 8).take 3 = extField info
    ∧ (((LFN_Create m info isDir (p : Int) c).drop p).take 32)[11]?
        = some (if isDir = true then 0x10 else 0)
    ∧ ((((LFN_Create m info isDir (p : Int) c).drop p).take 32).drop 12).take 10
        = List.replicate 10 0
    ∧ ((((LFN_Create m info isDir (p : Int) c).drop p).take 32).drop 22).take 2
        = le16 (dosDateTime info).2
    ∧ ((((LFN_Create m info isDir (p : Int) c).drop p).take 32).drop 24).take 2
        = le16 (dosDateTime info).1
    ∧ ((((LFN_Create m info isDir (p : Int) c).drop p).take 32).drop 26).take 2 = le16 (u16 c)
    ∧ (((LFN_Create m info isDir (p : Int) c).drop p).take 32).drop 28
        = le32 (if isDir = true then 0 else u32 (GetSize info))
    ∧ (0 ≤ GetSize info → GetSize info < 4294967296 →
        (u32 (GetSize info) : Int) = GetSize info) := by
  rw [LFN_Create_window_eq m p hp info isDir c]
  refine ⟨lfnRecord_length info isDir c, ?_⟩
  obtain ⟨h1, h2, h3, h4, h5, h6, h7, h8⟩ := lfnRecord_fields info isDir c
  refine ⟨h1, h2, h3, h4, h5, h6, h7, h8, fun h0 h1 => ?_⟩
  unfold u32
  omega

/-- Witness of C15: the record of `a.txt` with first cluster 3, in a buffer of 32 bytes. -/
theorem LFN_Create_record_layout_witness :
    0 + 32 ≤ (List.replicate 32 0xe5).length
    ∧ ((((LFN_Create (List.replicate 32 0xe5) ⟨[97, 46, 116, 120, 116], [], 10, none⟩ false
          ((0 : Nat) : Int) 3).drop 0).take 32).drop 26).take 2 = le16 (u16 3) :=
  ⟨by decide, (LFN_Create_record_layout (List.replicate 32 0xe5) 0 (by decide)
    ⟨[97, 46, 116, 120, 116], [], 10, none⟩ false 3).2.2.2.2.2.2.2.1⟩

/-! ## Short names -/

theorem fieldBytes_take (n : Nat) :
    ∀ (l : List Nat) (m : Nat), n ≤ m → fieldBytes (l.take m) n = fieldBytes l n := by
  induction n with
  | zero => intro l m _; rfl
  | succ n ih =>
    intro l m hm
    obtain ⟨m2, rfl⟩ : ∃ m2, m = m2 + 1 := ⟨m - 1, by omega⟩
    cases l with
    | nil => rfl
    | cons c cs =>
      simp only [List.take_succ_cons, fieldBytes, List.headD_cons, List.tail_cons]
      split
      · rw [ih cs m2 (by omega)]
      · have := ih (c :: cs) (m2 + 1) (by omega)
        simp only [List.take_succ_cons] at this
        rw [this]

theorem fieldBytes_stop (n : Nat) (src : List Nat) (h : src.headD 0 = 0 ∨ src.headD 0 = 46) :
    fieldBytes src n = List.replicate n 0x20 := by
  induction n with
  | zero => rfl
  | succ n ih =>
    simp only [fieldBytes]
    rw [if_neg (by omega), ih]
    rfl

theorem fieldBytes_spec (n : Nat) :
    ∀ src : List Nat, (∀ c ∈ src, c ≠ 0 ∧ c < 256) →
      fieldBytes src n = (src.takeWhile (fun c => c ≠ 46)).take n
        ++ List.replicate (n - ((src.takeWhile (fun c => c ≠ 46)).take n).length) 0x20 := by
  induction n with
  | zero => intro src _; rfl
  | succ n ih =>
    intro src hsrc
    cases src with
    | nil =>
      rw [fieldBytes_stop _ [] (Or.inl rfl)]
      rfl
    | cons c cs =>
      by_cases hc : c = 46
      · rw [fieldBytes_stop _ _ (Or.inr (by simp [hc]))]
        simp [hc]
      · have h1 := hsrc c (List.mem_cons_self c cs)
        simp only [fieldBytes, List.headD_cons, List.tail_cons]
        rw [if_pos ⟨h1.1, hc⟩, ih cs (fun x hx => hsrc x (List.mem_cons_of_mem c hx)),
          Nat.mod_eq_of_lt h1.2]
        simp [hc]

theorem strupr_eq (s : List Nat) : strupr s = s.map specUpper := rfl

theorem specUpper_ok (c : Nat) (h : c ≠ 0 ∧ c < 256) :
    specUpper c ≠ 0 ∧ specUpper c < 256 ∧ ¬ (97 ≤ specUpper c ∧ specUpper c ≤ 122) := by
  unfold specUpper
  split <;> omega

theorem splitScan_noslash (p : List Nat) :
    ∀ (i : Nat) (slash dot : Option Nat), (∀ c ∈ p, c ≠ 47 ∧ c ≠ 92) →
      splitScan p i slash dot
        = (slash, match specLastDot p with
                  | some k => some (i + k)
                  | none => dot) := by
  induction p with
  | nil => intro i slash dot _; rfl
  | cons c cs ih =>
    intro i slash dot h
    have hc := h c (List.mem_cons_self c cs)
    have hcs : ∀ x ∈ cs, x ≠ 47 ∧ x ≠ 92 := fun x hx => h x (List.mem_cons_of_mem c hx)
    simp only [splitScan, specLastDot]
    rw [if_neg (by omega)]
    by_cases h46 : c = 46
    · rw [if_pos h46, ih _ _ _ hcs]
      cases specLastDot cs with
      | none => simp [h46]
      | some k => simp only []; congr 2; omega
    · rw [if_neg h46, ih _ _ _ hcs]
      cases specLastDot cs with
      | none => simp [h46]
      | some k => simp only []; congr 2; omega

theorem specLastDot_drop (p : List Nat) :
    ∀ d, specLastDot p = some d → p.drop d = 46 :: p.drop (d + 1) := by
  induction p with
  | nil => intro d h; exact Option.noConfusion h
  | cons c cs ih =>
    intro d h
    simp only [specLastDot] at h
    cases hk : specLastDot cs with
    | none =>
      rw [hk] at h
      simp only [] at h
      by_cases h46 : c = 46
      · rw [if_pos h46] at h
        cases h
        simp [h46]
      · rw [if_neg h46] at h
        exact Option.noConfusion h
    | some k =>
      rw [hk] at h
      simp only [Option.some.injEq] at h
      subst h
      simp only [List.drop_succ_cons]
      exact ih k hk

theorem cstr_eq (s : List Nat) (h : ∀ c ∈ s, c ≠ 0) : cstr s = s := by
  unfold cstr
  rw [List.takeWhile_eq_self_iff]
  intro c hc
  simpa using h c hc

/-- `_splitpath` on a plain name: no NUL, no `/` or `\`, no drive. -/
theorem splitpath_plain (name : List Nat) (h0 : ∀ c ∈ name, c ≠ 0)
    (hs : ∀ c ∈ name, c ≠ 47 ∧ c ≠ 92) (hd : name.getD 1 0 ≠ 58) :
    splitpath name
      = match specLastDot name with
        | some d => ((name.take d).take 255, (46 :: name.drop (d + 1)).take 255)
        | none => (name.take 255, []) := by
  unfold splitpath
  rw [cstr_eq name h0]
  simp only []
  rw [if_neg hd, splitScan_noslash name 0 none none hs]
  cases hk : specLastDot name with
  | none => simp
  | some d =>
    simp only [Option.getD_none, Nat.zero_add, Nat.zero_le, if_true, List.drop_zero, Nat.sub_zero]
    rw [specLastDot_drop name d hk]

theorem fieldBytes_upper (n : Nat) (s : List Nat) (hs : ∀ c ∈ s, c ≠ 0 ∧ c < 256) :
    fieldBytes (s.map specUpper) n = specField n s := by
  unfold specField
  exact fieldBytes_spec n _ (fun c hc => by
    obtain ⟨x, hx, rfl⟩ := List.mem_map.1 hc
    exact ⟨(specUpper_ok x (hs x hx)).1, (specUpper_ok x (hs x hx)).2.1⟩)

theorem fieldBytes_ok (n : Nat) :
    ∀ src : List Nat, (∀ c ∈ src, c < 256) →
      ∀ b ∈ fieldBytes (strupr src) n, b ≠ 0 ∧ b ≠ 46 ∧ ¬ (97 ≤ b ∧ b ≤ 122) := by
  induction n with
  | zero => intro src _ b hb; simp [fieldBytes] at hb
  | succ n ih =>
    intro src hsrc b hb
    cases src with
    | nil =>
      rw [strupr_eq, List.map_nil, fieldBytes_stop _ [] (Or.inl rfl)] at hb
      have := List.eq_of_mem_replicate hb
      omega
    | cons c cs =>
      rw [strupr_eq, List.map_cons] at hb
      simp only [fieldBytes, List.headD_cons, List.tail_cons] at hb
      have hc := hsrc c (List.mem_cons_self c cs)
      have hcs : ∀ x ∈ cs, x < 256 := fun x hx => hsrc x (List.mem_cons_of_mem c hx)
      split at hb
      · rename_i hh
        rcases List.mem_cons.1 hb with h | h
        · subst h
          unfold specUpper at hh ⊢
          split at hh <;> split <;> omega
        · exact ih cs hcs b h
      · rcases List.mem_cons.1 hb with h | h
        · omega
        · have := ih (c :: cs) hsrc b (by rw [strupr_eq, List.map_cons]; exact h)
          exact this

theorem splitpath_mem (name : List Nat) :
    (∀ c ∈ (splitpath name).1, c ∈ name) ∧ (∀ c ∈ (splitpath name).2, c ∈ name) := by
  have hcstr : ∀ c ∈ cstr name, c ∈ name := fun c hc =>
    (List.takeWhile_sublist _).subset hc
  have hp : ∀ c ∈ (if (cstr name).getD 1 0 = 58 then (cstr name).drop 2 else cstr name),
      c ∈ name := by
    intro c hc
    split at hc
    · exact hcstr c (List.mem_of_mem_drop hc)
    · exact hcstr c hc
  unfold splitpath
  simp only []
  generalize (if (cstr name).getD 1 0 = 58 then (cstr name).drop 2 else cstr name) = p at hp ⊢
  generalize splitScan p 0 none none = sd
  constructor
  · intro c hc
    split at hc
    · split at hc
      · exact hp c (List.mem_of_mem_drop (List.mem_of_mem_take (List.mem_of_mem_take hc)))
      · exact hp c (List.mem_of_mem_drop (List.mem_of_mem_take hc))
    · exact hp c (List.mem_of_mem_drop (List.mem_of_mem_take hc))
  · intro c hc
    split at hc
    · split at hc
      · exact hp c (List.mem_of_mem_drop (List.mem_of_mem_take hc))
      · exact absurd hc (List.not_mem_nil c)
    · exact absurd hc (List.not_mem_nil c)

/-- C18: the name and extension fields of the record of an entry, for a name of non-NUL
bytes with no path separator (`/`, `\`, or the `:` of a drive as second character).  With
the stem the text before the last `.` and the extension the text after it, the name field
(record bytes 0..7) is the upper-cased stem cut at its first `.` and at 8 characters and
padded with `0x20`, and the extension field (record bytes 8..10) is the upper-cased
extension cut at 3 characters and padded with `0x20`; no byte of either field is NUL, `.`
or a lower-case ASCII letter. -/
theorem short_name_fields (info : FileDescriptor) (isDir : Bool) (c : Int)
    (hb : ∀ x ∈ GetName info, x ≠ 0 ∧ x < 256)
    (hs : ∀ x ∈ GetName info, x ≠ 47 ∧ x ≠ 92) (hd : (GetName info).getD 1 0 ≠ 58) :
    (lfnRecord info isDir c).take 8 = specField 8 (specStem (GetName info))
    ∧ ((lfnRecord info isDir c).drop 8).take 3 = specField 3 (specExt (GetName info))
    ∧ ((lfnRecord info isDir c).take 8).length = 8
    ∧ (((lfnRecord info isDir c).drop 8).take 3).length = 3
    ∧ (∀ b ∈ (lfnRecord info isDir c).take 8, b ≠ 0 ∧ b ≠ 46 ∧ ¬ (97 ≤ b ∧ b ≤ 122))
    ∧ (∀ b ∈ ((lfnRecord info isDir c).drop 8).take 3, b ≠ 0 ∧ b ≠ 46 ∧ ¬ (97 ≤ b ∧ b ≤ 122)) := by
  obtain ⟨f1, f2, -⟩ := lfnRecord_fields info isDir c
  rw [f1, f2]
  have hmem := splitpath_mem (GetName info)
  have hsp := splitpath_plain (GetName info) (fun x hx => (hb x hx).1) hs hd
  have hname : nameField info = specField 8 (specStem (GetName info)) := by
    unfold nameField specStem
    rw [hsp]
    cases hk : specLastDot (GetName info) with
    | none =>
      simp only []
      rw [strupr_eq, List.map_take, fieldBytes_take 8 _ 255 (by omega)]
      exact fieldBytes_upper 8 _ hb
    | some d =>
      simp only []
      rw [strupr_eq, List.map_take, fieldBytes_take 8 _ 255 (by omega)]
      exact fieldBytes_upper 8 _ (fun x hx => hb x (List.mem_of_mem_take hx))
  have hext : extField info = specField 3 (specExt (GetName info)) := by
    unfold extField specExt
    rw [hsp]
    cases hk : specLastDot (GetName info) with
    | none =>
      simp only []
      rfl
    | some d =>
      simp only []
      have e : strupr ((46 :: (GetName info).drop (d + 1)).take 255)
          = 46 :: (((GetName info).drop (d + 1)).map specUpper).take 254 := by
        rw [strupr_eq, List.take_succ_cons, List.map_cons, List.map_take]
        rfl
      rw [e]
      simp only [List.headD_cons, if_true, List.tail_cons]
      rw [fieldBytes_take 3 _ 254 (by omega)]
      exact fieldBytes_upper 3 _ (fun x hx => hb x (List.mem_of_mem_drop hx))
  refine ⟨hname, hext, ?_, ?_, ?_, ?_⟩
  · unfold nameField; exact fieldBytes_length 8 _
  · unfold extField; exact fieldBytes_length 3 _
  · intro b hbm
    unfold nameField at hbm
    exact fieldBytes_ok 8 _ (fun x hx => (hb x (hmem.1 x hx)).2) b hbm
  · intro b hbm
    unfold extField at hbm
    split at hbm
    · have e : (strupr (splitpath (GetName info)).2).tail
          = strupr (splitpath (GetName info)).2.tail := by
        rw [strupr_eq, strupr_eq, List.map_tail]
      rw [e] at hbm
      exact fieldBytes_ok 3 _ (fun x hx => (hb x (hmem.2 x (List.mem_of_mem_tail hx))).2) b hbm
    · exact fieldBytes_ok 3 _ (fun x hx => (hb x (hmem.2 x hx)).2) b hbm

/-- Witness of C18 (amended): `a.txt` gives the name field `A` and seven spaces, and the extension field `TXT`. -/
theorem short_name_fields_witness :
    (∀ x ∈ GetName ⟨[97, 46, 116, 120, 116], [], 10, none⟩, x ≠ 0 ∧ x < 256)
    ∧ (∀ x ∈ GetName ⟨[97, 46, 116, 120, 116], [], 10, none⟩, x ≠ 47 ∧ x ≠ 92)
    ∧ (GetName ⟨[97, 46, 116, 120, 116], [], 10, none⟩).getD 1 0 ≠ 58
    ∧ (lfnRecord ⟨[97, 46, 116, 120, 116], [], 10, none⟩ false 3).take 8
        = [65, 32, 32, 32, 32, 32, 32, 32]
    ∧ ((lfnRecord ⟨[97, 46, 116, 120, 116], [], 10, none⟩ false 3).drop 8).take 3
        = [84, 88, 84] :=
  ⟨by decide, by decide, by decide,
    (short_name_fields ⟨[97, 46, 116, 120, 116], [], 10, none⟩ false 3
      (by decide) (by decide) (by decide)).1.trans (by decide),
    (short_name_fields ⟨[97, 46, 116, 120, 116], [], 10, none⟩ false 3
      (by decide) (by decide) (by decide)).2.1.trans (by decide)⟩

/-- The name `a:b.txt` holds no `/` and no `\`, and its stem is `a:b`; yet the name field
of its record is `B` padded with spaces, not `A:B`: `_splitpath` takes `a:` for a drive. -/
theorem short_name_drive_colon :
    (∀ x ∈ GetName ⟨[97, 58, 98, 46, 116, 120, 116], [], 10, none⟩, x ≠ 47 ∧ x ≠ 92)
    ∧ specStem (GetName ⟨[97, 58, 98, 46, 116, 120, 116], [], 10, none⟩) = [97, 58, 98]
    ∧ specField 8 (specStem (GetName ⟨[97, 58, 98, 46, 116, 120, 116], [], 10, none⟩))
        = [65, 58, 66, 32, 32, 32, 32, 32]
    ∧ (lfnRecord ⟨[97, 58, 98, 46, 116, 120, 116], [], 10, none⟩ false 3).take 8
        = [66, 32, 32, 32, 32, 32, 32, 32] := by
  refine ⟨by decide, by decide, by decide, ?_⟩
  rw [(lfnRecord_fields _ false 3).1]
  decide

/-! ## Trees with a negative size -/

theorem buildEntries_file_skip (s : CFloppy) (pLFN cluster : Int) (info : FileDescriptor)
    (data : List Nat) (next : CDirEntry) (h : ¬ Int.tdiv (GetSize info + 1023) 1024 > 0) :
    buildEntries s pLFN cluster (.file info data next)
      = buildEntries (fileStep s pLFN info data) (pLFN + 32) cluster next := by
  simp only [buildEntries, fileStep, h, if_false]

theorem buildEntries_file_fit (s : CFloppy) (pLFN cluster : Int) (info : FileDescriptor)
    (data : List Nat) (next : CDirEntry) (h0 : 0 ≤ GetSize info)
    (h : ¬ Int.tdiv (GetSize info + 1023) 1024 > s.m_nbFreeCluster) :
    buildEntries s pLFN cluster (.file info data next)
      = buildEntries (fileStep s pLFN info data) (pLFN + 32) cluster next := by
  rw [buildEntries_file _ _ _ _ _ _ h0, if_neg (fun hh => h hh.2)]

theorem buildEntries_dir_empty (s : CFloppy) (pLFN cluster : Int) (info : FileDescriptor)
    (next : CDirEntry)
    (h : ¬ Int.tdiv (((GetNbEntry .null + 2) * 32) + 1023) 1024 > s.m_nbFreeCluster) :
    buildEntries s pLFN cluster (.dir info .null next)
      = buildEntries (dirStep s pLFN cluster info .null) (pLFN + 32) cluster next := by
  rw [buildEntries_dir, if_neg h]
  simp only [buildEntries, if_true]

theorem rootStart_next (s : CFloppy) : (rootStart s).m_nextCluster = s.m_nextCluster := by
  rw [rootStart]

theorem rootStart_free (s : CFloppy) : (rootStart s).m_nbFreeCluster = s.m_nbFreeCluster := by
  rw [rootStart]

theorem Fill_rootStart (s : CFloppy) (root : CDirectory) (h : GetNbEntry root + 1 ≤ 112) :
    Fill s root = buildEntries (rootStart s) 5664 0 root :=
  Fill_build s root h

theorem rootStart_length (s : CFloppy) :
    (rootStart s).m_pRawImage.length = s.m_pRawImage.length := by
  rw [rootStart]
  simp only [dirHead_length]

theorem Create_default_free : (Create 2 10 81).m_nbFreeCluster = 801 := by
  rw [Create_nbFreeCluster, Create_maxFatEntry]; decide

theorem Create_default_length : (Create 2 10 81).m_pRawImage.length = 829440 := by
  rw [Create_length]; decide

/-- `Fill` of the default floppy with `negativeLabelTree` returns `true`, and ends with the
turn of the loop for the file `B`, whose clusters start at cluster -2. -/
theorem Fill_negativeLabelTree :
    Fill (Create 2 10 81) negativeLabelTree
      = (Diag.ok, fileStep (fileStep (rootStart (Create 2 10 81)) 5664 ⟨[78], [], -5119, none⟩ [])
          (5664 + 32) ⟨[66], [], 600, none⟩ (List.replicate 600 66))
    ∧ (fileStep (rootStart (Create 2 10 81)) 5664 ⟨[78], [], -5119, none⟩ []).m_nextCluster = -2
    ∧ (fileStep (rootStart (Create 2 10 81)) 5664 ⟨[78], [], -5119, none⟩ []).m_pRawImage.length
        = 829440 := by
  have hn : (fileStep (rootStart (Create 2 10 81)) 5664 ⟨[78], [], -5119, none⟩ []).m_nextCluster
      = -2 := by
    rw [fileStep_next, rootStart_next, Create_nextCluster]; decide
  have hf : (fileStep (rootStart (Create 2 10 81)) 5664 ⟨[78], [], -5119, none⟩ []).m_nbFreeCluster
      = 805 := by
    rw [fileStep_free, rootStart_free, Create_default_free]; decide
  refine ⟨?_, hn, ?_⟩
  · rw [Fill_rootStart _ _ (by decide)]
    unfold negativeLabelTree
    rw [buildEntries_file_skip _ _ _ _ _ _ (by decide),
      buildEntries_file_fit _ _ _ _ _ _ (by decide) (by rw [hf]; decide)]
    rfl
  · rw [fileStep_length, rootStart_length, Create_default_length]
/-! ## The volume label -/

theorem labelRecord_eq :
    labelRecord = [76, 69, 79, 78, 65, 82, 68, 32, 32, 32, 32, 8] ++ List.replicate 20 0 := by
  decide

/-- C16, for a root whose file sizes are non-negative: after a `Fill` that returns `true`
on a floppy `Create` has made with at least 18 sectors, slot 0 of the root directory
(image bytes `11 * 512 .. 11 * 512 + 31`) is the volume label: `LEONARD` and four `0x20`,
the attribute `0x08`, and 20 zero bytes.  For the empty root `Fill` returns `true`, slots
1..111 of the root directory are zero and `m_nbFreeCluster` is `m_maxFatEntry`. -/
theorem Fill_volume_label (a b c : Int) (h18 : 18 ≤ a * b * c) :
    (∀ root : CDirectory, sizesNonNeg root = true → (Fill (Create a b c) root).1 = Diag.ok →
      ((Fill (Create a b c) root).2.m_pRawImage.drop (11 * 512)).take 32
        = [76, 69, 79, 78, 65, 82, 68, 32, 32, 32, 32, 8] ++ List.replicate 20 0)
    ∧ (Fill (Create a b c) .null).1 = Diag.ok
    ∧ (∀ j : Nat, 11 * 512 + 32 ≤ j → j < 18 * 512 →
        (Fill (Create a b c) .null).2.m_pRawImage[j]? = some 0)
    ∧ (Fill (Create a b c) .null).2.m_nbFreeCluster = (Create a b c).m_maxFatEntry := by
  have hf := Create_fresh a b c h18
  have hnull : (Fill (Create a b c) .null).1 = Diag.ok := by
    rw [Fill_build _ _ (by decide)]
    rfl
  refine ⟨fun root hnn hok => ?_, hnull, fun j hj1 hj2 => ?_, ?_⟩
  · obtain ⟨-, -, -, -, -, hlabel, -⟩ := Fill_layout _ root hf hnn hok
    have h := take_drop_eq (Fill (Create a b c) root).2.m_pRawImage labelRecord 5632
      (fun k hk => hlabel k (by rw [labelRecord_length] at hk; exact hk))
    rw [labelRecord_length, labelRecord_eq] at h
    exact h
  · obtain ⟨-, -, -, -, -, -, hrest, -⟩ := Fill_layout _ .null hf rfl hnull
    exact hrest j (by simp only [GetNbEntry]; omega) (by omega)
  · obtain ⟨-, hfree, -⟩ := Fill_layout _ .null hf rfl hnull
    rw [hfree, Create_nbFreeCluster]
    simp only [specTotal, Int.sub_zero]

/-- Witness of C16 (amended): the empty root on the default floppy. -/
theorem Fill_volume_label_witness :
    (18 : Int) ≤ 2 * 10 * 81
    ∧ (Fill (Create 2 10 81) .null).1 = Diag.ok
    ∧ ((Fill (Create 2 10 81) .null).2.m_pRawImage.drop (11 * 512)).take 32
        = [76, 69, 79, 78, 65, 82, 68, 32, 32, 32, 32, 8] ++ List.replicate 20 0
    ∧ (Fill (Create 2 10 81) .null).2.m_nbFreeCluster = (Create 2 10 81).m_maxFatEntry :=
  ⟨by decide, (Fill_volume_label 2 10 81 (by decide)).2.1,
    (Fill_volume_label 2 10 81 (by decide)).1 .null rfl
      (Fill_volume_label 2 10 81 (by decide)).2.1,
    (Fill_volume_label 2 10 81 (by decide)).2.2.2⟩

/-- On the default floppy `Fill` returns `true` for `negativeLabelTree`, and the first byte
of slot 0 of the root directory is then the byte `B` (66) of the file data, not the `L`
(76) of the volume label: the clusters of the file start at cluster -2. -/
theorem Fill_negative_size_label_overwritten :
    (Fill (Create 2 10 81) negativeLabelTree).1 = Diag.ok
    ∧ (Fill (Create 2 10 81) negativeLabelTree).2.m_pRawImage[11 * 512]? = some 66 := by
  obtain ⟨h1, h2, h3⟩ := Fill_negativeLabelTree
  rw [h1]
  refine ⟨rfl, ?_⟩
  simp only []
  rw [fileStep_image, if_pos (by decide), h2, memcpy_getElem?, LFN_Create_length, h3,
    opt_if_pos (by decide)]
  have e : ((((11 * 512 : Nat) : Int)) - GetRawAd (-2)).toNat = 512 := by decide
  rw [e, List.getD_eq_getElem?_getD, List.getElem?_replicate, if_pos (by decide)]
  rfl

/-! ## Helpers for concrete trees -/

theorem specLayout_range (es : CDirEntry) :
    ∀ (pLFN cluster next : Int), sizesNonNeg es = true →
      ∀ e ∈ specLayout es pLFN cluster next,
        next ≤ e.first ∧ e.first + e.req ≤ next + specTotal es ∧ 0 ≤ e.req := by
  induction es with
  | null =>
    intro pLFN cluster next _ e he
    simp [specLayout] at he
  | file info data nx ih =>
    intro pLFN cluster next hnn e he
    simp only [sizesNonNeg, Bool.and_eq_true, decide_eq_true_eq] at hnn
    have e3 := ceilDiv_nonneg _ hnn.1
    have ht := specTotal_nonneg nx hnn.2
    simp only [specLayout, List.mem_cons] at he
    simp only [specTotal]
    rcases he with he | he
    · subst he
      simp only []
      omega
    · have := ih _ _ _ hnn.2 e he
      omega
  | dir info sub nx ihs ihn =>
    intro pLFN cluster next hnn e he
    simp only [sizesNonNeg, Bool.and_eq_true] at hnn
    obtain ⟨e1, e2, e3⟩ := dir_nbCluster _ (GetNbEntry_nonneg sub)
    have hts := specTotal_nonneg sub hnn.1
    have ht := specTotal_nonneg nx hnn.2
    simp only [specLayout, List.mem_cons, List.mem_append] at he
    simp only [specTotal]
    rcases he with he | he | he
    · subst he
      simp only []
      omega
    · have := ihs _ _ _ hnn.1 e he
      omega
    · have := ihn _ _ _ hnn.2 e he
      omega

/-- `Fill` on a created floppy returns `true` when the root has at most 111 entries and
every requirement of the tree fits in the clusters still free. -/
theorem Fill_ok_of_fits (a b c : Int) (root : CDirectory)
    (hmax : 0 ≤ (Create a b c).m_maxFatEntry) (hnn : sizesNonNeg root = true)
    (hroot : GetNbEntry root + 1 ≤ 112)
    (hfit : specFirstFail (Create a b c).m_maxFatEntry (specReqs root) = none) :
    (Fill (Create a b c) root).1 = Diag.ok := by
  have h1 := (Fill_sim (Create a b c) root (by unfold MAX_ROOT_ENTRY; omega) _
    (allocOf_sim (Create a b c))).1
  rw [h1]
  have hfree : (allocOf (Create a b c)).free = (Create a b c).m_maxFatEntry := by
    unfold allocOf
    simp only []
    exact Create_nbFreeCluster a b c
  exact ((allocEntries_space root (allocOf (Create a b c)) hnn (by rw [hfree]; exact hmax)).1
    (by rw [hfree]; exact hfit)).1

theorem dirStep_image_record (s : CFloppy) (p : Nat) (cluster : Int) (info : FileDescriptor)
    (sub : CDirectory) (hp : p + 32 ≤ s.m_pRawImage.length)
    (hlow : (p : Int) + 32 ≤ GetRawAd s.m_nextCluster) (k : Nat) (hk : k < 32) :
    (dirStep s (p : Int) cluster info sub).m_pRawImage[p + k]?
      = (lfnRecord info true s.m_nextCluster)[k]? := by
  obtain ⟨e1, e2, e3⟩ := dir_nbCluster _ (GetNbEntry_nonneg sub)
  rw [dirStep_image, e1, (dirHead_sameOutside _ _ _ _ _ (by omega)).2 _
    (by left; push_cast; omega), LFN_Create_record _ _ hp _ _ _ _ hk]

theorem fileStep_image_record (s : CFloppy) (p : Nat) (info : FileDescriptor)
    (data : List Nat) (hp : p + 32 ≤ s.m_pRawImage.length)
    (hlow : (p : Int) + 32 ≤ GetRawAd s.m_nextCluster) (k : Nat) (hk : k < 32) :
    (fileStep s (p : Int) info data).m_pRawImage[p + k]?
      = (lfnRecord info false
          (if Int.tdiv (GetSize info + 1023) 1024 > 0 then s.m_nextCluster else 0))[k]? := by
  rw [fileStep_image]
  split
  · rw [memcpy_getElem?, opt_if_neg (by push_cast; omega),
      LFN_Create_record _ _ hp _ _ _ _ hk]
  · rw [LFN_Create_record _ _ hp _ _ _ _ hk]

/-- What a turn of the loop for a file entry leaves unchanged. -/
theorem fileStep_image_other (s : CFloppy) (pLFN : Int) (info : FileDescriptor)
    (data : List Nat) (j : Nat) (h1 : (j : Int) < pLFN ∨ pLFN + 32 ≤ (j : Int))
    (h2 : (j : Int) < GetRawAd s.m_nextCluster
      ∨ GetRawAd s.m_nextCluster + (GetSize info).toNat ≤ (j : Int)) :
    (fileStep s pLFN info data).m_pRawImage[j]? = s.m_pRawImage[j]? := by
  rw [fileStep_image]
  split
  · rw [memcpy_getElem?, opt_if_neg (by omega), (LFN_Create_sameOutside _ _ _ _ _).2 j h1]
  · rw [(LFN_Create_sameOutside _ _ _ _ _).2 j h1]

/-- What a turn of the loop for a sub-directory entry leaves unchanged. -/
theorem dirStep_image_other (s : CFloppy) (pLFN cluster : Int) (info : FileDescriptor)
    (sub : CDirectory) (j : Nat) (h1 : (j : Int) < pLFN ∨ pLFN + 32 ≤ (j : Int))
    (h2 : (j : Int) < GetRawAd s.m_nextCluster
      ∨ GetRawAd (s.m_nextCluster + ceilDiv ((GetNbEntry sub + 2) * 32) 1024) ≤ (j : Int)) :
    (dirStep s pLFN cluster info sub).m_pRawImage[j]? = s.m_pRawImage[j]? := by
  refine (dirStep_frame s pLFN cluster info sub).2 j ?_
  unfold inRecords inClusters
  omega

/-- `Fill` of the default floppy with `negativeOverlapTree` returns `true`.  Before the turn
of the loop for the file `C` the image holds the records of `A` with first cluster 2 and
of `D` with first cluster 3, and `m_nextCluster` is back at 2, so that the turn for `C`
copies the 1025 bytes of `C` from cluster 2 on. -/
theorem Fill_negativeOverlapTree :
    ∃ m : List Nat, m.length = 829440
      ∧ m[5664 + 26]? = some 2 ∧ m[5664 + 27]? = some 0
      ∧ m[5696 + 26]? = some 3 ∧ m[5696 + 27]? = some 0
      ∧ (Fill (Create 2 10 81) negativeOverlapTree).1 = Diag.ok
      ∧ (Fill (Create 2 10 81) negativeOverlapTree).2.m_pRawImage
          = memcpy (LFN_Create m ⟨[67], [], 1025, none⟩ false 5760 2) 9216
              (List.replicate 1025 67) 1025 := by
  obtain ⟨s1, hs1⟩ : ∃ s1, s1 = rootStart (Create 2 10 81) := ⟨_, rfl⟩
  have n1 : s1.m_nextCluster = 2 := by rw [hs1, rootStart_next, Create_nextCluster]
  have f1 : s1.m_nbFreeCluster = 801 := by rw [hs1, rootStart_free, Create_default_free]
  have l1 : s1.m_pRawImage.length = 829440 := by
    rw [hs1, rootStart_length, Create_default_length]
  obtain ⟨s2, hs2⟩ : ∃ s2, s2 = fileStep s1 5664 ⟨[65], [], 1, none⟩ [65] := ⟨_, rfl⟩
  have n2 : s2.m_nextCluster = 3 := by rw [hs2, fileStep_next, n1]; decide
  have f2 : s2.m_nbFreeCluster = 800 := by rw [hs2, fileStep_free, f1]; decide
  have l2 : s2.m_pRawImage.length = 829440 := by rw [hs2, fileStep_length, l1]
  obtain ⟨s3, hs3⟩ : ∃ s3, s3 = dirStep s2 (5664 + 32) 0 ⟨[68], [], 0, none⟩ .null := ⟨_, rfl⟩
  have n3 : s3.m_nextCluster = 4 := by rw [hs3, dirStep_next, n2]; decide
  have f3 : s3.m_nbFreeCluster = 799 := by rw [hs3, dirStep_free, f2]; decide
  have l3 : s3.m_pRawImage.length = 829440 := by rw [hs3, dirStep_length, l2]
  obtain ⟨s4, hs4⟩ : ∃ s4, s4 = fileStep s3 (5664 + 32 + 32) ⟨[78], [], -4000, none⟩ [] :=
    ⟨_, rfl⟩
  have n4 : s4.m_nextCluster = 2 := by rw [hs4, fileStep_next, n3]; decide
  have f4 : s4.m_nbFreeCluster = 801 := by rw [hs4, fileStep_free, f3]; decide
  have l4 : s4.m_pRawImage.length = 829440 := by rw [hs4, fileStep_length, l3]
  have hfill : Fill (Create 2 10 81) negativeOverlapTree
      = (Diag.ok, fileStep s4 (5664 + 32 + 32 + 32) ⟨[67], [], 1025, none⟩
          (List.replicate 1025 67)) := by
    rw [Fill_rootStart _ _ (by decide), ← hs1]
    unfold negativeOverlapTree
    rw [buildEntries_file_fit _ _ _ _ _ _ (by decide) (by rw [f1]; decide), ← hs2,
      buildEntries_dir_empty _ _ _ _ _ (by rw [f2]; decide), ← hs3,
      buildEntries_file_skip _ _ _ _ _ _ (by decide), ← hs4,
      buildEntries_file_fit _ _ _ _ _ _ (by decide) (by rw [f4]; decide)]
    rfl
  have g4 : GetRawAd 4 = 11264 := by decide
  have g3 : GetRawAd 3 = 10240 := by decide
  have g2 : GetRawAd 2 = 9216 := by decide
  have rA : ∀ k, k < 32 → s4.m_pRawImage[5664 + k]?
      = (lfnRecord ⟨[65], [], 1, none⟩ false 2)[k]? := by
    intro k hk
    rw [hs4, fileStep_image_other _ _ _ _ _ (by push_cast; omega)
      (by left; rw [n3, g4]; push_cast; omega), hs3,
      dirStep_image_other _ _ _ _ _ _ (by push_cast; omega)
      (by left; rw [n2, g3]; push_cast; omega), hs2]
    have := fileStep_image_record s1 5664 ⟨[65], [], 1, none⟩ [65] (by rw [l1]; decide)
      (by rw [n1, g2]; decide) k hk
    rw [n1] at this
    exact this
  have rD : ∀ k, k < 32 → s4.m_pRawImage[5696 + k]?
      = (lfnRecord ⟨[68], [], 0, none⟩ true 3)[k]? := by
    intro k hk
    rw [hs4, fileStep_image_other _ _ _ _ _ (by push_cast; omega)
      (by left; rw [n3, g4]; push_cast; omega), hs3]
    have := dirStep_image_record s2 5696 0 ⟨[68], [], 0, none⟩ .null (by rw [l2]; decide)
      (by rw [n2, g3]; decide) k hk
    rw [n2] at this
    exact this
  refine ⟨s4.m_pRawImage, l4, ?_, ?_, ?_, ?_, by rw [hfill], ?_⟩
  · rw [rA 26 (by omega), (lfnRecord_cluster _ _ _).1]; rfl
  · rw [rA 27 (by omega), (lfnRecord_cluster _ _ _).2]; rfl
  · rw [rD 26 (by omega), (lfnRecord_cluster _ _ _).1]; rfl
  · rw [rD 27 (by omega), (lfnRecord_cluster _ _ _).2]; rfl
  · rw [hfill]
    simp only []
    rw [fileStep_image, if_pos (by decide), n4, g2]
    rfl
/-! ## The reserved records of a sub-directory -/

set_option maxRecDepth 100000 in
theorem dotRecords_eq (c par : Int) (hc : c > 0) :
    dotRecords c par
      = [46, 0, 32, 32, 32, 32, 32, 32, 32, 32, 32, 0x10, 0, 0, 0, 0, 0, 0, 0, 0, 0, 0, 0, 0, 0, 0,
          u16 c % 256, u16 c / 256 % 256, 0, 0, 0, 0,
         46, 46, 0, 32, 32, 32, 32, 32, 32, 32, 32, 0x10, 0, 0, 0, 0, 0, 0, 0, 0, 0, 0, 0, 0, 0, 0,
          u16 par % 256, u16 par / 256 % 256, 0, 0, 0, 0] := by
  unfold dotRecords dirHead
  rw [if_pos hc]
  generalize u16 c = x
  generalize u16 par = y
  simp [memset, poke, store16, List.replicate]

/-! ## The reserved records after `Fill` -/

/-- The 64 bytes at the start of the first cluster of every sub-directory of the tree,
after a `Fill` that returns `true`. -/
theorem Fill_dot_window (s : CFloppy) (root : CDirectory) (hf : freshFloppy s)
    (hnn : sizesNonNeg root = true) (hok : (Fill s root).1 = Diag.ok) :
    ∀ e ∈ specLayout root 5664 0 2, e.isDir = true →
      2 ≤ e.first
      ∧ ((Fill s root).2.m_pRawImage.drop (GetRawAd e.first).toNat).take 64
          = [46, 0, 32, 32, 32, 32, 32, 32, 32, 32, 32, 0x10, 0, 0, 0, 0, 0, 0, 0, 0, 0, 0, 0, 0, 0, 0,
              u16 e.first % 256, u16 e.first / 256 % 256, 0, 0, 0, 0,
             46, 46, 0, 32, 32, 32, 32, 32, 32, 32, 32, 0x10, 0, 0, 0, 0, 0, 0, 0, 0, 0, 0, 0, 0, 0, 0,
              u16 e.parent % 256, u16 e.parent / 256 % 256, 0, 0, 0, 0] := by
  intro e he hd
  obtain ⟨-, -, -, -, hplaced, -⟩ := Fill_layout s root hf hnn hok
  have hr := (specLayout_range root 5664 0 2 hnn e he).1
  have hdots := ((hplaced e he).2.2 hd).1
  refine ⟨hr, ?_⟩
  have h := take_drop_eq (Fill s root).2.m_pRawImage (dotRecords e.first e.parent)
    (GetRawAd e.first).toNat (fun k hk => hdots k _ (by rw [dotRecords_length] at hk; exact hk)
      (by rw [GetRawAd_eq]; push_cast; omega))
  rw [dotRecords_length, dotRecords_eq _ _ (by omega)] at h
  exact h

theorem subWithFile_ok : (Fill (Create 2 10 81) subWithFile).1 = Diag.ok :=
  Fill_ok_of_fits 2 10 81 subWithFile (by rw [Create_maxFatEntry]; decide) (by decide)
    (by decide) (by rw [Create_maxFatEntry]; decide)

theorem subWithFile_layout :
    specLayout subWithFile 5664 0 2
      = [⟨5664, 0, true, ⟨[83, 85, 66], [], 0, none⟩, [], 1, 2, 1⟩,
         ⟨9280, 2, false, ⟨[65, 46, 84, 88, 84], [], 10, none⟩, List.replicate 10 65, 0, 3, 1⟩] := by
  rfl

/-- On the default floppy, for the root that holds `SUB` with its file `A.TXT`, the byte
after `.` in slot 0 of `SUB` (cluster 2) and the byte after `..` in slot 1 are NUL, not
`0x20`.  And for `negativeOverlapTree`, where `D` is built at cluster 3 (its record says
so), the first byte of slot 0 of `D` is the byte `C` (67) of a file, not `.`. -/
theorem Fill_dot_records_not_padded :
    (Fill (Create 2 10 81) subWithFile).1 = Diag.ok
    ∧ (Fill (Create 2 10 81) subWithFile).2.m_pRawImage[18 * 512 + 1]? = some 0
    ∧ (Fill (Create 2 10 81) subWithFile).2.m_pRawImage[18 * 512 + 32 + 2]? = some 0
    ∧ (Fill (Create 2 10 81) negativeOverlapTree).1 = Diag.ok
    ∧ (Fill (Create 2 10 81) negativeOverlapTree).2.m_pRawImage[11 * 512 + 2 * 32 + 26]? = some 3
    ∧ (Fill (Create 2 10 81) negativeOverlapTree).2.m_pRawImage[11 * 512 + 2 * 32 + 27]? = some 0
    ∧ (Fill (Create 2 10 81) negativeOverlapTree).2.m_pRawImage[18 * 512 + (3 - 2) * 1024]?
        = some 67 := by
  have hw := (Fill_dot_window (Create 2 10 81) subWithFile (Create_fresh 2 10 81 (by decide))
    (by decide) subWithFile_ok ⟨5664, 0, true, ⟨[83, 85, 66], [], 0, none⟩, [], 1, 2, 1⟩
    (by rw [subWithFile_layout]; exact List.mem_cons_self _ _) rfl).2
  have hget : ∀ k : Nat, k < 64 →
      (Fill (Create 2 10 81) subWithFile).2.m_pRawImage[9216 + k]?
        = (((Fill (Create 2 10 81) subWithFile).2.m_pRawImage.drop 9216).take 64)[k]? := by
    intro k hk
    rw [List.getElem?_take_of_lt hk, List.getElem?_drop]
  obtain ⟨m, hm, -, -, d0, d1, hok, himg⟩ := Fill_negativeOverlapTree
  refine ⟨subWithFile_ok, ?_, ?_, hok, ?_, ?_, ?_⟩
  · rw [hget 1 (by omega)]
    erw [hw]
    rfl
  · rw [hget 34 (by omega)]
    erw [hw]
    rfl
  · rw [himg, memcpy_getElem?, opt_if_neg (by intro hh; have h9 := hh.1; norm_num at h9),
      (LFN_Create_sameOutside _ _ _ _ _).2 _ (by left; decide)]
    exact d0
  · rw [himg, memcpy_getElem?, opt_if_neg (by intro hh; have h9 := hh.1; norm_num at h9),
      (LFN_Create_sameOutside _ _ _ _ _).2 _ (by left; decide)]
    exact d1
  · rw [himg, memcpy_getElem?, LFN_Create_length, hm, opt_if_pos (by decide)]
    have e : ((((18 * 512 + (3 - 2) * 1024 : Nat) : Int)) - 9216).toNat = 1024 := by decide
    rw [e, List.getD_eq_getElem?_getD, List.getElem?_replicate, if_pos (by decide)]
    rfl

/-! ## The data of a file after `Fill` -/

theorem specLayout_req (es : CDirEntry) :
    ∀ (pLFN cluster next : Int), ∀ e ∈ specLayout es pLFN cluster next,
      e.req = if e.isDir = true then ceilDiv ((e.nbEntry + 2) * 32) 1024
              else ceilDiv (GetSize e.info) 1024 := by
  induction es with
  | null =>
    intro pLFN cluster next e he
    simp [specLayout] at he
  | file info data nx ih =>
    intro pLFN cluster next e he
    simp only [specLayout, List.mem_cons] at he
    rcases he with he | he
    · subst he; rfl
    · exact ih _ _ _ e he
  | dir info sub nx ihs ihn =>
    intro pLFN cluster next e he
    simp only [specLayout, List.mem_cons, List.mem_append] at he
    rcases he with he | he | he
    · subst he; rfl
    · exact ihs _ _ _ e he
    · exact ihn _ _ _ e he

/-- The record and the data of every file of the tree that is not empty, after a `Fill`
that returns `true`. -/
theorem Fill_file_window (s : CFloppy) (root : CDirectory) (hf : freshFloppy s)
    (hnn : sizesNonNeg root = true) (hok : (Fill s root).1 = Diag.ok) :
    ∀ e ∈ specLayout root 5664 0 2, e.isDir = false → 0 < GetSize e.info →
      2 ≤ e.first ∧ e.req = ceilDiv (GetSize e.info) 1024
      ∧ (∀ k j : Nat, k < 32 → (j : Int) = e.slot + k →
          (Fill s root).2.m_pRawImage[j]? = (lfnRecord e.info false e.first)[k]?)
      ∧ (∀ k j : Nat, (k : Int) < GetSize e.info → (j : Int) = GetRawAd e.first + k →
          (Fill s root).2.m_pRawImage[j]? = some (e.data.getD k 0 % 256))
      ∧ (∀ j : Nat, GetRawAd e.first + GetSize e.info ≤ (j : Int) →
          (j : Int) < GetRawAd e.first + ceilDiv (GetSize e.info) 1024 * 1024 →
          (Fill s root).2.m_pRawImage[j]? = some 0xe5) := by
  intro e he hd hpos
  obtain ⟨-, -, -, -, hplaced, -⟩ := Fill_layout s root hf hnn hok
  have hr := (specLayout_range root 5664 0 2 hnn e he).1
  have hreq := specLayout_req root 5664 0 2 e he
  rw [hd, if_neg (by decide)] at hreq
  have hcpos := ceilDiv_pos _ hpos
  obtain ⟨p1, p2, -⟩ := hplaced e he
  have hrec : e.recorded = e.first := by
    unfold Placed.recorded
    rw [if_pos (by omega)]
  rw [hrec, hd] at p1
  refine ⟨hr, hreq, p1, (p2 hd).1, fun j hj1 hj2 => (p2 hd).2 j hj1 ?_⟩
  rw [hreq, GetRawAd_eq]
  rw [GetRawAd_eq] at hj2
  omega

/-- On the default floppy `Fill` returns `true` for `negativeOverlapTree`; the record of
the file `A` (root slot 1), whose size is 1 and whose only byte is 65, holds the first
cluster 2; yet the image byte at offset `18 * 512 + (2 - 2) * 1024` is 67, a byte of the
file `C` that a later turn of the loop copies from cluster 2 on. -/
theorem Fill_negative_size_data_overwritten :
    (Fill (Create 2 10 81) negativeOverlapTree).1 = Diag.ok
    ∧ (Fill (Create 2 10 81) negativeOverlapTree).2.m_pRawImage[11 * 512 + 32 + 26]? = some 2
    ∧ (Fill (Create 2 10 81) negativeOverlapTree).2.m_pRawImage[11 * 512 + 32 + 27]? = some 0
    ∧ (Fill (Create 2 10 81) negativeOverlapTree).2.m_pRawImage[18 * 512 + (2 - 2) * 1024]?
        = some 67 := by
  obtain ⟨m, hm, a0, a1, -, -, hok, himg⟩ := Fill_negativeOverlapTree
  refine ⟨hok, ?_, ?_, ?_⟩
  · rw [himg, memcpy_getElem?, opt_if_neg (by intro hh; have h9 := hh.1; norm_num at h9),
      (LFN_Create_sameOutside _ _ _ _ _).2 _ (by left; decide)]
    exact a0
  · rw [himg, memcpy_getElem?, opt_if_neg (by intro hh; have h9 := hh.1; norm_num at h9),
      (LFN_Create_sameOutside _ _ _ _ _).2 _ (by left; decide)]
    exact a1
  · rw [himg, memcpy_getElem?, LFN_Create_length, hm, opt_if_pos (by decide)]
    have e : ((((18 * 512 + (2 - 2) * 1024 : Nat) : Int)) - 9216).toNat = 0 := by decide
    rw [e, List.getD_eq_getElem?_getD, List.getElem?_replicate, if_pos (by decide)]
    rfl

/-! ## The order of the entries -/

/-- The loop of `BuildDirectory` on a list of entries followed by another: once the first
list is built, the second is built from the record that follows those of the first. -/
theorem buildEntries_append (es1 : CDirEntry) :
    ∀ (s : CFloppy) (pLFN cluster : Int) (es2 : CDirEntry),
      (buildEntries s pLFN cluster es1).1 = Diag.ok →
      buildEntries s pLFN cluster (appendEntries es1 es2)
        = buildEntries (buildEntries s pLFN cluster es1).2 (pLFN + 32 * GetNbEntry es1)
            cluster es2 := by
  induction es1 with
  | null =>
    intro s pLFN cluster es2 _
    simp only [appendEntries, buildEntries, GetNbEntry]
    rw [show pLFN + 32 * 0 = pLFN by omega]
  | file info data next ih =>
    intro s pLFN cluster es2 hok
    have hp : pLFN + 32 + 32 * GetNbEntry next = pLFN + 32 * (GetNbEntry next + 1) := by omega
    simp only [appendEntries, buildEntries, GetNbEntry] at hok ⊢
    split
    · rename_i h1
      rw [if_pos h1] at hok
      split
      · rename_i h2
        rw [if_pos h2] at hok
        exact Diag.noConfusion hok
      · rename_i h2
        rw [if_neg h2] at hok
        split
        · rename_i h3
          rw [if_pos h3] at hok
          rw [ih _ _ _ _ hok, hp]
        · rename_i h3
          rw [if_neg h3] at hok
          exact Diag.noConfusion hok
    · rename_i h1
      rw [if_neg h1] at hok
      rw [ih _ _ _ _ hok, hp]
  | dir info sub next ihs ihn =>
    intro s pLFN cluster es2 hok
    have hp : pLFN + 32 + 32 * GetNbEntry next = pLFN + 32 * (GetNbEntry next + 1) := by omega
    simp only [appendEntries, buildEntries, GetNbEntry] at hok ⊢
    split
    · rename_i h1
      rw [if_pos h1] at hok
      exact Diag.noConfusion hok
    · rename_i h1
      rw [if_neg h1] at hok
      split
      · rename_i h2
        rw [if_pos h2] at hok
        rw [ihn _ _ _ _ hok, hp]
      · rename_i h2
        rw [if_neg h2] at hok
        exact absurd hok h2

theorem specLayout_reqs (es : CDirEntry) :
    ∀ (pLFN cluster next : Int),
      (specLayout es pLFN cluster next).map (fun e => e.req) = specReqs es := by
  induction es with
  | null => intro _ _ _; rfl
  | file info data nx ih =>
    intro pLFN cluster next
    simp only [specLayout, specReqs, List.map_cons, ih]
  | dir info sub nx ihs ihn =>
    intro pLFN cluster next
    simp only [specLayout, specReqs, List.map_cons, List.map_append, ihs, ihn]

/-- The first cluster of an entry of the layout is the start plus the clusters the
entries before it require. -/
theorem specLayout_first (es : CDirEntry) :
    ∀ (pLFN cluster next : Int) (i : Nat) (e : Placed),
      (specLayout es pLFN cluster next)[i]? = some e →
      e.first = next + (((specLayout es pLFN cluster next).take i).map (fun x => x.req)).sum := by
  induction es with
  | null =>
    intro pLFN cluster next i e h
    simp [specLayout] at h
  | file info data nx ih =>
    intro pLFN cluster next i e h
    simp only [specLayout] at h ⊢
    cases i with
    | zero =>
      simp only [List.getElem?_cons_zero, Option.some.injEq] at h
      subst h
      simp
    | succ i =>
      simp only [List.getElem?_cons_succ] at h
      rw [ih _ _ _ i e h]
      simp only [List.take_succ_cons, List.map_cons, List.sum_cons]
      omega
  | dir info sub nx ihs ihn =>
    intro pLFN cluster next i e h
    simp only [specLayout] at h ⊢
    cases i with
    | zero =>
      simp only [List.getElem?_cons_zero, Option.some.injEq] at h
      subst h
      simp
    | succ i =>
      simp only [List.getElem?_cons_succ] at h
      simp only [List.take_succ_cons, List.map_cons, List.sum_cons]
      by_cases hi : i < (specLayout sub (GetRawAd next + 64) next
          (next + ceilDiv ((GetNbEntry sub + 2) * 32) 1024)).length
      · rw [List.getElem?_append_left hi] at h
        rw [ihs _ _ _ i e h, List.take_append_of_le_length (by omega)]
        omega
      · rw [List.getElem?_append_right (by omega)] at h
        rw [List.take_append_eq_append_take, List.map_append, List.sum_append,
          List.take_of_length_le (by omega), specLayout_reqs, specReqs_sum,
          ihn _ _ _ _ e h]
        omega

theorem reservedOf_append (l1 l2 : List Placed) :
    reservedOf (l1 ++ l2) = reservedOf l1 ++ reservedOf l2 := by
  unfold reservedOf
  rw [List.filterMap_append]

/-- The ranges the allocation records are those of the layout. -/
theorem allocEntries_reserved (es : CDirEntry) :
    ∀ (a : Alloc) (pLFN cluster : Int), sizesNonNeg es = true →
      (allocEntries a es).1 = Diag.ok →
      (allocEntries a es).2.next = a.next + specTotal es
      ∧ (allocEntries a es).2.reserved
          = a.reserved ++ reservedOf (specLayout es pLFN cluster a.next) := by
  induction es with
  | null =>
    intro a pLFN cluster _ _
    simp [allocEntries, specTotal, specLayout, reservedOf]
  | file info data nx ih =>
    intro a pLFN cluster hs hok
    simp only [sizesNonNeg, Bool.and_eq_true, decide_eq_true_eq] at hs
    have hc := ceilDiv_nonneg _ hs.1
    simp only [allocEntries, tdiv_ceil _ hs.1, specTotal, specLayout] at hok ⊢
    generalize ceilDiv (GetSize info) 1024 = r at hc hok ⊢
    by_cases hpos : r > 0
    · rw [if_pos hpos] at hok ⊢
      by_cases hfree : r > a.free
      · rw [if_pos hfree] at hok
        exact Diag.noConfusion hok
      · rw [if_neg hfree] at hok ⊢
        rw [if_pos hs.1] at hok ⊢
        obtain ⟨i1, i2⟩ := ih _ (pLFN + 32) cluster hs.2 hok
        rw [i1, i2]
        refine ⟨by simp only; omega, ?_⟩
        simp only [reservedOf, List.filterMap_cons, if_pos hpos, List.append_assoc,
          List.singleton_append]
    · rw [if_neg hpos] at hok ⊢
      have hr0 : r = 0 := by omega
      subst hr0
      obtain ⟨i1, i2⟩ := ih _ (pLFN + 32) cluster hs.2 hok
      rw [i1, i2]
      refine ⟨by simp only; omega, ?_⟩
      simp only [reservedOf, List.filterMap_cons, if_neg hpos]
  | dir info sub nx ihs ihn =>
    intro a pLFN cluster hs hok
    simp only [sizesNonNeg, Bool.and_eq_true] at hs
    obtain ⟨e1, e2, e3⟩ := dir_nbCluster _ (GetNbEntry_nonneg sub)
    simp only [allocEntries, e1, specTotal, specLayout] at hok ⊢
    generalize ceilDiv ((GetNbEntry sub + 2) * 32) 1024 = r at e3 hok ⊢
    by_cases hfree : r > a.free
    · rw [if_pos hfree] at hok
      exact Diag.noConfusion hok
    · rw [if_neg hfree] at hok ⊢
      by_cases hsub : (allocEntries
          { next := a.next + r, free := a.free - r,
            fat := fatStore (fatChain a.fat a.next (r - 1).toNat) (a.next + r - 1) (-1),
            reserved := a.reserved ++ [(a.next, r)] } sub).1 = Diag.ok
      · rw [if_pos hsub] at hok ⊢
        obtain ⟨s1, s2⟩ := ihs _ (GetRawAd a.next + 64) a.next hs.1 hsub
        obtain ⟨i1, i2⟩ := ihn _ (pLFN + 32) cluster hs.2 hok
        simp only [] at s1 s2
        rw [s1] at i1 i2
        rw [s2] at i2
        rw [i1, i2]
        refine ⟨by omega, ?_⟩
        simp only [reservedOf, List.filterMap_cons, if_pos (show r > 0 by omega),
          List.append_assoc, List.singleton_append, List.filterMap_append, List.cons_append,
          List.nil_append]
      · rw [if_neg hsub] at hok
        exact absurd hok hsub

theorem allocEntries_fat_length (es : CDirEntry) :
    ∀ a : Alloc, (allocEntries a es).2.fat.length = a.fat.length := by
  induction es with
  | null => intro a; rfl
  | file info data next ih =>
    intro a
    simp only [allocEntries]
    split
    · split
      · rfl
      · split
        · rw [ih]
          simp only [fatStore_length, fatChain_length]
        · rfl
    · rw [ih]
  | dir info sub next ihs ihn =>
    intro a
    simp only [allocEntries]
    split
    · rfl
    · split
      · rw [ihn, ihs]
        simp only [fatStore_length, fatChain_length]
      · rw [ihs]
        simp only [fatStore_length, fatChain_length]

theorem Fill_fat_length (s : CFloppy) (root : CDirectory) :
    (Fill s root).2.m_pFat.length = s.m_pFat.length := by
  rw [(Fill_FillAlloc s root).2.2.2]
  unfold FillAlloc
  split
  · rfl
  · rw [allocEntries_fat_length]
    rfl

/-- After `Fill` on a created floppy, for a tree with non-negative file sizes, the range
of every entry of the layout that requires clusters and lies in the fat table is a chain. -/
theorem Fill_layout_chain (a b c : Int) (root : CDirectory) (hnn : sizesNonNeg root = true)
    (hok : (Fill (Create a b c) root).1 = Diag.ok) (pLFN cluster : Int) :
    ∀ e ∈ specLayout root pLFN cluster 2, 0 < e.req →
      e.first + e.req ≤ ((Fill (Create a b c) root).2.m_pFat.length : Int) →
      chainOk (Fill (Create a b c) root).2.m_pFat (e.first, e.req) := by
  intro e he hreq hlen
  have hsim := Fill_FillAlloc (Create a b c) root
  rw [hsim.2.2.2] at hlen ⊢
  have hroot := Fill_ok_root _ root hok
  have hfa : FillAlloc (Create a b c) root = allocEntries (allocOf (Create a b c)) root := by
    unfold FillAlloc
    rw [if_neg (by unfold MAX_ROOT_ENTRY; omega)]
  have hok2 : (allocEntries (allocOf (Create a b c)) root).1 = Diag.ok := by
    rw [← hfa, ← hsim.1]; exact hok
  have hnext : (allocOf (Create a b c)).next = 2 := by
    unfold allocOf
    simp only []
    exact Create_nextCluster a b c
  have h0 : reservedOk (allocOf (Create a b c)) := by
    constructor
    · intro r hr; simp [allocOf] at hr
    · simp [allocOf]
  have hc0 : chainsOk (allocOf (Create a b c)) := by
    intro r hr; simp [allocOf] at hr
  have hch := allocEntries_chainsOk root _ hnn (by rw [hnext]) h0 hc0
  have hres := (allocEntries_reserved root (allocOf (Create a b c)) pLFN cluster hnn hok2).2
  rw [hnext] at hres
  rw [hfa] at hlen ⊢
  refine hch (e.first, e.req) ?_ hlen
  rw [hres]
  refine List.mem_append_right _ ?_
  unfold reservedOf
  rw [List.mem_filterMap]
  exact ⟨e, he, by rw [if_pos hreq]⟩

/-- On the default floppy `Fill` returns `true` for `negativeOverlapTree`, whose entries
require 1, 1, -3 and 2 clusters in pre-order; the record of the last entry `C` (root
slot 4) holds the first cluster 2, while 2 plus the sum of the clusters the entries
before it require is 1. -/
theorem Fill_negative_size_first_cluster :
    (Fill (Create 2 10 81) negativeOverlapTree).1 = Diag.ok
    ∧ specReqs negativeOverlapTree = [1, 1, -3, 2]
    ∧ 2 + ((specReqs negativeOverlapTree).take 3).sum = 1
    ∧ (Fill (Create 2 10 81) negativeOverlapTree).2.m_pRawImage[11 * 512 + 4 * 32 + 26]? = some 2
    ∧ (Fill (Create 2 10 81) negativeOverlapTree).2.m_pRawImage[11 * 512 + 4 * 32 + 27]? = some 0 := by
  obtain ⟨m, hm, -, -, -, -, hok, himg⟩ := Fill_negativeOverlapTree
  refine ⟨hok, by decide, by decide, ?_, ?_⟩
  · rw [himg, memcpy_getElem?, opt_if_neg (by intro hh; have h9 := hh.1; norm_num at h9)]
    have := LFN_Create_record m 5760 (by rw [hm]; decide) ⟨[67], [], 1025, none⟩ false 2 26
      (by decide)
    erw [this, (lfnRecord_cluster _ _ _).1]
    rfl
  · rw [himg, memcpy_getElem?, opt_if_neg (by intro hh; have h9 := hh.1; norm_num at h9)]
    have := LFN_Create_record m 5760 (by rw [hm]; decide) ⟨[67], [], 1025, none⟩ false 2 27
      (by decide)
    erw [this, (lfnRecord_cluster _ _ _).2]
    rfl

/-! ## The image `Create` produces -/

theorem w16_getElem? (mem : List Nat) (off : Int) (d i : Nat) :
    (w16 mem off d)[i]?
      = if off + 1 = (i : Int) ∧ i < mem.length then some ((d >>> 8) % 256)
        else if off = (i : Int) ∧ i < mem.length then some ((d &&& 0xff) % 256)
        else mem[i]? := by
  unfold w16
  rw [poke_getElem?, poke_getElem?, poke_length]

/-- The first 60 bytes of the image `Create` produces, when the image has that many. -/
theorem Create_getElem?_boot (a b c : Int) (i : Nat) (hi : i < 60)
    (hn : 60 ≤ (a * b * c * 512).toNat) :
    (Create a b c).m_pRawImage[i]?
      = some ([0xe9, 0, 0xe5, 0xe5, 0xe5, 0xe5, 0xe5, 0xe5, 0xe5, 0xe5, 0xe5,
          0, 2, 2, 1, 0, 2, 112, 0,
          u16 (a * b * c) % 256, u16 (a * b * c) / 256 % 256, 0xf7, 5, 0,
          u16 b % 256, u16 b / 256 % 256, u16 a % 256, u16 a / 256 % 256, 0, 0,
          0x4e, 0x4e, 0x4e, 0x4e, 0x4e, 0x4e, 0x4e, 0x4e, 0x4e, 0x4e,
          0x4e, 0x4e, 0x4e, 0x4e, 0x4e, 0x4e, 0x4e, 0x4e, 0x4e, 0x4e,
          0x4e, 0x4e, 0x4e, 0x4e, 0x4e, 0x4e, 0x4e, 0x4e, 0x4e, 0x4e].getD i 0) := by
  have hlen : ∀ j : Nat, j < 60 → j < (a * b * c * 512).toNat := fun j hj => by omega
  simp only [Create]
  generalize (a * b * c * 512).toNat = n at hn hlen
  simp only [memset_getElem?, w16_getElem?, w8_getElem?, memset_length, w16_length, w8_length,
    List.length_replicate, List.getElem?_replicate, and_255, shr_8, u16, MAX_ROOT_ENTRY,
    SECTOR_PER_FAT]
  interval_cases i <;> simp [hlen]

theorem le16At_eq (mem : List Nat) (off x y : Nat) (h0 : mem[off]? = some x)
    (h1 : mem[off + 1]? = some y) : le16At mem off = x + 256 * y := by
  unfold le16At
  rw [List.getD_eq_getElem?_getD, List.getD_eq_getElem?_getD, h0, h1]
  rfl

theorem geometry_bounds (a b c : Int) (ha : 0 < a) (hb : 0 < b) (hc : 0 < c)
    (h : a * b * c < 65536) : a < 65536 ∧ b < 65536 := by
  have h1 : a * b ≤ a * b * c := by nlinarith [mul_pos ha hb]
  have h2 : a ≤ a * b := by nlinarith
  have h3 : b ≤ a * b := by nlinarith
  omega

/-- C22: after `Create` with positive `sides`, `sectors`, `cylinders` and
`sides * sectors * cylinders < 65536`, the boot sector holds, 16-bit fields being
little-endian: byte `0x00 = 0xE9`; 512 at `0x0B`; byte 2 at `0x0D`; 1 at `0x0E`; byte 2
at `0x10`; 112 at `0x11`; `sides * sectors * cylinders` at `0x13`; byte `0xF7` at `0x15`;
5 at `0x16`; `sectors` at `0x18`; `sides` at `0x1A`; 0 at `0x1C`; and `0x4E` in every
byte from `0x1E` to `0x3B`. -/
theorem Create_boot_fields (a b c : Int) (ha : 0 < a) (hb : 0 < b) (hc : 0 < c)
    (h : a * b * c < 65536) :
    (Create a b c).m_pRawImage[0x00]? = some 0xe9
      ∧ le16At (Create a b c).m_pRawImage 0x0b = 512
      ∧ (Create a b c).m_pRawImage[0x0d]? = some 2
      ∧ le16At (Create a b c).m_pRawImage 0x0e = 1
      ∧ (Create a b c).m_pRawImage[0x10]? = some 2
      ∧ le16At (Create a b c).m_pRawImage 0x11 = 112
      ∧ (le16At (Create a b c).m_pRawImage 0x13 : Int) = a * b * c
      ∧ (Create a b c).m_pRawImage[0x15]? = some 0xf7
      ∧ le16At (Create a b c).m_pRawImage 0x16 = 5
      ∧ (le16At (Create a b c).m_pRawImage 0x18 : Int) = b
      ∧ (le16At (Create a b c).m_pRawImage 0x1a : Int) = a
      ∧ le16At (Create a b c).m_pRawImage 0x1c = 0
      ∧ ∀ i : Nat, 0x1e ≤ i → i ≤ 0x3b → (Create a b c).m_pRawImage[i]? = some 0x4e := by
  have hp : 0 < a * b * c := mul_pos (mul_pos ha hb) hc
  have hn : 60 ≤ (a * b * c * 512).toNat := by omega
  have hab := geometry_bounds a b c ha hb hc h
  have hb16 := fun i hi => Create_getElem?_boot a b c i hi hn
  refine ⟨?_, ?_, ?_, ?_, ?_, ?_, ?_, ?_, ?_, ?_, ?_, ?_, ?_⟩
  · rw [hb16 _ (by decide)]; rfl
  · rw [le16At_eq _ _ _ _ (hb16 _ (by decide)) (hb16 _ (by decide))]; rfl
  · rw [hb16 _ (by decide)]; rfl
  · rw [le16At_eq _ _ _ _ (hb16 _ (by decide)) (hb16 _ (by decide))]; rfl
  · rw [hb16 _ (by decide)]; rfl
  · rw [le16At_eq _ _ _ _ (hb16 _ (by decide)) (hb16 _ (by decide))]; rfl
  · rw [le16At_eq _ _ _ _ (hb16 _ (by decide)) (hb16 _ (by decide))]
    simp only [List.getD_cons_succ, List.getD_cons_zero, u16]
    omega
  · rw [hb16 _ (by decide)]; rfl
  · rw [le16At_eq _ _ _ _ (hb16 _ (by decide)) (hb16 _ (by decide))]; rfl
  · rw [le16At_eq _ _ _ _ (hb16 _ (by decide)) (hb16 _ (by decide))]
    simp only [List.getD_cons_succ, List.getD_cons_zero, u16]
    omega
  · rw [le16At_eq _ _ _ _ (hb16 _ (by decide)) (hb16 _ (by decide))]
    simp only [List.getD_cons_succ, List.getD_cons_zero, u16]
    omega
  · rw [le16At_eq _ _ _ _ (hb16 _ (by decide)) (hb16 _ (by decide))]; rfl
  · intro i h1 h2
    rw [hb16 i (by omega)]
    have h3 : i = 30 ∨ i = 31 ∨ i = 32 ∨ i = 33 ∨ i = 34 ∨ i = 35 ∨ i = 36 ∨ i = 37
        ∨ i = 38 ∨ i = 39 ∨ i = 40 ∨ i = 41 ∨ i = 42 ∨ i = 43 ∨ i = 44 ∨ i = 45 ∨ i = 46
        ∨ i = 47 ∨ i = 48 ∨ i = 49 ∨ i = 50 ∨ i = 51 ∨ i = 52 ∨ i = 53 ∨ i = 54 ∨ i = 55
        ∨ i = 56 ∨ i = 57 ∨ i = 58 ∨ i = 59 := by omega
    rcases h3 with h3 | h3 | h3 | h3 | h3 | h3 | h3 | h3 | h3 | h3 | h3 | h3 | h3 | h3 | h3
      | h3 | h3 | h3 | h3 | h3 | h3 | h3 | h3 | h3 | h3 | h3 | h3 | h3 | h3 | h3 <;>
      subst h3 <;> rfl

/-- Witness of C22: the default geometry. -/
theorem Create_boot_fields_witness :
    (0 : Int) < 2 ∧ (0 : Int) < 10 ∧ (0 : Int) < 81 ∧ (2 : Int) * 10 * 81 < 65536
      ∧ (Create 2 10 81).m_pRawImage[0x00]? = some 0xe9
      ∧ le16At (Create 2 10 81).m_pRawImage 0x0b = 512
      ∧ (Create 2 10 81).m_pRawImage[0x0d]? = some 2
      ∧ le16At (Create 2 10 81).m_pRawImage 0x0e = 1
      ∧ (Create 2 10 81).m_pRawImage[0x10]? = some 2
      ∧ le16At (Create 2 10 81).m_pRawImage 0x11 = 112
      ∧ (le16At (Create 2 10 81).m_pRawImage 0x13 : Int) = 2 * 10 * 81
      ∧ (Create 2 10 81).m_pRawImage[0x15]? = some 0xf7
      ∧ le16At (Create 2 10 81).m_pRawImage 0x16 = 5
      ∧ (le16At (Create 2 10 81).m_pRawImage 0x18 : Int) = 10
      ∧ (le16At (Create 2 10 81).m_pRawImage 0x1a : Int) = 2
      ∧ le16At (Create 2 10 81).m_pRawImage 0x1c = 0
      ∧ ∀ i : Nat, 0x1e ≤ i → i ≤ 0x3b → (Create 2 10 81).m_pRawImage[i]? = some 0x4e :=
  ⟨by decide, by decide, by decide, by decide,
    Create_boot_fields 2 10 81 (by decide) (by decide) (by decide) (by decide)⟩

/-- C23, as stated, fails: `Create` fills the whole image with `0xE5` before it writes the
boot fields, so a boot byte that is none of the fields keeps the fill; byte `0x02` of the
default image is `0xE5`, not zero. -/
theorem Create_boot_byte_not_zero :
    (Create 2 10 81).m_pRawImage[0x02]? = some 0xe5
      ∧ (Create 2 10 81).m_pRawImage[0x02]? ≠ some 0 := by
  have h := Create_getElem?_boot 2 10 81 2 (by decide) (by decide)
  rw [h]
  exact ⟨rfl, by decide⟩

/-! ## The allocator invariant -/

/-- The entry loop changes neither the geometry nor `m_maxFatEntry`. -/
theorem buildEntries_geometry (es : CDirEntry) :
    ∀ (s : CFloppy) (pLFN cluster : Int),
      (buildEntries s pLFN cluster es).2.m_nbSide = s.m_nbSide
        ∧ (buildEntries s pLFN cluster es).2.m_nbCylinder = s.m_nbCylinder
        ∧ (buildEntries s pLFN cluster es).2.m_nbSectorPerTrack = s.m_nbSectorPerTrack
        ∧ (buildEntries s pLFN cluster es).2.m_rawSize = s.m_rawSize
        ∧ (buildEntries s pLFN cluster es).2.m_maxFatEntry = s.m_maxFatEntry := by
  induction es with
  | null => intro s pLFN cluster; exact ⟨rfl, rfl, rfl, rfl, rfl⟩
  | file info data next ih =>
    intro s pLFN cluster
    simp only [buildEntries]
    split
    · split
      · exact ⟨rfl, rfl, rfl, rfl, rfl⟩
      · split
        · exact ih _ _ _
        · exact ⟨rfl, rfl, rfl, rfl, rfl⟩
    · exact ih _ _ _
  | dir info sub next ihs ihn =>
    intro s pLFN cluster
    simp only [buildEntries]
    split
    · exact ⟨rfl, rfl, rfl, rfl, rfl⟩
    · split
      · simp only [ihn, ihs, and_self]
      · exact ihs _ _ _

/-- The entry loop keeps `m_nextCluster + m_nbFreeCluster` and the sign of
`m_nbFreeCluster`, whatever it returns. -/
theorem buildEntries_balance (es : CDirEntry) :
    ∀ (s : CFloppy) (pLFN cluster : Int), 0 ≤ s.m_nbFreeCluster →
      (buildEntries s pLFN cluster es).2.m_nextCluster
          + (buildEntries s pLFN cluster es).2.m_nbFreeCluster
        = s.m_nextCluster + s.m_nbFreeCluster
        ∧ 0 ≤ (buildEntries s pLFN cluster es).2.m_nbFreeCluster := by
  induction es with
  | null => intro s pLFN cluster h; exact ⟨rfl, h⟩
  | file info data next ih =>
    intro s pLFN cluster h
    simp only [buildEntries]
    split
    · split
      · exact ⟨rfl, h⟩
      · split
        · have h1 := ih { s with
            m_pRawImage := memcpy (LFN_Create s.m_pRawImage info false pLFN s.m_nextCluster)
              (GetRawAd s.m_nextCluster) data (GetSize info).toNat
            m_pFat := fatStore (fatChain s.m_pFat s.m_nextCluster
              (Int.tdiv (GetSize info + 1023) 1024 - 1).toNat)
              (s.m_nextCluster + Int.tdiv (GetSize info + 1023) 1024 - 1) (-1)
            m_nextCluster := s.m_nextCluster + Int.tdiv (GetSize info + 1023) 1024
            m_nbFreeCluster := s.m_nbFreeCluster - Int.tdiv (GetSize info + 1023) 1024 }
            (pLFN + 32) cluster (by simp only; omega)
          simp only at h1
          exact ⟨by omega, h1.2⟩
        · exact ⟨rfl, h⟩
    · have h1 := ih { s with
        m_pRawImage := LFN_Create s.m_pRawImage info false pLFN 0
        m_nextCluster := s.m_nextCluster + Int.tdiv (GetSize info + 1023) 1024
        m_nbFreeCluster := s.m_nbFreeCluster - Int.tdiv (GetSize info + 1023) 1024 }
        (pLFN + 32) cluster (by simp only; omega)
      simp only at h1
      exact ⟨by omega, h1.2⟩
  | dir info sub next ihs ihn =>
    intro s pLFN cluster h
    simp only [buildEntries]
    split
    · exact ⟨rfl, h⟩
    · rename_i hfit
      have h2 := ihs { s with
        m_pRawImage := (dirHead (LFN_Create s.m_pRawImage info true pLFN s.m_nextCluster)
          (GetRawAd s.m_nextCluster) s.m_nextCluster cluster
          (Int.tdiv ((GetNbEntry sub + 2) * 32 + 1023) 1024 * 1024)).1
        m_pFat := fatStore (fatChain s.m_pFat s.m_nextCluster
          (Int.tdiv ((GetNbEntry sub + 2) * 32 + 1023) 1024 - 1).toNat)
          (s.m_nextCluster + Int.tdiv ((GetNbEntry sub + 2) * 32 + 1023) 1024 - 1) (-1)
        m_nextCluster := s.m_nextCluster + Int.tdiv ((GetNbEntry sub + 2) * 32 + 1023) 1024
        m_nbFreeCluster := s.m_nbFreeCluster - Int.tdiv ((GetNbEntry sub + 2) * 32 + 1023) 1024 }
        (dirHead (LFN_Create s.m_pRawImage info true pLFN s.m_nextCluster)
          (GetRawAd s.m_nextCluster) s.m_nextCluster cluster
          (Int.tdiv ((GetNbEntry sub + 2) * 32 + 1023) 1024 * 1024)).2
        s.m_nextCluster (by simp only; omega)
      simp only at h2
      split
      · have h1 := ihn _ (pLFN + 32) cluster h2.2
        exact ⟨by omega, h1.2⟩
      · exact ⟨by omega, h2.2⟩

/-- The entry loop keeps the allocator invariant, whatever it returns. -/
theorem buildEntries_allocInv (es : CDirEntry) (s : CFloppy) (pLFN cluster : Int)
    (h : allocInv s) : allocInv (buildEntries s pLFN cluster es).2 := by
  have h1 := buildEntries_balance es s pLFN cluster h.2
  have h2 := (buildEntries_geometry es s pLFN cluster).2.2.2.2
  unfold allocInv at h ⊢
  rw [h2]
  exact ⟨by omega, h1.2⟩

theorem Create_allocInv (a b c : Int) (hmax : 0 ≤ (Create a b c).m_maxFatEntry) :
    allocInv (Create a b c) := by
  unfold allocInv
  rw [Create_nextCluster, Create_nbFreeCluster]
  generalize (Create a b c).m_maxFatEntry = m at hmax ⊢
  exact ⟨by omega, hmax⟩

theorem Fill_allocInv (s : CFloppy) (root : CDirectory) (h : allocInv s) :
    allocInv (Fill s root).2 := by
  by_cases hroot : GetNbEntry root + 1 > MAX_ROOT_ENTRY
  · unfold Fill
    rw [if_pos hroot]
    exact h
  · rw [Fill_eq s root hroot]
    exact buildEntries_allocInv root _ _ _ ⟨h.1, h.2⟩

theorem Fill_ok_free (s : CFloppy) (root : CDirectory) (hsz : sizesNonNeg root = true)
    (h0 : 0 ≤ s.m_nbFreeCluster) (hok : (Fill s root).1 = Diag.ok) :
    (Fill s root).2.m_nbFreeCluster = s.m_nbFreeCluster - specTotal root := by
  by_cases hroot : GetNbEntry root + 1 > MAX_ROOT_ENTRY
  · unfold Fill at hok
    rw [if_pos hroot] at hok
    simp at hok
  · have hsim := Fill_sim s root hroot (allocOf s) (allocOf_sim s)
    have hsp := allocEntries_space root (allocOf s) hsz h0
    rw [hsim.2.2.1]
    cases hc : specFirstFail (allocOf s).free (specReqs root) with
    | none => exact (hsp.1 hc).2.1
    | some p =>
      have h1 := (hsp.2 p hc).1
      rw [← hsim.1, hok] at h1
      exact absurd h1 (by decide)

/-! ## The geometry fallback of the driver -/

theorem crcShift_eq (r : Nat) : crcShift r = specCrcStep r := by
  unfold crcShift specCrcStep
  rw [Nat.shiftRight_eq_div_pow, Nat.and_one_is_mod]
  by_cases h : r % 2 = 1
  · rw [if_pos h, if_pos (by omega)]
  · rw [if_neg h, if_neg (by omega)]

theorem crcShiftLoop_eq (k : Nat) : ∀ r, crcShiftLoop k r = specCrcStep^[k] r := by
  induction k with
  | zero => intro r; rfl
  | succ n ih => intro r; rw [crcShiftLoop, ih, crcShift_eq, Function.iterate_succ_apply]

theorem specCrcStep_xor (u v : Nat) :
    specCrcStep (u ^^^ v) = specCrcStep u ^^^ specCrcStep v := by
  have hm : (u ^^^ v) % 2 = (u + v) % 2 := Nat.xor_mod_two_eq
  have hx : ∀ a b p : Nat, (a ^^^ p) ^^^ (b ^^^ p) = a ^^^ b := by
    intro a b p
    have : (a ^^^ p) ^^^ (b ^^^ p) = (a ^^^ b) ^^^ (p ^^^ p) := by ac_rfl
    rw [this, Nat.xor_self, Nat.xor_zero]
  unfold specCrcStep
  rw [Nat.xor_div_two]
  by_cases hu : u % 2 = 1 <;> by_cases hv : v % 2 = 1
  · rw [if_pos hu, if_pos hv, if_neg (by omega), hx]
  · rw [if_pos hu, if_neg hv, if_pos (by omega)]
    ac_rfl
  · rw [if_neg hu, if_pos hv, if_pos (by omega)]
    ac_rfl
  · rw [if_neg hu, if_neg hv, if_neg (by omega)]

theorem specCrcStep_iterate_xor (k : Nat) :
    ∀ u v : Nat, specCrcStep^[k] (u ^^^ v) = specCrcStep^[k] u ^^^ specCrcStep^[k] v := by
  induction k with
  | zero => intro u v; rfl
  | succ n ih =>
    intro u v
    rw [Function.iterate_succ_apply, Function.iterate_succ_apply, Function.iterate_succ_apply,
      specCrcStep_xor, ih]

theorem specCrcStep_iterate_shift (k : Nat) : ∀ z : Nat, specCrcStep^[k] (2 ^ k * z) = z := by
  induction k with
  | zero => intro z; simp
  | succ n ih =>
    intro z
    rw [Function.iterate_succ_apply]
    have h : specCrcStep (2 ^ (n + 1) * z) = 2 ^ n * z := by
      unfold specCrcStep
      have e : 2 ^ (n + 1) * z = 2 * (2 ^ n * z) := by ring
      rw [e, if_neg (by omega)]
      omega
    rw [h, ih]

theorem split_low_byte (x : Nat) : x = (x % 256) ^^^ (2 ^ 8 * (x / 256)) := by
  apply Nat.eq_of_testBit_eq
  intro i
  have e : (256 : Nat) = 2 ^ 8 := by norm_num
  rw [Nat.testBit_xor, e, Nat.testBit_mod_two_pow, Nat.testBit_mul_pow_two,
    ← Nat.shiftRight_eq_div_pow, Nat.testBit_shiftRight]
  by_cases h : i < 8
  · simp [h, Nat.not_le_of_lt h]
  · have h2 : 8 ≤ i := by omega
    simp [h, h2, Nat.add_sub_cancel' h2]

/-- One byte through the table is eight steps of the shift register. -/
theorem crc_table_step (crc b : Nat) (hb : b < 256) :
    crctable.getD (b ^^^ (crc % 256)) 0 ^^^ (crc >>> 8) = specCrcStep^[8] (crc ^^^ b) := by
  have hidx : b ^^^ (crc % 256) < 256 :=
    Nat.xor_lt_two_pow (n := 8) hb (Nat.mod_lt _ (by norm_num))
  have ht : crctable.getD (b ^^^ (crc % 256)) 0 = specCrcStep^[8] (b ^^^ (crc % 256)) := by
    unfold crctable
    rw [List.getD_eq_getElem?_getD, List.getElem?_map, List.getElem?_range hidx]
    exact crcShiftLoop_eq 8 _
  have hlow : (crc ^^^ b) % 256 = b ^^^ (crc % 256) := by
    have e : (256 : Nat) = 2 ^ 8 := by norm_num
    apply Nat.eq_of_testBit_eq
    intro i
    rw [e, Nat.testBit_mod_two_pow, Nat.testBit_xor, Nat.testBit_xor, Nat.testBit_mod_two_pow]
    by_cases h : i < 8
    · simp [h, Bool.xor_comm]
    · have : b.testBit i = false := Nat.testBit_lt_two_pow
        (lt_of_lt_of_le hb (by
          calc (256 : Nat) = 2 ^ 8 := by norm_num
            _ ≤ 2 ^ i := Nat.pow_le_pow_right (by norm_num) (by omega)))
      simp [h, this]
  have hhigh : (crc ^^^ b) / 256 = crc >>> 8 := by
    have e : (256 : Nat) = 2 ^ 8 := by norm_num
    rw [e, ← Nat.shiftRight_eq_div_pow]
    apply Nat.eq_of_testBit_eq
    intro i
    rw [Nat.testBit_shiftRight, Nat.testBit_xor, Nat.testBit_shiftRight]
    have : b.testBit (8 + i) = false := Nat.testBit_lt_two_pow
      (lt_of_lt_of_le hb (by
        calc (256 : Nat) = 2 ^ 8 := by norm_num
          _ ≤ 2 ^ (8 + i) := Nat.pow_le_pow_right (by norm_num) (by omega)))
    simp [this]
  have hr : specCrcStep^[8] (crc ^^^ b)
      = specCrcStep^[8] ((crc ^^^ b) % 256) ^^^ ((crc ^^^ b) / 256) := by
    conv_lhs => rw [split_low_byte (crc ^^^ b)]
    rw [specCrcStep_iterate_xor, specCrcStep_iterate_shift]
  rw [ht, hr, hlow, hhigh]

theorem CrcUpdate_fold (buf : List Nat) (hb : ∀ b ∈ buf, b < 256) :
    ∀ crc : Nat,
      buf.foldl (fun crc b => crctable.getD (b ^^^ (crc % 256)) 0 ^^^ (crc >>> 8)) crc
        = specCrcBitSerial crc buf := by
  induction buf with
  | nil => intro crc; rfl
  | cons b bs ih =>
    intro crc
    unfold specCrcBitSerial
    rw [List.foldl_cons, List.foldl_cons, crc_table_step crc b (hb b (by simp))]
    exact ih (fun x hx => hb x (by simp [hx])) _

theorem specCrcStep_lt (r : Nat) (h : r < 2 ^ 32) : specCrcStep r < 2 ^ 32 := by
  unfold specCrcStep
  split
  · exact Nat.xor_lt_two_pow (by omega) (by norm_num)
  · omega

theorem specCrcStep_iterate_lt (k : Nat) : ∀ r, r < 2 ^ 32 → specCrcStep^[k] r < 2 ^ 32 := by
  induction k with
  | zero => intro r h; exact h
  | succ n ih =>
    intro r h
    rw [Function.iterate_succ_apply]
    exact ih _ (specCrcStep_lt r h)

theorem specCrcBitSerial_lt (buf : List Nat) (hb : ∀ b ∈ buf, b < 256) :
    ∀ crc : Nat, crc < 2 ^ 32 → specCrcBitSerial crc buf < 2 ^ 32 := by
  induction buf with
  | nil => intro crc h; exact h
  | cons b bs ih =>
    intro crc h
    unfold specCrcBitSerial
    rw [List.foldl_cons]
    refine ih (fun x hx => hb x (by simp [hx])) _ (specCrcStep_iterate_lt 8 _ ?_)
    exact Nat.xor_lt_two_pow h (lt_trans (hb b (by simp)) (by norm_num))

/-- C29: each entry `i` of the table of `CrcUpdate` is the register after 8 steps of the
shift register (`shf & 1 ? (shf >> 1) ^ 0xEDB88320 : shf >> 1`) from `i`; and for every
32-bit `crc` and every sequence of bytes `buf`, the table-driven `CrcUpdate` of `crc` and
`buf` is the bit-serial CRC-32: the fold, over the bytes, of the step that adds the byte
into the low 8 bits of the register and then makes 8 steps of the shift register; a
32-bit `crc` stays one, so no bit is lost in an `unsigned long` of 32 bits.  With
the initial value `0xFFFFFFFF` and the final exclusive or with `0xFFFFFFFF` this is the
CRC-32 of ZIP, whose check value for the text `123456789` is `0xCBF43926`. -/
theorem CrcUpdate_bit_serial (crc : Nat) (buf : List Nat) (hcrc : crc < 2 ^ 32)
    (hb : ∀ b ∈ buf, b < 256) :
    crctable.length = 256
      ∧ (∀ i : Nat, i < 256 → crctable[i]? = some (specCrcStep^[8] i))
      ∧ CrcUpdate crc buf buf.length = specCrcBitSerial crc buf
      ∧ CrcUpdate crc buf buf.length < 2 ^ 32
      ∧ CrcUpdate 0xffffffff [49, 50, 51, 52, 53, 54, 55, 56, 57] 9 ^^^ 0xffffffff
          = 0xcbf43926 := by
  have key : CrcUpdate crc buf buf.length = specCrcBitSerial crc buf := by
    unfold CrcUpdate
    rw [Int.toNat_ofNat, List.take_length]
    exact CrcUpdate_fold buf hb crc
  refine ⟨by simp [crctable], ?_, key, ?_, by decide⟩
  · intro i hi
    unfold crctable
    rw [List.getElem?_map, List.getElem?_range hi]
    exact congrArg some (crcShiftLoop_eq 8 i)
  · rw [key]
    exact specCrcBitSerial_lt buf hb crc hcrc

/-- Witness of C29: the bytes of `123` from the initial value `0xFFFFFFFF`. -/
theorem CrcUpdate_bit_serial_witness :
    0xffffffff < 2 ^ 32 ∧ (∀ b ∈ [49, 50, 51], b < 256)
      ∧ crctable.length = 256
      ∧ (∀ i : Nat, i < 256 → crctable[i]? = some (specCrcStep^[8] i))
      ∧ CrcUpdate 0xffffffff [49, 50, 51] ([49, 50, 51] : List Nat).length
          = specCrcBitSerial 0xffffffff [49, 50, 51]
      ∧ CrcUpdate 0xffffffff [49, 50, 51] ([49, 50, 51] : List Nat).length < 2 ^ 32
      ∧ CrcUpdate 0xffffffff [49, 50, 51, 52, 53, 54, 55, 56, 57] 9 ^^^ 0xffffffff
          = 0xcbf43926 :=
  ⟨by decide, by decide, CrcUpdate_bit_serial 0xffffffff [49, 50, 51] (by decide) (by decide)⟩

/-! ## `zseek` -/

theorem toLong_of_range (x : Int) (h0 : -2147483648 ≤ x) (h1 : x < 2147483648) :
    toLong x = x := by
  unfold toLong
  omega

theorem u32_of_range (x : Int) (h0 : 0 ≤ x) (h1 : x < 4294967296) : (u32 x : Int) = x := by
  unfold u32
  omega

theorem CACHEUPDATE_clean (zs : ZipioState) :
    (CACHEUPDATE zs).ptr = none ∧ (CACHEUPDATE zs).len = 0
      ∧ (CACHEUPDATE zs).usiz = zs.usiz
      ∧ (CACHEUPDATE zs).errorencountered = zs.errorencountered := by
  unfold CACHEUPDATE
  cases zs.ptr <;> exact ⟨rfl, rfl, rfl, rfl⟩

theorem CACHEUPDATE_fileposition_lt (zs : ZipioState) (h : zs.fileposition < 4294967296) :
    (CACHEUPDATE zs).fileposition < 4294967296 := by
  unfold CACHEUPDATE
  cases zs.ptr with
  | none => exact h
  | some d =>
    simp only [u32]
    omega

theorem CACHEUPDATE_of_clean (c : ZipioState) (h1 : c.ptr = none) (h2 : c.len = 0) :
    CACHEUPDATE c = c := by
  cases c
  simp only at h1 h2
  subst h1 h2
  rfl

theorem zseek_CACHEUPDATE (zs : ZipioState) (offset whence : Int)
    (herr : zs.errorencountered = false) :
    zseek zs offset whence = zseek (CACHEUPDATE zs) offset whence := by
  have hc := CACHEUPDATE_clean zs
  have hi := CACHEUPDATE_of_clean (CACHEUPDATE zs) hc.1 hc.2.1
  unfold zseek
  rw [hc.2.2.2, herr, hi]
  simp only [Bool.false_eq_true, if_false]

theorem ztell_CACHEUPDATE (zs : ZipioState) (herr : zs.errorencountered = false) :
    ztell zs = ztell (CACHEUPDATE zs) := by
  have hc := CACHEUPDATE_clean zs
  have hi := CACHEUPDATE_of_clean (CACHEUPDATE zs) hc.1 hc.2.1
  unfold ztell
  rw [hc.2.2.2, herr, hi]
  simp only [Bool.false_eq_true, if_false]

theorem ztell_clean (c : ZipioState) (h1 : c.ptr = none) (h2 : c.len = 0)
    (herr : c.errorencountered = false) : ztell c = (toLong c.fileposition, c) := by
  unfold ztell
  rw [herr, CACHEUPDATE_of_clean c h1 h2]
  rfl

/-- `zseek` on a stream with an empty cache and no error, of size below `2^31`, at a
position within the member, for an `offset` in the range of `long`. -/
theorem zseek_clean (c : ZipioState) (offset : Int) (h1 : c.ptr = none) (h2 : c.len = 0)
    (herr : c.errorencountered = false) (hu : c.usiz < 2147483648)
    (hp : c.fileposition ≤ c.usiz) (ho0 : -2147483648 ≤ offset) (ho1 : offset < 2147483648) :
    zseek c offset SEEK_SET
        = (if 0 ≤ offset ∧ offset ≤ c.usiz then (0, { c with fileposition := offset.toNat })
          else (-1, c))
      ∧ zseek c offset SEEK_CUR
        = (if 0 ≤ c.fileposition + offset ∧ c.fileposition + offset ≤ c.usiz then
            (0, { c with fileposition := (c.fileposition + offset).toNat })
          else (-1, c))
      ∧ zseek c offset SEEK_END
        = (if c.fileposition = 0 then (0, { c with fileposition := c.usiz }) else (-1, c))
      ∧ ∀ whence : Int, whence ≠ SEEK_SET → whence ≠ SEEK_CUR → whence ≠ SEEK_END →
          zseek c offset whence = (-1, c) := by
  have hus : toLong c.usiz = c.usiz := toLong_of_range _ (by omega) (by omega)
  refine ⟨?_, ?_, ?_, ?_⟩
  · unfold zseek
    rw [herr, CACHEUPDATE_of_clean c h1 h2]
    simp only [Bool.false_eq_true, if_false, if_true, hus]
    by_cases h : 0 ≤ offset ∧ offset ≤ c.usiz
    · have e2 : u32 offset = offset.toNat := by unfold u32; omega
      rw [if_neg (by omega), if_pos h, e2, herr]
    · rw [if_pos (by omega), if_neg h]
  · unfold zseek
    rw [herr, CACHEUPDATE_of_clean c h1 h2]
    have e : SEEK_CUR ≠ SEEK_SET := by decide
    simp only [Bool.false_eq_true, if_false, if_true, hus, e]
    by_cases h : 0 ≤ c.fileposition + offset ∧ c.fileposition + offset ≤ c.usiz
    · have e1 : toLong (u32 (c.fileposition + offset)) = c.fileposition + offset := by
        rw [u32_of_range _ (by omega) (by omega), toLong_of_range _ (by omega) (by omega)]
      have e2 : u32 ((c.fileposition : Int) + offset) = (c.fileposition + offset).toNat := by
        unfold u32; omega
      rw [e1, if_neg (by omega), if_pos h, e2, herr]
    · have e1 : toLong (u32 (c.fileposition + offset)) < 0
          ∨ toLong (u32 (c.fileposition + offset)) > c.usiz := by
        simp only [toLong, u32]
        omega
      rw [if_pos e1, if_neg h]
  · unfold zseek
    rw [herr, CACHEUPDATE_of_clean c h1 h2]
    have e : SEEK_END ≠ SEEK_SET := by decide
    have e' : SEEK_END ≠ SEEK_CUR := by decide
    simp only [Bool.false_eq_true, if_false, if_true, hus, e, e']
    by_cases h : c.fileposition = 0
    · have e1 : toLong (u32 ((c.fileposition : Int) + c.usiz)) = c.usiz := by
        rw [h, u32_of_range _ (by omega) (by omega), toLong_of_range _ (by omega) (by omega)]
        omega
      have e2 : u32 (c.usiz : Int) = c.usiz := by unfold u32; omega
      rw [e1, if_neg (by omega), if_pos h, e2, herr]
    · have e1 : toLong (u32 ((c.fileposition : Int) + c.usiz)) < 0
          ∨ toLong (u32 ((c.fileposition : Int) + c.usiz)) > c.usiz := by
        simp only [toLong, u32]
        omega
      rw [if_pos e1, if_neg h]
  · intro whence w1 w2 w3
    unfold zseek
    rw [herr, CACHEUPDATE_of_clean c h1 h2]
    simp only [Bool.false_eq_true, if_false, w1, w2, w3]

/-- `zseek` with `SEEK_SET` and `SEEK_CUR`, and with a `whence` that is none of the three,
follows stdio: for a stream with no error, of size below `2^31`, at a position `pos` (the
value `ztell` returns) within the member, and an `offset` in the range of `long`. -/
theorem zseek_set_cur (zs : ZipioState) (offset : Int) (herr : zs.errorencountered = false)
    (hfp : zs.fileposition < 4294967296) (hu : zs.usiz < 2147483648)
    (hp0 : 0 ≤ (ztell zs).1) (hp1 : (ztell zs).1 ≤ zs.usiz)
    (ho0 : -2147483648 ≤ offset) (ho1 : offset < 2147483648) :
    ((0 ≤ offset ∧ offset ≤ zs.usiz →
        (zseek zs offset SEEK_SET).1 = 0 ∧ (ztell (zseek zs offset SEEK_SET).2).1 = offset)
      ∧ (¬ (0 ≤ offset ∧ offset ≤ zs.usiz) →
        (zseek zs offset SEEK_SET).1 = -1
          ∧ (ztell (zseek zs offset SEEK_SET).2).1 = (ztell zs).1))
    ∧ ((0 ≤ (ztell zs).1 + offset ∧ (ztell zs).1 + offset ≤ zs.usiz →
        (zseek zs offset SEEK_CUR).1 = 0
          ∧ (ztell (zseek zs offset SEEK_CUR).2).1 = (ztell zs).1 + offset)
      ∧ (¬ (0 ≤ (ztell zs).1 + offset ∧ (ztell zs).1 + offset ≤ zs.usiz) →
        (zseek zs offset SEEK_CUR).1 = -1
          ∧ (ztell (zseek zs offset SEEK_CUR).2).1 = (ztell zs).1))
    ∧ (((ztell zs).1 = 0 →
        (zseek zs offset SEEK_END).1 = 0
          ∧ (ztell (zseek zs offset SEEK_END).2).1 = zs.usiz)
      ∧ ((ztell zs).1 ≠ 0 →
        (zseek zs offset SEEK_END).1 = -1
          ∧ (ztell (zseek zs offset SEEK_END).2).1 = (ztell zs).1))
    ∧ (∀ whence : Int, whence ≠ SEEK_SET → whence ≠ SEEK_CUR → whence ≠ SEEK_END →
        (zseek zs offset whence).1 = -1
          ∧ (ztell (zseek zs offset whence).2).1 = (ztell zs).1) := by
  have hc := CACHEUPDATE_clean zs
  have hlt := CACHEUPDATE_fileposition_lt zs hfp
  rw [ztell_CACHEUPDATE zs herr] at hp0 hp1 ⊢
  simp only [zseek_CACHEUPDATE zs _ _ herr]
  rw [← hc.2.2.1] at hu hp1 ⊢
  have herr2 : (CACHEUPDATE zs).errorencountered = false := by rw [hc.2.2.2, herr]
  generalize CACHEUPDATE zs = c at hc hlt hp0 hp1 hu herr2 ⊢
  have ht := ztell_clean c hc.1 hc.2.1 herr2
  rw [ht] at hp0 hp1 ⊢
  simp only at hp0 hp1 ⊢
  have hpos : toLong c.fileposition = c.fileposition := by
    unfold toLong at hp0 hp1 ⊢
    omega
  rw [hpos] at hp1 ⊢
  have hs := zseek_clean c offset hc.1 hc.2.1 herr2 hu (by omega) ho0 ho1
  have tell : ∀ n : Nat, n < 2147483648 →
      (ztell { c with fileposition := n }).1 = n := by
    intro n hn
    rw [ztell_clean { c with fileposition := n } hc.1 hc.2.1 herr2]
    show toLong (n : Int) = n
    exact toLong_of_range _ (by omega) (by omega)
  refine ⟨⟨?_, ?_⟩, ⟨?_, ?_⟩, ⟨?_, ?_⟩, ?_⟩
  · intro h
    rw [hs.1, if_pos h]
    refine ⟨rfl, ?_⟩
    simp only
    rw [tell _ (by omega)]
    omega
  · intro h
    rw [hs.1, if_neg h]
    exact ⟨rfl, by rw [ht]; exact hpos⟩
  · intro h
    rw [hs.2.1, if_pos h]
    refine ⟨rfl, ?_⟩
    simp only
    rw [tell _ (by omega)]
    omega
  · intro h
    rw [hs.2.1, if_neg h]
    exact ⟨rfl, by rw [ht]; exact hpos⟩
  · intro h
    rw [hs.2.2.1, if_pos (by omega)]
    refine ⟨rfl, ?_⟩
    simp only
    rw [tell _ (by omega)]
  · intro h
    rw [hs.2.2.1, if_neg (by omega)]
    exact ⟨rfl, by rw [ht]; exact hpos⟩
  · intro whence w1 w2 w3
    rw [hs.2.2.2 whence w1 w2 w3]
    exact ⟨rfl, by rw [ht]; exact hpos⟩

/-- C28 fails on the code for `SEEK_END`: `zseek` takes `fileposition + usiz` as the
target (line 850) where stdio has `usiz + offset`, so the offset is ignored.  On a member
of 10 bytes at position 4, `zseek(stream, -3, SEEK_END)`, whose target 7 lies in
`[0, 10]`, returns -1 and leaves the position at 4; at position 0 it returns 0 and the
position is 10, not 7.  For `SEEK_SET`, `SEEK_CUR` and an invalid `whence` the claim
holds: on a stream with no error, of size below `2^31`, at a position within the member,
for an offset in the range of `long`. -/
theorem zseek_end_ignores_offset :
    ((ztell member10at4).1 = 4
        ∧ (zseek member10at4 (-3) SEEK_END).1 = -1
        ∧ (ztell (zseek member10at4 (-3) SEEK_END).2).1 = 4)
      ∧ ((ztell member10at0).1 = 0
        ∧ (zseek member10at0 (-3) SEEK_END).1 = 0
        ∧ (ztell (zseek member10at0 (-3) SEEK_END).2).1 = 10)
      ∧ (∀ (zs : ZipioState) (offset offset2 : Int),
          zseek zs offset SEEK_END = zseek zs offset2 SEEK_END)
      ∧ ∀ (zs : ZipioState) (offset : Int), zs.errorencountered = false →
          zs.fileposition < 4294967296 → zs.usiz < 2147483648 →
          0 ≤ (ztell zs).1 → (ztell zs).1 ≤ zs.usiz →
          -2147483648 ≤ offset → offset < 2147483648 →
          ((0 ≤ offset ∧ offset ≤ zs.usiz →
              (zseek zs offset SEEK_SET).1 = 0
                ∧ (ztell (zseek zs offset SEEK_SET).2).1 = offset)
            ∧ (¬ (0 ≤ offset ∧ offset ≤ zs.usiz) →
              (zseek zs offset SEEK_SET).1 = -1
                ∧ (ztell (zseek zs offset SEEK_SET).2).1 = (ztell zs).1))
          ∧ ((0 ≤ (ztell zs).1 + offset ∧ (ztell zs).1 + offset ≤ zs.usiz →
              (zseek zs offset SEEK_CUR).1 = 0
                ∧ (ztell (zseek zs offset SEEK_CUR).2).1 = (ztell zs).1 + offset)
            ∧ (¬ (0 ≤ (ztell zs).1 + offset ∧ (ztell zs).1 + offset ≤ zs.usiz) →
              (zseek zs offset SEEK_CUR).1 = -1
                ∧ (ztell (zseek zs offset SEEK_CUR).2).1 = (ztell zs).1))
          ∧ (∀ whence : Int, whence ≠ SEEK_SET → whence ≠ SEEK_CUR → whence ≠ SEEK_END →
              (zseek zs offset whence).1 = -1
                ∧ (ztell (zseek zs offset whence).2).1 = (ztell zs).1) := by
  refine ⟨by decide, by decide, ?_, ?_⟩
  · intro zs offset offset2
    have e : SEEK_END ≠ SEEK_SET := by decide
    have e2 : SEEK_END ≠ SEEK_CUR := by decide
    unfold zseek
    simp only [e, e2, if_false]
  · intro zs offset herr hfp hu hp0 hp1 ho0 ho1
    have h := zseek_set_cur zs offset herr hfp hu hp0 hp1 ho0 ho1
    exact ⟨h.1, h.2.1, h.2.2.2⟩

/-! ## The walk along a ZIP path -/

theorem ComputeRLE_pos (p : List Nat) (todo : Nat) (h : p.headD 0 = 0xe5) (ht : 0 < todo) :
    0 < ComputeRLE p (p.headD 0) todo := by
  cases p with
  | nil => simp at h
  | cons x p =>
    cases todo with
    | zero => omega
    | succ t => simp [ComputeRLE]

theorem head?_of_headD_e5 (l : List Nat) (h : l.headD 0 = 0xe5) : l.head? = some 0xe5 := by
  cases l with
  | nil => simp at h
  | cons y ys => simpa using h

theorem packLoop_zero (fuel : Nat) (pR : List Nat) : packLoop fuel pR 0 = [] := by
  cases fuel with
  | zero => rfl
  | succ n => simp [packLoop]

/-- Twice the packed size is at most `5 * todo + 3`, and at most `5 * todo` when the first
byte is not `0xe5`. -/
theorem packLoop_length_bound (fuel : Nat) :
    ∀ (pR : List Nat) (todo : Nat),
      (packLoop fuel pR todo).length * 2 ≤ 5 * todo + 3
        ∧ (pR.headD 0 ≠ 0xe5 → (packLoop fuel pR todo).length * 2 ≤ 5 * todo) := by
  induction fuel with
  | zero => intro pR todo; simp [packLoop]
  | succ n ih =>
    intro pR todo
    simp only [packLoop]
    by_cases ht : todo > 0
    · rw [if_pos ht]
      have hle := ComputeRLE_le_todo pR (pR.headD 0) todo
      by_cases hb : ComputeRLE pR (pR.headD 0) todo > 4 ∨ 0xe5 = pR.headD 0
      · rw [if_pos hb]
        simp only [List.length_append, List.length_cons, List.length_nil]
        by_cases he : pR.headD 0 = 0xe5
        · have hpos := ComputeRLE_pos pR todo he ht
          refine ⟨?_, fun hne => absurd he hne⟩
          by_cases hlt : ComputeRLE pR (pR.headD 0) todo < todo
          · have hstop := ComputeRLE_stop pR (pR.headD 0) todo hlt
            have hhead : (pR.drop (ComputeRLE pR (pR.headD 0) todo)).headD 0 ≠ 0xe5 := by
              intro hc
              apply hstop
              rw [head?_of_headD_e5 _ hc, he]
            have := (ih (pR.drop (ComputeRLE pR (pR.headD 0) todo))
              (todo - ComputeRLE pR (pR.headD 0) todo)).2 hhead
            omega
          · have e : todo - ComputeRLE pR (pR.headD 0) todo = 0 := by omega
            rw [e, packLoop_zero]
            simp only [List.length_nil]
            omega
        · have h4 : ComputeRLE pR (pR.headD 0) todo > 4 := by
            rcases hb with hb | hb
            · exact hb
            · exact absurd hb.symm he
          have := (ih (pR.drop (ComputeRLE pR (pR.headD 0) todo))
            (todo - ComputeRLE pR (pR.headD 0) todo)).1
          constructor
          · omega
          · intro _; omega
      · rw [if_neg hb]
        simp only [List.length_cons]
        have := (ih (pR.drop 1) (todo - 1)).1
        constructor
        · omega
        · intro _; omega
    · rw [if_neg ht]
      simp

/-- C34: for every track of `L` bytes the packed track that `WriteImage` stores through
`pTemp` has at most `(5 * L + 3) / 2` bytes; the bound is met by single `0xE5` bytes that
alternate with other bytes (`E5 00 E5` packs into 9 bytes).  For the two geometries of the
driver, `L = 5120` and `L = 5632`, the packed track has at most 12801 and 14081 bytes, so
it never exceeds the temporary buffer of 32768 bytes. -/
theorem packTrack_length_bound (pR : List Nat) (L : Nat) :
    (packTrack pR L).length ≤ (5 * L + 3) / 2
      ∧ (packTrack [0xe5, 0, 0xe5] 3).length = (5 * 3 + 3) / 2
      ∧ (packTrack pR 5120).length ≤ 12801
      ∧ (packTrack pR 5632).length ≤ 14081
      ∧ (packTrack pR (NB_SECTOR_PER_TRACK * 512).toNat).length ≤ 32 * 1024
      ∧ (packTrack pR ((NB_SECTOR_PER_TRACK + 1) * 512).toNat).length ≤ 32 * 1024 := by
  have key : ∀ L : Nat, (packTrack pR L).length ≤ (5 * L + 3) / 2 := by
    intro L
    have := (packLoop_length_bound L pR L).1
    unfold packTrack
    omega
  have e1 : (NB_SECTOR_PER_TRACK * 512).toNat = 5120 := by decide
  have e2 : ((NB_SECTOR_PER_TRACK + 1) * 512).toNat = 5632 := by decide
  have k1 := key 5120
  have k2 := key 5632
  refine ⟨key L, by decide, by omega, by omega, ?_, ?_⟩
  · rw [e1]; omega
  · rw [e2]; omega

/-! ## The size probe of `CDirEntry::Create` on a ZIP member -/

/-- `Fill`, for a tree with non-negative file sizes and whatever it returns, gives
clusters from cluster 2 on and changes the image only from the root directory (offset
`11 * 512`) up to the clusters it has given. -/
theorem Fill_sameOff (s : CFloppy) (root : CDirectory) (hnn : sizesNonNeg root = true)
    (h2 : s.m_nextCluster = 2) :
    2 ≤ (Fill s root).2.m_nextCluster
      ∧ sameOff (fun j => 5632 ≤ j ∧ (j : Int) < GetRawAd (Fill s root).2.m_nextCluster)
          s.m_pRawImage (Fill s root).2.m_pRawImage := by
  by_cases hroot : GetNbEntry root + 1 ≤ 112
  · rw [Fill_rootStart s root hroot]
    have hf := buildEntries_frame root (rootStart s) 5664 0 hnn
    rw [rootStart_next, h2] at hf
    have hl := GetNbEntry_nonneg root
    have hd := dirHead_sameOutside s.m_pRawImage 5632 0 0 3584 (by omega)
    have hrs : (rootStart s).m_pRawImage = (dirHead s.m_pRawImage 5632 0 0 3584).1 := by
      rw [rootStart]
    have hlen := rootStart_length s
    generalize (rootStart s).m_pRawImage = img0 at hf hrs hlen
    generalize buildEntries (rootStart s) 5664 0 root = r at hf ⊢
    obtain ⟨hn2, hlen2, hsame⟩ := hf
    refine ⟨hn2, ?_, ?_⟩
    · rw [hlen2, hlen]
    · intro j hj
      simp only [GetRawAd_eq, not_and, not_lt] at hj
      have e1 : r.2.m_pRawImage[j]? = img0[j]? := by
        apply hsame j
        simp only [inRecords, inClusters, GetRawAd_eq]
        intro hc
        rcases hc with hc | hc
        · have := hj (by omega)
          omega
        · have := hj (by omega)
          omega
      rw [e1, hrs]
      apply hd.2 j
      by_cases h5 : 5632 ≤ j
      · have := hj h5
        omega
      · omega
  · have e : Fill s root = (Diag.tooMuchFiles, s) := by
      unfold Fill
      rw [if_pos (by unfold MAX_ROOT_ENTRY; omega)]
    rw [e]
    exact ⟨by simp only; omega, sameOff_refl _ _⟩

/-- C35, as stated, fails: a size that `GetSize` returns as negative moves `m_nextCluster`
back, and the next file is copied below the data area.  For `negativeLabelTree` on the
default floppy `Fill` returns `true` and the file of 600 bytes starts at cluster -2, that
is at offset 5120, inside the second FAT region: the byte there was `0xE5` and is then
the byte `B` (66) of the file. -/
theorem Fill_negative_size_fat_overwritten :
    (Fill (Create 2 10 81) negativeLabelTree).1 = Diag.ok
      ∧ 5120 < 11 * 512
      ∧ (Create 2 10 81).m_pRawImage[5120]? = some 0xe5
      ∧ (Fill (Create 2 10 81) negativeLabelTree).2.m_pRawImage[5120]? = some 66 := by
  obtain ⟨h1, h2, h3⟩ := Fill_negativeLabelTree
  rw [h1]
  refine ⟨rfl, by decide, ?_, ?_⟩
  · rw [Create_getElem?_fill 2 10 81 5120 (by decide), if_pos (by decide)]
  · simp only []
    rw [fileStep_image, if_pos (by decide), h2, memcpy_getElem?, LFN_Create_length, h3,
      opt_if_pos (by decide)]
    have e : ((((5120 : Nat) : Int)) - GetRawAd (-2)).toNat = 0 := by decide
    rw [e, List.getD_eq_getElem?_getD, List.getElem?_replicate, if_pos (by decide)]
    rfl

/-! ## The clusters `Fill` gives lie in the image -/

theorem Fill_maxFatEntry (s : CFloppy) (root : CDirectory) :
    (Fill s root).2.m_maxFatEntry = s.m_maxFatEntry := by
  by_cases hroot : GetNbEntry root + 1 > MAX_ROOT_ENTRY
  · unfold Fill
    rw [if_pos hroot]
  · rw [Fill_eq s root hroot]
    exact (buildEntries_geometry root _ _ _).2.2.2.2

theorem Fill_length (s : CFloppy) (root : CDirectory) :
    (Fill s root).2.m_pRawImage.length = s.m_pRawImage.length := by
  by_cases hroot : GetNbEntry root + 1 ≤ 112
  · rw [Fill_rootStart s root hroot]
    have h : ∀ (es : CDirEntry) (t : CFloppy) (p c : Int),
        (buildEntries t p c es).2.m_pRawImage.length = t.m_pRawImage.length := by
      intro es
      induction es with
      | null => intro t p c; rfl
      | file info data next ih =>
        intro t p c
        simp only [buildEntries]
        split
        · split
          · rfl
          · split
            · rw [ih]
              simp only [memcpy_length, LFN_Create_length]
            · simp only [LFN_Create_length]
        · rw [ih]
          simp only [LFN_Create_length]
      | dir info sub next ihs ihn =>
        intro t p c
        simp only [buildEntries]
        split
        · rfl
        · split
          · rw [ihn, ihs]
            simp only [dirHead_length, LFN_Create_length]
          · rw [ihs]
            simp only [dirHead_length, LFN_Create_length]
    rw [h, rootStart_length]
  · have e : Fill s root = (Diag.tooMuchFiles, s) := by
      unfold Fill
      rw [if_pos (by unfold MAX_ROOT_ENTRY; omega)]
    rw [e]

/-- Every range of clusters that `Fill` reserves on a created floppy, for a tree with
non-negative file sizes and whatever `Fill` returns, starts at cluster 2 or later, is not
empty, and ends at or before cluster `m_maxFatEntry + 2`. -/
theorem FillAlloc_reserved_bounds (a b c : Int) (root : CDirectory)
    (hmax : 0 ≤ (Create a b c).m_maxFatEntry) (hnn : sizesNonNeg root = true) :
    ∀ r ∈ (FillAlloc (Create a b c) root).2.reserved,
      2 ≤ r.1 ∧ 0 < r.2 ∧ r.1 + r.2 ≤ (Create a b c).m_maxFatEntry + 2 := by
  intro r hr
  have hok := FillAlloc_reservedOk (Create a b c) root hnn (by rw [Create_nextCluster])
  have hsim := (Fill_FillAlloc (Create a b c) root).2
  have hinv := Fill_allocInv (Create a b c) root (Create_allocInv a b c hmax)
  have hm := Fill_maxFatEntry (Create a b c) root
  unfold allocInv at hinv
  rw [hm, hsim.1] at hinv
  have h1 := hok.1 r hr
  generalize (Create a b c).m_maxFatEntry = m at hinv hmax ⊢
  generalize (Fill (Create a b c) root).2.m_nbFreeCluster = f at hinv
  omega

/-- After a `Fill` that returns `true`, for a tree with non-negative file sizes, the range
of every entry of the layout that requires clusters is one of the reserved ranges. -/
theorem Fill_layout_reserved (a b c : Int) (root : CDirectory) (hnn : sizesNonNeg root = true)
    (hok : (Fill (Create a b c) root).1 = Diag.ok) (pLFN cluster : Int) :
    ∀ e ∈ specLayout root pLFN cluster 2, 0 < e.req →
      (e.first, e.req) ∈ (FillAlloc (Create a b c) root).2.reserved := by
  intro e he hreq
  have hsim := Fill_FillAlloc (Create a b c) root
  have hroot := Fill_ok_root _ root hok
  have hfa : FillAlloc (Create a b c) root = allocEntries (allocOf (Create a b c)) root := by
    unfold FillAlloc
    rw [if_neg (by unfold MAX_ROOT_ENTRY; omega)]
  have hok2 : (allocEntries (allocOf (Create a b c)) root).1 = Diag.ok := by
    rw [← hfa, ← hsim.1]; exact hok
  have hnext : (allocOf (Create a b c)).next = 2 := by
    unfold allocOf
    simp only []
    exact Create_nextCluster a b c
  have hres := (allocEntries_reserved root (allocOf (Create a b c)) pLFN cluster hnn hok2).2
  rw [hnext] at hres
  rw [hfa, hres]
  refine List.mem_append_right _ ?_
  unfold reservedOf
  rw [List.mem_filterMap]
  exact ⟨e, he, by rw [if_pos hreq]⟩

/-! ## The indices of the fat table that `Fill` writes -/

theorem mem_clusterRange (n : Nat) : ∀ (c x : Int), x ∈ clusterRange c n ↔ c ≤ x ∧ x < c + n := by
  induction n with
  | zero =>
    intro c x
    simp only [clusterRange, List.not_mem_nil, false_iff]
    omega
  | succ n ih =>
    intro c x
    simp only [clusterRange, List.mem_cons, ih]
    push_cast
    omega

/-- The stores of `BuildDirectory` into `m_pFat` for a range leave every entry whose index
is none of `fatIndices` as it was. -/
theorem fatIndices_frame (fat : List Int) (c n : Int) (hn : 0 < n) (j : Nat)
    (hj : (j : Int) ∉ fatIndices (c, n)) :
    (fatStore (fatChain fat c (n - 1).toNat) (c + n - 1) (-1))[j]? = fat[j]? := by
  unfold fatIndices at hj
  rw [mem_clusterRange] at hj
  simp only at hj
  rw [fatStore_getElem?, fatChain_getElem?, fatChain_length]
  rw [if_neg (by omega), if_neg (by omega)]

theorem Fill_oneFile801K_flushed :
    (Fill (Create 2 10 81) oneFile801K).1 = Diag.ok
      ∧ (Fill (Create 2 10 81) oneFile801K).2.m_nbFreeCluster = 0
      ∧ (Fill (Create 2 10 81) oneFile801K).2.m_pFat[800]? = some 801
      ∧ specFat12Entry
          (firstFat (FAT_Flush (Fill (Create 2 10 81) oneFile801K).2).m_pRawImage) 800 = 801
      ∧ specFat12Entry
          (firstFat (FAT_Flush (Fill (Create 2 10 81) oneFile801K).2).m_pRawImage) 801 = 0 := by
  have hsim := Fill_FillAlloc (Create 2 10 81) oneFile801K
  rw [FillAlloc_oneFile801K] at hsim
  obtain ⟨h1, -, h3, h4⟩ := hsim
  simp only at h3 h4
  have hm : (Fill (Create 2 10 81) oneFile801K).2.m_maxFatEntry = 801 := by
    rw [Fill_maxFatEntry, Create_maxFatEntry]; decide
  have hl : (Fill (Create 2 10 81) oneFile801K).2.m_pRawImage.length = 829440 := by
    rw [Fill_length, Create_default_length]
  have h800 : (Fill (Create 2 10 81) oneFile801K).2.m_pFat[800]? = some 801 := by
    rw [h4, fat_oneFile801K 800, if_pos (by decide)]
    rfl
  have hg := FAT_Flush_group (Fill (Create 2 10 81) oneFile801K).2 399 (by rw [hl]; decide)
    (by rw [hm]; decide) (by decide)
  rw [hm] at hg
  refine ⟨h1, h3, h800, ?_, ?_⟩
  · have e : 2 + 2 * 399 = 800 := by decide
    have e2 : (2 + 2 * ((399 : Nat) : Int)) = ((800 : Nat) : Int) := by decide
    have := hg.1
    rw [e, e2, fat12_of_getElem? _ 800 801 h800] at this
    rw [this]
    decide
  · have e : 2 + 2 * 399 + 1 = 801 := by decide
    have := hg.2
    rw [e, if_neg (by decide)] at this
    exact this

/-- C31 fails on the code: the fat table has `m_maxFatEntry` entries while the clusters
are numbered from 2, so `BuildDirectory` writes up to index `m_maxFatEntry + 1`.  One file
of 820224 bytes on the default floppy passes the free-cluster check and uses all 801 free
clusters: `Fill` returns `true`, the range reserved is 801 clusters from cluster 2 on, and
the indices written include 801 and 802, which are not below `m_maxFatEntry = 801`, the
length of the table.  In the FAT that `FAT_Flush` then writes, cluster 800 points to
cluster 801 and the entry of cluster 801, a cluster of the file, reads 0.  What holds for
every tree with non-negative file sizes, on an image of at least 18 sectors, is
`2 <= index < m_maxFatEntry + 2`. -/
theorem Fill_fat_index_past_table :
    (Fill (Create 2 10 81) oneFile801K).1 = Diag.ok
      ∧ (Fill (Create 2 10 81) oneFile801K).2.m_nbFreeCluster = 0
      ∧ (FillAlloc (Create 2 10 81) oneFile801K).2.reserved = [(2, 801)]
      ∧ (Create 2 10 81).m_maxFatEntry = 801
      ∧ (Create 2 10 81).m_pFat.length = 801
      ∧ (801 : Int) ∈ fatIndices (2, 801)
      ∧ (802 : Int) ∈ fatIndices (2, 801)
      ∧ specFat12Entry
          (firstFat (FAT_Flush (Fill (Create 2 10 81) oneFile801K).2).m_pRawImage) 800 = 801
      ∧ specFat12Entry
          (firstFat (FAT_Flush (Fill (Create 2 10 81) oneFile801K).2).m_pRawImage) 801 = 0
      ∧ ∀ (a b c : Int) (root : CDirectory), 18 ≤ a * b * c → sizesNonNeg root = true →
          ∀ r ∈ (FillAlloc (Create a b c) root).2.reserved, ∀ i ∈ fatIndices r,
            2 ≤ i ∧ i < (Create a b c).m_maxFatEntry + 2 := by
  obtain ⟨f1, f2, -, f4, f5⟩ := Fill_oneFile801K_flushed
  have hm : (Create 2 10 81).m_maxFatEntry = 801 := by rw [Create_maxFatEntry]; decide
  refine ⟨f1, f2, ?_, hm, ?_, ?_, ?_, f4, f5, ?_⟩
  · rw [FillAlloc_oneFile801K]
  · rw [Create_pFat, List.length_replicate, hm]
    rfl
  · unfold fatIndices
    rw [mem_clusterRange]
    decide
  · unfold fatIndices
    rw [mem_clusterRange]
    decide
  · intro a b c root h18 hnn r hr i hi
    have hmax : 0 ≤ (Create a b c).m_maxFatEntry := by
      rw [Create_maxFatEntry, Int.tdiv_eq_ediv (by omega) (by decide)]
      omega
    have h := FillAlloc_reserved_bounds a b c root hmax hnn r hr
    unfold fatIndices at hi
    rw [mem_clusterRange] at hi
    generalize (Create a b c).m_maxFatEntry = m at h ⊢
    omega


/-! ## The domain of the `int` arithmetic -/

/-- A tree in the range of the `int` arithmetic has non-negative file sizes. -/
theorem sizesInRange_nonneg (es : CDirEntry) (h : sizesInRange es = true) :
    sizesNonNeg es = true := by
  induction es with
  | null => rfl
  | file info data next ih =>
    simp only [sizesInRange, Bool.and_eq_true, decide_eq_true_eq] at h
    simp only [sizesNonNeg, Bool.and_eq_true, decide_eq_true_eq]
    exact ⟨h.1.1, ih h.2⟩
  | dir info sub next ihs ihn =>
    simp only [sizesInRange, Bool.and_eq_true, decide_eq_true_eq] at h
    simp only [sizesNonNeg, Bool.and_eq_true]
    exact ⟨ihs h.1.2, ihn h.2⟩

/-- From 17 sectors on `m_maxFatEntry` is not negative: the fat table can be allocated. -/
theorem Create_maxFatEntry_nonneg (a b c : Int) (h17 : 17 ≤ a * b * c) :
    0 ≤ (Create a b c).m_maxFatEntry := by
  rw [Create_maxFatEntry]
  generalize a * b * c = n at h17
  by_cases h : 0 ≤ n - 18
  · exact Int.tdiv_nonneg h (by decide)
  · have e : n - 18 = -1 := by omega
    rw [e]; decide

/-- C21: `Create(sides, sectors, cylinders)`, on a geometry of at least 17 sectors and
less than `2^22` sectors, produces a raw image of exactly `sides * sectors * cylinders *
512` bytes in which every byte at an offset of 512 or more is `0xE5`; it sets
`m_maxFatEntry` to `(sides * sectors * cylinders - 18) / 2` (the division of C),
`m_nextCluster` to 2, `m_nbFreeCluster` to `m_maxFatEntry`, and every entry of the fat
table, which has `m_maxFatEntry` entries, to 0.  For the default geometry 2 x 10 x 81 the
image has 829440 bytes and `m_maxFatEntry` is 801.  The bounds are those of the code: with
fewer than 17 sectors `m_maxFatEntry` is negative and `new int[m_maxFatEntry]` (line 92)
does not return, and from `2^22` sectors on `m_rawSize` does not fit an `int`; inside
them `m_maxFatEntry` is not negative and `m_rawSize` is at most `INT_MAX`. -/
theorem Create_image (a b c : Int) (h17 : 17 ≤ a * b * c) (h22 : a * b * c < 4194304) :
    ((Create a b c).m_pRawImage.length : Int) = a * b * c * 512
      ∧ (Create a b c).m_rawSize = a * b * c * 512
      ∧ (∀ i : Nat, 512 ≤ i → i < (Create a b c).m_pRawImage.length →
          (Create a b c).m_pRawImage[i]? = some 0xe5)
      ∧ (Create a b c).m_maxFatEntry = Int.tdiv (a * b * c - 18) 2
      ∧ (Create a b c).m_nextCluster = 2
      ∧ (Create a b c).m_nbFreeCluster = (Create a b c).m_maxFatEntry
      ∧ (Create a b c).m_pFat.length = (Create a b c).m_maxFatEntry.toNat
      ∧ (∀ v ∈ (Create a b c).m_pFat, v = 0)
      ∧ 0 ≤ (Create a b c).m_maxFatEntry
      ∧ (Create a b c).m_rawSize ≤ 2147483647
      ∧ (Create 2 10 81).m_pRawImage.length = 829440
      ∧ (Create 2 10 81).m_maxFatEntry = 801 := by
  refine ⟨?_, ?_, ?_, Create_maxFatEntry a b c, Create_nextCluster a b c,
    Create_nbFreeCluster a b c, ?_, ?_, Create_maxFatEntry_nonneg a b c h17, ?_,
    Create_default_length, ?_⟩
  · rw [Create_length, Int.toNat_of_nonneg (by omega)]
  · simp only [Create]
  · intro i hi hlen
    rw [Create_length] at hlen
    rw [Create_getElem?_fill a b c i (by omega), if_pos hlen]
  · rw [Create_pFat, List.length_replicate]
  · intro v hv
    rw [Create_pFat] at hv
    exact (List.mem_replicate.1 hv).2
  · simp only [Create]
    omega
  · rw [Create_maxFatEntry]; decide

/-- Witness of C21: the default geometry. -/
theorem Create_image_witness :
    (17 : Int) ≤ 2 * 10 * 81 ∧ (2 * 10 * 81 : Int) < 4194304
      ∧ ((Create 2 10 81).m_pRawImage.length : Int) = 2 * 10 * 81 * 512
      ∧ (Create 2 10 81).m_rawSize = 2 * 10 * 81 * 512
      ∧ (∀ i : Nat, 512 ≤ i → i < (Create 2 10 81).m_pRawImage.length →
          (Create 2 10 81).m_pRawImage[i]? = some 0xe5)
      ∧ (Create 2 10 81).m_maxFatEntry = Int.tdiv (2 * 10 * 81 - 18) 2
      ∧ (Create 2 10 81).m_nextCluster = 2
      ∧ (Create 2 10 81).m_nbFreeCluster = (Create 2 10 81).m_maxFatEntry
      ∧ (Create 2 10 81).m_pFat.length = (Create 2 10 81).m_maxFatEntry.toNat
      ∧ (∀ v ∈ (Create 2 10 81).m_pFat, v = 0)
      ∧ 0 ≤ (Create 2 10 81).m_maxFatEntry
      ∧ (Create 2 10 81).m_rawSize ≤ 2147483647
      ∧ (Create 2 10 81).m_pRawImage.length = 829440
      ∧ (Create 2 10 81).m_maxFatEntry = 801 :=
  ⟨by decide, by decide, Create_image 2 10 81 (by decide) (by decide)⟩

/-- C23, amended: after `Create` (on a geometry of at least 17 and less than `2^22`
sectors, those on which `Create` returns an image), every byte of the boot sector that is
none of the listed fields holds the `0xE5` fill, as the FAT and data regions do (offsets
`0x02..0x0A` and `0x3C..0x1FF`), except byte `0x01`, the high byte of the 16-bit store of
`0xE9` at offset 0, which is zero. -/
theorem Create_boot_unlisted (a b c : Int) (h17 : 17 ≤ a * b * c)
    (h22 : a * b * c < 4194304) :
    (Create a b c).m_pRawImage[0x01]? = some 0
      ∧ ∀ i : Nat, (0x02 ≤ i ∧ i ≤ 0x0a) ∨ (0x3c ≤ i ∧ i ≤ 0x1ff) →
          (Create a b c).m_pRawImage[i]? = some 0xe5 := by
  have hn : 60 ≤ (a * b * c * 512).toNat := by omega
  refine ⟨?_, ?_⟩
  · rw [Create_getElem?_boot a b c 1 (by decide) hn]; rfl
  · intro i hi
    rcases hi with hi | hi
    · rw [Create_getElem?_boot a b c i (by omega) hn]
      have h3 : i = 2 ∨ i = 3 ∨ i = 4 ∨ i = 5 ∨ i = 6 ∨ i = 7 ∨ i = 8 ∨ i = 9 ∨ i = 10 := by
        omega
      rcases h3 with h3 | h3 | h3 | h3 | h3 | h3 | h3 | h3 | h3 <;> subst h3 <;> rfl
    · rw [Create_getElem?_fill a b c i hi.1, if_pos (by omega)]

/-- Witness of the amended C23: the default geometry. -/
theorem Create_boot_unlisted_witness :
    (17 : Int) ≤ 2 * 10 * 81 ∧ (2 * 10 * 81 : Int) < 4194304
      ∧ (Create 2 10 81).m_pRawImage[0x01]? = some 0
      ∧ ∀ i : Nat, (0x02 ≤ i ∧ i ≤ 0x0a) ∨ (0x3c ≤ i ∧ i ≤ 0x1ff) →
          (Create 2 10 81).m_pRawImage[i]? = some 0xe5 :=
  ⟨by decide, by decide, Create_boot_unlisted 2 10 81 (by decide) (by decide)⟩

/-! ## The pack buffer of `WriteImage`

`WriteImage` packs a track into `pTempBuffer`, a buffer of `32 * 1024` bytes (line 452),
with no test on the packed size.  The packed form of a track of `L` bytes has at most
`(5 * L + 3) / 2` bytes, so it fits the buffer for every track of at most 13106 bytes (25
sectors); a track of 26 sectors can pack to 33280 bytes.  `packTrack` is the content of
the buffer for the tracks whose packed form fits. -/

/-- The packed form of a track of at most 13106 bytes fits the buffer of `32 * 1024`
bytes. -/
theorem packTrack_fits (pR : List Nat) (rawSize : Nat) (h : rawSize ≤ 13106) :
    (packTrack pR rawSize).length ≤ 32 * 1024 := by
  have := (packLoop_length_bound rawSize pR rawSize).1
  unfold packTrack
  omega

theorem flatten_replicate_length {α : Type} (l : List α) (n : Nat) :
    (List.replicate n l).flatten.length = n * l.length := by
  induction n with
  | zero => simp
  | succ n ih =>
    rw [List.replicate_succ, List.flatten_cons, List.length_append, ih]
    ring

/-- The pack loop on `n` pairs `E5 00`: each pair is packed as the five bytes
`E5 E5 00 01 00`. -/
theorem packLoop_e5_pairs (n : Nat) :
    ∀ fuel : Nat, 2 * n ≤ fuel →
      packLoop fuel (List.replicate n [0xe5, 0]).flatten (2 * n)
        = (List.replicate n [0xe5, 0xe5, 0, 1, 0]).flatten := by
  induction n with
  | zero =>
    intro fuel _
    cases fuel <;> simp [packLoop]
  | succ n ih =>
    intro fuel hf
    obtain ⟨f, rfl⟩ : ∃ f, fuel = f + 2 := ⟨fuel - 2, by omega⟩
    have e2 : 2 * (n + 1) = 2 * n + 1 + 1 := by ring
    have hrest : ComputeRLE (List.replicate n [0xe5, 0]).flatten 0 (2 * n) = 0 := by
      cases n with
      | zero => simp [ComputeRLE]
      | succ m =>
        have : 2 * (m + 1) = 2 * m + 1 + 1 := by ring
        rw [this, List.replicate_succ, List.flatten_cons]
        simp [ComputeRLE]
    rw [e2, List.replicate_succ, List.flatten_cons, List.replicate_succ, List.flatten_cons]
    have s1 : packLoop (f + 2) ([0xe5, 0] ++ (List.replicate n [0xe5, 0]).flatten)
        (2 * n + 1 + 1)
        = [0xe5, 0xe5, 0, 1] ++ packLoop (f + 1) (0 :: (List.replicate n [0xe5, 0]).flatten)
            (2 * n + 1) := by
      have c : ComputeRLE ([0xe5, 0] ++ (List.replicate n [0xe5, 0]).flatten) 0xe5
          (2 * n + 1 + 1) = 1 := by
        simp [ComputeRLE]
      rw [packLoop, if_pos (by omega)]
      simp only [List.cons_append, List.nil_append, List.headD_cons]
      simp only [List.cons_append, List.nil_append] at c
      rw [c, if_pos (Or.inr trivial)]
      rfl
    have s2 : packLoop (f + 1) (0 :: (List.replicate n [0xe5, 0]).flatten) (2 * n + 1)
        = 0 :: packLoop f (List.replicate n [0xe5, 0]).flatten (2 * n) := by
      have c : ComputeRLE (0 :: (List.replicate n [0xe5, 0]).flatten) 0 (2 * n + 1) = 1 := by
        simp only [ComputeRLE, if_true, hrest]
      rw [packLoop, if_pos (by omega)]
      simp only [List.headD_cons]
      rw [c, if_neg (by decide)]
      rfl
    rw [s1, s2, ih f (by omega)]
    rfl

/-- A track of `2 * n` bytes made of `n` pairs `E5 00` packs to `5 * n` bytes. -/
theorem packTrack_e5_pairs_length (n : Nat) :
    (packTrack (List.replicate n [0xe5, 0]).flatten (2 * n)).length = 5 * n := by
  unfold packTrack
  rw [packLoop_e5_pairs n (2 * n) (Nat.le_refl _), flatten_replicate_length]
  simp only [List.length_cons, List.length_nil]
  omega

/-- C1 (amended): for every floppy whose raw image has `sides*sectors*cylinders*512`
bytes with `sectors*512 <= 13106` (at most 25 sectors a track, so that the packed form
of every track fits the buffer of `32 * 1024` bytes into which `WriteImage` packs it),
parsing the stream `WriteImage` emits (10-byte header, then per track a 16-bit big-endian
length and a payload, raw when the length is `sectors*512` and RLE otherwise) and
concatenating the decoded tracks yields, byte for byte, the raw image as `WriteImage`
leaves it, that is the image after the `FAT_Flush` with which `WriteImage` starts. -/
theorem WriteImage_roundtrip (s : CFloppy) (h0 : 0 ≤ s.m_nbSectorPerTrack)
    (h25 : s.m_nbSectorPerTrack * 512 ≤ 13106)
    (hlen : (s.m_pRawImage.length : Int)
      = s.m_nbSide * s.m_nbSectorPerTrack * s.m_nbCylinder * 512) :
    specMsaDecode (WriteImage s).2 = (WriteImage s).1.m_pRawImage
      ∧ (WriteImage s).1 = FAT_Flush s
      ∧ ∀ t : Nat,
          (packTrack ((FAT_Flush s).m_pRawImage.drop (t * (s.m_nbSectorPerTrack * 512).toNat))
            (s.m_nbSectorPerTrack * 512).toNat).length ≤ 32 * 1024 :=
  ⟨specMsaDecode_WriteImage s h0 (by omega) hlen, rfl,
    fun _ => packTrack_fits _ _ (by omega)⟩

/-- Witness of C1 (amended): the freshly created default floppy. -/
theorem WriteImage_roundtrip_witness :
    specMsaDecode (WriteImage (Create 2 10 81)).2 = (WriteImage (Create 2 10 81)).1.m_pRawImage
      ∧ (WriteImage (Create 2 10 81)).1 = FAT_Flush (Create 2 10 81)
      ∧ ∀ t : Nat,
          (packTrack ((FAT_Flush (Create 2 10 81)).m_pRawImage.drop
              (t * ((Create 2 10 81).m_nbSectorPerTrack * 512).toNat))
            ((Create 2 10 81).m_nbSectorPerTrack * 512).toNat).length ≤ 32 * 1024 :=
  WriteImage_roundtrip (Create 2 10 81)
    (by rw [Create_nbSectorPerTrack]; decide)
    (by rw [Create_nbSectorPerTrack]; decide)
    (by rw [Create_length, Create_nbSide, Create_nbSectorPerTrack, Create_nbCylinder]; decide)

/-- C3: for a track of at most 13106 bytes, whose packed form fits the buffer of
`32 * 1024` bytes whatever the track holds, the packed form is the reference encoding
over the maximal runs `(v, n)` of the track, a run with `n > 4` or `v == 0xE5` giving
`E5 v n>>8 n&255` and any other run `v` repeated `n` times, in order; and the 5120-byte
track of 100 bytes `00` followed by 5020 bytes `E5` is packed as
`E5 00 00 64 E5 E5 13 9C`.  The bound on the track is needed: the track of 26 sectors
made of 6656 pairs `E5 00` would pack to 33280 bytes, more than the buffer has. -/
theorem packTrack_eq_specRle :
    (∀ (pR : List Nat) (rawSize : Nat), rawSize ≤ pR.length → rawSize ≤ 13106 →
      packTrack pR rawSize = specRle (pR.take rawSize)
        ∧ (packTrack pR rawSize).length ≤ 32 * 1024)
    ∧ packTrack (List.replicate 100 0 ++ List.replicate 5020 0xe5) 5120
        = [0xe5, 0x00, 0x00, 0x64, 0xe5, 0xe5, 0x13, 0x9c]
    ∧ (packTrack (List.replicate 6656 [0xe5, 0]).flatten (2 * 6656)).length = 5 * 6656
    ∧ 2 * 6656 = 26 * 512 ∧ 32 * 1024 < 5 * 6656 := by
  have main : ∀ (pR : List Nat) (rawSize : Nat), rawSize ≤ pR.length → rawSize < 65536 →
      packTrack pR rawSize = specRle (pR.take rawSize) := by
    intro pR rawSize h h16
    rw [packTrack_eq_runs pR rawSize h, specRle]
    apply flatMap_runBytes_eq_spec
    intro r hr
    have := specRuns_length_le _ r hr
    rw [List.length_take] at this
    omega
  refine ⟨fun pR rawSize h h13 => ⟨main pR rawSize h (by omega), packTrack_fits pR rawSize h13⟩,
    ?_, packTrack_e5_pairs_length 6656, by decide, by decide⟩
  have hlen : (List.replicate 100 0 ++ List.replicate 5020 0xe5).length = 5120 := by
    simp only [List.length_append, List.length_replicate]
  rw [main _ _ (by rw [hlen]) (by decide), List.take_of_length_le (by rw [hlen]), specRle,
    specRuns_append, specRuns_replicate 0 99, specRuns_replicate 0xe5 5019]
  · decide
  · intro x hx
    rw [List.getLast?_replicate, if_neg (by decide)] at hx
    rw [List.head?_replicate, if_neg (by decide), ← hx]
    decide

/-- Witness of C3: the track of four bytes `07` followed by six bytes `E5`. -/
theorem packTrack_eq_specRle_witness :
    packTrack [7, 7, 7, 7, 0xe5, 0xe5, 0xe5, 0xe5, 0xe5, 0xe5] 10
        = specRle ([7, 7, 7, 7, 0xe5, 0xe5, 0xe5, 0xe5, 0xe5, 0xe5].take 10)
      ∧ (packTrack [7, 7, 7, 7, 0xe5, 0xe5, 0xe5, 0xe5, 0xe5, 0xe5] 10).length ≤ 32 * 1024 :=
  packTrack_eq_specRle.1 [7, 7, 7, 7, 0xe5, 0xe5, 0xe5, 0xe5, 0xe5, 0xe5] 10
    (by decide) (by decide)

/-- C4: for a track of raw size `R = rawSize` of at most 13106 bytes (so that its packed
form fits the buffer of `32 * 1024` bytes) lying in the image, with `E` the size of its
packed form, the frame written is the 16-bit big-endian `E` followed by the `E` packed
bytes when `E < R`, and otherwise the 16-bit big-endian `R` followed by the `R` raw
bytes; so the length field is `min E R`, the payload has as many bytes as the length
field says, and a frame whose length field is `R` carries the raw track. -/
theorem trackFrame_framing (img : List Nat) (rawSize : Int) (t : Nat)
    (h0 : 0 ≤ rawSize) (h13 : rawSize ≤ 13106) (hb : (t + 1) * rawSize.toNat ≤ img.length) :
    trackFrame img rawSize t
        = (if (packTrack (rawTrack img rawSize.toNat t) rawSize.toNat).length < rawSize.toNat then
            be16 (packTrack (rawTrack img rawSize.toNat t) rawSize.toNat).length
              ++ packTrack (rawTrack img rawSize.toNat t) rawSize.toNat
          else be16 rawSize.toNat ++ rawTrack img rawSize.toNat t)
      ∧ (∃ payload : List Nat,
          trackFrame img rawSize t
              = be16 (min (packTrack (rawTrack img rawSize.toNat t) rawSize.toNat).length
                  rawSize.toNat) ++ payload
            ∧ payload.length
              = min (packTrack (rawTrack img rawSize.toNat t) rawSize.toNat).length rawSize.toNat
            ∧ (min (packTrack (rawTrack img rawSize.toNat t) rawSize.toNat).length rawSize.toNat
                = rawSize.toNat → payload = rawTrack img rawSize.toNat t))
      ∧ (packTrack (rawTrack img rawSize.toNat t) rawSize.toNat).length ≤ 32 * 1024 := by
  have h16 : rawSize < 65536 := by omega
  have hlen : rawSize.toNat ≤ (img.drop (t * rawSize.toNat)).length := by
    rw [List.length_drop]
    have : (t + 1) * rawSize.toNat = t * rawSize.toNat + rawSize.toNat := by ring
    omega
  have hpk : packTrack (rawTrack img rawSize.toNat t) rawSize.toNat
      = packTrack (img.drop (t * rawSize.toNat)) rawSize.toNat := packTrack_take _ _ hlen
  have hraw := rawTrack_length img rawSize.toNat t hb
  refine ⟨?_, ?_, packTrack_fits _ _ (by omega)⟩
  · rw [hpk, trackFrame_eq img rawSize t h0 h16]
  rw [hpk, trackFrame_eq img rawSize t h0 h16]
  by_cases h : (packTrack (img.drop (t * rawSize.toNat)) rawSize.toNat).length < rawSize.toNat
  · refine ⟨packTrack (img.drop (t * rawSize.toNat)) rawSize.toNat, ?_, ?_, ?_⟩
    · rw [if_pos h, Nat.min_eq_left (Nat.le_of_lt h)]
    · rw [Nat.min_eq_left (Nat.le_of_lt h)]
    · intro hm
      rw [Nat.min_eq_left (Nat.le_of_lt h)] at hm
      omega
  · refine ⟨rawTrack img rawSize.toNat t, ?_, ?_, ?_⟩
    · rw [if_neg h, Nat.min_eq_right (by omega)]
    · rw [Nat.min_eq_right (by omega), hraw]
    · intro _; rfl

/-- Witness of C4: the track 0 of an image of four bytes, with 4-byte tracks. -/
theorem trackFrame_framing_witness :
    trackFrame [1, 2, 3, 4] 4 0
        = (if (packTrack (rawTrack [1, 2, 3, 4] (4 : Int).toNat 0) (4 : Int).toNat).length
              < (4 : Int).toNat then
            be16 (packTrack (rawTrack [1, 2, 3, 4] (4 : Int).toNat 0) (4 : Int).toNat).length
              ++ packTrack (rawTrack [1, 2, 3, 4] (4 : Int).toNat 0) (4 : Int).toNat
          else be16 (4 : Int).toNat ++ rawTrack [1, 2, 3, 4] (4 : Int).toNat 0)
      ∧ (∃ payload : List Nat,
          trackFrame [1, 2, 3, 4] 4 0
              = be16 (min (packTrack (rawTrack [1, 2, 3, 4] (4 : Int).toNat 0)
                  (4 : Int).toNat).length (4 : Int).toNat) ++ payload
            ∧ payload.length
              = min (packTrack (rawTrack [1, 2, 3, 4] (4 : Int).toNat 0) (4 : Int).toNat).length
                  (4 : Int).toNat
            ∧ (min (packTrack (rawTrack [1, 2, 3, 4] (4 : Int).toNat 0) (4 : Int).toNat).length
                  (4 : Int).toNat = (4 : Int).toNat
                → payload = rawTrack [1, 2, 3, 4] (4 : Int).toNat 0))
      ∧ (packTrack (rawTrack [1, 2, 3, 4] (4 : Int).toNat 0) (4 : Int).toNat).length
          ≤ 32 * 1024 :=
  trackFrame_framing [1, 2, 3, 4] 4 0 (by decide) (by decide) (by decide)

/-! ## Claims on `Fill`, on the domain of the `int` arithmetic

The theorems below are stated for the geometries on which `Create` returns a floppy that
`Fill` can use (at least 18 sectors, so that the root directory lies in the image, and
less than `2^22` sectors, so that `m_rawSize` fits an `int`) and for the trees of
`sizesInRange`, on which the `int` expressions of lines 603 and 631 do not overflow. -/

/-- C13, for a tree whose file sizes are from 0 to 2147482624 bytes (`sizesInRange`, the
sizes for which the clusters are computed without `int` overflow): after a `Fill` that
returns `true` on a floppy `Create` has made with at least 18 and less than `2^22`
sectors, every file entry of the tree with
a size `s > 0` has a first cluster `c ≥ 2`, which its directory record holds (bytes 26 and
27 of the record are the 16 bits of `c`, low byte first); the image bytes from offset
`18 * 512 + (c - 2) * 1024` on are the `s` bytes of the file, and the bytes after them up
to offset `18 * 512 + (c - 2) * 1024 + ceil(s / 1024) * 1024` are all `0xe5`. -/
theorem Fill_file_data (a b c : Int) (root : CDirectory) (h18 : 18 ≤ a * b * c)
    (h22 : a * b * c < 4194304) (hfit : sizesInRange root = true) (hok : (Fill (Create a b c) root).1 = Diag.ok) :
    ∀ e ∈ specLayout root (11 * 512 + 32) 0 2, e.isDir = false → 0 < GetSize e.info →
      2 ≤ e.first
      ∧ (∀ j : Nat, (j : Int) = e.slot + 26 →
          (Fill (Create a b c) root).2.m_pRawImage[j]? = some (u16 e.first % 256))
      ∧ (∀ j : Nat, (j : Int) = e.slot + 27 →
          (Fill (Create a b c) root).2.m_pRawImage[j]? = some (u16 e.first / 256 % 256))
      ∧ (∀ k j : Nat, (k : Int) < GetSize e.info →
          (j : Int) = 18 * 512 + (e.first - 2) * 1024 + k →
          (Fill (Create a b c) root).2.m_pRawImage[j]? = some (e.data.getD k 0 % 256))
      ∧ (∀ j : Nat, 18 * 512 + (e.first - 2) * 1024 + GetSize e.info ≤ (j : Int) →
          (j : Int) < 18 * 512 + (e.first - 2) * 1024 + ceilDiv (GetSize e.info) 1024 * 1024 →
          (Fill (Create a b c) root).2.m_pRawImage[j]? = some 0xe5) := by
  intro e he hd hpos
  have hnn := sizesInRange_nonneg root hfit
  obtain ⟨h1, -, h3, h4, h5⟩ :=
    Fill_file_window (Create a b c) root (Create_fresh a b c h18) hnn hok e he hd hpos
  refine ⟨h1, fun j hj => ?_, fun j hj => ?_, fun k j hk hj => ?_, fun j hj1 hj2 => ?_⟩
  · rw [h3 26 j (by omega) (by omega), (lfnRecord_cluster _ _ _).1]
  · rw [h3 27 j (by omega) (by omega), (lfnRecord_cluster _ _ _).2]
  · exact h4 k j hk (by rw [GetRawAd_eq]; omega)
  · exact h5 j (by rw [GetRawAd_eq]; omega) (by rw [GetRawAd_eq]; omega)

/-- Witness of C13 (amended): the file `A.TXT` of 10 bytes in `SUB`, on the default floppy: its record holds cluster 3, its bytes start at offset `18 * 512 + 1024`, and the fill follows them. -/
theorem Fill_file_data_witness :
    (18 : Int) ≤ 2 * 10 * 81 ∧ (2 * 10 * 81 : Int) < 4194304
    ∧ sizesInRange subWithFile = true
    ∧ (Fill (Create 2 10 81) subWithFile).1 = Diag.ok
    ∧ (Fill (Create 2 10 81) subWithFile).2.m_pRawImage[18 * 512 + 64 + 26]? = some 3
    ∧ (Fill (Create 2 10 81) subWithFile).2.m_pRawImage[18 * 512 + 1024]? = some 65
    ∧ (Fill (Create 2 10 81) subWithFile).2.m_pRawImage[18 * 512 + 1024 + 10]? = some 0xe5 :=
  ⟨by decide, by decide, by decide, subWithFile_ok,
    (Fill_file_data 2 10 81 subWithFile (by decide) (by decide) (by decide) subWithFile_ok
      ⟨9280, 2, false, ⟨[65, 46, 84, 88, 84], [], 10, none⟩, List.replicate 10 65, 0, 3, 1⟩
      (by rw [show (11 * 512 + 32 : Int) = 5664 from rfl, subWithFile_layout]
          exact List.mem_cons_of_mem _ (List.mem_cons_self _ _)) rfl (by decide)).2.1
      (18 * 512 + 64 + 26) (by decide),
    (Fill_file_data 2 10 81 subWithFile (by decide) (by decide) (by decide) subWithFile_ok
      ⟨9280, 2, false, ⟨[65, 46, 84, 88, 84], [], 10, none⟩, List.replicate 10 65, 0, 3, 1⟩
      (by rw [show (11 * 512 + 32 : Int) = 5664 from rfl, subWithFile_layout]
          exact List.mem_cons_of_mem _ (List.mem_cons_self _ _)) rfl (by decide)).2.2.2.1
      0 (18 * 512 + 1024) (by decide) (by decide),
    (Fill_file_data 2 10 81 subWithFile (by decide) (by decide) (by decide) subWithFile_ok
      ⟨9280, 2, false, ⟨[65, 46, 84, 88, 84], [], 10, none⟩, List.replicate 10 65, 0, 3, 1⟩
      (by rw [show (11 * 512 + 32 : Int) = 5664 from rfl, subWithFile_layout]
          exact List.mem_cons_of_mem _ (List.mem_cons_self _ _)) rfl (by decide)).2.2.2.2
      (18 * 512 + 1024 + 10) (by decide) (by decide)⟩


/-- C20, for a tree whose file sizes are from 0 to 2147482624 bytes (`sizesInRange`, the
sizes for which the clusters are computed without `int` overflow): after a `Fill` that
returns `true` on a floppy `Create` has made with at least 18 and less than `2^22`
sectors, the entries of the tree in
depth-first pre-order (an entry, then the content of its sub-directory, then its next
sibling) require the clusters `specReqs` lists, and the first cluster of every entry is 2
plus the sum of the clusters the entries before it require.  For an entry that requires
clusters, the directory record holds that first cluster (bytes 26 and 27 of the record are
its 16 bits, low byte first; the first cluster itself when the floppy has fewer than
131072 sectors), and the range `[first, first + req)`, when it lies in the fat table, is
the chain `first, first + 1, ...` ended by the end-of-chain marker. -/
theorem Fill_preorder_clusters (a b c : Int) (root : CDirectory) (h18 : 18 ≤ a * b * c)
    (h22 : a * b * c < 4194304) (hfit : sizesInRange root = true) (hok : (Fill (Create a b c) root).1 = Diag.ok) :
    (specLayout root (11 * 512 + 32) 0 2).map (fun e => e.req) = specReqs root
    ∧ ∀ (i : Nat) (e : Placed), (specLayout root (11 * 512 + 32) 0 2)[i]? = some e →
        e.first = 2 + ((specReqs root).take i).sum
        ∧ (0 < e.req →
            (∀ j : Nat, (j : Int) = e.slot + 26 →
              (Fill (Create a b c) root).2.m_pRawImage[j]? = some (u16 e.first % 256))
            ∧ (∀ j : Nat, (j : Int) = e.slot + 27 →
              (Fill (Create a b c) root).2.m_pRawImage[j]? = some (u16 e.first / 256 % 256))
            ∧ (a * b * c < 131072 → (u16 e.first : Int) = e.first)
            ∧ (e.first + e.req ≤ ((Fill (Create a b c) root).2.m_pFat.length : Int) →
                chainOk (Fill (Create a b c) root).2.m_pFat (e.first, e.req))) := by
  have hnn := sizesInRange_nonneg root hfit
  have e5664 : (11 * 512 + 32 : Int) = 5664 := rfl
  rw [e5664]
  refine ⟨specLayout_reqs root 5664 0 2, fun i e hi => ⟨?_, fun hreq => ?_⟩⟩
  · rw [specLayout_first root 5664 0 2 i e hi, ← specLayout_reqs root 5664 0 2, List.map_take]
  · have he : e ∈ specLayout root 5664 0 2 := List.getElem?_mem hi
    obtain ⟨-, hfree, hfree0, -, hplaced, -⟩ :=
      Fill_layout _ root (Create_fresh a b c h18) hnn hok
    obtain ⟨hrec, -⟩ := hplaced e he
    have hrecd : e.recorded = e.first := by
      unfold Placed.recorded
      rw [if_pos (by omega)]
    rw [hrecd] at hrec
    have hrange := specLayout_range root 5664 0 2 hnn e he
    refine ⟨fun j hj => ?_, fun j hj => ?_, fun hsmall => ?_,
      Fill_layout_chain a b c root hnn hok 5664 0 e he hreq⟩
    · rw [hrec 26 j (by omega) (by omega), (lfnRecord_cluster _ _ _).1]
    · rw [hrec 27 j (by omega) (by omega), (lfnRecord_cluster _ _ _).2]
    · rw [hfree, Create_nbFreeCluster, Create_maxFatEntry,
        Int.tdiv_eq_ediv (by omega) (by decide)] at hfree0
      unfold u16
      omega

/-- Witness of C20 (amended): the root that holds `SUB` with its file `A.TXT`, on the default floppy: `SUB` is at cluster 2, `A.TXT` at cluster 3, and both chains end at once. -/
theorem Fill_preorder_clusters_witness :
    (18 : Int) ≤ 2 * 10 * 81 ∧ (2 * 10 * 81 : Int) < 4194304
    ∧ sizesInRange subWithFile = true
    ∧ (Fill (Create 2 10 81) subWithFile).1 = Diag.ok
    ∧ (Fill (Create 2 10 81) subWithFile).2.m_pRawImage[11 * 512 + 32 + 26]? = some 2
    ∧ (Fill (Create 2 10 81) subWithFile).2.m_pRawImage[18 * 512 + 64 + 26]? = some 3
    ∧ (Fill (Create 2 10 81) subWithFile).2.m_pFat[2]? = some (-1)
    ∧ (Fill (Create 2 10 81) subWithFile).2.m_pFat[3]? = some (-1) :=
  ⟨by decide, by decide, by decide, subWithFile_ok,
    (((Fill_preorder_clusters 2 10 81 subWithFile (by decide) (by decide) (by decide)
      subWithFile_ok).2 0
      ⟨5664, 0, true, ⟨[83, 85, 66], [], 0, none⟩, [], 1, 2, 1⟩ rfl).2 (by decide)).1
      (11 * 512 + 32 + 26) (by decide),
    (((Fill_preorder_clusters 2 10 81 subWithFile (by decide) (by decide) (by decide)
      subWithFile_ok).2 1
      ⟨9280, 2, false, ⟨[65, 46, 84, 88, 84], [], 10, none⟩, List.replicate 10 65, 0, 3, 1⟩
      rfl).2 (by decide)).1 (18 * 512 + 64 + 26) (by decide),
    ((((Fill_preorder_clusters 2 10 81 subWithFile (by decide) (by decide) (by decide)
      subWithFile_ok).2 0
      ⟨5664, 0, true, ⟨[83, 85, 66], [], 0, none⟩, [], 1, 2, 1⟩ rfl).2 (by decide)).2.2.2
      (by rw [Fill_fat_length, Create_pFat, List.length_replicate, Create_maxFatEntry]
          decide)).2,
    ((((Fill_preorder_clusters 2 10 81 subWithFile (by decide) (by decide) (by decide)
      subWithFile_ok).2 1
      ⟨9280, 2, false, ⟨[65, 46, 84, 88, 84], [], 10, none⟩, List.replicate 10 65, 0, 3, 1⟩
      rfl).2 (by decide)).2.2.2
      (by rw [Fill_fat_length, Create_pFat, List.length_replicate, Create_maxFatEntry]
          decide)).2⟩


/-- C35, amended: for every tree whose file sizes are from 0 to 2147482624 bytes
(`sizesInRange`), `Fill` on an image freshly created with at least 18 and less than
`2^22` sectors, whatever it returns, changes no byte of the boot sector or of the two FAT
regions (the offsets `0 .. 11 * 512 - 1` hold what they held); the clusters are given
from cluster 2 on and lie in the image (`GetRawAd(m_nextCluster)` is at most the size of
the image), and after `Fill` every byte of every data cluster with index `m_nextCluster`
or more still holds the `0xE5` fill; `Fill` only writes the root directory region and the
clusters it has given: every offset outside `11 * 512 .. GetRawAd(m_nextCluster) - 1`
holds what it held, and the image keeps its length. -/
theorem Fill_frame (a b c : Int) (root : CDirectory) (h18 : 18 ≤ a * b * c)
    (h22 : a * b * c < 4194304) (hfit : sizesInRange root = true) :
    (Fill (Create a b c) root).2.m_pRawImage.length = (Create a b c).m_pRawImage.length
      ∧ (∀ j : Nat, j < 11 * 512 →
          (Fill (Create a b c) root).2.m_pRawImage[j]? = (Create a b c).m_pRawImage[j]?)
      ∧ 2 ≤ (Fill (Create a b c) root).2.m_nextCluster
      ∧ GetRawAd (Fill (Create a b c) root).2.m_nextCluster
          ≤ ((Create a b c).m_pRawImage.length : Int)
      ∧ (∀ j : Nat, GetRawAd (Fill (Create a b c) root).2.m_nextCluster ≤ (j : Int) →
          j < (Create a b c).m_pRawImage.length →
          (Fill (Create a b c) root).2.m_pRawImage[j]? = some 0xe5)
      ∧ sameOff
          (fun j => 11 * 512 ≤ j ∧ (j : Int) < GetRawAd (Fill (Create a b c) root).2.m_nextCluster)
          (Create a b c).m_pRawImage (Fill (Create a b c) root).2.m_pRawImage := by
  have hnn := sizesInRange_nonneg root hfit
  have hmax := Create_maxFatEntry_nonneg a b c (by omega)
  obtain ⟨hn, hlen, hsame⟩ := Fill_sameOff (Create a b c) root hnn (Create_nextCluster a b c)
  refine ⟨hlen, ?_, hn, ?_, ?_, hlen, hsame⟩
  · intro j hj
    exact hsame j (by intro hc; have := hc.1; omega)
  · have hinv := Fill_allocInv (Create a b c) root (Create_allocInv a b c hmax)
    have hm := Fill_maxFatEntry (Create a b c) root
    unfold allocInv at hinv
    rw [hm, Create_maxFatEntry, Int.tdiv_eq_ediv (by omega) (by decide)] at hinv
    rw [GetRawAd_eq, Create_length]
    generalize (Fill (Create a b c) root).2.m_nextCluster = n at hinv ⊢
    generalize (Fill (Create a b c) root).2.m_nbFreeCluster = f at hinv
    omega
  · intro j hj hl
    rw [hsame j (by intro hc; have := hc.2; omega)]
    rw [GetRawAd_eq] at hj
    rw [Create_length] at hl
    rw [Create_getElem?_fill a b c j (by omega), if_pos hl]

/-- Witness of the amended C35: the sub-directory `SUB` with the file `A.TXT` on the
default floppy. -/
theorem Fill_frame_witness :
    (Fill (Create 2 10 81) subWithFile).2.m_pRawImage.length = (Create 2 10 81).m_pRawImage.length
      ∧ (∀ j : Nat, j < 11 * 512 →
          (Fill (Create 2 10 81) subWithFile).2.m_pRawImage[j]? = (Create 2 10 81).m_pRawImage[j]?)
      ∧ 2 ≤ (Fill (Create 2 10 81) subWithFile).2.m_nextCluster
      ∧ GetRawAd (Fill (Create 2 10 81) subWithFile).2.m_nextCluster
          ≤ ((Create 2 10 81).m_pRawImage.length : Int)
      ∧ (∀ j : Nat, GetRawAd (Fill (Create 2 10 81) subWithFile).2.m_nextCluster ≤ (j : Int) →
          j < (Create 2 10 81).m_pRawImage.length →
          (Fill (Create 2 10 81) subWithFile).2.m_pRawImage[j]? = some 0xe5)
      ∧ sameOff
          (fun j => 11 * 512 ≤ j
            ∧ (j : Int) < GetRawAd (Fill (Create 2 10 81) subWithFile).2.m_nextCluster)
          (Create 2 10 81).m_pRawImage (Fill (Create 2 10 81) subWithFile).2.m_pRawImage :=
  Fill_frame 2 10 81 subWithFile (by decide) (by decide) (by decide)

/-- C17 on the code: the name field of the two reserved records is not padded with
spaces right after the dots.  For a tree whose file sizes are from 0 to 2147482624 bytes
(`sizesInRange`), after a `Fill` that returns `true` on a floppy `Create` has made with
at least 18 and less than `2^22` sectors, every sub-directory of the tree, built at its
first cluster `c ≥ 2` in a directory of cluster `p` (0 for the root), starts with the two
reserved records.  Slot 0 holds `.` as first name byte, then NUL (the terminator that
`strcpy` stores after the `memset` of `0x20`, lines 569-570, where the claim has `0x20`),
then `0x20` in name bytes 2..10, the attribute `0x10` and the first cluster `c`; slot 1
holds `..` as first two name bytes, then NUL (lines 577-578), then `0x20` in name bytes
3..10, the attribute `0x10` and the first cluster `p`; every other byte of both records
is zero. -/
theorem Fill_dot_records (a b c : Int) (root : CDirectory) (h18 : 18 ≤ a * b * c)
    (h22 : a * b * c < 4194304) (hfit : sizesInRange root = true)
    (hok : (Fill (Create a b c) root).1 = Diag.ok) :
    ∀ e ∈ specLayout root (11 * 512 + 32) 0 2, e.isDir = true →
      2 ≤ e.first
      ∧ ((Fill (Create a b c) root).2.m_pRawImage.drop (GetRawAd e.first).toNat).take 64
          = [46, 0, 32, 32, 32, 32, 32, 32, 32, 32, 32, 0x10, 0, 0, 0, 0, 0, 0, 0, 0, 0, 0, 0, 0, 0, 0,
              u16 e.first % 256, u16 e.first / 256 % 256, 0, 0, 0, 0,
             46, 46, 0, 32, 32, 32, 32, 32, 32, 32, 32, 0x10, 0, 0, 0, 0, 0, 0, 0, 0, 0, 0, 0, 0, 0, 0,
              u16 e.parent % 256, u16 e.parent / 256 % 256, 0, 0, 0, 0] :=
  Fill_dot_window (Create a b c) root (Create_fresh a b c h18) (sizesInRange_nonneg root hfit)
    hok

/-- Witness of C17: the root that holds `SUB` with its file `A.TXT`, on the default
floppy; `SUB` is built at cluster 2, and the second byte of its slot 0 and the third byte
of its slot 1 are NUL. -/
theorem Fill_dot_records_witness :
    (18 : Int) ≤ 2 * 10 * 81 ∧ (2 * 10 * 81 : Int) < 4194304
    ∧ sizesInRange subWithFile = true
    ∧ (Fill (Create 2 10 81) subWithFile).1 = Diag.ok
    ∧ ((Fill (Create 2 10 81) subWithFile).2.m_pRawImage.drop 9216).take 64
        = [46, 0, 32, 32, 32, 32, 32, 32, 32, 32, 32, 0x10, 0, 0, 0, 0, 0, 0, 0, 0, 0, 0, 0, 0, 0, 0,
            2, 0, 0, 0, 0, 0,
           46, 46, 0, 32, 32, 32, 32, 32, 32, 32, 32, 0x10, 0, 0, 0, 0, 0, 0, 0, 0, 0, 0, 0, 0, 0, 0,
            0, 0, 0, 0, 0, 0] :=
  ⟨by decide, by decide, by decide, subWithFile_ok,
    (Fill_dot_records 2 10 81 subWithFile (by decide) (by decide) (by decide) subWithFile_ok
      ⟨5664, 0, true, ⟨[83, 85, 66], [], 0, none⟩, [], 1, 2, 1⟩
      (by rw [show (11 * 512 + 32 : Int) = 5664 from rfl, subWithFile_layout]
          exact List.mem_cons_self _ _) rfl).2⟩

/-! ## The recorded ranges and the stores of `BuildDirectory`

`allocEntries` follows `buildEntries` on the allocation members and records the range of
every entry that passes the free-cluster check.  The recorded ranges are tied to what
`buildEntries` stores: the allocation view agrees with `buildEntries` on the return
value, `m_nextCluster`, `m_nbFreeCluster` and `m_pFat` (`buildEntries_sim`); every
recorded range is a chain of `m_pFat` (`allocEntries_chainsOk`); every entry of `m_pFat`
that is not 0 lies in a recorded range; and every byte of the image that `Fill` changes
outside the root directory lies in the clusters of a recorded range. -/

/-- Every entry of the fat table that is not 0 lies in a recorded range: the loop stores
into the table only at the clusters of the ranges it records. -/
theorem allocEntries_fat_logged (es : CDirEntry) :
    ∀ a : Alloc,
      (∀ (d : Nat) (v : Int), a.fat[d]? = some v → v ≠ 0 →
        ∃ r ∈ a.reserved, r.1 ≤ (d : Int) ∧ (d : Int) < r.1 + r.2) →
      ∀ (d : Nat) (v : Int), (allocEntries a es).2.fat[d]? = some v → v ≠ 0 →
        ∃ r ∈ (allocEntries a es).2.reserved, r.1 ≤ (d : Int) ∧ (d : Int) < r.1 + r.2 := by
  have step : ∀ (a : Alloc) (n : Int), 0 < n →
      (∀ (d : Nat) (v : Int), a.fat[d]? = some v → v ≠ 0 →
        ∃ r ∈ a.reserved, r.1 ≤ (d : Int) ∧ (d : Int) < r.1 + r.2) →
      ∀ (d : Nat) (v : Int),
        (fatStore (fatChain a.fat a.next (n - 1).toNat) (a.next + n - 1) (-1))[d]? = some v →
        v ≠ 0 →
        ∃ r ∈ a.reserved ++ [(a.next, n)], r.1 ≤ (d : Int) ∧ (d : Int) < r.1 + r.2 := by
    intro a n hn h d v hv hv0
    by_cases hd : (d : Int) ∈ fatIndices (a.next, n)
    · unfold fatIndices at hd
      rw [mem_clusterRange] at hd
      simp only at hd
      exact ⟨(a.next, n), List.mem_append_right _ (List.mem_singleton_self _),
        hd.1, by simp only; omega⟩
    · rw [fatIndices_frame a.fat a.next n hn d hd] at hv
      obtain ⟨r, hr, h1, h2⟩ := h d v hv hv0
      exact ⟨r, List.mem_append_left _ hr, h1, h2⟩
  induction es with
  | null => intro a h; exact h
  | file info data next ih =>
    intro a h
    simp only [allocEntries]
    split
    · rename_i hpos
      split
      · exact h
      · split
        · exact ih _ (step a _ hpos h)
        · exact h
    · exact ih _ h
  | dir info sub next ihs ihn =>
    intro a h
    have hpos : 0 < Int.tdiv ((GetNbEntry sub + 2) * 32 + 1023) 1024 := by
      have := dir_nbCluster _ (GetNbEntry_nonneg sub)
      omega
    simp only [allocEntries]
    split
    · exact h
    · split
      · exact ihn _ (ihs _ (step a _ hpos h))
      · exact ihs _ (step a _ hpos h)

/-- What the loop has recorded stays recorded. -/
theorem allocEntries_reserved_mono (es : CDirEntry) :
    ∀ (a : Alloc) (r : Int × Int), r ∈ a.reserved → r ∈ (allocEntries a es).2.reserved := by
  induction es with
  | null => intro a r h; exact h
  | file info data next ih =>
    intro a r h
    simp only [allocEntries]
    split
    · split
      · exact h
      · split
        · exact ih _ r (List.mem_append_left _ h)
        · exact h
    · exact ih _ r h
  | dir info sub next ihs ihn =>
    intro a r h
    simp only [allocEntries]
    split
    · exact h
    · split
      · exact ihn _ r (ihs _ r (List.mem_append_left _ h))
      · exact ihs _ r (List.mem_append_left _ h)

/-- For non-negative file sizes the recorded ranges cover the clusters the loop has
given: every cluster from `c0` up to `next` is in a recorded range. -/
theorem allocEntries_cover (es : CDirEntry) :
    ∀ (a : Alloc) (c0 : Int), sizesNonNeg es = true →
      (∀ c : Int, c0 ≤ c → c < a.next → ∃ r ∈ a.reserved, r.1 ≤ c ∧ c < r.1 + r.2) →
      ∀ c : Int, c0 ≤ c → c < (allocEntries a es).2.next →
        ∃ r ∈ (allocEntries a es).2.reserved, r.1 ≤ c ∧ c < r.1 + r.2 := by
  have step : ∀ (a : Alloc) (c0 n : Int) (fat : List Int),
      (∀ c : Int, c0 ≤ c → c < a.next → ∃ r ∈ a.reserved, r.1 ≤ c ∧ c < r.1 + r.2) →
      ∀ c : Int, c0 ≤ c → c < a.next + n →
        ∃ r ∈ a.reserved ++ [(a.next, n)], r.1 ≤ c ∧ c < r.1 + r.2 := by
    intro a c0 n fat h c hc0 hc
    by_cases hlt : c < a.next
    · obtain ⟨r, hr, h1, h2⟩ := h c hc0 hlt
      exact ⟨r, List.mem_append_left _ hr, h1, h2⟩
    · exact ⟨(a.next, n), List.mem_append_right _ (List.mem_singleton_self _),
        by simp only; omega, by simp only; omega⟩
  induction es with
  | null => intro a c0 _ h; exact h
  | file info data next ih =>
    intro a c0 hs h
    simp only [sizesNonNeg, Bool.and_eq_true, decide_eq_true_eq] at hs
    have hc := ceilDiv_nonneg _ hs.1
    simp only [allocEntries, tdiv_ceil _ hs.1]
    generalize ceilDiv (GetSize info) 1024 = n at hc ⊢
    split
    · split
      · exact h
      · rw [if_pos hs.1]
        exact ih _ c0 hs.2 (step a c0 n a.fat h)
    · have hn : n = 0 := by omega
      subst hn
      exact ih _ c0 hs.2 (fun c h1 h2 => h c h1 (by simpa using h2))
  | dir info sub next ihs ihn =>
    intro a c0 hs h
    simp only [sizesNonNeg, Bool.and_eq_true] at hs
    simp only [allocEntries]
    split
    · exact h
    · split
      · exact ihn _ c0 hs.2 (ihs _ c0 hs.1 (step a c0 _ a.fat h))
      · exact ihs _ c0 hs.1 (step a c0 _ a.fat h)

/-- After `Fill` on a created floppy every entry of `m_pFat` that is not 0 lies in a
recorded range. -/
theorem Fill_fat_logged (a b c : Int) (root : CDirectory) :
    ∀ (d : Nat) (v : Int), (Fill (Create a b c) root).2.m_pFat[d]? = some v → v ≠ 0 →
      ∃ r ∈ (FillAlloc (Create a b c) root).2.reserved,
        r.1 ≤ (d : Int) ∧ (d : Int) < r.1 + r.2 := by
  have h0 : ∀ (d : Nat) (v : Int), (allocOf (Create a b c)).fat[d]? = some v → v ≠ 0 →
      ∃ r ∈ (allocOf (Create a b c)).reserved, r.1 ≤ (d : Int) ∧ (d : Int) < r.1 + r.2 := by
    intro d v hv hv0
    simp only [allocOf, Create_pFat] at hv
    rw [List.getElem?_replicate] at hv
    split at hv
    · exact absurd (Option.some.inj hv).symm hv0
    · exact Option.noConfusion hv
  rw [(Fill_FillAlloc (Create a b c) root).2.2.2]
  unfold FillAlloc
  split
  · exact h0
  · exact allocEntries_fat_logged root _ h0

/-- After `Fill` on a created floppy, for non-negative file sizes, every cluster from 2
up to `m_nextCluster` is in a recorded range. -/
theorem Fill_cover (a b c : Int) (root : CDirectory) (hnn : sizesNonNeg root = true) :
    ∀ x : Int, 2 ≤ x → x < (Fill (Create a b c) root).2.m_nextCluster →
      ∃ r ∈ (FillAlloc (Create a b c) root).2.reserved, r.1 ≤ x ∧ x < r.1 + r.2 := by
  have h0 : ∀ x : Int, 2 ≤ x → x < (allocOf (Create a b c)).next →
      ∃ r ∈ (allocOf (Create a b c)).reserved, r.1 ≤ x ∧ x < r.1 + r.2 := by
    intro x h1 h2
    simp only [allocOf, Create_nextCluster] at h2
    omega
  rw [(Fill_FillAlloc (Create a b c) root).2.1]
  unfold FillAlloc
  split
  · exact h0
  · exact allocEntries_cover root _ 2 hnn h0

/-- After `Fill` on a created floppy, for non-negative file sizes, every byte of the image
that `Fill` has changed lies in the root directory region or in the clusters of a recorded
range. -/
theorem Fill_image_logged (a b c : Int) (root : CDirectory) (hnn : sizesNonNeg root = true) :
    sameOff
      (fun j => (11 * 512 ≤ j ∧ j < 18 * 512)
        ∨ ∃ r ∈ (FillAlloc (Create a b c) root).2.reserved, inClusters r.1 r.2 j)
      (Create a b c).m_pRawImage (Fill (Create a b c) root).2.m_pRawImage := by
  obtain ⟨hn, hsame⟩ := Fill_sameOff (Create a b c) root hnn (Create_nextCluster a b c)
  refine sameOff_mono hsame (fun j hj => ?_)
  by_cases hlt : j < 18 * 512
  · exact Or.inl ⟨hj.1, hlt⟩
  · right
    have h2 := hj.2
    rw [GetRawAd_eq] at h2
    obtain ⟨r, hr, h3, h4⟩ := Fill_cover a b c root hnn (2 + ((j : Int) - 9216) / 1024)
      (by omega) (by omega)
    refine ⟨r, hr, ?_⟩
    unfold inClusters
    rw [GetRawAd_eq, GetRawAd_eq]
    omega
/-- After `Fill` on a created floppy, for non-negative file sizes, every recorded range
that lies in the fat table is a chain of `m_pFat`. -/
theorem Fill_chainsOk (a b c : Int) (root : CDirectory) (hnn : sizesNonNeg root = true) :
    ∀ r ∈ (FillAlloc (Create a b c) root).2.reserved,
      r.1 + r.2 ≤ ((Fill (Create a b c) root).2.m_pFat.length : Int) →
        chainOk (Fill (Create a b c) root).2.m_pFat r := by
  intro r hr hlen
  have hsim := Fill_FillAlloc (Create a b c) root
  rw [hsim.2.2.2] at hlen ⊢
  have h0 : reservedOk (allocOf (Create a b c)) := by
    constructor
    · intro r hr; simp [allocOf] at hr
    · simp [allocOf]
  have hc0 : chainsOk (allocOf (Create a b c)) := by
    intro r hr; simp [allocOf] at hr
  have hch : chainsOk (FillAlloc (Create a b c) root).2 := by
    unfold FillAlloc
    split
    · exact hc0
    · exact allocEntries_chainsOk root _ hnn (by simp only [allocOf]; rw [Create_nextCluster])
        h0 hc0
  exact hch r hr hlen

/-- After a `Fill` that returns `true`, for non-negative file sizes, the recorded ranges
are the ranges of the entries of the layout that require clusters, in traversal order. -/
theorem Fill_reserved_layout (a b c : Int) (root : CDirectory) (hnn : sizesNonNeg root = true)
    (hok : (Fill (Create a b c) root).1 = Diag.ok) (pLFN cluster : Int) :
    (FillAlloc (Create a b c) root).2.reserved = reservedOf (specLayout root pLFN cluster 2) := by
  have hsim := Fill_FillAlloc (Create a b c) root
  have hroot := Fill_ok_root _ root hok
  have hfa : FillAlloc (Create a b c) root = allocEntries (allocOf (Create a b c)) root := by
    unfold FillAlloc
    rw [if_neg (by unfold MAX_ROOT_ENTRY; omega)]
  have hok2 : (allocEntries (allocOf (Create a b c)) root).1 = Diag.ok := by
    rw [← hfa, ← hsim.1]; exact hok
  have hnext : (allocOf (Create a b c)).next = 2 := by
    unfold allocOf
    simp only []
    exact Create_nextCluster a b c
  have h := (allocEntries_reserved root (allocOf (Create a b c)) pLFN cluster hnn hok2).2
  rw [hnext] at h
  rw [hfa, h]
  simp only [allocOf, List.nil_append]

theorem FillAlloc_subWithFile :
    (FillAlloc (Create 2 10 81) subWithFile).2.reserved = [(2, 1), (3, 1)] := by
  unfold FillAlloc
  rw [if_neg (by decide), allocOf_Create_default]
  decide

/-- C10, as stated, fails in its last part: for the three files of sizes 3000, -3000 and
1 (a size `GetSize` returns as negative moves `m_nextCluster` back), `Fill` on the default
floppy returns `true` having reserved the clusters 2..4 for the first file and the
cluster 4 again for the third: the two ranges are not disjoint.  In the fat table the
entry of cluster 4, the last of the first file, is then the end of the chain of the third
file as well, and the records of both files hold their first clusters 2 and 4. -/
theorem Fill_negative_size_ranges_overlap :
    (Fill (Create 2 10 81) negativeSizeTree).1 = Diag.ok
      ∧ (FillAlloc (Create 2 10 81) negativeSizeTree).2.reserved = [(2, 3), (4, 1)]
      ∧ ¬ (FillAlloc (Create 2 10 81) negativeSizeTree).2.reserved.Pairwise rangesDisjoint
      ∧ (Fill (Create 2 10 81) negativeSizeTree).2.m_pFat.take 6 = [0, 0, 3, 4, -1, 0]
      ∧ (Fill (Create 2 10 81) negativeSizeTree).2.m_nextCluster = 5 := by
  have hA : FillAlloc (Create 2 10 81) negativeSizeTree
      = (Diag.ok, { next := 5, free := 798,
                    fat := fatStore (fatChain (fatStore (fatChain (List.replicate 801 0) 2 2)
                      4 (-1)) 4 0) 4 (-1),
                    reserved := [(2, 3), (4, 1)] }) := by
    have e1 : Int.tdiv (3000 + 1023) 1024 = 3 := by decide
    have e2 : Int.tdiv (-3000 + 1023) 1024 = -1 := by decide
    have e3 : Int.tdiv (1 + 1023) 1024 = 1 := by decide
    unfold FillAlloc
    rw [if_neg (by decide), allocOf_Create_default]
    simp only [negativeSizeTree, allocEntries, GetSize, e1, e2, e3]
    rw [if_pos (by decide), if_neg (by decide), if_pos (by decide), if_neg (by decide),
      if_pos (by decide), if_neg (by decide), if_pos (by decide)]
    rfl
  have hsim := Fill_FillAlloc (Create 2 10 81) negativeSizeTree
  rw [hsim.1, hsim.2.2.2, hsim.2.1, hA]
  refine ⟨rfl, rfl, ?_, by decide, rfl⟩
  intro h
  simp only [List.pairwise_cons, List.mem_singleton, forall_eq, rangesDisjoint] at h
  omega

theorem FillAlloc_negativeFirstTree :
    FillAlloc (Create 2 10 81) negativeFirstTree
      = (Diag.ok, { next := -8, free := 811, fat := List.replicate 801 0, reserved := [] }) := by
  have e1 : Int.tdiv (-11264 + 1023) 1024 = -10 := by decide
  unfold FillAlloc
  rw [if_neg (by decide), allocOf_Create_default]
  simp only [negativeFirstTree, allocEntries, GetSize, e1]
  rw [if_neg (by decide)]
  rfl

/-- C33, as stated, fails: a size that `GetSize` returns as negative moves `m_nextCluster`
back, also below cluster -7, where `GetRawAd` is negative.  On the default floppy, after
the first file of `negativeDataTree` (size read as -11264: `nbCluster` is -10, no check is
made, `m_nextCluster` goes from 2 to -8 and `m_nbFreeCluster` from 801 to 811) the loop
comes to the file of 1 byte in that state; its requirement of 1 cluster passes the
free-cluster check (`1 > 811` is false) with start cluster -8, and its byte range begins
at offset `18*512 + (-8 - 2)*1024 = -1024`, before the start of the raw image, where the
copy of line 646 is then directed. -/
theorem Fill_negative_size_range_outside :
    (Fill (Create 2 10 81) negativeFirstTree).1 = Diag.ok
      ∧ (Fill (Create 2 10 81) negativeFirstTree).2.m_nextCluster = -8
      ∧ (Fill (Create 2 10 81) negativeFirstTree).2.m_nbFreeCluster = 811
      ∧ negativeDataTree
          = appendEntries negativeFirstTree (.file ⟨[66], [], 1, none⟩ [66] .null)
      ∧ Fill (Create 2 10 81) negativeDataTree
          = buildEntries (Fill (Create 2 10 81) negativeFirstTree).2 (11 * 512 + 2 * 32) 0
              (.file ⟨[66], [], 1, none⟩ [66] .null)
      ∧ Int.tdiv (GetSize ⟨[66], [], 1, none⟩ + 1023) 1024 = 1
      ∧ ¬ ((1 : Int) > (Fill (Create 2 10 81) negativeFirstTree).2.m_nbFreeCluster)
      ∧ GetRawAd (Fill (Create 2 10 81) negativeFirstTree).2.m_nextCluster = -1024
      ∧ (18 * 512 + (-8 - 2) * 1024 : Int) = -1024 := by
  have hsim := Fill_FillAlloc (Create 2 10 81) negativeFirstTree
  rw [FillAlloc_negativeFirstTree] at hsim
  obtain ⟨h1, h2, h3, -⟩ := hsim
  simp only at h2 h3
  have happ : negativeDataTree
      = appendEntries negativeFirstTree (.file ⟨[66], [], 1, none⟩ [66] .null) := rfl
  refine ⟨h1, h2, h3, happ, ?_, by decide, by rw [h3]; decide, by rw [h2]; decide, by decide⟩
  have hr1 : GetNbEntry negativeDataTree + 1 ≤ 112 := by decide
  have hr2 : GetNbEntry negativeFirstTree + 1 ≤ 112 := by decide
  rw [Fill_rootStart _ _ hr1, Fill_rootStart _ _ hr2, happ,
    buildEntries_append negativeFirstTree _ _ _ _
      (by rw [← Fill_rootStart _ _ hr2]; exact h1)]
  rfl

/-! ## The records of a directory lie in the region of its call

`BuildDirectory(pLFN, pDir, cluster, parentCluster, size, level)` is called by `Fill` on
the root directory region, and by the loop on the clusters it has just reserved for a
sub-directory.  Each call clears its region, writes the reserved records and one record
an entry from the start of the region on; everything else it writes lies in clusters
given after the call has started. -/

/-- The turn of the loop for a sub-directory, with the recursive call of `BuildDirectory`
(lines 598-625). -/
theorem buildEntries_dir_call (s : CFloppy) (pLFN cluster : Int) (info : FileDescriptor)
    (sub next : CDirEntry) :
    buildEntries s pLFN cluster (.dir info sub next)
      = if Int.tdiv (((GetNbEntry sub + 2) * 32) + 1023) 1024 > s.m_nbFreeCluster then
          (Diag.noMoreSpace, s)
        else if (BuildDirectory (dirReserve s pLFN info sub) (GetRawAd s.m_nextCluster) sub
            s.m_nextCluster cluster
            (Int.tdiv (((GetNbEntry sub + 2) * 32) + 1023) 1024 * 1024)).1 = Diag.ok then
          buildEntries (BuildDirectory (dirReserve s pLFN info sub) (GetRawAd s.m_nextCluster)
            sub s.m_nextCluster cluster
            (Int.tdiv (((GetNbEntry sub + 2) * 32) + 1023) 1024 * 1024)).2 (pLFN + 32) cluster
            next
        else BuildDirectory (dirReserve s pLFN info sub) (GetRawAd s.m_nextCluster) sub
            s.m_nextCluster cluster
            (Int.tdiv (((GetNbEntry sub + 2) * 32) + 1023) 1024 * 1024) := by
  simp only [buildEntries, BuildDirectory, dirReserve]

/-- What `dirHead` leaves of the region after the reserved records is zero. -/
theorem dirHead_rest_any (m : List Nat) (pLFN c par size : Int) (j : Nat)
    (h1 : pLFN + 32 * (if c > 0 then 2 else 1) ≤ (j : Int)) (h2 : (j : Int) < pLFN + size)
    (h3 : j < m.length) :
    (dirHead m pLFN c par size).1[j]? = some 0 := by
  by_cases hc : c > 0
  · rw [if_pos hc] at h1
    exact dirHead_rest m pLFN c par size j (by omega) h2 h3
  · rw [if_neg hc] at h1
    rw [(dirHead_sameOutside_label m pLFN c par size hc).2 j (by omega), memset_getElem?,
      opt_if_pos (by omega)]

/-- The start of `BuildDirectory` writes in the region only. -/
theorem dirHead_sameOutside_any (m : List Nat) (pLFN c par size : Int)
    (hs : 32 * (if c > 0 then 2 else 1) ≤ size) :
    sameOutside pLFN (pLFN + size) m (dirHead m pLFN c par size).1 := by
  by_cases hc : c > 0
  · rw [if_pos hc] at hs
    exact dirHead_sameOutside m pLFN c par size (by omega)
  · rw [if_neg hc] at hs
    exact sameOutside_trans
      (memset_sameOutside pLFN (pLFN + size) m pLFN 0 size.toNat (by omega) (by omega))
      (sameOutside_mono (dirHead_sameOutside_label m pLFN c par size hc) (le_refl _)
        (by omega))

/-- A call of `BuildDirectory` on a region that holds the reserved records and one
record an entry, and that lies before the clusters still to be given: the call writes
only in its region and in the clusters it gives; the part of the region after the
records is left cleared; and the floppy can still give clusters. -/
theorem BuildDirectory_region (s : CFloppy) (pLFN : Int) (pDir : CDirectory)
    (cluster parent size : Int) (hnn : sizesNonNeg pDir = true) (hr : clustersReady s)
    (h0 : 0 ≤ pLFN)
    (hcap : 32 * ((if cluster > 0 then 2 else 1) + GetNbEntry pDir) ≤ size)
    (hreg : pLFN + size ≤ GetRawAd s.m_nextCluster) :
    clustersReady (BuildDirectory s pLFN pDir cluster parent size).2
      ∧ s.m_nextCluster ≤ (BuildDirectory s pLFN pDir cluster parent size).2.m_nextCluster
      ∧ (BuildDirectory s pLFN pDir cluster parent size).2.m_nextCluster
          + (BuildDirectory s pLFN pDir cluster parent size).2.m_nbFreeCluster
        = s.m_nextCluster + s.m_nbFreeCluster
      ∧ sameOff
          (fun j => (pLFN ≤ (j : Int) ∧ (j : Int) < pLFN + size)
            ∨ inClusters s.m_nextCluster
                ((BuildDirectory s pLFN pDir cluster parent size).2.m_nextCluster
                  - s.m_nextCluster) j)
          s.m_pRawImage (BuildDirectory s pLFN pDir cluster parent size).2.m_pRawImage
      ∧ ∀ j : Nat,
          pLFN + 32 * ((if cluster > 0 then 2 else 1) + GetNbEntry pDir) ≤ (j : Int) →
          (j : Int) < pLFN + size → j < s.m_pRawImage.length →
          (BuildDirectory s pLFN pDir cluster parent size).2.m_pRawImage[j]? = some 0 := by
  have hl := GetNbEntry_nonneg pDir
  have hhdr : (32 : Int) * (if cluster > 0 then 2 else 1) ≤ size := by
    split at hcap <;> split <;> omega
  obtain ⟨r1, r2, r3⟩ := hr
  unfold BuildDirectory
  simp only []
  have hsnd := dirHead_snd s.m_pRawImage pLFN cluster parent size
  have hpl : (dirHead s.m_pRawImage pLFN cluster parent size).2
      = pLFN + 32 * (if cluster > 0 then 2 else 1) := by
    rw [hsnd]; split <;> omega
  generalize hs1 : ({ s with m_pRawImage := (dirHead s.m_pRawImage pLFN cluster parent size).1 }
    : CFloppy) = s1
  have e1 : s1.m_nextCluster = s.m_nextCluster := by rw [← hs1]
  have e2 : s1.m_nbFreeCluster = s.m_nbFreeCluster := by rw [← hs1]
  have e3 : s1.m_pRawImage = (dirHead s.m_pRawImage pLFN cluster parent size).1 := by
    rw [← hs1]
  have hframe := buildEntries_frame pDir s1
    (dirHead s.m_pRawImage pLFN cluster parent size).2 cluster hnn
  have hbal := buildEntries_balance pDir s1
    (dirHead s.m_pRawImage pLFN cluster parent size).2 cluster (by rw [e2]; exact r2)
  generalize buildEntries s1 (dirHead s.m_pRawImage pLFN cluster parent size).2 cluster pDir
    = r at hframe hbal ⊢
  rw [e1] at hframe hbal
  rw [e2] at hbal
  rw [e3, hpl] at hframe
  obtain ⟨f1, f2⟩ := hframe
  have hlen : r.2.m_pRawImage.length = s.m_pRawImage.length := by
    rw [f2.1, dirHead_length]
  refine ⟨⟨by omega, hbal.2, ?_⟩, f1, hbal.1, ?_, ?_⟩
  · rw [hbal.1, hlen]; exact r3
  · have hd := sameOutside_sameOff (dirHead_sameOutside_any s.m_pRawImage pLFN cluster parent
      size hhdr)
      (fun j => (pLFN ≤ (j : Int) ∧ (j : Int) < pLFN + size)
        ∨ inClusters s.m_nextCluster (r.2.m_nextCluster - s.m_nextCluster) j)
      (fun j h1 h2 => Or.inl ⟨h1, h2⟩)
    refine sameOff_trans hd (sameOff_mono f2 (fun j hj => ?_))
    rcases hj with hj | hj
    · left
      unfold inRecords at hj
      constructor
      · split at hj <;> omega
      · have := hj.2
        split at hcap <;> split at this <;> omega
    · exact Or.inr hj
  · intro j hj1 hj2 hj3
    rw [f2.2 j ?_]
    · exact dirHead_rest_any s.m_pRawImage pLFN cluster parent size j (by omega) hj2 hj3
    · intro hc
      rcases hc with hc | hc
      · unfold inRecords at hc
        have := hc.2
        split at hj1 <;> split at this <;> omega
      · unfold inClusters at hc
        have := hc.1
        omega

/-! ## Where the `int` arithmetic of the cluster counts is exact -/

/-- A value in the range of `int` is left as it is by the reduction to 32 bits.  On the
trees of `sizesInRange` the sums of lines 603 and 631 are in that range, so that
`(GetSize() + 1023) / 1024` and `((GetNbEntry() + 2) * 32 + 1023) / 1024` are computed
without overflow and are the `nbCluster` of `buildEntries`. -/
theorem wrapInt_exact (x : Int) (h0 : -2147483648 ≤ x) (h1 : x ≤ 2147483647) :
    wrapInt x = x := by
  unfold wrapInt
  omega

/-- From 2147482625 bytes on `GetSize() + 1023` overflows: wrapped, the sum is negative,
and so is `nbCluster`, however the division rounds; the file is then taken for a file of
0 bytes (line 633), where the ceiling of `size / 1024` is 2097152 clusters or more. -/
theorem wrapInt_overflow (x : Int) (h0 : 2147482625 ≤ x) (h1 : x ≤ 2147483647) :
    wrapInt (x + 1023) < 0 ∧ Int.tdiv (wrapInt (x + 1023)) 1024 < 0
      ∧ wrapInt (x + 1023) / 1024 < 0 ∧ 2097152 ≤ ceilDiv x 1024 := by
  have e : wrapInt (x + 1023) = x + 1023 - 4294967296 := by
    unfold wrapInt
    omega
  rw [e]
  refine ⟨by omega, ?_, by omega, by unfold ceilDiv; omega⟩
  have h2 : Int.tdiv (x + 1023 - 4294967296) 1024
      = -(Int.tdiv (4294967296 - (x + 1023)) 1024) := by
    rw [← Int.neg_tdiv]
    congr 1
    omega
  rw [h2, Int.tdiv_eq_ediv (by omega) (by decide)]
  omega

/-- C8, on the sizes the code computes without overflow: with `req(file) =
ceil(size/1024)`, `req(subdir) = ceil((entries+2)*32/1024)` and `total` the sum of `req`
over every entry of the tree at every depth: for every tree whose root has at most 111
entries and whose file sizes are from 0 to 2147482624 bytes (`sizesInRange`), `Fill` on a
floppy freshly created with at least 18 and less than `2^22` sectors returns `true` if
and only if `total <= max_fat_entry`, and otherwise returns `false` with the diagnostic
"No more space on the disk."; it fails at the first entry in traversal order whose
requirement exceeds the clusters still free, which are then the free clusters of the
floppy.  For a size from 2147482625 on, `GetSize() + 1023` (line 631) exceeds `INT_MAX`:
the criterion does not hold there.  Wrapped to 32 bits the sum is negative, and so is
`nbCluster` however the division rounds: the free-cluster check of line 635 is not
reached and the file is recorded as a file of 0 bytes, where its requirement is 2097152
clusters or more. -/
theorem Fill_space (nbSide nbSectorPerTrack nbCylinder : Int) (root : CDirectory)
    (h18 : 18 ≤ nbSide * nbSectorPerTrack * nbCylinder)
    (h22 : nbSide * nbSectorPerTrack * nbCylinder < 4194304)
    (hroot : GetNbEntry root ≤ 111) (hfit : sizesInRange root = true) :
    (((Fill (Create nbSide nbSectorPerTrack nbCylinder) root).1 = Diag.ok
        ↔ specTotal root ≤ (Create nbSide nbSectorPerTrack nbCylinder).m_maxFatEntry)
      ∧ (¬ specTotal root ≤ (Create nbSide nbSectorPerTrack nbCylinder).m_maxFatEntry →
          (Fill (Create nbSide nbSectorPerTrack nbCylinder) root).1 = Diag.noMoreSpace
            ∧ ∃ stillFree req,
                specFirstFail (Create nbSide nbSectorPerTrack nbCylinder).m_maxFatEntry
                    (specReqs root) = some (stillFree, req)
                  ∧ (Fill (Create nbSide nbSectorPerTrack nbCylinder) root).2.m_nbFreeCluster
                    = stillFree))
      ∧ (∀ x : Int, 2147482625 ≤ x → x ≤ 2147483647 →
          wrapInt (x + 1023) < 0 ∧ Int.tdiv (wrapInt (x + 1023)) 1024 < 0
            ∧ wrapInt (x + 1023) / 1024 < 0 ∧ 2097152 ≤ ceilDiv x 1024) := by
  refine ⟨?_, fun x h0 h1 => wrapInt_overflow x h0 h1⟩
  have hmax := Create_maxFatEntry_nonneg nbSide nbSectorPerTrack nbCylinder (by omega)
  have hsz := sizesInRange_nonneg root hfit
  generalize hs : Create nbSide nbSectorPerTrack nbCylinder = s at hmax ⊢
  have hfree : s.m_nbFreeCluster = s.m_maxFatEntry := by rw [← hs, Create_nbFreeCluster]
  have hsim := Fill_sim s root (by simp only [MAX_ROOT_ENTRY]; omega) (allocOf s) (allocOf_sim s)
  have hsp := allocEntries_space root (allocOf s) hsz (by simp only [allocOf]; omega)
  have hiff := specFirstFail_none_iff (specReqs root) (specReqs_nonneg root hsz) s.m_maxFatEntry
  rw [specReqs_sum] at hiff
  have hfree0 : (allocOf s).free = s.m_maxFatEntry := hfree
  rw [hfree0] at hsp
  rw [hsim.1]
  have hsim2 := hsim.2.2.1
  constructor
  · constructor
    · intro hok
      cases hc : specFirstFail s.m_maxFatEntry (specReqs root) with
      | none =>
        rcases hiff.1 hc with h | h
        · exact h.1
        · have : specTotal root = 0 := by rw [← specReqs_sum, h]; rfl
          omega
      | some p =>
        have := (hsp.2 p hc).1
        rw [this] at hok
        simp at hok
    · intro hle
      exact (hsp.1 (hiff.2 (Or.inl ⟨hle, hmax⟩))).1
  · intro hgt
    cases hc : specFirstFail s.m_maxFatEntry (specReqs root) with
    | none =>
      exfalso
      rcases hiff.1 hc with h | h
      · exact hgt h.1
      · apply hgt
        have : specTotal root = 0 := by rw [← specReqs_sum, h]; rfl
        omega
    | some p =>
      obtain ⟨h1, h2, _, _⟩ := hsp.2 p hc
      refine ⟨h1, p.1, p.2, rfl, ?_⟩
      rw [hsim2]
      exact h2


/-- Witness of C8: the file of 2049 bytes on the default floppy. -/
theorem Fill_space_witness :
    (((Fill (Create 2 10 81) oneFile2049).1 = Diag.ok
        ↔ specTotal oneFile2049 ≤ (Create 2 10 81).m_maxFatEntry)
      ∧ (¬ specTotal oneFile2049 ≤ (Create 2 10 81).m_maxFatEntry →
          (Fill (Create 2 10 81) oneFile2049).1 = Diag.noMoreSpace
            ∧ ∃ stillFree req,
                specFirstFail (Create 2 10 81).m_maxFatEntry (specReqs oneFile2049)
                    = some (stillFree, req)
                  ∧ (Fill (Create 2 10 81) oneFile2049).2.m_nbFreeCluster = stillFree))
      ∧ (∀ x : Int, 2147482625 ≤ x → x ≤ 2147483647 →
          wrapInt (x + 1023) < 0 ∧ Int.tdiv (wrapInt (x + 1023)) 1024 < 0
            ∧ wrapInt (x + 1023) / 1024 < 0 ∧ 2097152 ≤ ceilDiv x 1024) :=
  Fill_space 2 10 81 oneFile2049 (by decide) (by decide) (by decide) (by decide)

/-- C30, on the sizes the code computes without overflow: the allocator invariant
`m_nextCluster + m_nbFreeCluster == m_maxFatEntry + 2` and `m_nbFreeCluster >= 0` holds
after `Create`, on a geometry of at least 18 and less than `2^22` sectors; every run of
the entry loop of `BuildDirectory`, on one entry or on many, at any depth, returning
`true` or `false`, on entries whose file sizes are from 0 to 2147482624 bytes
(`sizesInRange`), takes a floppy that satisfies the invariant to one that satisfies it;
so it holds after `Fill`, also when `Fill` fails.  After a successful `Fill` the free
clusters are `m_maxFatEntry` less the total required clusters of the tree.  For a size
from 2147482625 on, `GetSize() + 1023` (line 631) exceeds `INT_MAX`: wrapped to 32 bits
the sum is negative, and so is `nbCluster` however the division rounds, so that a
successful `Fill` then leaves more free clusters than `m_maxFatEntry` less the total,
where the requirement of the file is 2097152 clusters or more. -/
theorem Fill_allocator_invariant (a b c : Int) (root : CDirectory)
    (h18 : 18 ≤ a * b * c) (h22 : a * b * c < 4194304) (hfit : sizesInRange root = true) :
    allocInv (Create a b c)
      ∧ (∀ (es : CDirEntry) (s : CFloppy) (pLFN cluster : Int), sizesInRange es = true →
          allocInv s → allocInv (buildEntries s pLFN cluster es).2)
      ∧ allocInv (Fill (Create a b c) root).2
      ∧ ((Fill (Create a b c) root).1 = Diag.ok →
          (Fill (Create a b c) root).2.m_nbFreeCluster
            = (Create a b c).m_maxFatEntry - specTotal root)
      ∧ (Create a b c).m_rawSize ≤ 2147483647
      ∧ (∀ x : Int, 2147482625 ≤ x → x ≤ 2147483647 →
          wrapInt (x + 1023) < 0 ∧ Int.tdiv (wrapInt (x + 1023)) 1024 < 0
            ∧ wrapInt (x + 1023) / 1024 < 0 ∧ 2097152 ≤ ceilDiv x 1024) := by
  have hmax := Create_maxFatEntry_nonneg a b c (by omega)
  have hsz := sizesInRange_nonneg root hfit
  refine ⟨Create_allocInv a b c hmax, fun es s pLFN cluster _ h => buildEntries_allocInv es s pLFN cluster h,
    Fill_allocInv _ root (Create_allocInv a b c hmax), fun hok => ?_, ?_,
    fun x h0 h1 => wrapInt_overflow x h0 h1⟩
  · have h := Fill_ok_free (Create a b c) root hsz (by rw [Create_nbFreeCluster]; exact hmax) hok
    rw [h, Create_nbFreeCluster]
  · simp only [Create]
    omega


/-- Witness of C30: the file of 2049 bytes on the default floppy. -/
theorem Fill_allocator_invariant_witness :
    allocInv (Create 2 10 81)
      ∧ (∀ (es : CDirEntry) (s : CFloppy) (pLFN cluster : Int), sizesInRange es = true →
          allocInv s → allocInv (buildEntries s pLFN cluster es).2)
      ∧ allocInv (Fill (Create 2 10 81) oneFile2049).2
      ∧ ((Fill (Create 2 10 81) oneFile2049).1 = Diag.ok →
          (Fill (Create 2 10 81) oneFile2049).2.m_nbFreeCluster
            = (Create 2 10 81).m_maxFatEntry - specTotal oneFile2049)
      ∧ (Create 2 10 81).m_rawSize ≤ 2147483647
      ∧ (∀ x : Int, 2147482625 ≤ x → x ≤ 2147483647 →
          wrapInt (x + 1023) < 0 ∧ Int.tdiv (wrapInt (x + 1023)) 1024 < 0
            ∧ wrapInt (x + 1023) / 1024 < 0 ∧ 2097152 ≤ ceilDiv x 1024) :=
  Fill_allocator_invariant 2 10 81 oneFile2049 (by decide) (by decide) (by decide)

/-- Where the layout puts the records: the record of an entry of the list itself is one
of the `GetNbEntry` slots from `pLFN` on; the record of an entry further down is one of
the slots of the sub-directory `d` that holds it, after the two reserved records of `d`
and among the first `2 + n` slots of its first cluster. -/
theorem specLayout_slots (es : CDirEntry) :
    ∀ (pLFN cluster next : Int), ∀ e ∈ specLayout es pLFN cluster next,
      (e.parent = cluster ∧ pLFN ≤ e.slot ∧ e.slot + 32 ≤ pLFN + 32 * GetNbEntry es
          ∧ (e.slot - pLFN) % 32 = 0)
        ∨ ∃ d ∈ specLayout es pLFN cluster next, d.isDir = true ∧ e.parent = d.first
            ∧ GetRawAd d.first + 64 ≤ e.slot
            ∧ e.slot + 32 ≤ GetRawAd d.first + 32 * (2 + d.nbEntry)
            ∧ (e.slot - GetRawAd d.first) % 32 = 0 := by
  induction es with
  | null =>
    intro pLFN cluster next e he
    simp [specLayout] at he
  | file info data nx ih =>
    intro pLFN cluster next e he
    have hl := GetNbEntry_nonneg nx
    simp only [specLayout, List.mem_cons] at he
    simp only [GetNbEntry]
    rcases he with he | he
    · subst he
      exact Or.inl ⟨rfl, le_refl _, by simp only; omega, by simp⟩
    · rcases ih _ _ _ e he with ⟨h1, h2, h3, h4⟩ | ⟨d, hd, h1, h2, h3, h4, h5⟩
      · exact Or.inl ⟨h1, by omega, by omega, by omega⟩
      · exact Or.inr ⟨d, by simp only [specLayout]; exact List.mem_cons_of_mem _ hd,
          h1, h2, h3, h4, h5⟩
  | dir info sub nx ihs ihn =>
    intro pLFN cluster next e he
    have hl := GetNbEntry_nonneg nx
    have hls := GetNbEntry_nonneg sub
    simp only [specLayout, List.mem_cons, List.mem_append] at he
    simp only [GetNbEntry]
    rcases he with he | he | he
    · subst he
      exact Or.inl ⟨rfl, le_refl _, by simp only; omega, by simp⟩
    · right
      rcases ihs _ _ _ e he with ⟨h1, h2, h3, h4⟩ | ⟨d, hd, h1, h2, h3, h4, h5⟩
      · refine ⟨⟨pLFN, cluster, true, info, [], GetNbEntry sub, next,
          ceilDiv ((GetNbEntry sub + 2) * 32) 1024⟩, ?_, rfl, h1, ?_, ?_, ?_⟩
        · simp only [specLayout]
          exact List.mem_cons_self _ _
        · simp only; omega
        · simp only; omega
        · simp only; omega
      · exact ⟨d, by
          simp only [specLayout]
          exact List.mem_cons_of_mem _ (List.mem_append_left _ hd), h1, h2, h3, h4, h5⟩
    · rcases ihn _ _ _ e he with ⟨h1, h2, h3, h4⟩ | ⟨d, hd, h1, h2, h3, h4, h5⟩
      · exact Or.inl ⟨h1, by omega, by omega, by omega⟩
      · exact Or.inr ⟨d, by
          simp only [specLayout]
          exact List.mem_cons_of_mem _ (List.mem_append_right _ hd), h1, h2, h3, h4, h5⟩

/-- C32: every call of `BuildDirectory` made by `Fill` writes its records inside the
region passed to the call, the entry count of a directory being the length of its entry
list (`GetNbEntry`), for the trees of `sizesInRange` on a floppy created with at least 18
and less than `2^22` sectors.

The calls.  `Fill` returns at once when the root has more than 111 entries, and
otherwise is the call of `BuildDirectory` on the root directory region, the 7 sectors at
`11 * 512`, and then `1 + n <= 112`: the volume name and the `n` records fit the region.
Every turn of the loop for a sub-directory of `n` entries that passes the free-cluster
check is, after the record of the entry and the chain are stored (`dirReserve`), the
call of `BuildDirectory` on the clusters just reserved, a region of
`ceil((n + 2) * 32 / 1024) * 1024` bytes at `GetRawAd(cluster)` with `cluster > 0`, and
`2 + n <= size / 32`; the floppy it is called on can give clusters when the floppy of
the turn can.

Each call.  A call on a floppy that can give clusters, on a region that holds the
reserved records (two for `cluster > 0`, else one) and one record an entry and that lies
before the clusters still to be given, changes the image only inside its region and in
the clusters given during the call, leaves every byte of the region after these records
cleared to zero (nothing but the clearing of line 561 is stored there), and leaves a
floppy that can give clusters.

After `Fill`.  The root region holds zero after the `1 + n` records, and `Fill` changes
nothing outside the root region and the clusters given; after a successful `Fill` the
region of every sub-directory of the tree holds zero after its `2 + n` records, and the
record of every entry of the tree is in the image at a slot of the region of its
directory: one of the slots 1 to `n` of the root region for an entry of the root, one of
the slots 2 to `n + 1` of the first cluster of the sub-directory that holds it
otherwise. -/
theorem Fill_records_in_region (a b c : Int) (root : CDirectory) (h18 : 18 ≤ a * b * c)
    (h22 : a * b * c < 4194304) (hfit : sizesInRange root = true) :
    (GetNbEntry root + 1 > MAX_ROOT_ENTRY →
        Fill (Create a b c) root = (Diag.tooMuchFiles, Create a b c))
      ∧ (¬ GetNbEntry root + 1 > MAX_ROOT_ENTRY →
          Fill (Create a b c) root
              = BuildDirectory (Create a b c) (11 * 512) root 0 0 (7 * 512)
            ∧ 1 + GetNbEntry root ≤ 112
            ∧ 32 * (1 + GetNbEntry root) ≤ 7 * 512
            ∧ clustersReady (Create a b c)
            ∧ (11 * 512 + 7 * 512 : Int) ≤ GetRawAd (Create a b c).m_nextCluster)
      ∧ (∀ (s : CFloppy) (pLFN cluster : Int) (info : FileDescriptor) (sub next : CDirEntry),
          sizesInRange (.dir info sub next) = true → clustersReady s →
          ¬ Int.tdiv (((GetNbEntry sub + 2) * 32) + 1023) 1024 > s.m_nbFreeCluster →
          buildEntries s pLFN cluster (.dir info sub next)
              = (if (BuildDirectory (dirReserve s pLFN info sub) (GetRawAd s.m_nextCluster) sub
                    s.m_nextCluster cluster
                    (Int.tdiv (((GetNbEntry sub + 2) * 32) + 1023) 1024 * 1024)).1
                    = Diag.ok then
                  buildEntries (BuildDirectory (dirReserve s pLFN info sub)
                    (GetRawAd s.m_nextCluster) sub s.m_nextCluster cluster
                    (Int.tdiv (((GetNbEntry sub + 2) * 32) + 1023) 1024 * 1024)).2
                    (pLFN + 32) cluster next
                else BuildDirectory (dirReserve s pLFN info sub) (GetRawAd s.m_nextCluster)
                    sub s.m_nextCluster cluster
                    (Int.tdiv (((GetNbEntry sub + 2) * 32) + 1023) 1024 * 1024))
            ∧ Int.tdiv (((GetNbEntry sub + 2) * 32) + 1023) 1024 * 1024
                = ceilDiv ((GetNbEntry sub + 2) * 32) 1024 * 1024
            ∧ 2 + GetNbEntry sub
                ≤ Int.tdiv (((GetNbEntry sub + 2) * 32) + 1023) 1024 * 1024 / 32
            ∧ s.m_nextCluster > 0
            ∧ 0 ≤ GetRawAd s.m_nextCluster
            ∧ GetRawAd s.m_nextCluster
                  + Int.tdiv (((GetNbEntry sub + 2) * 32) + 1023) 1024 * 1024
                = GetRawAd (dirReserve s pLFN info sub).m_nextCluster
            ∧ clustersReady (dirReserve s pLFN info sub))
      ∧ (∀ (s : CFloppy) (pLFN : Int) (pDir : CDirectory) (cluster parent size : Int),
          sizesInRange pDir = true → clustersReady s → 0 ≤ pLFN →
          32 * ((if cluster > 0 then 2 else 1) + GetNbEntry pDir) ≤ size →
          pLFN + size ≤ GetRawAd s.m_nextCluster →
          clustersReady (BuildDirectory s pLFN pDir cluster parent size).2
            ∧ sameOff
                (fun j => (pLFN ≤ (j : Int) ∧ (j : Int) < pLFN + size)
                  ∨ inClusters s.m_nextCluster
                      ((BuildDirectory s pLFN pDir cluster parent size).2.m_nextCluster
                        - s.m_nextCluster) j)
                s.m_pRawImage (BuildDirectory s pLFN pDir cluster parent size).2.m_pRawImage
            ∧ ∀ j : Nat,
                pLFN + 32 * ((if cluster > 0 then 2 else 1) + GetNbEntry pDir) ≤ (j : Int) →
                (j : Int) < pLFN + size → j < s.m_pRawImage.length →
                (BuildDirectory s pLFN pDir cluster parent size).2.m_pRawImage[j]? = some 0)
      ∧ (¬ GetNbEntry root + 1 > MAX_ROOT_ENTRY →
          ∀ j : Nat, 11 * 512 + 32 * (1 + GetNbEntry root) ≤ (j : Int) → j < 18 * 512 →
            (Fill (Create a b c) root).2.m_pRawImage[j]? = some 0)
      ∧ sameOff
          (fun j => 11 * 512 ≤ j ∧ (j : Int) < GetRawAd (Fill (Create a b c) root).2.m_nextCluster)
          (Create a b c).m_pRawImage (Fill (Create a b c) root).2.m_pRawImage
      ∧ ((Fill (Create a b c) root).1 = Diag.ok →
          (∀ e ∈ specLayout root (11 * 512 + 32) 0 2, e.isDir = true →
            2 ≤ e.first
              ∧ e.req = ceilDiv ((e.nbEntry + 2) * 32) 1024
              ∧ 2 + e.nbEntry ≤ e.req * 1024 / 32
              ∧ ∀ j : Nat, GetRawAd e.first + 32 * (2 + e.nbEntry) ≤ (j : Int) →
                  (j : Int) < GetRawAd e.first + e.req * 1024 →
                  (Fill (Create a b c) root).2.m_pRawImage[j]? = some 0)
          ∧ ∀ e ∈ specLayout root (11 * 512 + 32) 0 2,
              (∀ k j : Nat, k < 32 → (j : Int) = e.slot + k →
                (Fill (Create a b c) root).2.m_pRawImage[j]?
                  = (lfnRecord e.info e.isDir e.recorded)[k]?)
              ∧ ((e.parent = 0 ∧ 11 * 512 + 32 ≤ e.slot
                    ∧ e.slot + 32 ≤ 11 * 512 + 32 * (1 + GetNbEntry root)
                    ∧ (e.slot - 11 * 512) % 32 = 0)
                ∨ ∃ d ∈ specLayout root (11 * 512 + 32) 0 2, d.isDir = true
                    ∧ e.parent = d.first ∧ GetRawAd d.first + 64 ≤ e.slot
                    ∧ e.slot + 32 ≤ GetRawAd d.first + 32 * (2 + d.nbEntry)
                    ∧ (e.slot - GetRawAd d.first) % 32 = 0)) := by
  have hnn := sizesInRange_nonneg root hfit
  have hmax := Create_maxFatEntry_nonneg a b c (by omega)
  have hm : (Create a b c).m_maxFatEntry = (a * b * c - 18) / 2 := by
    rw [Create_maxFatEntry, Int.tdiv_eq_ediv (by omega) (by decide)]
  have hready : clustersReady (Create a b c) := by
    unfold clustersReady
    rw [Create_nextCluster, Create_nbFreeCluster, hm, GetRawAd_eq, Create_length]
    omega
  have hreg : (11 * 512 + 7 * 512 : Int) ≤ GetRawAd (Create a b c).m_nextCluster := by
    rw [Create_nextCluster, GetRawAd_eq]; decide
  have hcall : ¬ GetNbEntry root + 1 > MAX_ROOT_ENTRY →
      Fill (Create a b c) root
        = BuildDirectory (Create a b c) (11 * 512) root 0 0 (7 * 512) := by
    intro hroot
    unfold Fill
    rw [if_neg hroot]
    rfl
  refine ⟨?_, ?_, ?_, ?_, ?_, ?_, ?_⟩
  · intro hroot
    unfold Fill
    rw [if_pos hroot]
  · intro hroot
    have hr2 : GetNbEntry root + 1 ≤ 112 := by
      unfold MAX_ROOT_ENTRY at hroot
      omega
    exact ⟨hcall hroot, by omega, by omega, hready, hreg⟩
  · intro s pLFN cluster info sub next _ hr hfree
    obtain ⟨e1, e2, e3⟩ := dir_nbCluster _ (GetNbEntry_nonneg sub)
    obtain ⟨r1, r2, r3⟩ := hr
    have hdn : (dirReserve s pLFN info sub).m_nextCluster
        = s.m_nextCluster + Int.tdiv (((GetNbEntry sub + 2) * 32) + 1023) 1024 := by
      simp only [dirReserve]
    have hdf : (dirReserve s pLFN info sub).m_nbFreeCluster
        = s.m_nbFreeCluster - Int.tdiv (((GetNbEntry sub + 2) * 32) + 1023) 1024 := by
      simp only [dirReserve]
    have hdl : (dirReserve s pLFN info sub).m_pRawImage.length = s.m_pRawImage.length := by
      simp only [dirReserve, LFN_Create_length]
    refine ⟨?_, by rw [e1], ?_, by omega, by rw [GetRawAd_eq]; omega, ?_, ?_⟩
    · rw [buildEntries_dir_call, if_neg hfree]
    · rw [e1]
      generalize ceilDiv ((GetNbEntry sub + 2) * 32) 1024 = k at e2 e3
      omega
    · rw [hdn, GetRawAd_eq, GetRawAd_eq]
      omega
    · unfold clustersReady
      rw [hdn, hdf, hdl]
      rw [e1] at hfree ⊢
      generalize ceilDiv ((GetNbEntry sub + 2) * 32) 1024 = k at e2 e3 hfree ⊢
      refine ⟨by omega, by omega, ?_⟩
      have : s.m_nextCluster + k + (s.m_nbFreeCluster - k)
          = s.m_nextCluster + s.m_nbFreeCluster := by omega
      rw [this]
      exact r3
  · intro s pLFN pDir cluster parent size hf hr h0 hcap hrg
    obtain ⟨q1, -, -, q4, q5⟩ := BuildDirectory_region s pLFN pDir cluster parent size
      (sizesInRange_nonneg pDir hf) hr h0 hcap hrg
    exact ⟨q1, q4, q5⟩
  · intro hroot j hj1 hj2
    have hr2 : GetNbEntry root + 1 ≤ 112 := by
      unfold MAX_ROOT_ENTRY at hroot
      omega
    rw [hcall hroot]
    refine (BuildDirectory_region (Create a b c) (11 * 512) root 0 0 (7 * 512) hnn hready
      (by decide) ?_ hreg).2.2.2.2 j ?_ (by omega) ?_
    · rw [if_neg (by decide)]; omega
    · rw [if_neg (by decide)]; omega
    · rw [Create_length]; omega
  · exact (Fill_sameOff (Create a b c) root hnn (Create_nextCluster a b c)).2
  · intro hok
    have e5664 : (11 * 512 + 32 : Int) = 5664 := rfl
    rw [e5664]
    obtain ⟨-, -, -, -, hplaced, -⟩ :=
      Fill_layout (Create a b c) root (Create_fresh a b c h18) hnn hok
    refine ⟨?_, fun e he => ⟨(hplaced e he).1, ?_⟩⟩
    swap
    · rcases specLayout_slots root 5664 0 2 e he with ⟨h1, h2, h3, h4⟩ | h
      · exact Or.inl ⟨h1, h2, by omega, by omega⟩
      · exact Or.inr h
    intro e he hd
    have hr := (specLayout_range root 5664 0 2 hnn e he).1
    have hreq := specLayout_req root 5664 0 2 e he
    rw [hd, if_pos rfl] at hreq
    have hz := ((hplaced e he).2.2 hd).2
    refine ⟨hr, hreq, ?_, fun j hj1 hj2 => hz j (by omega) ?_⟩
    · rw [hreq]
      unfold ceilDiv
      omega
    · rw [GetRawAd_eq] at hj2 ⊢
      omega

/-- Witness of C32: the root that holds `SUB` with its file `A.TXT`, on the default
floppy: the root region is zero from its third slot on, and the region of `SUB`, the
cluster 2, is zero from its fourth slot on. -/
theorem Fill_records_in_region_witness :
    (18 : Int) ≤ 2 * 10 * 81 ∧ (2 * 10 * 81 : Int) < 4194304
      ∧ sizesInRange subWithFile = true
      ∧ (Fill (Create 2 10 81) subWithFile).1 = Diag.ok
      ∧ Fill (Create 2 10 81) subWithFile
          = BuildDirectory (Create 2 10 81) (11 * 512) subWithFile 0 0 (7 * 512)
      ∧ (∀ j : Nat, 11 * 512 + 32 * 2 ≤ j → j < 18 * 512 →
          (Fill (Create 2 10 81) subWithFile).2.m_pRawImage[j]? = some 0)
      ∧ (∀ j : Nat, 18 * 512 + 32 * 3 ≤ j → j < 18 * 512 + 1024 →
          (Fill (Create 2 10 81) subWithFile).2.m_pRawImage[j]? = some 0) :=
  ⟨by decide, by decide, by decide, subWithFile_ok,
    ((Fill_records_in_region 2 10 81 subWithFile (by decide) (by decide) (by decide)).2.1
      (by decide)).1,
    fun j h1 h2 =>
      (Fill_records_in_region 2 10 81 subWithFile (by decide) (by decide)
        (by decide)).2.2.2.2.1 (by decide) j
        (by rw [show GetNbEntry subWithFile = 1 from rfl]; omega) h2,
    fun j h1 h2 =>
      (((Fill_records_in_region 2 10 81 subWithFile (by decide) (by decide)
        (by decide)).2.2.2.2.2.2 subWithFile_ok).1
        ⟨5664, 0, true, ⟨[83, 85, 66], [], 0, none⟩, [], 1, 2, 1⟩
        (by rw [show (11 * 512 + 32 : Int) = 5664 from rfl, subWithFile_layout]
            exact List.mem_cons_self _ _) rfl).2.2.2 j
        (by rw [GetRawAd_eq]; simp only []; omega) (by rw [GetRawAd_eq]; simp only []; omega)⟩

/-- C10 (amended): for a tree whose file sizes are from 0 to 2147482624 bytes
(`sizesInRange`), after `Fill`, successful or not, on a floppy freshly created with at
least 18 and less than `2^22` sectors, every entry of the fat table that is neither 0
nor -1 is `fat[d] == d + 1`, and for every cluster `c >= 2` there is at most one cluster
`d` with `fat[d] == c`; the cluster ranges reserved for the entries that passed the
free-cluster check are pairwise disjoint, each one non-empty and within the clusters
`2 .. m_nextCluster - 1`.  The ranges are those of `m_pFat`: the allocation view that
records them agrees with `Fill` on the return value, the fat table, `m_nextCluster` and
`m_nbFreeCluster`; every recorded range that lies in the table is a chain of `m_pFat`
(each cluster points to the next, the last holds -1), every entry of `m_pFat` that is
not 0 lies in a recorded range, and after a successful `Fill` the recorded ranges are the
ranges `[first, first + req)` of the entries of the tree that require clusters: these
are pairwise disjoint, and the directory record of each of these entries holds its first
cluster (bytes 26 and 27 of the record, low byte first). -/
theorem Fill_chains_never_alias (a b c : Int) (root : CDirectory) (h18 : 18 ≤ a * b * c)
    (h22 : a * b * c < 4194304) (hfit : sizesInRange root = true) :
    ((Fill (Create a b c) root).1 = (FillAlloc (Create a b c) root).1
        ∧ Sim (Fill (Create a b c) root).2 (FillAlloc (Create a b c) root).2)
      ∧ (∀ (d : Nat) (v : Int), (Fill (Create a b c) root).2.m_pFat[d]? = some v →
            v ≠ 0 → v ≠ -1 → v = (d : Int) + 1)
      ∧ (∀ x : Int, 2 ≤ x → ∀ d1 d2 : Nat,
          (Fill (Create a b c) root).2.m_pFat[d1]? = some x →
          (Fill (Create a b c) root).2.m_pFat[d2]? = some x → d1 = d2)
      ∧ (FillAlloc (Create a b c) root).2.reserved.Pairwise rangesDisjoint
      ∧ (∀ r ∈ (FillAlloc (Create a b c) root).2.reserved,
          2 ≤ r.1 ∧ 0 < r.2 ∧ r.1 + r.2 ≤ (Fill (Create a b c) root).2.m_nextCluster)
      ∧ (∀ r ∈ (FillAlloc (Create a b c) root).2.reserved,
          r.1 + r.2 ≤ ((Fill (Create a b c) root).2.m_pFat.length : Int) →
            chainOk (Fill (Create a b c) root).2.m_pFat r)
      ∧ (∀ (d : Nat) (v : Int), (Fill (Create a b c) root).2.m_pFat[d]? = some v → v ≠ 0 →
          ∃ r ∈ (FillAlloc (Create a b c) root).2.reserved,
            r.1 ≤ (d : Int) ∧ (d : Int) < r.1 + r.2)
      ∧ ((Fill (Create a b c) root).1 = Diag.ok →
          (FillAlloc (Create a b c) root).2.reserved
              = reservedOf (specLayout root (11 * 512 + 32) 0 2)
            ∧ (reservedOf (specLayout root (11 * 512 + 32) 0 2)).Pairwise rangesDisjoint
            ∧ ∀ e ∈ specLayout root (11 * 512 + 32) 0 2, 0 < e.req →
                2 ≤ e.first
                  ∧ e.first + e.req ≤ (Fill (Create a b c) root).2.m_nextCluster
                  ∧ (∀ j : Nat, (j : Int) = e.slot + 26 →
                      (Fill (Create a b c) root).2.m_pRawImage[j]?
                        = some (u16 e.first % 256))
                  ∧ (∀ j : Nat, (j : Int) = e.slot + 27 →
                      (Fill (Create a b c) root).2.m_pRawImage[j]?
                        = some (u16 e.first / 256 % 256))) := by
  have hs := sizesInRange_nonneg root hfit
  have hsim := Fill_FillAlloc (Create a b c) root
  have hshape : fatShape (Fill (Create a b c) root).2.m_pFat := by
    rw [hsim.2.2.2]
    apply FillAlloc_fatShape
    rw [Create_pFat]
    exact fatShape_replicate _
  have hok := FillAlloc_reservedOk (Create a b c) root hs (by rw [Create_nextCluster])
  refine ⟨hsim, ?_, ?_, hok.2, ?_, Fill_chainsOk a b c root hs, Fill_fat_logged a b c root,
    fun h => ?_⟩
  rotate_right
  · have hrl := Fill_reserved_layout a b c root hs h (11 * 512 + 32) 0
    refine ⟨hrl, by rw [← hrl]; exact hok.2, fun e he hreq => ?_⟩
    have e5664 : (11 * 512 + 32 : Int) = 5664 := rfl
    rw [e5664] at he
    obtain ⟨hnx, -, -, -, hplaced, -⟩ :=
      Fill_layout _ root (Create_fresh a b c h18) hs h
    obtain ⟨hrec, -⟩ := hplaced e he
    have hrecd : e.recorded = e.first := by
      unfold Placed.recorded
      rw [if_pos (by omega)]
    rw [hrecd] at hrec
    have hrange := specLayout_range root 5664 0 2 hs e he
    refine ⟨hrange.1, by rw [hnx]; exact hrange.2.1, fun j hj => ?_, fun j hj => ?_⟩
    · rw [hrec 26 j (by omega) (by omega), (lfnRecord_cluster _ _ _).1]
    · rw [hrec 27 j (by omega) (by omega), (lfnRecord_cluster _ _ _).2]
  · intro d v hv h0 h1
    rcases hshape d v hv with e | e | e
    · exact absurd e h0
    · exact absurd e h1
    · exact e
  · intro x hx d1 d2 h1 h2
    exact fatShape_injective _ hshape x hx d1 d2 h1 h2
  · intro r hr
    rw [hsim.2.1]
    exact hok.1 r hr


/-- Witness of C10 (amended): the root that holds `SUB` with its file `A.TXT`, on the
default floppy: two ranges are recorded, cluster 2 for `SUB` and cluster 3 for `A.TXT`,
and they are disjoint. -/
theorem Fill_chains_never_alias_witness :
    (FillAlloc (Create 2 10 81) subWithFile).2.reserved = [(2, 1), (3, 1)]
      ∧ (FillAlloc (Create 2 10 81) subWithFile).2.reserved.Pairwise rangesDisjoint
      ∧ (∀ r ∈ (FillAlloc (Create 2 10 81) subWithFile).2.reserved,
          2 ≤ r.1 ∧ 0 < r.2 ∧ r.1 + r.2 ≤ (Fill (Create 2 10 81) subWithFile).2.m_nextCluster)
      ∧ (∀ r ∈ (FillAlloc (Create 2 10 81) subWithFile).2.reserved,
          r.1 + r.2 ≤ ((Fill (Create 2 10 81) subWithFile).2.m_pFat.length : Int) →
            chainOk (Fill (Create 2 10 81) subWithFile).2.m_pFat r) :=
  ⟨FillAlloc_subWithFile,
    (Fill_chains_never_alias 2 10 81 subWithFile (by decide) (by decide) (by decide)).2.2.2.1,
    (Fill_chains_never_alias 2 10 81 subWithFile (by decide) (by decide) (by decide)).2.2.2.2.1,
    (Fill_chains_never_alias 2 10 81 subWithFile (by decide) (by decide)
      (by decide)).2.2.2.2.2.1⟩

/-- C33, amended: on an image created with at least 18 and less than `2^22` sectors and
for every tree whose file sizes are from 0 to 2147482624 bytes (`sizesInRange`), whatever
`Fill` returns in the end, the clusters are given from cluster 2 on and the clusters
given lie in the raw image of `sides * sectors * cylinders * 512` bytes
(`GetRawAd(m_nextCluster)` is at most the size of the image); every entry that passes
the free-cluster check in `BuildDirectory`, with start cluster `c` and `req` clusters,
has `c >= 2` and its byte range `[18*512 + (c-2)*1024, 18*512 + (c-2+req)*1024)`, which
starts at `GetRawAd(c)`, lies inside the raw image.  The ranges are tied to what `Fill`
stores: the allocation view that records them agrees with `Fill` on the return value,
`m_nextCluster`, `m_nbFreeCluster` and `m_pFat`; every recorded range that lies in the
fat table is a chain of `m_pFat`; every entry of `m_pFat` that is not 0 lies in a
recorded range; and every byte of the image that `Fill` changes lies in the root
directory region or in the clusters of a recorded range.  When `Fill` returns `true` the
recorded ranges are those of the entries that require clusters, whose directory records
hold the first cluster of the range (bytes 26 and 27, low byte first); a file has at
most `req * 1024` bytes and a sub-directory of `n` entries has `(n + 2) * 32 <= req *
1024`: the copy of a file and the clearing of a sub-directory region stay inside the
image. -/
theorem Fill_data_area_bounds (a b c : Int) (root : CDirectory) (h18 : 18 ≤ a * b * c)
    (h22 : a * b * c < 4194304) (hfit : sizesInRange root = true) :
    ((Fill (Create a b c) root).2.m_pRawImage.length : Int) = a * b * c * 512
      ∧ 2 ≤ (Fill (Create a b c) root).2.m_nextCluster
      ∧ GetRawAd (Fill (Create a b c) root).2.m_nextCluster ≤ a * b * c * 512
      ∧ (∀ r ∈ (FillAlloc (Create a b c) root).2.reserved,
          2 ≤ r.1 ∧ 0 < r.2 ∧ 18 * 512 ≤ 18 * 512 + (r.1 - 2) * 1024
            ∧ 18 * 512 + (r.1 - 2 + r.2) * 1024 ≤ a * b * c * 512
            ∧ GetRawAd r.1 = 18 * 512 + (r.1 - 2) * 1024
            ∧ r.1 + r.2 ≤ (Fill (Create a b c) root).2.m_nextCluster)
      ∧ ((Fill (Create a b c) root).1 = (FillAlloc (Create a b c) root).1
          ∧ Sim (Fill (Create a b c) root).2 (FillAlloc (Create a b c) root).2)
      ∧ (∀ r ∈ (FillAlloc (Create a b c) root).2.reserved,
          r.1 + r.2 ≤ ((Fill (Create a b c) root).2.m_pFat.length : Int) →
            chainOk (Fill (Create a b c) root).2.m_pFat r)
      ∧ (∀ (d : Nat) (v : Int), (Fill (Create a b c) root).2.m_pFat[d]? = some v → v ≠ 0 →
          ∃ r ∈ (FillAlloc (Create a b c) root).2.reserved,
            r.1 ≤ (d : Int) ∧ (d : Int) < r.1 + r.2)
      ∧ sameOff
          (fun j => (11 * 512 ≤ j ∧ j < 18 * 512)
            ∨ ∃ r ∈ (FillAlloc (Create a b c) root).2.reserved, inClusters r.1 r.2 j)
          (Create a b c).m_pRawImage (Fill (Create a b c) root).2.m_pRawImage
      ∧ ((Fill (Create a b c) root).1 = Diag.ok →
          (FillAlloc (Create a b c) root).2.reserved
              = reservedOf (specLayout root (11 * 512 + 32) 0 2)
            ∧ ∀ e ∈ specLayout root (11 * 512 + 32) 0 2, 0 < e.req →
              (e.first, e.req) ∈ (FillAlloc (Create a b c) root).2.reserved
                ∧ (e.isDir = false → GetSize e.info ≤ e.req * 1024)
                ∧ (e.isDir = true → (e.nbEntry + 2) * 32 ≤ e.req * 1024)
                ∧ 2 ≤ e.first
                ∧ 18 * 512 + (e.first - 2 + e.req) * 1024 ≤ a * b * c * 512
                ∧ (∀ j : Nat, (j : Int) = e.slot + 26 →
                    (Fill (Create a b c) root).2.m_pRawImage[j]?
                      = some (u16 e.first % 256))
                ∧ (∀ j : Nat, (j : Int) = e.slot + 27 →
                    (Fill (Create a b c) root).2.m_pRawImage[j]?
                      = some (u16 e.first / 256 % 256))) := by
  have hnn := sizesInRange_nonneg root hfit
  have hm : (Create a b c).m_maxFatEntry = (a * b * c - 18) / 2 := by
    rw [Create_maxFatEntry, Int.tdiv_eq_ediv (by omega) (by decide)]
  have hmax : 0 ≤ (Create a b c).m_maxFatEntry := by rw [hm]; omega
  have hsim := Fill_FillAlloc (Create a b c) root
  have hok := FillAlloc_reservedOk (Create a b c) root hnn (by rw [Create_nextCluster])
  have hnext : 2 ≤ (Fill (Create a b c) root).2.m_nextCluster
      ∧ GetRawAd (Fill (Create a b c) root).2.m_nextCluster ≤ a * b * c * 512 := by
    have hinv := Fill_allocInv (Create a b c) root (Create_allocInv a b c hmax)
    have hmf := Fill_maxFatEntry (Create a b c) root
    have h2 := (Fill_sameOff (Create a b c) root hnn (Create_nextCluster a b c)).1
    unfold allocInv at hinv
    rw [hmf, hm] at hinv
    rw [GetRawAd_eq]
    generalize (Fill (Create a b c) root).2.m_nextCluster = n at hinv h2 ⊢
    generalize (Fill (Create a b c) root).2.m_nbFreeCluster = f at hinv
    omega
  refine ⟨?_, hnext.1, hnext.2, ?_, hsim, Fill_chainsOk a b c root hnn,
    Fill_fat_logged a b c root, Fill_image_logged a b c root hnn, ?_⟩
  · rw [Fill_length, Create_length, Int.toNat_of_nonneg (by omega)]
  · intro r hr
    have h := FillAlloc_reserved_bounds a b c root hmax hnn r hr
    have h3 := (hok.1 r hr).2.2
    rw [← hsim.2.1] at h3
    rw [hm] at h
    rw [GetRawAd_eq]
    omega
  · intro hfill
    have e5664 : (11 * 512 + 32 : Int) = 5664 := rfl
    rw [e5664]
    refine ⟨Fill_reserved_layout a b c root hnn hfill 5664 0, fun e he hreq => ?_⟩
    have hmem := Fill_layout_reserved a b c root hnn hfill 5664 0 e he hreq
    have hb := FillAlloc_reserved_bounds a b c root hmax hnn _ hmem
    rw [hm] at hb
    simp only at hb
    obtain ⟨-, -, -, -, hplaced, -⟩ :=
      Fill_layout _ root (Create_fresh a b c h18) hnn hfill
    obtain ⟨hrec, -⟩ := hplaced e he
    have hrecd : e.recorded = e.first := by
      unfold Placed.recorded
      rw [if_pos (by omega)]
    rw [hrecd] at hrec
    refine ⟨hmem, ?_, ?_, hb.1, by omega,
      fun j hj => by rw [hrec 26 j (by omega) (by omega), (lfnRecord_cluster _ _ _).1],
      fun j hj => by rw [hrec 27 j (by omega) (by omega), (lfnRecord_cluster _ _ _).2]⟩
    · intro hd
      have h := specLayout_req root 5664 0 2 e he
      rw [hd] at h
      simp only [Bool.false_eq_true, if_false] at h
      rw [h]
      unfold ceilDiv
      omega
    · intro hd
      have h := specLayout_req root 5664 0 2 e he
      rw [hd] at h
      simp only [if_true] at h
      rw [h]
      unfold ceilDiv
      omega

/-- Witness of the amended C33: the sub-directory `SUB` with the file `A.TXT` on the
default floppy; the ranges recorded are cluster 2 for `SUB` and cluster 3 for `A.TXT`. -/
theorem Fill_data_area_bounds_witness :
    (FillAlloc (Create 2 10 81) subWithFile).2.reserved = [(2, 1), (3, 1)]
      ∧ ((Fill (Create 2 10 81) subWithFile).2.m_pRawImage.length : Int) = 2 * 10 * 81 * 512
      ∧ 2 ≤ (Fill (Create 2 10 81) subWithFile).2.m_nextCluster
      ∧ GetRawAd (Fill (Create 2 10 81) subWithFile).2.m_nextCluster ≤ 2 * 10 * 81 * 512
      ∧ (∀ r ∈ (FillAlloc (Create 2 10 81) subWithFile).2.reserved,
          2 ≤ r.1 ∧ 0 < r.2 ∧ 18 * 512 ≤ 18 * 512 + (r.1 - 2) * 1024
            ∧ 18 * 512 + (r.1 - 2 + r.2) * 1024 ≤ 2 * 10 * 81 * 512
            ∧ GetRawAd r.1 = 18 * 512 + (r.1 - 2) * 1024
            ∧ r.1 + r.2 ≤ (Fill (Create 2 10 81) subWithFile).2.m_nextCluster) :=
  ⟨FillAlloc_subWithFile,
    (Fill_data_area_bounds 2 10 81 subWithFile (by decide) (by decide) (by decide)).1,
    (Fill_data_area_bounds 2 10 81 subWithFile (by decide) (by decide) (by decide)).2.1,
    (Fill_data_area_bounds 2 10 81 subWithFile (by decide) (by decide) (by decide)).2.2.1,
    (Fill_data_area_bounds 2 10 81 subWithFile (by decide) (by decide) (by decide)).2.2.2.1⟩

end Dir2Msa
